import Mathlib

/-!
# StackLanguage: instruction codec, bounded containers and processor

A shallow embedding of `Instruction.h`, `Deque.h`, `Stack.h`, `ResultInfo.h`,
`ProcessorState.h` and `Processor.h` of the StackLanguage interpreter, with the
properties of the instruction codec, of the bounded positional container and of
the fetch cycle and opcode handlers stated and proved over it.

Conventions of the embedding

* `std::uint32_t` values (`Word`) are natural numbers below `2 ^ 32`;
  `std::int32_t` values (`SWord`) are integers in `[-2 ^ 31, 2 ^ 31)`. The two
  `static_cast`s between them are `toWord` and `toSWord`.
* `Opcode` is an `enum class` over `std::uint8_t`: every byte is a value of the
  type, so an opcode is a natural number below `256`.
* `std::size_t` is 64 bits wide; the places where an index computation can
  wrap are `getLastIndex` on an empty container and the indices `executePick`
  and `executeRoll` compute.
* An access to `items[i]` with `i` outside the `Capacity` slots of the array is
  undefined behaviour in C++. Functions that index the array return an
  `Option`; `none` stands for "the code touched a slot outside the storage",
  it is not an error the code reports.
* `items[i].~ValueType()` leaves the slot as it is: the containers of the
  interpreter hold `Word`s and `Address`es, whose destructor does nothing.
* A member function of the processor returns a `Run`: the `ResultInfo` and the
  processor after the call, or a `Fault` when the call has no defined result.
  The printer and the break handler are outside the model; the calls made to
  them are recorded in `Processor.trace`. The C library and the machine's
  memory, which the load, store and allocation handlers use, are a `Host`.
-/

namespace StackLanguage

/-! ## LanguageTypes.h -/

/-- Alias `using Word = std::uint32_t`. -/
abbrev Word := Nat

/-- Alias `using SWord = std::int32_t`. -/
abbrev SWord := Int

/-- Enumeration `enum class Opcode : std::uint8_t`, as its underlying byte. -/
abbrev Opcode := Nat

/-- The conversion `static_cast<std::uint32_t>(x)` of a signed value. -/
def toWord (x : Int) : Nat := (x % 2 ^ 32).toNat

/-- The conversion `static_cast<std::int32_t>(x)` of an unsigned value. -/
def toSWord (x : Nat) : Int :=
  if x % 2 ^ 32 < 2 ^ 31 then ((x % 2 ^ 32 : Nat) : Int) else ((x % 2 ^ 32 : Nat) : Int) - 2 ^ 32

/-- Left shift of a `std::uint32_t`: bits shifted past bit 31 are lost. -/
def shl32 (a k : Nat) : Nat := (a <<< k) % 2 ^ 32

/-! ## Instruction.h -/

/-- The class `Instruction`: one 32-bit word. -/
structure Instruction where
  value : Nat
deriving DecidableEq

namespace Instruction

def opcodeMask : Nat := 0x000000FF
def opcodeShift : Nat := 24
def operandMask : Nat := 0x00FFFFFF
def operandShift : Nat := 0

/-- Member function `signExtend(std::uint32_t value)`. -/
def signExtend (value : Nat) : Int :=
  toSWord (if (value &&& 0x00800000) ≠ 0 then (value ||| 0xFF000000) else (value &&& 0x007FFFFF))

/-- Member function `signReduce(std::int32_t value)`. -/
def signReduce (value : Int) : Nat :=
  toWord value &&& 0x00FFFFFF

/-- Member function `createInstructionValue(Opcode opcode)`. -/
def createInstructionValue (opcode : Opcode) : Nat :=
  shl32 (opcode &&& opcodeMask) opcodeShift

/-- Member function `createInstructionValue(Opcode opcode, Word value)`. -/
def createInstructionValueWord (opcode : Opcode) (value : Word) : Nat :=
  shl32 (opcode &&& opcodeMask) opcodeShift ||| shl32 (value &&& operandMask) operandShift

/-- Member function `createInstructionValue(Opcode opcode, SWord value)`; the `&` of the signed
result of `signExtend` with the unsigned mask converts it back to unsigned. -/
def createInstructionValueSWord (opcode : Opcode) (value : SWord) : Nat :=
  shl32 (opcode &&& opcodeMask) opcodeShift
    ||| shl32 (toWord (signExtend (toWord value)) &&& operandMask) operandShift

/-- Constructor `Instruction(Opcode opcode)`. -/
def ofOpcode (opcode : Opcode) : Instruction := ⟨createInstructionValue opcode⟩

/-- Constructor `Instruction(Opcode opcode, Word value)`. -/
def ofWord (opcode : Opcode) (value : Word) : Instruction :=
  ⟨createInstructionValueWord opcode value⟩

/-- Constructor `Instruction(Opcode opcode, SWord value)`. -/
def ofSWord (opcode : Opcode) (value : SWord) : Instruction :=
  ⟨createInstructionValueSWord opcode value⟩

/-- Member function `getOpcode()`. -/
def getOpcode (self : Instruction) : Opcode :=
  (self.value >>> opcodeShift) &&& opcodeMask

/-- Member function `getOperand()`. -/
def getOperand (self : Instruction) : Word :=
  (self.value >>> operandShift) &&& operandMask

/-- Member function `getSignedOperand()`. -/
def getSignedOperand (self : Instruction) : SWord :=
  signExtend ((self.value >>> operandShift) &&& operandMask)

end Instruction

/-! ## Deque.h -/

/-- The number of values of `std::size_t` (64 bits). -/
def sizeModulus : Nat := 2 ^ 64

/-- The primary template `Deque<Type, CapacityValue>`: the array `items` of
`Capacity` slots and the index `next` of the first free slot. -/
structure Deque (α : Type) (Capacity : Nat) where
  items : List α
  next : Nat
deriving DecidableEq

namespace Deque

variable {α : Type} {Capacity : Nat}

/-- Constant `FirstIndex = static_cast<IndexType>(0)`. -/
def FirstIndex : Nat := 0

/-- Constant `FinalIndex = static_cast<IndexType>(Capacity - 1)`, computed in `std::size_t`. -/
def FinalIndex (Capacity : Nat) : Nat := (Capacity + sizeModulus - 1) % sizeModulus

/-- Constant `InvalidIndex = static_cast<IndexOfType>(~0)`. -/
def InvalidIndex : Nat := sizeModulus - 1

/-- A default-constructed container: `items[Capacity] = {}`, `next = 0`. -/
def empty [Inhabited α] : Deque α Capacity :=
  { items := List.replicate Capacity default, next := 0 }

/-- A read of `items[i]`; `none` when slot `i` is not one of the slots of the array. -/
def readItem (items : List α) (i : Nat) : Option α := items[i]?

/-- The assignment `items[i] = v`; `none` when slot `i` is not one of the slots
of the array. -/
def writeItem (items : List α) (i : Nat) (v : α) : Option (List α) :=
  if i < items.length then some (items.set i v) else none

/-- Member function `isEmpty()`. -/
def isEmpty (self : Deque α Capacity) : Bool := self.next == FirstIndex

/-- Member function `isFull()`. -/
def isFull (self : Deque α Capacity) : Bool := decide (self.next > FinalIndex Capacity)

/-- Member function `getCount()`. -/
def getCount (self : Deque α Capacity) : Nat := self.next

/-- Member function `getCapacity()`. -/
def getCapacity (_self : Deque α Capacity) : Nat := Capacity

/-- Member function `getFirstIndex()`. -/
def getFirstIndex (_self : Deque α Capacity) : Nat := FirstIndex

/-- Member function `getLastIndex()`: `next - 1` in `std::size_t`, which wraps when `next` is 0. -/
def getLastIndex (self : Deque α Capacity) : Nat := (self.next + sizeModulus - 1) % sizeModulus

/-- Member `operator [](IndexType index)`, as a read. -/
def subscript (self : Deque α Capacity) (index : Nat) : Option α := readItem self.items index

/-- Member function `getFirst()`. -/
def getFirst (self : Deque α Capacity) : Option α := readItem self.items self.getFirstIndex

/-- Member function `getLast()`. -/
def getLast (self : Deque α Capacity) : Option α := readItem self.items self.getLastIndex

/-- Member function `append(item)`. -/
def append (self : Deque α Capacity) (item : α) : Option (Bool × Deque α Capacity) :=
  if self.isFull then some (false, self)
  else do
    let items ← writeItem self.items self.next item
    some (true, { items := items, next := self.next + 1 })

/-- The loop `for (i = start; i > FirstIndex; --i) items[i] = std::move(items[i - 1]);`
of `prepend`, by recursion on the loop variable `i`. -/
def moveUpLoop : Nat → List α → Option (List α)
  | 0, items => some items
  | i + 1, items => do
    let v ← readItem items i
    let items ← writeItem items (i + 1) v
    moveUpLoop i items

/-- Member function `prepend(item)`. -/
def prepend (self : Deque α Capacity) (item : α) : Option (Bool × Deque α Capacity) :=
  if self.isFull then some (false, self)
  else do
    let next := self.next + 1
    let items ← moveUpLoop next self.items
    let items ← writeItem items FirstIndex item
    some (true, { items := items, next := next })

/-- Member function `unappend()`. -/
def unappend (self : Deque α Capacity) : Deque α Capacity :=
  if self.isEmpty then self
  else { items := self.items, next := self.next - 1 }

/-- The loop `for (i = start; i < stop; ++i) items[i] = std::move(items[i + 1]);`
of `removeAt` and `insert`, by recursion on the number `stop - i` of iterations
still to run. -/
def moveDownLoop : Nat → Nat → List α → Option (List α)
  | 0, _, items => some items
  | k + 1, i, items => do
    let v ← readItem items (i + 1)
    let items ← writeItem items i v
    moveDownLoop k (i + 1) items

/-- Member function `removeAt(index)`. -/
def removeAt (self : Deque α Capacity) (index : Nat) : Option (Bool × Deque α Capacity) :=
  if index ≥ self.next then some (false, self)
  else do
    let next := self.next - 1
    let items ← moveDownLoop (next - index) index self.items
    some (true, { items := items, next := next })

/-- Member function `insert(index, item)`. -/
def insert (self : Deque α Capacity) (index : Nat) (item : α) :
    Option (Bool × Deque α Capacity) :=
  if index ≥ self.next then some (false, self)
  else if self.isFull then some (false, self)
  else do
    let next := self.next + 1
    let items ← moveDownLoop (next - (index + 1)) (index + 1) self.items
    let items ← writeItem items index item
    some (true, { items := items, next := next })

/-- The elements the container holds: slots `0 .. getCount() - 1`, in order. -/
def contents (self : Deque α Capacity) : List α := self.items.take self.next

/-- A state of a `Deque<Type, Capacity>` object of the primary template: the
capacity is a positive `std::size_t` (capacity 0 selects the specialisation),
the array has `Capacity` slots and `next` does not exceed `Capacity`. -/
def WellFormed (self : Deque α Capacity) : Prop :=
  1 ≤ Capacity ∧ Capacity < sizeModulus ∧ self.items.length = Capacity ∧ self.next ≤ Capacity

instance (self : Deque α Capacity) : Decidable self.WellFormed := by
  unfold WellFormed
  exact inferInstance

end Deque

/-! ## Stack.h -/

/-- The class `Stack<Type, CapacityValue>` over its default container
`Deque<Type, CapacityValue>`. -/
structure Stack (α : Type) (Capacity : Nat) where
  container : Deque α Capacity
deriving DecidableEq

namespace Stack

variable {α : Type} {Capacity : Nat}

/-- A default-constructed stack. -/
def empty [Inhabited α] : Stack α Capacity := { container := Deque.empty }

/-- Member function `isEmpty()`. -/
def isEmpty (self : Stack α Capacity) : Bool := self.container.isEmpty

/-- Member function `isFull()`. -/
def isFull (self : Stack α Capacity) : Bool := self.container.isFull

/-- Member function `getCount()`. -/
def getCount (self : Stack α Capacity) : Nat := self.container.getCount

/-- Member function `getCapacity()`. -/
def getCapacity (self : Stack α Capacity) : Nat := self.container.getCapacity

/-- Member function `getLastIndex()`. -/
def getLastIndex (self : Stack α Capacity) : Nat := self.container.getLastIndex

/-- Member `operator [](index)`, as a read. -/
def subscript (self : Stack α Capacity) (index : Nat) : Option α := self.container.subscript index

/-- Member function `peek()`. -/
def peek (self : Stack α Capacity) : Option α := self.container.getLast

/-- Member function `push(item)`. -/
def push (self : Stack α Capacity) (item : α) : Option (Bool × Stack α Capacity) :=
  (self.container.append item).map fun r => (r.1, { container := r.2 })

/-- Member function `drop()`. -/
def drop (self : Stack α Capacity) : Stack α Capacity :=
  { container := self.container.unappend }

/-- Member function `removeAt(index)`. -/
def removeAt (self : Stack α Capacity) (index : Nat) : Option (Bool × Stack α Capacity) :=
  (self.container.removeAt index).map fun r => (r.1, { container := r.2 })

/-- Member function `insert(index, item)`. -/
def insert (self : Stack α Capacity) (index : Nat) (item : α) :
    Option (Bool × Stack α Capacity) :=
  (self.container.insert index item).map fun r => (r.1, { container := r.2 })

/-- The calls `push(x)` for the `x` of a list, one after another, with the value
each call returned. -/
def pushAll (self : Stack α Capacity) : List α → Option (List Bool × Stack α Capacity)
  | [] => some ([], self)
  | x :: xs => do
    let r ← self.push x
    let rs ← pushAll r.2 xs
    some (r.1 :: rs.1, rs.2)

end Stack

end StackLanguage

namespace StackLanguage

/-! ## Deque.h: the specialisation for capacity 0 -/

/-- The partial specialisation `Deque<Type, 0>`: a class without data members,
so an object has one state only. -/
structure DequeZero (α : Type) : Type where
deriving DecidableEq

namespace DequeZero

variable {α : Type}

/-- Constant `Capacity = 0`. -/
def Capacity : Nat := 0

/-- Constant `InvalidIndex = -1`, a `std::int8_t`. -/
def InvalidIndex : Int := -1

/-- Constant `FirstIndex = InvalidIndex`, converted to `std::uint8_t`. -/
def FirstIndex : Nat := (InvalidIndex % 2 ^ 8).toNat

/-- Constant `FinalIndex = InvalidIndex`, converted to `std::uint8_t`. -/
def FinalIndex : Nat := (InvalidIndex % 2 ^ 8).toNat

/-- Member function `isEmpty()`. -/
def isEmpty (_self : DequeZero α) : Bool := true

/-- Member function `isFull()`. -/
def isFull (_self : DequeZero α) : Bool := true

/-- Member function `getCount()`. -/
def getCount (_self : DequeZero α) : Nat := 0

/-- Member function `getCapacity()`. -/
def getCapacity (_self : DequeZero α) : Nat := 0

/-- Member function `clear()`, with an empty body. -/
def clear (self : DequeZero α) : DequeZero α := self

/-- Member function `contains(item)`. -/
def contains (_self : DequeZero α) (_item : α) : Bool := false

/-- Member function `indexOf(item)`. -/
def indexOf (_self : DequeZero α) (_item : α) : Int := InvalidIndex

/-- Member function `append(item)`. -/
def append (self : DequeZero α) (_item : α) : Bool × DequeZero α := (false, self)

/-- Member function `prepend(item)`. -/
def prepend (self : DequeZero α) (_item : α) : Bool × DequeZero α := (false, self)

/-- Member function `unappend()`, with an empty body. -/
def unappend (self : DequeZero α) : DequeZero α := self

/-- Member function `unprepend()`, with an empty body. -/
def unprepend (self : DequeZero α) : DequeZero α := self

/-- Member function `removeFirst(item)`. -/
def removeFirst (self : DequeZero α) (_item : α) : Bool × DequeZero α := (false, self)

/-- Member function `removeLast(item)`. -/
def removeLast (self : DequeZero α) (_item : α) : Bool × DequeZero α := (false, self)

/-- Member function `removeAt(index)`. -/
def removeAt (self : DequeZero α) (_index : Nat) : Bool × DequeZero α := (false, self)

/-- Member function `insert(index, item)`. -/
def insert (self : DequeZero α) (_index : Nat) (_item : α) : Bool × DequeZero α := (false, self)

end DequeZero

/-! ## Stack.h: assignment through the reference `peek()` returns -/

namespace Stack

variable {α : Type} {Capacity : Nat}

/-- The assignment `peek() = value` through the reference that `peek()` returns,
that is `items[getLastIndex()] = value`. -/
def assignPeek (self : Stack α Capacity) (value : α) : Option (Stack α Capacity) :=
  (Deque.writeItem self.container.items self.container.getLastIndex value).map
    fun items => { container := { items := items, next := self.container.next } }

end Stack

/-! ## Opcode.h -/

namespace Opcode

def Nop : Opcode := 0x00
def End : Opcode := 0x01
def Break : Opcode := 0x02
def PrintInt : Opcode := 0x03
def PrintChar : Opcode := 0x04
def PrintLine : Opcode := 0x05
def PrintStack : Opcode := 0x06

def Push : Opcode := 0x10
def Drop : Opcode := 0x11
def Pick : Opcode := 0x12
def Roll : Opcode := 0x13
def Duplicate : Opcode := 0x14
def Swap : Opcode := 0x15
def Rotate : Opcode := 0x16
def Over : Opcode := 0x17

def Call : Opcode := 0x20
def CallIndirect : Opcode := 0x21
def Return : Opcode := 0x22
def JumpRelative : Opcode := 0x23
def JumpAbsolute : Opcode := 0x24

def Add : Opcode := 0x30
def AddImmediate : Opcode := 0x31
def Subtract : Opcode := 0x32
def SubtractImmediate : Opcode := 0x33
def Negate : Opcode := 0x34

def And : Opcode := 0x40
def AndImmediate : Opcode := 0x41
def Or : Opcode := 0x42
def OrImmediate : Opcode := 0x43
def ExclusiveOr : Opcode := 0x44
def ExclusiveOrImmediate : Opcode := 0x45
def ShiftLeft : Opcode := 0x46
def ShiftLeftImmediate : Opcode := 0x47
def ShiftRight : Opcode := 0x48
def ShiftRightImmediate : Opcode := 0x49
def Not : Opcode := 0x4A

def BitSet : Opcode := 0x50
def BitClear : Opcode := 0x51
def BitToggle : Opcode := 0x52

def LoadByte : Opcode := 0x60
def LoadWord : Opcode := 0x61
def StoreByte : Opcode := 0x62
def StoreWord : Opcode := 0x63
def StoreByteImmediate : Opcode := 0x64
def StoreWordImmediate : Opcode := 0x65

def Malloc : Opcode := 0x70
def MallocImmediate : Opcode := 0x71
def Calloc : Opcode := 0x72
def CallocImmediate : Opcode := 0x73
def Realloc : Opcode := 0x74
def ReallocImmediate : Opcode := 0x75
def Free : Opcode := 0x76

/-- The enumerators of `enum class Opcode`, in the order of their declaration. -/
def enumerators : List Opcode :=
  [Nop, End, Break, PrintInt, PrintChar, PrintLine, PrintStack,
   Push, Drop, Pick, Roll, Duplicate, Swap, Rotate, Over,
   Call, CallIndirect, Return, JumpRelative, JumpAbsolute,
   Add, AddImmediate, Subtract, SubtractImmediate, Negate,
   And, AndImmediate, Or, OrImmediate, ExclusiveOr, ExclusiveOrImmediate,
   ShiftLeft, ShiftLeftImmediate, ShiftRight, ShiftRightImmediate, Not,
   BitSet, BitClear, BitToggle,
   LoadByte, LoadWord, StoreByte, StoreWord, StoreByteImmediate, StoreWordImmediate,
   Malloc, MallocImmediate, Calloc, CallocImmediate, Realloc, ReallocImmediate, Free]

end Opcode

/-! ## ResultInfo.h -/

/-- Enumeration `enum class ResultStatus`. -/
inductive ResultStatus where
  | Undefined
  | Success
  | Error
deriving DecidableEq

/-- The class `ResultInfo`; a null `errorMessage` is `none`. -/
structure ResultInfo where
  status : ResultStatus := ResultStatus.Undefined
  errorMessage : Option String := none
deriving DecidableEq

namespace ResultInfo

/-- Member function `isError()`. -/
def isError (self : ResultInfo) : Bool := decide (self.status = ResultStatus.Error)

/-- Member function `getStatus()`. -/
def getStatus (self : ResultInfo) : ResultStatus := self.status

/-- Member function `getErrorMessage()`. -/
def getErrorMessage (self : ResultInfo) : Option String := self.errorMessage

end ResultInfo

/-- Function `resultSuccess()`. -/
def resultSuccess : ResultInfo := { status := ResultStatus.Success }

/-- Function `resultError(errorMessage)`. -/
def resultError (errorMessage : String) : ResultInfo :=
  { status := ResultStatus.Error, errorMessage := some errorMessage }

end StackLanguage

deriving instance DecidableEq for Except

namespace StackLanguage

/-! ## Outcomes of a call -/

/-- The ways in which a call can fail to return a defined result. None of them
is an error the code reports. -/
inductive Fault where
  /-- An array slot outside the storage was read or written. -/
  | outOfStorage
  /-- A shift by at least the width of the shifted operand. -/
  | shiftTooWide
  /-- A signed computation whose result is not an `int`. -/
  | signedOverflow
  /-- A pointer made from a word was used and the host rejects it. -/
  | invalidPointer
  /-- A loop that never ends. -/
  | nonTermination
deriving DecidableEq

/-- The result of a call: a value, or a `Fault`. -/
abbrev Run (α : Type) : Type := Except Fault α

/-- An array access made by the containers, as the outcome of a call. -/
def access {α : Type} : Option α → Run α
  | some a => Except.ok a
  | none => Except.error Fault.outOfStorage

/-- A use of a pointer by the host, as the outcome of a call. -/
def dereference {α : Type} : Option α → Run α
  | some a => Except.ok a
  | none => Except.error Fault.invalidPointer

/-- Alias `using Address = Word`. -/
abbrev Address := Nat

/-- What the interpreter does to the outside: the calls of the printer and of
the break handler. -/
inductive Event where
  /-- The call `print(word)` of an unsigned integer. -/
  | word (value : Nat)
  /-- The call `print(character)` of a `char`, given by its code. -/
  | char (code : Nat)
  /-- The call `print(string)` of a string literal. -/
  | text (string : String)
  /-- The call `printLine()`. -/
  | line
  /-- The call of the break handler. -/
  | breakHandler
deriving DecidableEq

/-- The C library and the memory of the machine, which the load, store and
allocation handlers reach through pointers made from words. `M` is the state
of that memory; a `none` is a use of a pointer that has no defined result. -/
structure Host (M : Type) where
  malloc : M → Word → Word × M
  calloc : M → Word → Word → Word × M
  realloc : M → Word → Word → Option (Word × M)
  free : M → Word → Option M
  loadByte : M → Word → Option Word
  loadWord : M → Word → Option Word
  storeByte : M → Word → Word → Option M
  storeWord : M → Word → Word → Option M

/-- A host whose allocator always fails (it returns the null pointer) and that
rejects every use of a pointer but `free(nullptr)`. -/
def nullHost : Host Unit where
  malloc := fun m _ => (0, m)
  calloc := fun m _ _ => (0, m)
  realloc := fun m address _ => if address = 0 then some (0, m) else none
  free := fun m address => if address = 0 then some m else none
  loadByte := fun _ _ => none
  loadWord := fun _ _ => none
  storeByte := fun _ _ _ => none
  storeWord := fun _ _ _ => none

/-! ## ProcessorState.h -/

/-- The class `ProcessorState<Settings>`; `DataStackSize` and `ReturnStackSize`
are the constants of `Settings`. -/
structure ProcessorState (DataStackSize ReturnStackSize : Nat) where
  dataStack : Stack Word DataStackSize
  returnStack : Stack Address ReturnStackSize
  instructionPointer : Address
deriving DecidableEq

namespace ProcessorState

variable {DataStackSize ReturnStackSize : Nat}

/-- A default-constructed state: two empty stacks, instruction pointer 0. -/
def initial : ProcessorState DataStackSize ReturnStackSize :=
  { dataStack := Stack.empty, returnStack := Stack.empty, instructionPointer := 0 }

/-- Member function `getDataStack()`. -/
def getDataStack (self : ProcessorState DataStackSize ReturnStackSize) :
    Stack Word DataStackSize := self.dataStack

/-- Member function `getReturnStack()`. -/
def getReturnStack (self : ProcessorState DataStackSize ReturnStackSize) :
    Stack Address ReturnStackSize := self.returnStack

/-- Member function `getInstructionPointer()`. -/
def getInstructionPointer (self : ProcessorState DataStackSize ReturnStackSize) : Address :=
  self.instructionPointer

/-- Member function `incrementInstructionPointer()`: `++` on a 32-bit word. -/
def incrementInstructionPointer (self : ProcessorState DataStackSize ReturnStackSize) :
    ProcessorState DataStackSize ReturnStackSize :=
  { self with instructionPointer := (self.instructionPointer + 1) % 2 ^ 32 }

/-- Member function `functionCall(address)`; the value `push` returns is not used. -/
def functionCall (self : ProcessorState DataStackSize ReturnStackSize) (address : Address) :
    Run (ProcessorState DataStackSize ReturnStackSize) := do
  let pushed ← access (self.returnStack.push self.instructionPointer)
  pure { self with returnStack := pushed.2, instructionPointer := address }

/-- Member function `functionReturn()`. -/
def functionReturn (self : ProcessorState DataStackSize ReturnStackSize) :
    Run (ProcessorState DataStackSize ReturnStackSize) := do
  let top ← access self.returnStack.peek
  pure { self with instructionPointer := top, returnStack := self.returnStack.drop }

/-- Member function `jumpAbsolute(address)`. -/
def jumpAbsolute (self : ProcessorState DataStackSize ReturnStackSize) (address : Address) :
    ProcessorState DataStackSize ReturnStackSize :=
  { self with instructionPointer := address }

/-- Member function `jumpRelative(addressOffset)`: `+=` of a signed offset on a
32-bit word. -/
def jumpRelative (self : ProcessorState DataStackSize ReturnStackSize) (addressOffset : SWord) :
    ProcessorState DataStackSize ReturnStackSize :=
  { self with instructionPointer := (self.instructionPointer + toWord addressOffset) % 2 ^ 32 }

end ProcessorState

/-! ## Environment.h -/

/-- Modelled from the spec: the type `List<Instruction, InstructionListSize>` of
`List.h`, which is not among the sources. The Program is an ordered sequence of
Instructions, built before execution starts; `getCount()` is its length and
`operator []` gives the instruction at an index (an address). -/
abbrev InstructionList : Type := List Instruction

/-- The class `Environment<Settings>`. Its printer is outside the model: the
calls made to it are recorded in the trace of the processor. -/
structure Environment where
  instructions : InstructionList
deriving DecidableEq

namespace Environment

/-- Member function `getInstructions()`. -/
def getInstructions (self : Environment) : InstructionList := self.instructions

end Environment

/-! ## Processor.h -/

/-- The class `Processor<Settings>`. `breakHandler` tells whether the pointer
to the break handler is not null, `memory` is the state of the host's memory and
`trace` lists the calls made so far to the printer and to the break handler. -/
structure Processor (M : Type) (DataStackSize ReturnStackSize : Nat) where
  environment : Environment
  state : ProcessorState DataStackSize ReturnStackSize
  breakHandler : Bool
  running : Bool
  completed : Bool
  memory : M
  trace : List Event
deriving DecidableEq

end StackLanguage

namespace StackLanguage

namespace Processor

variable {M : Type} {DataStackSize ReturnStackSize : Nat}

/-- A processor as its constructor leaves it, for a program, a break handler
(or none) and a state of the host's memory. -/
def create (instructions : InstructionList) (breakHandler : Bool) (memory : M) :
    Processor M DataStackSize ReturnStackSize :=
  { environment := { instructions := instructions }, state := ProcessorState.initial,
    breakHandler := breakHandler, running := false, completed := false,
    memory := memory, trace := [] }

/-- Member function `isRunning()`. -/
def isRunning (self : Processor M DataStackSize ReturnStackSize) : Bool := self.running

/-- Member function `hasCompleted()`. -/
def hasCompleted (self : Processor M DataStackSize ReturnStackSize) : Bool := self.completed

/-- Member function `start()`. -/
def start (self : Processor M DataStackSize ReturnStackSize) :
    Processor M DataStackSize ReturnStackSize :=
  { self with running := true, completed := false }

/-- Member function `stop()`. -/
def stop (self : Processor M DataStackSize ReturnStackSize) :
    Processor M DataStackSize ReturnStackSize :=
  { self with running := false }

/-- Member function `complete()`. -/
def complete (self : Processor M DataStackSize ReturnStackSize) :
    Processor M DataStackSize ReturnStackSize :=
  { self with running := false, completed := true }

/-- The processor with another Data Stack: the effect of the handlers that work
on the reference `getDataStack()` returns. -/
def setDataStack (self : Processor M DataStackSize ReturnStackSize)
    (stack : Stack Word DataStackSize) : Processor M DataStackSize ReturnStackSize :=
  { self with state := { self.state with dataStack := stack } }

/-- The processor after one more call to the printer or to the break handler. -/
def emit (self : Processor M DataStackSize ReturnStackSize) (events : List Event) :
    Processor M DataStackSize ReturnStackSize :=
  { self with trace := self.trace ++ events }

/-- The compound assignment `stack.peek() = f(stack.peek())`, which reads and
writes the slot `items[getLastIndex()]`. -/
def updatePeek (stack : Stack Word DataStackSize) (f : Word → Run Word) :
    Run (Stack Word DataStackSize) := do
  let old ← access stack.peek
  let new ← f old
  access (stack.assignPeek new)

/-- The operator `<<` on 32-bit words: not defined for a count of 32 or more. -/
def shiftLeft (a count : Word) : Run Word :=
  if count < 32 then pure (shl32 a count) else Except.error Fault.shiftTooWide

/-- The operator `>>` on 32-bit words: not defined for a count of 32 or more. -/
def shiftRight (a count : Word) : Run Word :=
  if count < 32 then pure (a >>> count) else Except.error Fault.shiftTooWide

/-- The expression `(1 << value)` of type `int`, converted to a word. -/
def bit (value : Word) : Run Word :=
  if value < 32 then pure (2 ^ value) else Except.error Fault.shiftTooWide

/-- The operator `~` on a 32-bit word. -/
def complement (a : Word) : Word := 2 ^ 32 - 1 - a % 2 ^ 32

/-- Member function `assertDataStackSize(amount)`. -/
def assertDataStackSize (self : Processor M DataStackSize ReturnStackSize) (amount : Nat) :
    ResultInfo :=
  if self.state.getDataStack.getCount < amount then resultError "Data stack underflow"
  else resultSuccess

/-! ### Category 0 - Basic control -/

/-- Member function `executeNop(instruction)`. -/
def executeNop (self : Processor M DataStackSize ReturnStackSize) (_instruction : Instruction) :
    Run (ResultInfo × Processor M DataStackSize ReturnStackSize) :=
  pure (resultSuccess, self)

/-- Member function `executeEnd(instruction)`. -/
def executeEnd (self : Processor M DataStackSize ReturnStackSize) (_instruction : Instruction) :
    Run (ResultInfo × Processor M DataStackSize ReturnStackSize) :=
  pure (resultSuccess, self.complete)

/-- Member function `executeBreak(instruction)`. -/
def executeBreak (self : Processor M DataStackSize ReturnStackSize) (_instruction : Instruction) :
    Run (ResultInfo × Processor M DataStackSize ReturnStackSize) :=
  if self.breakHandler then pure (resultSuccess, self.emit [Event.breakHandler])
  else pure (resultSuccess, self)

/-- Member function `executePrintInt(instruction)`. -/
def executePrintInt (self : Processor M DataStackSize ReturnStackSize)
    (_instruction : Instruction) : Run (ResultInfo × Processor M DataStackSize ReturnStackSize) :=
  let resultInfo := self.assertDataStackSize 1
  if resultInfo.getStatus = ResultStatus.Error then pure (resultInfo, self)
  else do
    let word ← access self.state.getDataStack.peek
    pure (resultSuccess, self.emit [Event.word word])

/-- Member function `executePrintChar(instruction)`; `static_cast<char>` keeps the
low byte of the word. -/
def executePrintChar (self : Processor M DataStackSize ReturnStackSize)
    (_instruction : Instruction) : Run (ResultInfo × Processor M DataStackSize ReturnStackSize) :=
  let resultInfo := self.assertDataStackSize 1
  if resultInfo.getStatus = ResultStatus.Error then pure (resultInfo, self)
  else do
    let word ← access self.state.getDataStack.peek
    pure (resultSuccess, self.emit [Event.char (word % 2 ^ 8)])

/-- Member function `executePrintLine(instruction)`. -/
def executePrintLine (self : Processor M DataStackSize ReturnStackSize)
    (_instruction : Instruction) : Run (ResultInfo × Processor M DataStackSize ReturnStackSize) :=
  pure (resultSuccess, self.emit [Event.line])

/-- The loop `for (std::uint8_t i = start; i < stack.getCount(); ++i)
printer.printMany(", ", stack[i]);` of `executePrintStack`. The counter has 256
values and nothing else changes, so a loop that has not ended after 256 tests
of its condition never ends. -/
def printStackLoop (stack : Stack Word DataStackSize) :
    Nat → Nat → List Event → Run (List Event)
  | 0, _, _ => Except.error Fault.nonTermination
  | tests + 1, i, events =>
    if i < stack.getCount then do
      let element ← access (stack.subscript i)
      printStackLoop stack tests ((i + 1) % 2 ^ 8) (events ++ [Event.text ", ", Event.word element])
    else pure events

/-- Member function `executePrintStack(instruction)`; 91 and 93 are the codes
of the two brackets. -/
def executePrintStack (self : Processor M DataStackSize ReturnStackSize)
    (_instruction : Instruction) : Run (ResultInfo × Processor M DataStackSize ReturnStackSize) := do
  let stack := self.state.getDataStack
  let events ←
    if !stack.isEmpty then do
      let first ← access (stack.subscript 0)
      printStackLoop stack 256 1 [Event.char 91, Event.word first]
    else pure [Event.char 91]
  pure (resultSuccess, self.emit (events ++ [Event.char 93, Event.line]))

/-! ### Category 1 - Stack Manipulation -/

/-- Member function `executePush(instruction)`; the value `push` returns is not
used. -/
def executePush (self : Processor M DataStackSize ReturnStackSize) (instruction : Instruction) :
    Run (ResultInfo × Processor M DataStackSize ReturnStackSize) :=
  if self.state.getDataStack.getCount ≥ self.state.getDataStack.getCapacity then
    pure (resultError "Data stack overflow", self)
  else do
    let pushed ← access (self.state.getDataStack.push instruction.getOperand)
    pure (resultSuccess, self.setDataStack pushed.2)

/-- The loop `for (std::size_t i = 0; i < dropCount; ++i) drop();` of
`executeDrop`, by recursion on the number of iterations still to run. -/
def dropLoop (stack : Stack Word DataStackSize) : Nat → Stack Word DataStackSize
  | 0 => stack
  | count + 1 => dropLoop stack.drop count

/-- Member function `executeDrop(instruction)`. -/
def executeDrop (self : Processor M DataStackSize ReturnStackSize) (instruction : Instruction) :
    Run (ResultInfo × Processor M DataStackSize ReturnStackSize) :=
  let dropCount := instruction.getOperand
  let resultInfo := self.assertDataStackSize dropCount
  if resultInfo.getStatus = ResultStatus.Error then pure (resultInfo, self)
  else pure (resultSuccess, self.setDataStack (dropLoop self.state.getDataStack dropCount))

/-- Member function `executePick(instruction)`; `end` and `index` are computed
in `std::size_t`, and the value `push` returns is not used. -/
def executePick (self : Processor M DataStackSize ReturnStackSize) (instruction : Instruction) :
    Run (ResultInfo × Processor M DataStackSize ReturnStackSize) :=
  let offset := (instruction.getOperand + 1) % 2 ^ 32
  let resultInfo := self.assertDataStackSize offset
  if resultInfo.getStatus = ResultStatus.Error then pure (resultInfo, self)
  else do
    let stack := self.state.getDataStack
    let endIndex := (stack.getCount + sizeModulus - 1) % sizeModulus
    let index := (endIndex + sizeModulus - offset) % sizeModulus
    let element ← access (stack.subscript index)
    let pushed ← access (stack.push element)
    pure (resultSuccess, self.setDataStack pushed.2)

/-- Member function `executeRoll(instruction)`; `end` and `index` are computed
in `std::size_t`, and the values `removeAt` and `push` return are not used. -/
def executeRoll (self : Processor M DataStackSize ReturnStackSize) (instruction : Instruction) :
    Run (ResultInfo × Processor M DataStackSize ReturnStackSize) :=
  let offset := instruction.getOperand
  let resultInfo := self.assertDataStackSize offset
  if resultInfo.getStatus = ResultStatus.Error then pure (resultInfo, self)
  else do
    let stack := self.state.getDataStack
    let endIndex := (stack.getCount + sizeModulus - 1) % sizeModulus
    let index := (endIndex + sizeModulus - offset) % sizeModulus
    let element ← access (stack.subscript index)
    let removed ← access (stack.removeAt index)
    let pushed ← access (removed.2.push element)
    pure (resultSuccess, self.setDataStack pushed.2)

/-- Member function `executeDuplicate(instruction)`. -/
def executeDuplicate (self : Processor M DataStackSize ReturnStackSize)
    (_instruction : Instruction) : Run (ResultInfo × Processor M DataStackSize ReturnStackSize) :=
  let resultInfo := self.assertDataStackSize 1
  if resultInfo.getStatus = ResultStatus.Error then pure (resultInfo, self)
  else do
    let stack := self.state.getDataStack
    let value ← access stack.peek
    let pushed ← access (stack.push value)
    pure (resultSuccess, self.setDataStack pushed.2)

/-- Member function `executeSwap(instruction)`. -/
def executeSwap (self : Processor M DataStackSize ReturnStackSize) (_instruction : Instruction) :
    Run (ResultInfo × Processor M DataStackSize ReturnStackSize) :=
  let resultInfo := self.assertDataStackSize 2
  if resultInfo.getStatus = ResultStatus.Error then pure (resultInfo, self)
  else do
    let stack := self.state.getDataStack
    let a ← access stack.peek
    let stack := stack.drop
    let b ← access stack.peek
    let stack := stack.drop
    let pushed ← access (stack.push a)
    let pushed ← access (pushed.2.push b)
    pure (resultSuccess, self.setDataStack pushed.2)

/-- Member function `executeRotate(instruction)`. -/
def executeRotate (self : Processor M DataStackSize ReturnStackSize)
    (_instruction : Instruction) : Run (ResultInfo × Processor M DataStackSize ReturnStackSize) :=
  let resultInfo := self.assertDataStackSize 3
  if resultInfo.getStatus = ResultStatus.Error then pure (resultInfo, self)
  else do
    let stack := self.state.getDataStack
    let a ← access stack.peek
    let stack := stack.drop
    let b ← access stack.peek
    let stack := stack.drop
    let c ← access stack.peek
    let stack := stack.drop
    let pushed ← access (stack.push b)
    let pushed ← access (pushed.2.push a)
    let pushed ← access (pushed.2.push c)
    pure (resultSuccess, self.setDataStack pushed.2)

/-- Member function `executeOver(instruction)`. -/
def executeOver (self : Processor M DataStackSize ReturnStackSize) (_instruction : Instruction) :
    Run (ResultInfo × Processor M DataStackSize ReturnStackSize) :=
  let resultInfo := self.assertDataStackSize 2
  if resultInfo.getStatus = ResultStatus.Error then pure (resultInfo, self)
  else do
    let stack := self.state.getDataStack
    let a ← access stack.peek
    let stack := stack.drop
    let b ← access stack.peek
    let pushed ← access (stack.push a)
    let pushed ← access (pushed.2.push b)
    pure (resultSuccess, self.setDataStack pushed.2)

/-! ### Category 2 - Flow Control -/

/-- Member function `executeCall(instruction)`. -/
def executeCall (self : Processor M DataStackSize ReturnStackSize) (instruction : Instruction) :
    Run (ResultInfo × Processor M DataStackSize ReturnStackSize) := do
  let address := instruction.getOperand
  let state ← self.state.functionCall address
  pure (resultSuccess, { self with state := state })

/-- Member function `executeCallIndirect(instruction)`. -/
def executeCallIndirect (self : Processor M DataStackSize ReturnStackSize)
    (_instruction : Instruction) : Run (ResultInfo × Processor M DataStackSize ReturnStackSize) :=
  let resultInfo := self.assertDataStackSize 2
  if resultInfo.getStatus = ResultStatus.Error then pure (resultInfo, self)
  else do
    let stack := self.state.getDataStack
    let address ← access stack.peek
    let stack := stack.drop
    let state ← (self.setDataStack stack).state.functionCall address
    pure (resultSuccess, { self with state := state })

/-- Member function `executeReturn(instruction)`. -/
def executeReturn (self : Processor M DataStackSize ReturnStackSize)
    (_instruction : Instruction) : Run (ResultInfo × Processor M DataStackSize ReturnStackSize) :=
  if self.state.getReturnStack.isEmpty then pure (resultError "Call stack underflow", self)
  else do
    let state ← self.state.functionReturn
    pure (resultSuccess, { self with state := state })

/-- Member function `executeJumpRelative(instruction)`. -/
def executeJumpRelative (self : Processor M DataStackSize ReturnStackSize)
    (instruction : Instruction) : Run (ResultInfo × Processor M DataStackSize ReturnStackSize) :=
  let offset := instruction.getSignedOperand
  pure (resultSuccess, { self with state := self.state.jumpRelative offset })

/-- Member function `executeJumpAbsolute(instruction)`. -/
def executeJumpAbsolute (self : Processor M DataStackSize ReturnStackSize)
    (instruction : Instruction) : Run (ResultInfo × Processor M DataStackSize ReturnStackSize) :=
  let address := instruction.getOperand
  pure (resultSuccess, { self with state := self.state.jumpAbsolute address })

end Processor

end StackLanguage

namespace StackLanguage

namespace Processor

variable {M : Type} {DataStackSize ReturnStackSize : Nat}

/-! ### Category 3 - Arithmetic -/

/-- Member function `executeAdd(instruction)`. -/
def executeAdd (self : Processor M DataStackSize ReturnStackSize) (_instruction : Instruction) :
    Run (ResultInfo × Processor M DataStackSize ReturnStackSize) :=
  let resultInfo := self.assertDataStackSize 2
  if resultInfo.getStatus = ResultStatus.Error then pure (resultInfo, self)
  else do
    let stack := self.state.getDataStack
    let value ← access stack.peek
    let stack := stack.drop
    let stack ← updatePeek stack fun top => pure ((top + value) % 2 ^ 32)
    pure (resultSuccess, self.setDataStack stack)

/-- Member function `executeAddImmediate(instruction)`. -/
def executeAddImmediate (self : Processor M DataStackSize ReturnStackSize)
    (instruction : Instruction) : Run (ResultInfo × Processor M DataStackSize ReturnStackSize) :=
  let resultInfo := self.assertDataStackSize 1
  if resultInfo.getStatus = ResultStatus.Error then pure (resultInfo, self)
  else do
    let stack := self.state.getDataStack
    let stack ← updatePeek stack fun top => pure ((top + instruction.getOperand) % 2 ^ 32)
    pure (resultSuccess, self.setDataStack stack)

/-- Member function `executeSubtract(instruction)`. -/
def executeSubtract (self : Processor M DataStackSize ReturnStackSize)
    (_instruction : Instruction) : Run (ResultInfo × Processor M DataStackSize ReturnStackSize) :=
  let resultInfo := self.assertDataStackSize 2
  if resultInfo.getStatus = ResultStatus.Error then pure (resultInfo, self)
  else do
    let stack := self.state.getDataStack
    let value ← access stack.peek
    let stack := stack.drop
    let stack ← updatePeek stack fun top => pure ((top + 2 ^ 32 - value % 2 ^ 32) % 2 ^ 32)
    pure (resultSuccess, self.setDataStack stack)

/-- Member function `executeSubtractImmediate(instruction)`. -/
def executeSubtractImmediate (self : Processor M DataStackSize ReturnStackSize)
    (instruction : Instruction) : Run (ResultInfo × Processor M DataStackSize ReturnStackSize) :=
  let resultInfo := self.assertDataStackSize 1
  if resultInfo.getStatus = ResultStatus.Error then pure (resultInfo, self)
  else do
    let stack := self.state.getDataStack
    let stack ← updatePeek stack fun top =>
      pure ((top + 2 ^ 32 - instruction.getOperand % 2 ^ 32) % 2 ^ 32)
    pure (resultSuccess, self.setDataStack stack)

/-- Member function `executeNegate(instruction)`; `-value` is a computation on
`int`, not defined for the least `int`. -/
def executeNegate (self : Processor M DataStackSize ReturnStackSize)
    (_instruction : Instruction) : Run (ResultInfo × Processor M DataStackSize ReturnStackSize) :=
  let resultInfo := self.assertDataStackSize 1
  if resultInfo.getStatus = ResultStatus.Error then pure (resultInfo, self)
  else do
    let stack := self.state.getDataStack
    let stack ← updatePeek stack fun top =>
      let value := toSWord top
      if value = -2 ^ 31 then Except.error Fault.signedOverflow else pure (toWord (-value))
    pure (resultSuccess, self.setDataStack stack)

/-! ### Category 4 - Bitwise operations -/

/-- Member function `executeAnd(instruction)`. -/
def executeAnd (self : Processor M DataStackSize ReturnStackSize) (_instruction : Instruction) :
    Run (ResultInfo × Processor M DataStackSize ReturnStackSize) :=
  let resultInfo := self.assertDataStackSize 2
  if resultInfo.getStatus = ResultStatus.Error then pure (resultInfo, self)
  else do
    let stack := self.state.getDataStack
    let value ← access stack.peek
    let stack := stack.drop
    let stack ← updatePeek stack fun top => pure (top &&& value)
    pure (resultSuccess, self.setDataStack stack)

/-- Member function `executeAndImmediate(instruction)`. -/
def executeAndImmediate (self : Processor M DataStackSize ReturnStackSize)
    (instruction : Instruction) : Run (ResultInfo × Processor M DataStackSize ReturnStackSize) :=
  let resultInfo := self.assertDataStackSize 2
  if resultInfo.getStatus = ResultStatus.Error then pure (resultInfo, self)
  else do
    let stack := self.state.getDataStack
    let stack ← updatePeek stack fun top => pure (top &&& instruction.getOperand)
    pure (resultSuccess, self.setDataStack stack)

/-- Member function `executeOr(instruction)`. -/
def executeOr (self : Processor M DataStackSize ReturnStackSize) (_instruction : Instruction) :
    Run (ResultInfo × Processor M DataStackSize ReturnStackSize) :=
  let resultInfo := self.assertDataStackSize 2
  if resultInfo.getStatus = ResultStatus.Error then pure (resultInfo, self)
  else do
    let stack := self.state.getDataStack
    let value ← access stack.peek
    let stack := stack.drop
    let stack ← updatePeek stack fun top => pure (top ||| value)
    pure (resultSuccess, self.setDataStack stack)

/-- Member function `executeOrImmediate(instruction)`. -/
def executeOrImmediate (self : Processor M DataStackSize ReturnStackSize)
    (instruction : Instruction) : Run (ResultInfo × Processor M DataStackSize ReturnStackSize) :=
  let resultInfo := self.assertDataStackSize 2
  if resultInfo.getStatus = ResultStatus.Error then pure (resultInfo, self)
  else do
    let stack := self.state.getDataStack
    let stack ← updatePeek stack fun top => pure (top ||| instruction.getOperand)
    pure (resultSuccess, self.setDataStack stack)

/-- Member function `executeExclusiveOr(instruction)`. -/
def executeExclusiveOr (self : Processor M DataStackSize ReturnStackSize)
    (_instruction : Instruction) : Run (ResultInfo × Processor M DataStackSize ReturnStackSize) :=
  let resultInfo := self.assertDataStackSize 2
  if resultInfo.getStatus = ResultStatus.Error then pure (resultInfo, self)
  else do
    let stack := self.state.getDataStack
    let value ← access stack.peek
    let stack := stack.drop
    let stack ← updatePeek stack fun top => pure (top ^^^ value)
    pure (resultSuccess, self.setDataStack stack)

/-- Member function `executeExclusiveOrImmediate(instruction)`. -/
def executeExclusiveOrImmediate (self : Processor M DataStackSize ReturnStackSize)
    (instruction : Instruction) : Run (ResultInfo × Processor M DataStackSize ReturnStackSize) :=
  let resultInfo := self.assertDataStackSize 2
  if resultInfo.getStatus = ResultStatus.Error then pure (resultInfo, self)
  else do
    let stack := self.state.getDataStack
    let stack ← updatePeek stack fun top => pure (top ^^^ instruction.getOperand)
    pure (resultSuccess, self.setDataStack stack)

/-- Member function `executeShiftLeft(instruction)`. -/
def executeShiftLeft (self : Processor M DataStackSize ReturnStackSize)
    (_instruction : Instruction) : Run (ResultInfo × Processor M DataStackSize ReturnStackSize) :=
  let resultInfo := self.assertDataStackSize 2
  if resultInfo.getStatus = ResultStatus.Error then pure (resultInfo, self)
  else do
    let stack := self.state.getDataStack
    let value ← access stack.peek
    let stack := stack.drop
    let stack ← updatePeek stack fun top => shiftLeft top value
    pure (resultSuccess, self.setDataStack stack)

/-- Member function `executeShiftLeftImmediate(instruction)`. -/
def executeShiftLeftImmediate (self : Processor M DataStackSize ReturnStackSize)
    (instruction : Instruction) : Run (ResultInfo × Processor M DataStackSize ReturnStackSize) :=
  let resultInfo := self.assertDataStackSize 2
  if resultInfo.getStatus = ResultStatus.Error then pure (resultInfo, self)
  else do
    let stack := self.state.getDataStack
    let stack ← updatePeek stack fun top => shiftLeft top instruction.getOperand
    pure (resultSuccess, self.setDataStack stack)

/-- Member function `executeShiftRight(instruction)`. -/
def executeShiftRight (self : Processor M DataStackSize ReturnStackSize)
    (_instruction : Instruction) : Run (ResultInfo × Processor M DataStackSize ReturnStackSize) :=
  let resultInfo := self.assertDataStackSize 2
  if resultInfo.getStatus = ResultStatus.Error then pure (resultInfo, self)
  else do
    let stack := self.state.getDataStack
    let value ← access stack.peek
    let stack := stack.drop
    let stack ← updatePeek stack fun top => shiftRight top value
    pure (resultSuccess, self.setDataStack stack)

/-- Member function `executeShiftRightImmediate(instruction)`. -/
def executeShiftRightImmediate (self : Processor M DataStackSize ReturnStackSize)
    (instruction : Instruction) : Run (ResultInfo × Processor M DataStackSize ReturnStackSize) :=
  let resultInfo := self.assertDataStackSize 2
  if resultInfo.getStatus = ResultStatus.Error then pure (resultInfo, self)
  else do
    let stack := self.state.getDataStack
    let stack ← updatePeek stack fun top => shiftRight top instruction.getOperand
    pure (resultSuccess, self.setDataStack stack)

/-- Member function `executeNot(instruction)`. -/
def executeNot (self : Processor M DataStackSize ReturnStackSize) (_instruction : Instruction) :
    Run (ResultInfo × Processor M DataStackSize ReturnStackSize) :=
  let resultInfo := self.assertDataStackSize 1
  if resultInfo.getStatus = ResultStatus.Error then pure (resultInfo, self)
  else do
    let stack := self.state.getDataStack
    let stack ← updatePeek stack fun top => pure (complement top)
    pure (resultSuccess, self.setDataStack stack)

/-! ### Category 5 - Bit operations -/

/-- Member function `executeBitSet(instruction)`. -/
def executeBitSet (self : Processor M DataStackSize ReturnStackSize)
    (_instruction : Instruction) : Run (ResultInfo × Processor M DataStackSize ReturnStackSize) :=
  let resultInfo := self.assertDataStackSize 2
  if resultInfo.getStatus = ResultStatus.Error then pure (resultInfo, self)
  else do
    let stack := self.state.getDataStack
    let value ← access stack.peek
    let stack := stack.drop
    let stack ← updatePeek stack fun top => do
      let mask ← bit value
      pure (top ||| mask)
    pure (resultSuccess, self.setDataStack stack)

/-- Member function `executeBitClear(instruction)`. -/
def executeBitClear (self : Processor M DataStackSize ReturnStackSize)
    (_instruction : Instruction) : Run (ResultInfo × Processor M DataStackSize ReturnStackSize) :=
  let resultInfo := self.assertDataStackSize 2
  if resultInfo.getStatus = ResultStatus.Error then pure (resultInfo, self)
  else do
    let stack := self.state.getDataStack
    let value ← access stack.peek
    let stack := stack.drop
    let stack ← updatePeek stack fun top => do
      let mask ← bit value
      pure (top &&& complement mask)
    pure (resultSuccess, self.setDataStack stack)

/-- Member function `executeBitToggle(instruction)`. -/
def executeBitToggle (self : Processor M DataStackSize ReturnStackSize)
    (_instruction : Instruction) : Run (ResultInfo × Processor M DataStackSize ReturnStackSize) :=
  let resultInfo := self.assertDataStackSize 2
  if resultInfo.getStatus = ResultStatus.Error then pure (resultInfo, self)
  else do
    let stack := self.state.getDataStack
    let value ← access stack.peek
    let stack := stack.drop
    let stack ← updatePeek stack fun top => do
      let mask ← bit value
      pure (top ^^^ mask)
    pure (resultSuccess, self.setDataStack stack)

/-! ### Category 6 - Load/Store -/

/-- Member function `executeLoadByte(instruction)`. -/
def executeLoadByte (host : Host M) (self : Processor M DataStackSize ReturnStackSize)
    (_instruction : Instruction) : Run (ResultInfo × Processor M DataStackSize ReturnStackSize) :=
  let resultInfo := self.assertDataStackSize 1
  if resultInfo.getStatus = ResultStatus.Error then pure (resultInfo, self)
  else do
    let stack := self.state.getDataStack
    let address ← access stack.peek
    let byte ← dereference (host.loadByte self.memory address)
    let stack ← access (stack.assignPeek byte)
    pure (resultSuccess, self.setDataStack stack)

/-- Member function `executeStoreByte(instruction)`; the assignment to a `Byte`
keeps the low byte of the word. -/
def executeStoreByte (host : Host M) (self : Processor M DataStackSize ReturnStackSize)
    (_instruction : Instruction) : Run (ResultInfo × Processor M DataStackSize ReturnStackSize) :=
  let resultInfo := self.assertDataStackSize 2
  if resultInfo.getStatus = ResultStatus.Error then pure (resultInfo, self)
  else do
    let stack := self.state.getDataStack
    let value ← access stack.peek
    let stack := stack.drop
    let address ← access stack.peek
    let stack := stack.drop
    let memory ← dereference (host.storeByte self.memory address (value % 2 ^ 8))
    pure (resultSuccess, { self.setDataStack stack with memory := memory })

/-- Member function `executeLoadWord(instruction)`. -/
def executeLoadWord (host : Host M) (self : Processor M DataStackSize ReturnStackSize)
    (_instruction : Instruction) : Run (ResultInfo × Processor M DataStackSize ReturnStackSize) :=
  let resultInfo := self.assertDataStackSize 1
  if resultInfo.getStatus = ResultStatus.Error then pure (resultInfo, self)
  else do
    let stack := self.state.getDataStack
    let address ← access stack.peek
    let word ← dereference (host.loadWord self.memory address)
    let stack ← access (stack.assignPeek word)
    pure (resultSuccess, self.setDataStack stack)

/-- Member function `executeStoreWord(instruction)`. -/
def executeStoreWord (host : Host M) (self : Processor M DataStackSize ReturnStackSize)
    (_instruction : Instruction) : Run (ResultInfo × Processor M DataStackSize ReturnStackSize) :=
  let resultInfo := self.assertDataStackSize 2
  if resultInfo.getStatus = ResultStatus.Error then pure (resultInfo, self)
  else do
    let stack := self.state.getDataStack
    let value ← access stack.peek
    let stack := stack.drop
    let address ← access stack.peek
    let stack := stack.drop
    let memory ← dereference (host.storeWord self.memory address value)
    pure (resultSuccess, { self.setDataStack stack with memory := memory })

/-! ### Category 7 - Dynamic allocation -/

/-- Member function `executeMalloc(instruction)`. -/
def executeMalloc (host : Host M) (self : Processor M DataStackSize ReturnStackSize)
    (_instruction : Instruction) : Run (ResultInfo × Processor M DataStackSize ReturnStackSize) :=
  let resultInfo := self.assertDataStackSize 1
  if resultInfo.getStatus = ResultStatus.Error then pure (resultInfo, self)
  else do
    let stack := self.state.getDataStack
    let size ← access stack.peek
    let allocated := host.malloc self.memory size
    let stack ← access (stack.assignPeek allocated.1)
    pure (resultSuccess, { self.setDataStack stack with memory := allocated.2 })

/-- Member function `executeMallocImmediate(instruction)`; the value `push`
returns is not used. -/
def executeMallocImmediate (host : Host M) (self : Processor M DataStackSize ReturnStackSize)
    (instruction : Instruction) : Run (ResultInfo × Processor M DataStackSize ReturnStackSize) := do
  let stack := self.state.getDataStack
  let size := instruction.getOperand
  let allocated := host.malloc self.memory size
  let pushed ← access (stack.push allocated.1)
  pure (resultSuccess, { self.setDataStack pushed.2 with memory := allocated.2 })

/-- Member function `executeCalloc(instruction)`. -/
def executeCalloc (host : Host M) (self : Processor M DataStackSize ReturnStackSize)
    (_instruction : Instruction) : Run (ResultInfo × Processor M DataStackSize ReturnStackSize) :=
  let resultInfo := self.assertDataStackSize 2
  if resultInfo.getStatus = ResultStatus.Error then pure (resultInfo, self)
  else do
    let stack := self.state.getDataStack
    let count ← access stack.peek
    let stack := stack.drop
    let size ← access stack.peek
    let stack := stack.drop
    let allocated := host.calloc self.memory count size
    let pushed ← access (stack.push allocated.1)
    pure (resultSuccess, { self.setDataStack pushed.2 with memory := allocated.2 })

/-- Member function `executeCallocImmediate(instruction)`. -/
def executeCallocImmediate (host : Host M) (self : Processor M DataStackSize ReturnStackSize)
    (instruction : Instruction) : Run (ResultInfo × Processor M DataStackSize ReturnStackSize) :=
  let resultInfo := self.assertDataStackSize 1
  if resultInfo.getStatus = ResultStatus.Error then pure (resultInfo, self)
  else do
    let stack := self.state.getDataStack
    let count ← access stack.peek
    let stack := stack.drop
    let size := instruction.getOperand
    let allocated := host.calloc self.memory count size
    let pushed ← access (stack.push allocated.1)
    pure (resultSuccess, { self.setDataStack pushed.2 with memory := allocated.2 })

/-- Member function `executeRealloc(instruction)`. -/
def executeRealloc (host : Host M) (self : Processor M DataStackSize ReturnStackSize)
    (_instruction : Instruction) : Run (ResultInfo × Processor M DataStackSize ReturnStackSize) :=
  let resultInfo := self.assertDataStackSize 2
  if resultInfo.getStatus = ResultStatus.Error then pure (resultInfo, self)
  else do
    let stack := self.state.getDataStack
    let size ← access stack.peek
    let stack := stack.drop
    let address ← access stack.peek
    let stack := stack.drop
    let allocated ← dereference (host.realloc self.memory address size)
    let pushed ← access (stack.push allocated.1)
    pure (resultSuccess, { self.setDataStack pushed.2 with memory := allocated.2 })

/-- Member function `executeReallocImmediate(instruction)`. -/
def executeReallocImmediate (host : Host M) (self : Processor M DataStackSize ReturnStackSize)
    (instruction : Instruction) : Run (ResultInfo × Processor M DataStackSize ReturnStackSize) :=
  let resultInfo := self.assertDataStackSize 1
  if resultInfo.getStatus = ResultStatus.Error then pure (resultInfo, self)
  else do
    let stack := self.state.getDataStack
    let size := instruction.getOperand
    let address ← access stack.peek
    let stack := stack.drop
    let allocated ← dereference (host.realloc self.memory address size)
    let pushed ← access (stack.push allocated.1)
    pure (resultSuccess, { self.setDataStack pushed.2 with memory := allocated.2 })

/-- Member function `executeFree(instruction)`. -/
def executeFree (host : Host M) (self : Processor M DataStackSize ReturnStackSize)
    (_instruction : Instruction) : Run (ResultInfo × Processor M DataStackSize ReturnStackSize) :=
  let resultInfo := self.assertDataStackSize 1
  if resultInfo.getStatus = ResultStatus.Error then pure (resultInfo, self)
  else do
    let stack := self.state.getDataStack
    let value ← access stack.peek
    let stack := stack.drop
    let memory ← dereference (host.free self.memory value)
    pure (resultSuccess, { self.setDataStack stack with memory := memory })

/-! ### Dispatch and the fetch cycle -/

/-- Member function `execute(instruction)`: the `switch` on the opcode, one
comparison for each `case` label in the order of the source, then `default`. -/
def execute (host : Host M) (self : Processor M DataStackSize ReturnStackSize)
    (instruction : Instruction) : Run (ResultInfo × Processor M DataStackSize ReturnStackSize) :=
  if instruction.getOpcode = Opcode.Nop then self.executeNop instruction
  else if instruction.getOpcode = Opcode.End then self.executeEnd instruction
  else if instruction.getOpcode = Opcode.Break then self.executeBreak instruction
  else if instruction.getOpcode = Opcode.PrintInt then self.executePrintInt instruction
  else if instruction.getOpcode = Opcode.PrintChar then self.executePrintChar instruction
  else if instruction.getOpcode = Opcode.PrintLine then self.executePrintLine instruction
  else if instruction.getOpcode = Opcode.PrintStack then self.executePrintStack instruction
  else if instruction.getOpcode = Opcode.Push then self.executePush instruction
  else if instruction.getOpcode = Opcode.Drop then self.executeDrop instruction
  else if instruction.getOpcode = Opcode.Pick then self.executePick instruction
  else if instruction.getOpcode = Opcode.Roll then self.executeRoll instruction
  else if instruction.getOpcode = Opcode.Duplicate then self.executeDuplicate instruction
  else if instruction.getOpcode = Opcode.Swap then self.executeSwap instruction
  else if instruction.getOpcode = Opcode.Rotate then self.executeRotate instruction
  else if instruction.getOpcode = Opcode.Over then self.executeOver instruction
  else if instruction.getOpcode = Opcode.Call then self.executeCall instruction
  else if instruction.getOpcode = Opcode.CallIndirect then self.executeCallIndirect instruction
  else if instruction.getOpcode = Opcode.Return then self.executeReturn instruction
  else if instruction.getOpcode = Opcode.JumpRelative then self.executeJumpRelative instruction
  else if instruction.getOpcode = Opcode.JumpAbsolute then self.executeJumpAbsolute instruction
  else if instruction.getOpcode = Opcode.Add then self.executeAdd instruction
  else if instruction.getOpcode = Opcode.AddImmediate then self.executeAddImmediate instruction
  else if instruction.getOpcode = Opcode.Subtract then self.executeSubtract instruction
  else if instruction.getOpcode = Opcode.SubtractImmediate then self.executeSubtractImmediate instruction
  else if instruction.getOpcode = Opcode.Negate then self.executeNegate instruction
  else if instruction.getOpcode = Opcode.And then self.executeAnd instruction
  else if instruction.getOpcode = Opcode.AndImmediate then self.executeAndImmediate instruction
  else if instruction.getOpcode = Opcode.Or then self.executeOr instruction
  else if instruction.getOpcode = Opcode.OrImmediate then self.executeOrImmediate instruction
  else if instruction.getOpcode = Opcode.ExclusiveOr then self.executeExclusiveOr instruction
  else if instruction.getOpcode = Opcode.ExclusiveOrImmediate then self.executeExclusiveOrImmediate instruction
  else if instruction.getOpcode = Opcode.ShiftLeft then self.executeShiftLeft instruction
  else if instruction.getOpcode = Opcode.ShiftLeftImmediate then self.executeShiftLeftImmediate instruction
  else if instruction.getOpcode = Opcode.ShiftRight then self.executeShiftRight instruction
  else if instruction.getOpcode = Opcode.ShiftRightImmediate then self.executeShiftRightImmediate instruction
  else if instruction.getOpcode = Opcode.Not then self.executeNot instruction
  else if instruction.getOpcode = Opcode.BitSet then self.executeBitSet instruction
  else if instruction.getOpcode = Opcode.BitClear then self.executeBitClear instruction
  else if instruction.getOpcode = Opcode.BitToggle then self.executeBitToggle instruction
  else if instruction.getOpcode = Opcode.LoadByte then self.executeLoadByte host instruction
  else if instruction.getOpcode = Opcode.StoreByte then self.executeStoreByte host instruction
  else if instruction.getOpcode = Opcode.LoadWord then self.executeLoadWord host instruction
  else if instruction.getOpcode = Opcode.StoreWord then self.executeStoreWord host instruction
  else if instruction.getOpcode = Opcode.Malloc then self.executeMalloc host instruction
  else if instruction.getOpcode = Opcode.MallocImmediate then self.executeMallocImmediate host instruction
  else if instruction.getOpcode = Opcode.Calloc then self.executeCalloc host instruction
  else if instruction.getOpcode = Opcode.CallocImmediate then self.executeCallocImmediate host instruction
  else if instruction.getOpcode = Opcode.Free then self.executeFree host instruction
  else pure (resultError "Unrecognised opcode", self)

/-- Member function `executeCycle()`. -/
def executeCycle (host : Host M) (self : Processor M DataStackSize ReturnStackSize) :
    Run (ResultInfo × Processor M DataStackSize ReturnStackSize) :=
  if self.hasCompleted then pure (resultSuccess, self)
  else if !self.isRunning then pure (resultError "Processor not running", self)
  else
    let instructionPointer := self.state.getInstructionPointer
    let instructions := self.environment.getInstructions
    if instructionPointer ≥ instructions.length then
      pure (resultError "Jumped to invalid address", self)
    else do
      let instruction ← access instructions[instructionPointer]?
      execute host { self with state := self.state.incrementInstructionPointer } instruction

/-- The opcodes that have a `case` label in the `switch` of `execute`, in the
order of the source. -/
def dispatched : List Opcode :=
  [Opcode.Nop, Opcode.End, Opcode.Break, Opcode.PrintInt, Opcode.PrintChar, Opcode.PrintLine,
   Opcode.PrintStack,
   Opcode.Push, Opcode.Drop, Opcode.Pick, Opcode.Roll, Opcode.Duplicate, Opcode.Swap,
   Opcode.Rotate, Opcode.Over,
   Opcode.Call, Opcode.CallIndirect, Opcode.Return, Opcode.JumpRelative, Opcode.JumpAbsolute,
   Opcode.Add, Opcode.AddImmediate, Opcode.Subtract, Opcode.SubtractImmediate, Opcode.Negate,
   Opcode.And, Opcode.AndImmediate, Opcode.Or, Opcode.OrImmediate, Opcode.ExclusiveOr,
   Opcode.ExclusiveOrImmediate, Opcode.ShiftLeft, Opcode.ShiftLeftImmediate, Opcode.ShiftRight,
   Opcode.ShiftRightImmediate, Opcode.Not,
   Opcode.BitSet, Opcode.BitClear, Opcode.BitToggle,
   Opcode.LoadByte, Opcode.StoreByte, Opcode.LoadWord, Opcode.StoreWord,
   Opcode.Malloc, Opcode.MallocImmediate, Opcode.Calloc, Opcode.CallocImmediate, Opcode.Free]

/-- The call `executeCycle()` made `count` times in a row, with the results of
the calls in order. -/
def executeCycles (host : Host M) (self : Processor M DataStackSize ReturnStackSize) :
    Nat → Run (List ResultInfo × Processor M DataStackSize ReturnStackSize)
  | 0 => pure ([], self)
  | count + 1 => do
    let first ← executeCycle host self
    let rest ← executeCycles host first.2 count
    pure (first.1 :: rest.1, rest.2)

end Processor

end StackLanguage

namespace StackLanguage

namespace Processor

/-- A running processor over the null host, in the middle of a program: the
state `start()` and some cycles have left, with no break handler and an empty
trace. -/
def midRun (DataStackSize ReturnStackSize : Nat) (instructions : InstructionList)
    (dataStack : List Word × Nat) (returnStack : List Address × Nat)
    (instructionPointer : Address) : Processor Unit DataStackSize ReturnStackSize :=
  { environment := { instructions := instructions },
    state := { dataStack := { container := { items := dataStack.1, next := dataStack.2 } },
               returnStack := { container := { items := returnStack.1, next := returnStack.2 } },
               instructionPointer := instructionPointer },
    breakHandler := false, running := true, completed := false, memory := (), trace := [] }

end Processor

end StackLanguage

namespace StackLanguage

namespace Processor

/-- The sample Data Stack `[1, 2, 3]` of capacity 4, in a running processor
without a program. -/
def sampleOneTwoThree : Processor Unit 4 2 :=
  Processor.midRun 4 2 [] ([1, 2, 3, 0], 3) ([0, 0], 0) 0

end Processor

end StackLanguage

namespace StackLanguage

namespace Processor

/-- The sample program `Call 2, End, Return`, started, with an empty Return Stack
of capacity 2. -/
def sampleCallProgram : Processor Unit 4 2 :=
  Processor.midRun 4 2
    [Instruction.ofWord Opcode.Call 2, Instruction.ofOpcode Opcode.End,
     Instruction.ofOpcode Opcode.Return]
    ([0, 0, 0, 0], 0) ([0, 0], 0) 0

/-- A sample processor whose Return Stack `[7, 9]` of capacity 2 is full, with
the instruction pointer at 5. -/
def sampleFullReturnStack : Processor Unit 4 2 :=
  Processor.midRun 4 2 [] ([0, 0, 0, 0], 0) ([7, 9], 2) 5

/-- The sample program `JumpRelative -1, JumpAbsolute 9`, started with the
instruction pointer at `ip`. -/
def sampleJumpProgram (ip : Address) : Processor Unit 4 2 :=
  Processor.midRun 4 2
    [Instruction.ofSWord Opcode.JumpRelative (-1), Instruction.ofWord Opcode.JumpAbsolute 9]
    ([0, 0, 0, 0], 0) ([0, 0], 0) ip

end Processor

end StackLanguage

namespace StackLanguage

/-! ## Deque.h: searching and removing by value -/

namespace Deque

variable {α : Type} {Capacity : Nat}

/-- The loop `for (i = start; i < getCount(); ++i) if (items[i] == item) return true;`
of `contains`, by recursion on the number of iterations still to run; after it,
`return false`. -/
def containsLoop [DecidableEq α] (items : List α) (item : α) : Nat → Nat → Option Bool
  | 0, _ => some false
  | k + 1, i => do
    let v ← readItem items i
    if v = item then some true else containsLoop items item k (i + 1)

/-- Member function `contains(item)`. -/
def contains [DecidableEq α] (self : Deque α Capacity) (item : α) : Option Bool :=
  containsLoop self.items item self.getCount 0

/-- The loop `for (i = start; i < getCount(); ++i) if (items[i] == item) return i;`
of `indexOfFirst`, by recursion on the number of iterations still to run; after
it, `return InvalidIndex`. -/
def indexOfFirstLoop [DecidableEq α] (items : List α) (item : α) : Nat → Nat → Option Nat
  | 0, _ => some InvalidIndex
  | k + 1, i => do
    let v ← readItem items i
    if v = item then some i else indexOfFirstLoop items item k (i + 1)

/-- Member function `indexOfFirst(item)`. -/
def indexOfFirst [DecidableEq α] (self : Deque α Capacity) (item : α) : Option Nat :=
  indexOfFirstLoop self.items item self.getCount 0

/-- The loop `for (i = start; i > FirstIndex; --i) if (items[i] == item) return i;`
of `indexOfLast`, by recursion on the loop variable `i`; after it,
`return InvalidIndex`. -/
def indexOfLastLoop [DecidableEq α] (items : List α) (item : α) : Nat → Option Nat
  | 0 => some InvalidIndex
  | i + 1 => do
    let v ← readItem items (i + 1)
    if v = item then some (i + 1) else indexOfLastLoop items item i

/-- Member function `indexOfLast(item)`. -/
def indexOfLast [DecidableEq α] (self : Deque α Capacity) (item : α) : Option Nat :=
  indexOfLastLoop self.items item self.getLastIndex

/-- The block that `removeFirst` and `removeLast` run once `items[i] == item`:
`--next;`, the loop `for (j = i; j < next; ++j) items[j] = std::move(items[j + 1]);`
and `return true`. -/
def removeFound (self : Deque α Capacity) (i : Nat) : Option (Bool × Deque α Capacity) := do
  let next := (self.next + sizeModulus - 1) % sizeModulus
  let items ← moveDownLoop (next - i) i self.items
  some (true, { items := items, next := next })

/-- The loop `for (i = start; i < next; ++i) if (items[i] == item) { ... }` of
`removeFirst`, by recursion on the number of iterations still to run; after it,
`return false`. -/
def removeFirstLoop [DecidableEq α] (self : Deque α Capacity) (item : α) :
    Nat → Nat → Option (Bool × Deque α Capacity)
  | 0, _ => some (false, self)
  | k + 1, i => do
    let v ← readItem self.items i
    if v = item then removeFound self i else removeFirstLoop self item k (i + 1)

/-- Member function `removeFirst(item)`. -/
def removeFirst [DecidableEq α] (self : Deque α Capacity) (item : α) :
    Option (Bool × Deque α Capacity) :=
  removeFirstLoop self item self.next 0

/-- The loop `for (i = start; i > 0; --i) if (items[i] == item) { ... }` of
`removeLast`, by recursion on the loop variable `i`; after it, `return false`. -/
def removeLastLoop [DecidableEq α] (self : Deque α Capacity) (item : α) :
    Nat → Option (Bool × Deque α Capacity)
  | 0 => some (false, self)
  | i + 1 => do
    let v ← readItem self.items (i + 1)
    if v = item then removeFound self (i + 1) else removeLastLoop self item i

/-- Member function `removeLast(item)`; the loop starts at `next - 1`, computed in
`std::size_t`. -/
def removeLast [DecidableEq α] (self : Deque α Capacity) (item : α) :
    Option (Bool × Deque α Capacity) :=
  removeLastLoop self item ((self.next + sizeModulus - 1) % sizeModulus)

/-- The indices of the slots that the loop
`for (i = start; i > FirstIndex; --i) items[i] = std::move(items[i - 1]);` of
`prepend` reads and writes, in the order of the accesses. -/
def moveUpSlots : Nat → List Nat
  | 0 => []
  | i + 1 => i :: (i + 1) :: moveUpSlots i

/-- The indices of the slots of `items` that a call `prepend(item)` reads or
writes, in the order of the accesses. -/
def prependSlots (self : Deque α Capacity) : List Nat :=
  if self.isFull then []
  else
    let next := self.next + 1
    moveUpSlots next ++ [FirstIndex]

end Deque

namespace Stack

variable {α : Type} {Capacity : Nat}

/-- Member function `contains(item)`. -/
def contains [DecidableEq α] (self : Stack α Capacity) (item : α) : Option Bool :=
  self.container.contains item

/-- Member function `indexOfFirst(item)`, which returns `container.indexOfLast(item)`. -/
def indexOfFirst [DecidableEq α] (self : Stack α Capacity) (item : α) : Option Nat :=
  self.container.indexOfLast item

/-- Member function `indexOfLast(item)`, which returns `container.indexOfFirst(item)`. -/
def indexOfLast [DecidableEq α] (self : Stack α Capacity) (item : α) : Option Nat :=
  self.container.indexOfFirst item

/-- Member function `removeFirst(item)`. -/
def removeFirst [DecidableEq α] (self : Stack α Capacity) (item : α) :
    Option (Bool × Stack α Capacity) :=
  (self.container.removeFirst item).map fun r => (r.1, { container := r.2 })

/-- Member function `removeLast(item)`. -/
def removeLast [DecidableEq α] (self : Stack α Capacity) (item : α) :
    Option (Bool × Stack α Capacity) :=
  (self.container.removeLast item).map fun r => (r.1, { container := r.2 })

end Stack

/-! ## CoutPrinter.h -/

namespace CoutPrinter

/-- The decimal digits of a number, most significant first, as `std::cout <<`
writes an unsigned integer; `digits` bounds their number. -/
def decimal : Nat → Nat → List Char
  | 0, _ => []
  | digits + 1, value =>
    (if value < 10 then [] else decimal digits (value / 10)) ++ [Char.ofNat (48 + value % 10)]

end CoutPrinter

/-! ## PrinterDecorator.h -/

namespace PrinterDecorator

/-- The array of `char` that a string literal denotes: its characters and the
terminating null character, so that its size is one more than the length of the
text. -/
def literal (text : String) : List Char := text.data ++ [Char.ofNat 0]

/-- Member function `printImplementation(const char * string, std::size_t length)`:
the calls `print(string[index])` for `index < length`, in order, as the
characters they hand to `CoutPrinter::print(char)`. -/
def printImplementation (string : List Char) (length : Nat) : List Char :=
  string.take length

/-- Member function `print(const char (&array)[size])`, which calls
`print(&array[0], size)` with the size of the array. `CoutPrinter` has no
`print` of two arguments, so that call runs `printImplementation`. -/
def printArray (array : List Char) : List Char :=
  printImplementation array array.length

/-- The characters `std::cout` receives for one call made by the interpreter to
its printer. Modelled from the spec: the printer type of
`DefaultSettings<CoutPrinter>` is named in `Settings.h`, which is not among the
sources; it is the adapter that forwards a call to the supplied printer or
falls back to a built-in formatter, `PrinterDecorator<CoutPrinter>`, the one
class of the sources with the members `printMany` and `printLine(char)` that
`executePrintStack` calls. An unsigned 32-bit integer and a character go to `CoutPrinter::print`, which
writes the integer in decimal (at most 10 digits); a string literal, the first
argument of `printMany`, selects `print(const char (&array)[size])`;
`printLine()` goes to `CoutPrinter::printLine()`, which writes `\n`. A call of
the break handler writes nothing. -/
def written : Event → List Char
  | Event.word value => CoutPrinter.decimal 10 value
  | Event.char code => [Char.ofNat code]
  | Event.text string => printArray (literal string)
  | Event.line => [Char.ofNat 10]
  | Event.breakHandler => []

/-- The characters `std::cout` has received after the calls of a trace. -/
def output (trace : List Event) : List Char := (trace.map written).flatten

end PrinterDecorator

/-- A host that hands out no memory (its allocator returns the null pointer
every time) and whose machine memory is a row of word cells that any pointer
into the row reads and writes. -/
def flatHost : Host (List Word) where
  malloc := fun m _ => (0, m)
  calloc := fun m _ _ => (0, m)
  realloc := fun m address _ => if address = 0 then some (0, m) else none
  free := fun m address => if address = 0 then some m else none
  loadByte := fun m address => m[address]?.map fun cell => cell % 2 ^ 8
  loadWord := fun m address => m[address]?
  storeByte := fun m address value =>
    if address < m.length then some (m.set address value) else none
  storeWord := fun m address value =>
    if address < m.length then some (m.set address value) else none

namespace Processor

variable {M : Type} {DataStackSize ReturnStackSize : Nat}

/-- The loop `while (isRunning()) { result = executeCycle(); if (result.isError())
return result; }` of `run` with the `return` that follows it. `tests` bounds
the number of tests of the loop condition: `none` is a loop still going after
that many tests. -/
def runLoop (host : Host M) :
    Nat → Processor M DataStackSize ReturnStackSize →
      Run (Option (ResultInfo × Processor M DataStackSize ReturnStackSize))
  | 0, _ => pure none
  | tests + 1, self =>
    if self.isRunning then do
      let result ← executeCycle host self
      if result.1.isError then pure (some result)
      else runLoop host tests result.2
    else
      pure (some (if self.hasCompleted then resultSuccess else resultError "Error unknown", self))

/-- Member function `run()`, with a bound on the number of tests of the loop
condition. -/
def run (host : Host M) (tests : Nat) (self : Processor M DataStackSize ReturnStackSize) :
    Run (Option (ResultInfo × Processor M DataStackSize ReturnStackSize)) :=
  runLoop host tests self.start

end Processor

/-! ## Main.cpp -/

/-- Function `createEnvironment(printer)`: the instructions it adds to the list,
in order. The operands `15`, `30` and `'A'` are of type `int` or promoted to it,
which selects the constructor `Instruction(Opcode, SWord)`; 65 is the code of
the character `A`. -/
def createEnvironment : Environment :=
  { instructions :=
      [Instruction.ofSWord Opcode.Push 15,
       Instruction.ofSWord Opcode.Push 30,
       Instruction.ofOpcode Opcode.PrintStack,
       Instruction.ofOpcode Opcode.Add,
       Instruction.ofOpcode Opcode.PrintStack,
       Instruction.ofOpcode Opcode.Break,
       Instruction.ofSWord Opcode.Push 65,
       Instruction.ofOpcode Opcode.PrintChar,
       Instruction.ofOpcode Opcode.Break,
       Instruction.ofOpcode Opcode.End] }

/-- The processor `ProcessorType(environment, breakHandler)` of `mainNoArguments`:
the demonstration program, a break handler, an empty trace. -/
def mainProcessor {M : Type} (DataStackSize ReturnStackSize : Nat) (memory : M) :
    Processor M DataStackSize ReturnStackSize :=
  Processor.create createEnvironment.instructions true memory

/-! ## Descriptions of states and of output -/

namespace Processor

variable {M : Type} {DataStackSize ReturnStackSize : Nat}

/-- A processor with a break handler in the middle of a run of `program`:
running, not completed, with the given instruction pointer, Data Stack contents
and trace. -/
def IsAt (p : Processor M DataStackSize ReturnStackSize) (program : InstructionList)
    (instructionPointer : Address) (dataStack : List Word) (trace : List Event) : Prop :=
  p.environment.instructions = program ∧ p.state.instructionPointer = instructionPointer
    ∧ p.state.dataStack.container.WellFormed ∧ p.state.dataStack.container.contents = dataStack
    ∧ p.running = true ∧ p.completed = false ∧ p.breakHandler = true ∧ p.trace = trace

/-- The calls to the printer that list the elements after the first one: the
string `", "` and then the element, for each of them in order. -/
def separated : List Word → List Event
  | [] => []
  | element :: rest => Event.text ", " :: Event.word element :: separated rest

/-- The calls to the printer that write a bracketed, comma-separated listing of
`elements` and end the line: `[`, the elements with `", "` between consecutive
ones, `]`, the line terminator. -/
def stackListing : List Word → List Event
  | [] => [Event.char 91, Event.char 93, Event.line]
  | first :: rest =>
    [Event.char 91, Event.word first] ++ separated rest ++ [Event.char 93, Event.line]

end Processor

end StackLanguage

namespace StackLanguage

namespace Processor

/-- A running processor on the flat host whose memory holds the cells
`[7, 8, 9]`, none of them handed out by the allocator, with the Data Stack
`[1, 1, 99]` of capacity 4. -/
def sampleFlatMemory : Processor (List Word) 4 2 :=
  { environment := { instructions := [] },
    state := { dataStack := { container := { items := [1, 1, 99, 0], next := 3 } },
               returnStack := { container := { items := [0, 0], next := 0 } },
               instructionPointer := 0 },
    breakHandler := false, running := true, completed := false, memory := [7, 8, 9],
    trace := [] }

end Processor

end StackLanguage

namespace StackLanguage

/-! ## Processor.h on a machine that goes on after an undefined operation

A read of a slot outside the storage, a shift by 32 or more and the negation of
the least `int` have no defined result, and the functions above stop there with
a `Fault`. On a machine that does not trap, such an operation yields some word
and the handler goes on. The functions below follow the same source text and
take that word, `garbage`, as a parameter. -/

/-- An array access made by the containers, where a slot outside the storage
yields `garbage`. -/
def accessLenient {α : Type} (garbage : α) : Option α → Run α
  | some a => Except.ok a
  | none => Except.ok garbage

namespace Processor

variable {M : Type} {DataStackSize ReturnStackSize : Nat}

/-- The operator `<<` on 32-bit words, where a count of 32 or more yields
`garbage`. -/
def shiftLeftLenient (garbage : Word) (a count : Word) : Run Word :=
  if count < 32 then pure (shl32 a count) else pure garbage

/-- The operator `>>` on 32-bit words, where a count of 32 or more yields
`garbage`. -/
def shiftRightLenient (garbage : Word) (a count : Word) : Run Word :=
  if count < 32 then pure (a >>> count) else pure garbage

/-- The expression `(1 << value)` converted to a word, where a count of 32 or
more yields `garbage`. -/
def bitLenient (garbage : Word) (value : Word) : Run Word :=
  if value < 32 then pure (2 ^ value) else pure garbage

/-- Member function `executePick(instruction)`, where the read `stack[index]` of
a slot outside the storage yields `garbage`. -/
def executePickLenient (garbage : Word) (self : Processor M DataStackSize ReturnStackSize)
    (instruction : Instruction) : Run (ResultInfo × Processor M DataStackSize ReturnStackSize) :=
  let offset := (instruction.getOperand + 1) % 2 ^ 32
  let resultInfo := self.assertDataStackSize offset
  if resultInfo.getStatus = ResultStatus.Error then pure (resultInfo, self)
  else do
    let stack := self.state.getDataStack
    let endIndex := (stack.getCount + sizeModulus - 1) % sizeModulus
    let index := (endIndex + sizeModulus - offset) % sizeModulus
    let element ← accessLenient garbage (stack.subscript index)
    let pushed ← access (stack.push element)
    pure (resultSuccess, self.setDataStack pushed.2)

/-- Member function `executeRoll(instruction)`, where the read `stack[index]` of
a slot outside the storage yields `garbage`. -/
def executeRollLenient (garbage : Word) (self : Processor M DataStackSize ReturnStackSize)
    (instruction : Instruction) : Run (ResultInfo × Processor M DataStackSize ReturnStackSize) :=
  let offset := instruction.getOperand
  let resultInfo := self.assertDataStackSize offset
  if resultInfo.getStatus = ResultStatus.Error then pure (resultInfo, self)
  else do
    let stack := self.state.getDataStack
    let endIndex := (stack.getCount + sizeModulus - 1) % sizeModulus
    let index := (endIndex + sizeModulus - offset) % sizeModulus
    let element ← accessLenient garbage (stack.subscript index)
    let removed ← access (stack.removeAt index)
    let pushed ← access (removed.2.push element)
    pure (resultSuccess, self.setDataStack pushed.2)

/-- Member function `executeNegate(instruction)`, where `-value` of the least
`int` yields `garbage`. -/
def executeNegateLenient (garbage : Word) (self : Processor M DataStackSize ReturnStackSize)
    (_instruction : Instruction) : Run (ResultInfo × Processor M DataStackSize ReturnStackSize) :=
  let resultInfo := self.assertDataStackSize 1
  if resultInfo.getStatus = ResultStatus.Error then pure (resultInfo, self)
  else do
    let stack := self.state.getDataStack
    let stack ← updatePeek stack fun top =>
      let value := toSWord top
      if value = -2 ^ 31 then pure garbage else pure (toWord (-value))
    pure (resultSuccess, self.setDataStack stack)

/-- Member function `executeShiftLeft(instruction)` with `shiftLeftLenient`. -/
def executeShiftLeftLenient (garbage : Word) (self : Processor M DataStackSize ReturnStackSize)
    (_instruction : Instruction) : Run (ResultInfo × Processor M DataStackSize ReturnStackSize) :=
  let resultInfo := self.assertDataStackSize 2
  if resultInfo.getStatus = ResultStatus.Error then pure (resultInfo, self)
  else do
    let stack := self.state.getDataStack
    let value ← access stack.peek
    let stack := stack.drop
    let stack ← updatePeek stack fun top => shiftLeftLenient garbage top value
    pure (resultSuccess, self.setDataStack stack)

/-- Member function `executeShiftLeftImmediate(instruction)` with
`shiftLeftLenient`. -/
def executeShiftLeftImmediateLenient (garbage : Word)
    (self : Processor M DataStackSize ReturnStackSize) (instruction : Instruction) :
    Run (ResultInfo × Processor M DataStackSize ReturnStackSize) :=
  let resultInfo := self.assertDataStackSize 2
  if resultInfo.getStatus = ResultStatus.Error then pure (resultInfo, self)
  else do
    let stack := self.state.getDataStack
    let stack ← updatePeek stack fun top => shiftLeftLenient garbage top instruction.getOperand
    pure (resultSuccess, self.setDataStack stack)

/-- Member function `executeShiftRight(instruction)` with `shiftRightLenient`. -/
def executeShiftRightLenient (garbage : Word) (self : Processor M DataStackSize ReturnStackSize)
    (_instruction : Instruction) : Run (ResultInfo × Processor M DataStackSize ReturnStackSize) :=
  let resultInfo := self.assertDataStackSize 2
  if resultInfo.getStatus = ResultStatus.Error then pure (resultInfo, self)
  else do
    let stack := self.state.getDataStack
    let value ← access stack.peek
    let stack := stack.drop
    let stack ← updatePeek stack fun top => shiftRightLenient garbage top value
    pure (resultSuccess, self.setDataStack stack)

/-- Member function `executeShiftRightImmediate(instruction)` with
`shiftRightLenient`. -/
def executeShiftRightImmediateLenient (garbage : Word)
    (self : Processor M DataStackSize ReturnStackSize) (instruction : Instruction) :
    Run (ResultInfo × Processor M DataStackSize ReturnStackSize) :=
  let resultInfo := self.assertDataStackSize 2
  if resultInfo.getStatus = ResultStatus.Error then pure (resultInfo, self)
  else do
    let stack := self.state.getDataStack
    let stack ← updatePeek stack fun top => shiftRightLenient garbage top instruction.getOperand
    pure (resultSuccess, self.setDataStack stack)

/-- Member function `executeBitSet(instruction)` with `bitLenient`. -/
def executeBitSetLenient (garbage : Word) (self : Processor M DataStackSize ReturnStackSize)
    (_instruction : Instruction) : Run (ResultInfo × Processor M DataStackSize ReturnStackSize) :=
  let resultInfo := self.assertDataStackSize 2
  if resultInfo.getStatus = ResultStatus.Error then pure (resultInfo, self)
  else do
    let stack := self.state.getDataStack
    let value ← access stack.peek
    let stack := stack.drop
    let stack ← updatePeek stack fun top => do
      let mask ← bitLenient garbage value
      pure (top ||| mask)
    pure (resultSuccess, self.setDataStack stack)

/-- Member function `executeBitClear(instruction)` with `bitLenient`. -/
def executeBitClearLenient (garbage : Word) (self : Processor M DataStackSize ReturnStackSize)
    (_instruction : Instruction) : Run (ResultInfo × Processor M DataStackSize ReturnStackSize) :=
  let resultInfo := self.assertDataStackSize 2
  if resultInfo.getStatus = ResultStatus.Error then pure (resultInfo, self)
  else do
    let stack := self.state.getDataStack
    let value ← access stack.peek
    let stack := stack.drop
    let stack ← updatePeek stack fun top => do
      let mask ← bitLenient garbage value
      pure (top &&& complement mask)
    pure (resultSuccess, self.setDataStack stack)

/-- Member function `executeBitToggle(instruction)` with `bitLenient`. -/
def executeBitToggleLenient (garbage : Word) (self : Processor M DataStackSize ReturnStackSize)
    (_instruction : Instruction) : Run (ResultInfo × Processor M DataStackSize ReturnStackSize) :=
  let resultInfo := self.assertDataStackSize 2
  if resultInfo.getStatus = ResultStatus.Error then pure (resultInfo, self)
  else do
    let stack := self.state.getDataStack
    let value ← access stack.peek
    let stack := stack.drop
    let stack ← updatePeek stack fun top => do
      let mask ← bitLenient garbage value
      pure (top ^^^ mask)
    pure (resultSuccess, self.setDataStack stack)

/-- Member function `execute(instruction)` on a machine that goes on: the ten
`case` labels whose handler can meet an undefined operation run the handler
above, every other label and `default` are those of `execute`. -/
def executeLenient (host : Host M) (garbage : Word)
    (self : Processor M DataStackSize ReturnStackSize) (instruction : Instruction) :
    Run (ResultInfo × Processor M DataStackSize ReturnStackSize) :=
  if instruction.getOpcode = Opcode.Pick then self.executePickLenient garbage instruction
  else if instruction.getOpcode = Opcode.Roll then self.executeRollLenient garbage instruction
  else if instruction.getOpcode = Opcode.Negate then self.executeNegateLenient garbage instruction
  else if instruction.getOpcode = Opcode.ShiftLeft then
    self.executeShiftLeftLenient garbage instruction
  else if instruction.getOpcode = Opcode.ShiftLeftImmediate then
    self.executeShiftLeftImmediateLenient garbage instruction
  else if instruction.getOpcode = Opcode.ShiftRight then
    self.executeShiftRightLenient garbage instruction
  else if instruction.getOpcode = Opcode.ShiftRightImmediate then
    self.executeShiftRightImmediateLenient garbage instruction
  else if instruction.getOpcode = Opcode.BitSet then self.executeBitSetLenient garbage instruction
  else if instruction.getOpcode = Opcode.BitClear then
    self.executeBitClearLenient garbage instruction
  else if instruction.getOpcode = Opcode.BitToggle then
    self.executeBitToggleLenient garbage instruction
  else execute host self instruction

/-- Member function `executeCycle()` with `executeLenient`. -/
def executeCycleLenient (host : Host M) (garbage : Word)
    (self : Processor M DataStackSize ReturnStackSize) :
    Run (ResultInfo × Processor M DataStackSize ReturnStackSize) :=
  if self.hasCompleted then pure (resultSuccess, self)
  else if !self.isRunning then pure (resultError "Processor not running", self)
  else
    let instructionPointer := self.state.getInstructionPointer
    let instructions := self.environment.getInstructions
    if instructionPointer ≥ instructions.length then
      pure (resultError "Jumped to invalid address", self)
    else do
      let instruction ← access instructions[instructionPointer]?
      executeLenient host garbage { self with state := self.state.incrementInstructionPointer }
        instruction

/-- The call `executeCycle()` made `count` times in a row on a machine that goes
on, with the results of the calls in order; `garbage k` is the word an undefined
operation yields in call number `k`. -/
def executeCyclesLenient (host : Host M) :
    (Nat → Word) → Processor M DataStackSize ReturnStackSize → Nat →
      Run (List ResultInfo × Processor M DataStackSize ReturnStackSize)
  | _, self, 0 => pure ([], self)
  | garbage, self, count + 1 => do
    let first ← executeCycleLenient host (garbage 0) self
    let rest ← executeCyclesLenient host (fun k => garbage (k + 1)) first.2 count
    pure (first.1 :: rest.1, rest.2)

/-- The opcodes of the categories stack manipulation, flow control, arithmetic,
bitwise operations and bit operations of `Opcode.h`, with Nop and End. -/
def pureOpcodes : List Opcode :=
  [Opcode.Nop, Opcode.End,
   Opcode.Push, Opcode.Drop, Opcode.Pick, Opcode.Roll, Opcode.Duplicate, Opcode.Swap,
   Opcode.Rotate, Opcode.Over,
   Opcode.Call, Opcode.CallIndirect, Opcode.Return, Opcode.JumpRelative, Opcode.JumpAbsolute,
   Opcode.Add, Opcode.AddImmediate, Opcode.Subtract, Opcode.SubtractImmediate, Opcode.Negate,
   Opcode.And, Opcode.AndImmediate, Opcode.Or, Opcode.OrImmediate, Opcode.ExclusiveOr,
   Opcode.ExclusiveOrImmediate, Opcode.ShiftLeft, Opcode.ShiftLeftImmediate, Opcode.ShiftRight,
   Opcode.ShiftRightImmediate, Opcode.Not,
   Opcode.BitSet, Opcode.BitClear, Opcode.BitToggle]

end Processor

end StackLanguage
/-! ## Properties of the instruction codec -/

namespace StackLanguage
namespace Instruction

theorem and_operandMask (x : Nat) : x &&& 0x00FFFFFF = x % 2 ^ 24 :=
  Nat.and_pow_two_sub_one_eq_mod x 24

theorem and_opcodeMask (x : Nat) : x &&& 0x000000FF = x % 2 ^ 8 :=
  Nat.and_pow_two_sub_one_eq_mod x 8

theorem and_low23 (x : Nat) : x &&& 0x007FFFFF = x % 2 ^ 23 :=
  Nat.and_pow_two_sub_one_eq_mod x 23

theorem and_bit23_ne_zero (x : Nat) : (x &&& 0x00800000) ≠ 0 ↔ 2 ^ 23 ≤ x % 2 ^ 24 := by
  have h := Nat.and_two_pow x 23
  have e : (0x00800000 : Nat) = 2 ^ 23 := by norm_num
  rw [e, h, Nat.testBit_to_div_mod]
  by_cases c : x / 2 ^ 23 % 2 = 1
  · simp [c]; omega
  · simp [c]; omega

theorem or_high_of_lt (x : Nat) (h : x < 2 ^ 24) : x ||| 0xFF000000 = 0xFF000000 + x := by
  have := Nat.mul_add_lt_is_or h 255
  rw [Nat.or_comm]
  simpa using this.symm

theorem or_high_mod (x : Nat) : (x ||| 0xFF000000) % 2 ^ 24 = x % 2 ^ 24 := by
  apply Nat.eq_of_testBit_eq
  intro i
  have e : (0xFF000000 : Nat) = 255 <<< 24 := by decide
  rw [Nat.testBit_mod_two_pow, Nat.testBit_mod_two_pow, Nat.testBit_or, e, Nat.testBit_shiftLeft]
  by_cases c : i < 24
  · have : ¬ i ≥ 24 := by omega
    simp [c, this]
  · simp [c]

theorem or_high_lt (x : Nat) (h : x < 2 ^ 32) : x ||| 0xFF000000 < 2 ^ 32 :=
  Nat.or_lt_two_pow h (by norm_num)

theorem shl32_zero (a : Nat) : shl32 a 0 = a % 2 ^ 32 := by
  simp [shl32]

theorem shl32_opcode (a : Nat) (h : a < 2 ^ 8) : shl32 a 24 = 2 ^ 24 * a := by
  unfold shl32
  rw [Nat.shiftLeft_eq]
  omega

theorem field_or (a y : Nat) (h : y < 2 ^ 24) : 2 ^ 24 * a ||| y = 2 ^ 24 * a + y :=
  (Nat.mul_add_lt_is_or h a).symm


theorem signExtend_eq (x : Nat) (h : x < 2 ^ 32) :
    signExtend x = if x % 2 ^ 24 < 2 ^ 23 then ((x % 2 ^ 23 : Nat) : Int)
      else ((x ||| 0xFF000000 : Nat) : Int) - 2 ^ 32 := by
  unfold signExtend
  by_cases c : (x &&& 0x00800000) ≠ 0
  · have c2 := (and_bit23_ne_zero x).1 c
    have hl := or_high_lt x h
    have hm := or_high_mod x
    have hge : 2 ^ 31 ≤ x ||| 0xFF000000 := by
      apply Nat.testBit_implies_ge
      rw [Nat.testBit_or]
      have : Nat.testBit 0xFF000000 31 = true := by decide
      simp [this]
    rw [if_pos c, if_neg (by omega)]
    unfold toSWord
    rw [if_neg (by omega)]
    have : (x ||| 0xFF000000) % 2 ^ 32 = x ||| 0xFF000000 := Nat.mod_eq_of_lt hl
    rw [this]
  · have c2 : ¬ 2 ^ 23 ≤ x % 2 ^ 24 := fun h2 => c ((and_bit23_ne_zero x).2 h2)
    rw [if_neg c, if_pos (by omega), and_low23]
    unfold toSWord
    rw [if_pos (by omega)]
    have : x % 2 ^ 23 % 2 ^ 32 = x % 2 ^ 23 := by omega
    rw [this]

theorem toWord_signExtend_mod (x : Nat) (h : x < 2 ^ 32) :
    toWord (signExtend x) % 2 ^ 24 = x % 2 ^ 24 := by
  rw [signExtend_eq x h]
  have hl := or_high_lt x h
  have hm := or_high_mod x
  unfold toWord
  split <;> omega

theorem createInstructionValueWord_eq (opcode value : Nat) :
    createInstructionValueWord opcode value = 2 ^ 24 * (opcode % 2 ^ 8) + value % 2 ^ 24 := by
  unfold createInstructionValueWord opcodeMask opcodeShift operandMask operandShift
  rw [and_opcodeMask, and_operandMask, shl32_zero, shl32_opcode _ (Nat.mod_lt _ (by norm_num))]
  have : value % 2 ^ 24 % 2 ^ 32 = value % 2 ^ 24 := by omega
  rw [this, field_or _ _ (Nat.mod_lt _ (by norm_num))]

theorem createInstructionValueSWord_eq (opcode : Nat) (value : Int) :
    createInstructionValueSWord opcode value
      = 2 ^ 24 * (opcode % 2 ^ 8) + toWord value % 2 ^ 24 := by
  unfold createInstructionValueSWord opcodeMask opcodeShift operandMask operandShift
  have hw : toWord value < 2 ^ 32 := by unfold toWord; omega
  rw [and_opcodeMask, and_operandMask, shl32_zero, shl32_opcode _ (Nat.mod_lt _ (by norm_num)),
    toWord_signExtend_mod _ hw]
  have : toWord value % 2 ^ 24 % 2 ^ 32 = toWord value % 2 ^ 24 := by omega
  rw [this, field_or _ _ (Nat.mod_lt _ (by norm_num))]

theorem getOpcode_eq (v : Nat) : getOpcode ⟨v⟩ = v / 2 ^ 24 % 2 ^ 8 := by
  unfold getOpcode opcodeMask opcodeShift
  rw [and_opcodeMask, Nat.shiftRight_eq_div_pow]

theorem getOperand_eq (v : Nat) : getOperand ⟨v⟩ = v % 2 ^ 24 := by
  unfold getOperand operandMask operandShift
  rw [and_operandMask, Nat.shiftRight_eq_div_pow]
  simp

theorem getSignedOperand_eq (v : Nat) :
    getSignedOperand ⟨v⟩ = if v % 2 ^ 24 < 2 ^ 23 then ((v % 2 ^ 24 : Nat) : Int)
      else ((v % 2 ^ 24 : Nat) : Int) - 2 ^ 24 := by
  unfold getSignedOperand operandMask operandShift
  have e : (v >>> 0) &&& 0x00FFFFFF = v % 2 ^ 24 := by
    rw [and_operandMask, Nat.shiftRight_eq_div_pow]; simp
  simp only [e]
  have hlt : v % 2 ^ 24 < 2 ^ 24 := Nat.mod_lt _ (by norm_num)
  rw [signExtend_eq _ (by omega)]
  have hm : v % 2 ^ 24 % 2 ^ 24 = v % 2 ^ 24 := by omega
  rw [hm]
  by_cases c : v % 2 ^ 24 < 2 ^ 23
  · rw [if_pos c, if_pos c]
    congr 1
    omega
  · rw [if_neg c, if_neg c, or_high_of_lt _ hlt]
    show (_ : Int) = _
    omega


/-- C1: for every opcode byte `op` and every signed operand `s` with
`-2^23 ≤ s ≤ 2^23 - 1`, the instruction built by the signed constructor decodes
to `getOpcode() = op` and `getSignedOperand() = s`. -/
theorem signed_roundtrip (op : Nat) (s : Int) (hop : op ≤ 255)
    (hlo : -2 ^ 23 ≤ s) (hhi : s ≤ 2 ^ 23 - 1) :
    getOpcode (ofSWord op s) = op ∧ getSignedOperand (ofSWord op s) = s := by
  unfold ofSWord
  rw [createInstructionValueSWord_eq, getOpcode_eq, getSignedOperand_eq]
  have hw : (toWord s : Int) = s % 2 ^ 32 := by
    unfold toWord; omega
  constructor
  · show (_ : Nat) = _
    omega
  · show (_ : Int) = _
    split <;> omega

theorem signed_roundtrip_witness :
    (0x23 : Nat) ≤ 255 ∧ (-2 ^ 23 : Int) ≤ -5 ∧ (-5 : Int) ≤ 2 ^ 23 - 1
      ∧ getOpcode (ofSWord 0x23 (-5)) = 0x23 ∧ getSignedOperand (ofSWord 0x23 (-5)) = -5 :=
  ⟨by decide, by decide, by decide, signed_roundtrip 0x23 (-5) (by decide) (by decide) (by decide)⟩

/-- C2: for every opcode byte `op` and every unsigned operand `u` with
`0 ≤ u ≤ 2^24 - 1`, the instruction built by the unsigned constructor decodes
to `getOpcode() = op` and `getOperand() = u`. -/
theorem unsigned_roundtrip (op u : Nat) (hop : op ≤ 255) (hu : u ≤ 2 ^ 24 - 1) :
    getOpcode (ofWord op u) = op ∧ getOperand (ofWord op u) = u := by
  unfold ofWord
  rw [createInstructionValueWord_eq, getOpcode_eq, getOperand_eq]
  constructor
  · show (_ : Nat) = _
    omega
  · show (_ : Nat) = _
    omega

theorem unsigned_roundtrip_witness :
    (0x10 : Nat) ≤ 255 ∧ (0xFFFFFF : Nat) ≤ 2 ^ 24 - 1
      ∧ getOpcode (ofWord 0x10 0xFFFFFF) = 0x10 ∧ getOperand (ofWord 0x10 0xFFFFFF) = 0xFFFFFF :=
  ⟨by decide, by decide, unsigned_roundtrip 0x10 0xFFFFFF (by decide) (by decide)⟩

/-- C3: for every raw 32-bit word `v`, `Instruction(v).getSignedOperand()` is
the low 24 bits of `v` read as a 24-bit two's-complement number: `v mod 2^24`
when bit 23 of `v` is clear and `v mod 2^24 - 2^24` when it is set; the result
lies in `[-2^23, 2^23 - 1]` and does not depend on the top byte of `v`. -/
theorem getSignedOperand_twos_complement (v : Nat) :
    (getSignedOperand (Instruction.mk v)
        = if v.testBit 23 = false then ((v % 2 ^ 24 : Nat) : Int)
          else ((v % 2 ^ 24 : Nat) : Int) - 2 ^ 24)
      ∧ -2 ^ 23 ≤ getSignedOperand (Instruction.mk v)
      ∧ getSignedOperand (Instruction.mk v) ≤ 2 ^ 23 - 1
      ∧ ∀ w : Nat, w % 2 ^ 24 = v % 2 ^ 24 →
          getSignedOperand (Instruction.mk w) = getSignedOperand (Instruction.mk v) := by
  have hbit : (v.testBit 23 = false) ↔ v % 2 ^ 24 < 2 ^ 23 := by
    rw [Nat.testBit_to_div_mod]
    simp only [decide_eq_false_iff_not]
    omega
  refine ⟨?_, ?_, ?_, ?_⟩
  · rw [getSignedOperand_eq]
    by_cases c : v % 2 ^ 24 < 2 ^ 23
    · rw [if_pos c, if_pos (hbit.2 c)]
    · rw [if_neg c, if_neg (fun h => c (hbit.1 h))]
  · rw [getSignedOperand_eq]
    show (_ : Int) ≤ _
    split <;> omega
  · rw [getSignedOperand_eq]
    show (_ : Int) ≤ _
    split <;> omega
  · intro w hw
    rw [getSignedOperand_eq, getSignedOperand_eq, hw]

/-- C4: for every opcode byte `op` and every 32-bit operand `x`, passed as an
unsigned `Word` or as the signed `SWord` with the same bit pattern, the encoded
word is `(op << 24) | (x mod 2^24)`: `getOperand() = x mod 2^24`,
`getOpcode() = op` whatever `x` is, and both constructors give the same
word. -/
theorem encode_layout (op x : Nat) (hop : op ≤ 255) (hx : x < 2 ^ 32) :
    (ofWord op x).value = (op <<< 24) ||| (x % 2 ^ 24)
      ∧ ofSWord op (toSWord x) = ofWord op x
      ∧ getOperand (ofWord op x) = x % 2 ^ 24
      ∧ getOpcode (ofWord op x) = op
      ∧ getOperand (ofSWord op (toSWord x)) = x % 2 ^ 24
      ∧ getOpcode (ofSWord op (toSWord x)) = op := by
  have hsame : ofSWord op (toSWord x) = ofWord op x := by
    unfold ofSWord ofWord
    rw [createInstructionValueSWord_eq, createInstructionValueWord_eq]
    have : toWord (toSWord x) = x := by
      unfold toWord toSWord
      split <;> omega
    rw [this]
  have hopnd : getOperand (ofWord op x) = x % 2 ^ 24 := by
    unfold ofWord
    rw [createInstructionValueWord_eq, getOperand_eq]
    show (_ : Nat) = _
    omega
  have hopc : getOpcode (ofWord op x) = op := by
    unfold ofWord
    rw [createInstructionValueWord_eq, getOpcode_eq]
    show (_ : Nat) = _
    omega
  refine ⟨?_, hsame, hopnd, hopc, ?_, ?_⟩
  · show createInstructionValueWord op x = _
    rw [createInstructionValueWord_eq, Nat.shiftLeft_eq, Nat.mul_comm op,
      field_or _ _ (Nat.mod_lt _ (by norm_num))]
    show (_ : Nat) = _
    omega
  · rw [hsame]; exact hopnd
  · rw [hsame]; exact hopc

theorem encode_layout_witness :
    (0x31 : Nat) ≤ 255 ∧ (0xABCDEF12 : Nat) < 2 ^ 32
      ∧ (ofWord 0x31 0xABCDEF12).value = 0x31CDEF12
      ∧ ofSWord 0x31 (toSWord 0xABCDEF12) = ofWord 0x31 0xABCDEF12
      ∧ getOpcode (ofWord 0x31 0xABCDEF12) = 0x31 :=
  have h := encode_layout 0x31 0xABCDEF12 (by decide) (by decide)
  ⟨by decide, by decide, h.1.trans (by decide), h.2.1, h.2.2.2.1⟩

end Instruction
end StackLanguage

/-! ## Properties of the bounded container and of the stack -/

namespace StackLanguage
namespace Deque

variable {α : Type} {Capacity : Nat}

theorem writeItem_of_lt (items : List α) (i : Nat) (v : α) (h : i < items.length) :
    writeItem items i v = some (items.set i v) := by
  unfold writeItem
  rw [if_pos h]

theorem writeItem_of_ge (items : List α) (i : Nat) (v : α) (h : items.length ≤ i) :
    writeItem items i v = none := by
  unfold writeItem
  rw [if_neg (by omega)]

theorem readItem_of_lt (items : List α) (i : Nat) (h : i < items.length) :
    readItem items i = some (items[i]) := by
  unfold readItem
  exact List.getElem?_eq_getElem h

theorem isFull_iff (d : Deque α Capacity) (hwf : d.WellFormed) :
    d.isFull = true ↔ d.next = Capacity := by
  obtain ⟨h1, h2, _, h4⟩ := hwf
  unfold isFull FinalIndex
  unfold sizeModulus at *
  rw [decide_eq_true_iff]
  omega

theorem isFull_eq_false_iff (d : Deque α Capacity) (hwf : d.WellFormed) :
    d.isFull = false ↔ d.next < Capacity := by
  have h := isFull_iff d hwf
  have hle := hwf.2.2.2
  cases hf : d.isFull
  · simp only [true_iff]
    rw [hf] at h
    have : d.next ≠ Capacity := fun e => by simpa using h.2 e
    omega
  · have := h.1 hf
    simp only [Bool.true_eq_false, false_iff]
    omega

theorem getLastIndex_of_pos (d : Deque α Capacity) (hwf : d.WellFormed) (h : 0 < d.next) :
    d.getLastIndex = d.next - 1 := by
  obtain ⟨h1, h2, _, h4⟩ := hwf
  unfold getLastIndex
  unfold sizeModulus at *
  omega

theorem wellFormed_empty [Inhabited α] (h1 : 1 ≤ Capacity) (h2 : Capacity < sizeModulus) :
    (empty : Deque α Capacity).WellFormed := by
  refine ⟨h1, h2, ?_, ?_⟩
  · simp [empty]
  · simp [empty]

theorem contents_empty [Inhabited α] : (empty : Deque α Capacity).contents = [] := by
  simp [empty, contents]

/-- What `append` does on a container that is not full. -/
theorem append_of_lt (d : Deque α Capacity) (hwf : d.WellFormed) (item : α)
    (h : d.next < Capacity) :
    d.append item = some (true, { items := d.items.set d.next item, next := d.next + 1 }) := by
  have hf := (isFull_eq_false_iff d hwf).2 h
  have hlen : d.next < d.items.length := by rw [hwf.2.2.1]; exact h
  unfold append
  rw [hf, writeItem_of_lt _ _ _ hlen]
  rfl

/-- What `append` does on a full container. -/
theorem append_of_full (d : Deque α Capacity) (hwf : d.WellFormed) (item : α)
    (h : d.next = Capacity) : d.append item = some (false, d) := by
  have hf := (isFull_iff d hwf).2 h
  unfold append
  rw [hf]
  rfl

theorem wellFormed_append (d : Deque α Capacity) (hwf : d.WellFormed) (item : α)
    (h : d.next < Capacity) :
    ({ items := d.items.set d.next item, next := d.next + 1 } : Deque α Capacity).WellFormed := by
  obtain ⟨h1, h2, h3, _⟩ := hwf
  refine ⟨h1, h2, ?_, ?_⟩
  · simp [h3]
  · show d.next + 1 ≤ Capacity
    omega

theorem contents_append (d : Deque α Capacity) (hwf : d.WellFormed) (item : α)
    (h : d.next < Capacity) :
    ({ items := d.items.set d.next item, next := d.next + 1 } : Deque α Capacity).contents
      = d.contents ++ [item] := by
  have hlen : d.next < d.items.length := by rw [hwf.2.2.1]; exact h
  unfold contents
  apply List.ext_getElem?
  intro j
  simp only [List.getElem?_take, List.getElem?_set, List.getElem?_append, List.length_take,
    List.getElem?_cons]
  have hmin : min d.next d.items.length = d.next := by omega
  rw [hmin]
  by_cases c1 : j < d.next
  · rw [if_pos (by omega), if_neg (by omega), if_pos c1, if_pos c1]
  · by_cases c2 : j = d.next
    · subst c2
      simp [hlen]
    · rw [if_neg (by omega), if_neg c1, if_neg (by omega)]
      have : (j - d.next - 1) = j - d.next - 1 := rfl
      simp

theorem contents_length (d : Deque α Capacity) (hwf : d.WellFormed) :
    d.contents.length = d.next := by
  obtain ⟨_, _, h3, h4⟩ := hwf
  unfold contents
  rw [List.length_take]
  omega

end Deque
end StackLanguage

namespace StackLanguage

namespace Stack

variable {α : Type} {Capacity : Nat}

theorem push_of_lt (s : Stack α Capacity) (hwf : s.container.WellFormed) (item : α)
    (h : s.container.next < Capacity) :
    s.push item = some (true,
      { container := { items := s.container.items.set s.container.next item,
                       next := s.container.next + 1 } }) := by
  unfold push
  rw [Deque.append_of_lt _ hwf item h]
  rfl

theorem push_of_full (s : Stack α Capacity) (hwf : s.container.WellFormed) (item : α)
    (h : s.container.next = Capacity) : s.push item = some (false, s) := by
  unfold push
  rw [Deque.append_of_full _ hwf item h]
  rfl

/-- Pushing a list of values that still fits: every call returns `true` and the
values are stored above the former contents, in order. -/
theorem pushAll_of_fits (vs : List α) :
    ∀ s : Stack α Capacity, s.container.WellFormed →
      s.container.next + vs.length ≤ Capacity →
      ∃ s' : Stack α Capacity, s.pushAll vs = some (List.replicate vs.length true, s')
        ∧ s'.container.WellFormed
        ∧ s'.container.next = s.container.next + vs.length
        ∧ s'.container.contents = s.container.contents ++ vs := by
  induction vs with
  | nil =>
    intro s hwf _
    exact ⟨s, rfl, hwf, rfl, by simp⟩
  | cons x xs ih =>
    intro s hwf hfit
    have hlt : s.container.next < Capacity := by
      simp only [List.length_cons] at hfit
      omega
    have hwf1 := Deque.wellFormed_append s.container hwf x hlt
    have hc1 := Deque.contents_append s.container hwf x hlt
    obtain ⟨s', hs', hwf', hn', hc'⟩ :=
      ih { container := { items := s.container.items.set s.container.next x,
                          next := s.container.next + 1 } } hwf1
        (by simp only [List.length_cons] at hfit; show s.container.next + 1 + xs.length ≤ Capacity; omega)
    refine ⟨s', ?_, hwf', ?_, ?_⟩
    · show (do
          let r ← s.push x
          let rs ← pushAll r.2 xs
          some (r.1 :: rs.1, rs.2)) = _
      rw [push_of_lt s hwf x hlt]
      simp only [Option.bind_eq_bind, Option.some_bind]
      rw [hs']
      rfl
    · rw [hn']
      simp only [List.length_cons]
      omega
    · rw [hc', hc1]
      simp

end Stack

namespace Deque

variable {α : Type} {Capacity : Nat}

/-- C7: for every Deque of capacity `C ≥ 1` and every item, `append` returns
`false` exactly when `getCount() = C`, and then the container is unchanged;
otherwise it returns `true`, `getCount()` grows by one, the new last element is
the item, and the elements at the indices below the old count are unchanged. -/
theorem append_spec (d : Deque α Capacity) (hwf : d.WellFormed) (item : α) :
    ∃ (b : Bool) (d' : Deque α Capacity), d.append item = some (b, d')
      ∧ (b = false ↔ d.getCount = Capacity)
      ∧ (b = false → d' = d)
      ∧ (b = true → d'.getCount = d.getCount + 1 ∧ d'.getLast = some item
          ∧ ∀ i, i < d.getCount → d'.subscript i = d.subscript i) := by
  by_cases h : d.next = Capacity
  · refine ⟨false, d, append_of_full d hwf item h, ?_, ?_, ?_⟩
    · simp [getCount, h]
    · intro _; rfl
    · intro hb; cases hb
  · have hlt : d.next < Capacity := lt_of_le_of_ne hwf.2.2.2 h
    have hlen : d.next < d.items.length := by rw [hwf.2.2.1]; exact hlt
    refine ⟨true, _, append_of_lt d hwf item hlt, ?_, ?_, ?_⟩
    · simp [getCount, h]
    · intro hb; cases hb
    · intro _
      have hwf' := wellFormed_append d hwf item hlt
      refine ⟨rfl, ?_, ?_⟩
      · unfold getLast
        rw [getLastIndex_of_pos _ hwf' (Nat.succ_pos _)]
        show readItem (d.items.set d.next item) (d.next + 1 - 1) = some item
        unfold readItem
        rw [Nat.add_sub_cancel, List.getElem?_set_self hlen]
      · intro i hi
        unfold subscript readItem
        show (d.items.set d.next item)[i]? = d.items[i]?
        have hne : d.next ≠ i := by
          unfold getCount at hi
          omega
        rw [List.getElem?_set_ne hne]

theorem append_spec_witness :
    (⟨[5, 0], 1⟩ : Deque Nat 2).WellFormed
      ∧ ∃ (b : Bool) (d' : Deque Nat 2), (⟨[5, 0], 1⟩ : Deque Nat 2).append 9 = some (b, d')
        ∧ (b = false ↔ (⟨[5, 0], 1⟩ : Deque Nat 2).getCount = 2)
        ∧ (b = false → d' = ⟨[5, 0], 1⟩)
        ∧ (b = true → d'.getCount = (⟨[5, 0], 1⟩ : Deque Nat 2).getCount + 1
            ∧ d'.getLast = some 9
            ∧ ∀ i, i < (⟨[5, 0], 1⟩ : Deque Nat 2).getCount →
                d'.subscript i = (⟨[5, 0], 1⟩ : Deque Nat 2).subscript i) :=
  ⟨by decide, append_spec ⟨[5, 0], 1⟩ (by decide) 9⟩

end Deque

namespace Stack

variable {α : Type}

/-- C5: for every capacity `N ≥ 1` and every sequence of `N` values, starting
from an empty Stack all `N` calls of `push` return `true`; afterwards
`isFull()` is true and `getCount() = N`, and one more `push` returns `false`
and leaves the stack, its count and every stored element, as it was. -/
theorem push_until_full [Inhabited α] (N : Nat) (hN : 1 ≤ N) (hsize : N < sizeModulus)
    (vs : List α) (hlen : vs.length = N) (extra : α) :
    ∃ s : Stack α N, (Stack.empty : Stack α N).pushAll vs = some (List.replicate N true, s)
      ∧ s.isFull = true ∧ s.getCount = N
      ∧ s.container.contents = vs
      ∧ s.push extra = some (false, s) := by
  have hwf0 : (Stack.empty : Stack α N).container.WellFormed := Deque.wellFormed_empty hN hsize
  have hn0 : (Stack.empty : Stack α N).container.next = 0 := rfl
  obtain ⟨s, hs, hwf, hn, hc⟩ := pushAll_of_fits vs (Stack.empty : Stack α N) hwf0
    (by rw [hn0, hlen]; omega)
  rw [hn0, hlen, Nat.zero_add] at hn
  rw [hlen] at hs
  refine ⟨s, hs, ?_, hn, ?_, push_of_full s hwf extra hn⟩
  · exact (Deque.isFull_iff _ hwf).2 hn
  · rw [hc]
    show (Deque.empty : Deque α N).contents ++ vs = vs
    rw [Deque.contents_empty]
    rfl

theorem push_until_full_witness :
    1 ≤ 3 ∧ 3 < sizeModulus ∧ [10, 20, 30].length = 3
      ∧ ∃ s : Stack Nat 3, (Stack.empty : Stack Nat 3).pushAll [10, 20, 30]
            = some (List.replicate 3 true, s)
          ∧ s.isFull = true ∧ s.getCount = 3
          ∧ s.container.contents = [10, 20, 30]
          ∧ s.push 40 = some (false, s) :=
  ⟨by decide, by decide, by decide,
    push_until_full 3 (by decide) (by decide) [10, 20, 30] (by decide) 40⟩

end Stack
end StackLanguage

namespace StackLanguage

namespace Deque

variable {α : Type} {Capacity : Nat}

/-- The downward-moving loop, when every slot it reads exists: slot `j` of the
range `[i, i + k)` receives the former slot `j + 1`, the others keep their
value. -/
theorem moveDownLoop_spec (k : Nat) :
    ∀ (i : Nat) (items : List α), i + k < items.length →
      ∃ r, moveDownLoop k i items = some r ∧ r.length = items.length
        ∧ ∀ j, r[j]? = if i ≤ j ∧ j < i + k then items[j + 1]? else items[j]? := by
  induction k with
  | zero =>
    intro i items _
    refine ⟨items, rfl, rfl, ?_⟩
    intro j
    rw [if_neg (by omega)]
  | succ k ih =>
    intro i items h
    have h1 : i + 1 < items.length := by omega
    have h0 : i < items.length := by omega
    obtain ⟨r, hr, hlen, hget⟩ := ih (i + 1) (items.set i items[i + 1])
      (by rw [List.length_set]; omega)
    refine ⟨r, ?_, ?_, ?_⟩
    · show (do
          let v ← readItem items (i + 1)
          let items ← writeItem items i v
          moveDownLoop k (i + 1) items) = some r
      rw [readItem_of_lt _ _ h1]
      simp only [Option.bind_eq_bind, Option.some_bind]
      rw [writeItem_of_lt _ _ _ h0]
      simp only [Option.some_bind]
      exact hr
    · rw [hlen, List.length_set]
    · intro j
      rw [hget j]
      by_cases c : i + 1 ≤ j ∧ j < i + 1 + k
      · rw [if_pos c, if_pos (by omega), List.getElem?_set_ne (by omega)]
      · rw [if_neg c]
        by_cases c2 : j = i
        · subst c2
          rw [if_pos (by omega), List.getElem?_set_self h0, List.getElem?_eq_getElem h1]
        · rw [if_neg (by omega), List.getElem?_set_ne (by omega)]

/-- The downward-moving loop reads one slot past the array when its range
reaches the last slot. -/
theorem moveDownLoop_out_of_storage (k : Nat) :
    ∀ (i : Nat) (items : List α), 0 < k → i + k = items.length →
      moveDownLoop k i items = none := by
  induction k with
  | zero => intro i items h; omega
  | succ k ih =>
    intro i items _ h
    show (do
        let v ← readItem items (i + 1)
        let items ← writeItem items i v
        moveDownLoop k (i + 1) items) = none
    by_cases hk : k = 0
    · subst hk
      have : readItem items (i + 1) = none := by
        unfold readItem
        exact List.getElem?_eq_none (by omega)
      rw [this]
      rfl
    · have h1 : i + 1 < items.length := by omega
      have h0 : i < items.length := by omega
      rw [readItem_of_lt _ _ h1]
      simp only [Option.bind_eq_bind, Option.some_bind]
      rw [writeItem_of_lt _ _ _ h0]
      simp only [Option.some_bind]
      exact ih (i + 1) _ (by omega) (by rw [List.length_set]; omega)

/-- C8: for every Deque holding the sequence `a[0..n)` and every index `i`: if
`i < n`, `removeAt(i)` returns `true` and the container then holds `a[0..i)`
followed by `a[i+1..n)`, so `n - 1` elements in their former order; if
`i ≥ n`, `removeAt(i)` returns `false` and the container is unchanged. -/
theorem removeAt_spec (d : Deque α Capacity) (hwf : d.WellFormed) (i : Nat) :
    (i < d.getCount →
      ∃ d' : Deque α Capacity, d.removeAt i = some (true, d')
        ∧ d'.contents = d.contents.take i ++ d.contents.drop (i + 1)
        ∧ d'.getCount = d.getCount - 1
        ∧ d'.WellFormed)
    ∧ (d.getCount ≤ i → d.removeAt i = some (false, d)) := by
  obtain ⟨h1, h2, h3, h4⟩ := hwf
  constructor
  · intro hi
    unfold getCount at hi
    obtain ⟨r, hr, hlen, hget⟩ := moveDownLoop_spec (d.next - 1 - i) i d.items (by omega)
    refine ⟨{ items := r, next := d.next - 1 }, ?_, ?_, rfl, ⟨h1, h2, by rw [hlen, h3], ?_⟩⟩
    · unfold removeAt
      rw [if_neg (by omega)]
      simp only [Option.bind_eq_bind]
      rw [hr]
      rfl
    · unfold contents
      apply List.ext_getElem?
      intro j
      simp only [List.getElem?_take, List.getElem?_append, List.length_take,
        List.getElem?_drop, hget]
      have hmin : min i (min d.next d.items.length) = i := by omega
      rw [hmin]
      by_cases c1 : j < i
      · rw [if_pos (by omega), if_neg (by omega), if_pos c1, if_pos c1, if_pos (by omega)]
      · rw [if_neg c1]
        by_cases c2 : j < d.next - 1
        · rw [if_pos c2, if_pos (by omega), if_pos (by omega)]
          have e : i + 1 + (j - i) = j + 1 := by omega
          rw [e]
        · rw [if_neg c2, if_neg (by omega)]
    · show d.next - 1 ≤ Capacity
      omega
  · intro hi
    unfold getCount at hi
    unfold removeAt
    rw [if_pos (by omega)]

theorem removeAt_spec_witness :
    (⟨[1, 2, 3, 4], 4⟩ : Deque Nat 4).WellFormed
      ∧ ((1 < (⟨[1, 2, 3, 4], 4⟩ : Deque Nat 4).getCount →
          ∃ d' : Deque Nat 4, (⟨[1, 2, 3, 4], 4⟩ : Deque Nat 4).removeAt 1 = some (true, d')
            ∧ d'.contents = (⟨[1, 2, 3, 4], 4⟩ : Deque Nat 4).contents.take 1
                ++ (⟨[1, 2, 3, 4], 4⟩ : Deque Nat 4).contents.drop (1 + 1)
            ∧ d'.getCount = (⟨[1, 2, 3, 4], 4⟩ : Deque Nat 4).getCount - 1
            ∧ d'.WellFormed)
        ∧ ((⟨[1, 2, 3, 4], 4⟩ : Deque Nat 4).getCount ≤ 1 →
            (⟨[1, 2, 3, 4], 4⟩ : Deque Nat 4).removeAt 1
              = some (false, ⟨[1, 2, 3, 4], 4⟩))) :=
  ⟨by decide, removeAt_spec ⟨[1, 2, 3, 4], 4⟩ (by decide) 1⟩

end Deque
end StackLanguage

namespace StackLanguage

namespace Deque

variable {α : Type} {Capacity : Nat}

/-- The upward-moving loop, when every slot it writes exists: slot `j` of the
range `[1, m]` receives the former slot `j - 1`, the others keep their
value. -/
theorem moveUpLoop_spec (m : Nat) :
    ∀ items : List α, m < items.length →
      ∃ r, moveUpLoop m items = some r ∧ r.length = items.length
        ∧ ∀ j, r[j]? = if 1 ≤ j ∧ j ≤ m then items[j - 1]? else items[j]? := by
  induction m with
  | zero =>
    intro items _
    refine ⟨items, rfl, rfl, ?_⟩
    intro j
    rw [if_neg (by omega)]
  | succ m ih =>
    intro items h
    have h0 : m < items.length := by omega
    obtain ⟨r, hr, hlen, hget⟩ := ih (items.set (m + 1) items[m])
      (by rw [List.length_set]; omega)
    refine ⟨r, ?_, ?_, ?_⟩
    · show (do
          let v ← readItem items m
          let items ← writeItem items (m + 1) v
          moveUpLoop m items) = some r
      rw [readItem_of_lt _ _ h0]
      simp only [Option.bind_eq_bind, Option.some_bind]
      rw [writeItem_of_lt _ _ _ h]
      simp only [Option.some_bind]
      exact hr
    · rw [hlen, List.length_set]
    · intro j
      rw [hget j]
      by_cases c : 1 ≤ j ∧ j ≤ m
      · rw [if_pos c, if_pos (by omega), List.getElem?_set_ne (by omega)]
      · rw [if_neg c]
        by_cases c2 : j = m + 1
        · subst c2
          rw [if_pos (by omega), List.getElem?_set_self h, Nat.add_sub_cancel,
            List.getElem?_eq_getElem h0]
        · rw [if_neg (by omega), List.getElem?_set_ne (by omega)]

/-- The upward-moving loop started at an index that is not a slot of the array
touches a slot outside the storage in its first iteration. -/
theorem moveUpLoop_out_of_storage (m : Nat) (items : List α) (hm : 0 < m)
    (h : items.length ≤ m) : moveUpLoop m items = none := by
  obtain ⟨k, rfl⟩ : ∃ k, m = k + 1 := ⟨m - 1, by omega⟩
  show (do
      let v ← readItem items k
      let items ← writeItem items (k + 1) v
      moveUpLoop k items) = none
  cases hr : readItem items k with
  | none => rfl
  | some v =>
    simp only [Option.bind_eq_bind, Option.some_bind]
    rw [writeItem_of_ge _ _ _ h]
    rfl

/-- `prepend` on a full container. -/
theorem prepend_of_full (d : Deque α Capacity) (hwf : d.WellFormed) (item : α)
    (h : d.next = Capacity) : d.prepend item = some (false, d) := by
  have hf := (isFull_iff d hwf).2 h
  unfold prepend
  rw [hf]
  rfl

/-- `prepend` on a container with at least two free slots: the item is stored in
front of the former elements. -/
theorem prepend_of_room (d : Deque α Capacity) (hwf : d.WellFormed) (item : α)
    (h : d.next + 1 < Capacity) :
    ∃ d' : Deque α Capacity, d.prepend item = some (true, d')
      ∧ d'.contents = item :: d.contents ∧ d'.getCount = d.getCount + 1 ∧ d'.WellFormed := by
  have hf := (isFull_eq_false_iff d hwf).2 (by omega)
  obtain ⟨h1, h2, h3, h4⟩ := hwf
  obtain ⟨r, hr, hlen, hget⟩ := moveUpLoop_spec (d.next + 1) d.items (by omega)
  have hpos : 0 < r.length := by omega
  refine ⟨{ items := r.set 0 item, next := d.next + 1 }, ?_, ?_, rfl,
    ⟨h1, h2, by rw [List.length_set, hlen, h3], by show d.next + 1 ≤ Capacity; omega⟩⟩
  · unfold prepend
    rw [hf]
    simp only [Bool.false_eq_true, if_false, Option.bind_eq_bind]
    rw [hr]
    simp only [Option.some_bind]
    unfold FirstIndex
    rw [writeItem_of_lt _ _ _ hpos]
    rfl
  · unfold contents
    apply List.ext_getElem?
    intro j
    simp only [List.getElem?_take, List.getElem?_cons]
    by_cases c0 : j = 0
    · subst c0
      rw [if_pos (by omega), if_pos rfl, List.getElem?_set_self hpos]
    · rw [if_neg c0, List.getElem?_set_ne (by omega), hget]
      by_cases c1 : j < d.next + 1
      · rw [if_pos c1, if_pos (by omega), if_pos (by omega)]
      · rw [if_neg c1, if_neg (by omega)]

/-- `prepend` on a container with exactly one free slot: the first iteration of
the loop assigns to `items[Capacity]`, one slot past the array. -/
theorem prepend_of_last_slot (d : Deque α Capacity) (hwf : d.WellFormed) (item : α)
    (h : d.next + 1 = Capacity) : d.prepend item = none := by
  have hf := (isFull_eq_false_iff d hwf).2 (by omega)
  obtain ⟨h1, h2, h3, h4⟩ := hwf
  unfold prepend
  rw [hf]
  simp only [Bool.false_eq_true, if_false, Option.bind_eq_bind]
  rw [moveUpLoop_out_of_storage _ _ (Nat.succ_pos _) (by omega)]
  rfl

/-- `insert` on a container with at least two free slots, at an index below the
count: the loop copies slot `j + 1` onto slot `j` for `index < j ≤ count`, then
the item is stored at `index`. -/
theorem insert_of_room (d : Deque α Capacity) (hwf : d.WellFormed) (index : Nat) (item : α)
    (hi : index < d.next) (h : d.next + 1 < Capacity) :
    ∃ d' : Deque α Capacity, d.insert index item = some (true, d')
      ∧ d'.getCount = d.getCount + 1
      ∧ ∀ j, d'.subscript j =
          if j = index then some item
          else if index < j ∧ j ≤ d.next then d.subscript (j + 1)
          else d.subscript j := by
  have hf := (isFull_eq_false_iff d hwf).2 (by omega)
  obtain ⟨h1, h2, h3, h4⟩ := hwf
  obtain ⟨r, hr, hlen, hget⟩ :=
    moveDownLoop_spec (d.next + 1 - (index + 1)) (index + 1) d.items (by omega)
  have hlt : index < r.length := by omega
  refine ⟨{ items := r.set index item, next := d.next + 1 }, ?_, rfl, ?_⟩
  · unfold insert
    rw [if_neg (by omega), hf]
    simp only [Bool.false_eq_true, if_false, Option.bind_eq_bind]
    rw [hr]
    simp only [Option.some_bind]
    rw [writeItem_of_lt _ _ _ hlt]
    rfl
  · intro j
    unfold subscript readItem
    show (r.set index item)[j]? = _
    by_cases c0 : j = index
    · subst c0
      rw [if_pos rfl, List.getElem?_set_self hlt]
    · rw [if_neg c0, List.getElem?_set_ne (fun e => c0 e.symm), hget]
      by_cases c1 : index < j ∧ j ≤ d.next
      · rw [if_pos c1, if_pos (by omega)]
      · rw [if_neg c1, if_neg (by omega)]

/-- `insert` on a container with exactly one free slot, at an index below the
count: the last iteration of the loop reads `items[Capacity]`, one slot past the
array. -/
theorem insert_of_last_slot (d : Deque α Capacity) (hwf : d.WellFormed) (index : Nat)
    (item : α) (hi : index < d.next) (h : d.next + 1 = Capacity) :
    d.insert index item = none := by
  have hf := (isFull_eq_false_iff d hwf).2 (by omega)
  obtain ⟨h1, h2, h3, h4⟩ := hwf
  unfold insert
  rw [if_neg (by omega), hf]
  simp only [Bool.false_eq_true, if_false, Option.bind_eq_bind]
  rw [moveDownLoop_out_of_storage _ _ _ (by omega) (by omega)]
  rfl

/-- C9, evaluated: a `Deque<Word, 5>` that holds `[1, 2, 3]` after three calls
of `append`, then `insert(1, 9)`. The call returns `true` and the count is 4,
but the container holds `[1, 9, 0, 0]`, not `[1, 9, 2, 3]`: the loop copied
the unused slots 3 and 4 downwards over the tail instead of moving the tail
up. -/
theorem insert_overwrites_tail :
    ((Deque.empty : Deque Nat 5).append 1 >>= fun r => r.2.append 2 >>= fun r => r.2.append 3)
        = some (true, ⟨[1, 2, 3, 0, 0], 3⟩)
      ∧ (⟨[1, 2, 3, 0, 0], 3⟩ : Deque Nat 5).isFull = false
      ∧ (⟨[1, 2, 3, 0, 0], 3⟩ : Deque Nat 5).contents = [1, 2, 3]
      ∧ (⟨[1, 2, 3, 0, 0], 3⟩ : Deque Nat 5).insert 1 9 = some (true, ⟨[1, 9, 0, 0, 0], 4⟩)
      ∧ (⟨[1, 9, 0, 0, 0], 4⟩ : Deque Nat 5).contents = [1, 9, 0, 0]
      ∧ (⟨[1, 9, 0, 0, 0], 4⟩ : Deque Nat 5).contents ≠ [1, 9, 2, 3] := by
  decide

/-- C10, evaluated: a `Deque<Word, 2>` that holds `[5]` after one call of
`append` is not full, and `prepend(7)` on it does not return: after `++next`
the loop starts at `i = 2` and assigns `items[2] = items[1]`, a slot outside
the array of 2 elements. -/
theorem prepend_writes_past_storage :
    (Deque.empty : Deque Nat 2).append 5 = some (true, ⟨[5, 0], 1⟩)
      ∧ (⟨[5, 0], 1⟩ : Deque Nat 2).WellFormed
      ∧ (⟨[5, 0], 1⟩ : Deque Nat 2).isFull = false
      ∧ (⟨[5, 0], 1⟩ : Deque Nat 2).contents = [5]
      ∧ readItem (⟨[5, 0], 1⟩ : Deque Nat 2).items 1 = some 0
      ∧ writeItem (⟨[5, 0], 1⟩ : Deque Nat 2).items 2 0 = none
      ∧ (⟨[5, 0], 1⟩ : Deque Nat 2).prepend 7 = none := by
  decide

end Deque

namespace Stack

variable {α : Type} {Capacity : Nat}

/-- C6, evaluated: the `Stack<Word, 2>` emptied by `push(5); drop()`. A further
`drop()` returns (it has no result) and the stack is exactly as before, so
nothing is reported; `peek()` reads slot `2^64 - 1`, which is not a slot of the
array. -/
theorem drop_on_emptied_stack_is_silent :
    ((Stack.empty : Stack Nat 2).push 5).map (fun r => (r.1, r.2.drop))
        = some (true, ⟨⟨[5, 0], 0⟩⟩)
      ∧ (⟨⟨[5, 0], 0⟩⟩ : Stack Nat 2).getCount = 0
      ∧ (⟨⟨[5, 0], 0⟩⟩ : Stack Nat 2).drop = ⟨⟨[5, 0], 0⟩⟩
      ∧ (⟨⟨[5, 0], 0⟩⟩ : Stack Nat 2).getLastIndex = 18446744073709551615
      ∧ (⟨⟨[5, 0], 0⟩⟩ : Stack Nat 2).peek = none := by
  decide

/-- C6, amended: on every Stack with `getCount() = 0`, `drop()` returns and
leaves the stack unchanged, a no-op that reports nothing; `peek()` makes no
check and reads `items[getLastIndex()]`, where `getLastIndex()` has wrapped to
`2^64 - 1`, a slot outside the storage. -/
theorem drop_peek_on_empty (s : Stack α Capacity) (hwf : s.container.WellFormed)
    (h : s.getCount = 0) :
    s.drop = s ∧ s.getLastIndex = sizeModulus - 1 ∧ Capacity ≤ s.getLastIndex
      ∧ s.peek = none := by
  obtain ⟨h1, h2, h3, h4⟩ := hwf
  have hn : s.container.next = 0 := h
  have hidx : s.container.getLastIndex = sizeModulus - 1 := by
    unfold Deque.getLastIndex
    rw [hn]
    unfold sizeModulus
    norm_num
  refine ⟨?_, hidx, ?_, ?_⟩
  · unfold drop Deque.unappend Deque.isEmpty Deque.FirstIndex
    rw [hn]
    rfl
  · show Capacity ≤ s.container.getLastIndex
    rw [hidx]
    omega
  · unfold peek Deque.getLast Deque.readItem
    rw [hidx]
    exact List.getElem?_eq_none (by rw [h3]; omega)

theorem drop_peek_on_empty_witness :
    (⟨⟨[8, 3, 0], 0⟩⟩ : Stack Nat 3).container.WellFormed
      ∧ (⟨⟨[8, 3, 0], 0⟩⟩ : Stack Nat 3).getCount = 0
      ∧ (⟨⟨[8, 3, 0], 0⟩⟩ : Stack Nat 3).drop = ⟨⟨[8, 3, 0], 0⟩⟩
      ∧ (⟨⟨[8, 3, 0], 0⟩⟩ : Stack Nat 3).getLastIndex = sizeModulus - 1
      ∧ 3 ≤ (⟨⟨[8, 3, 0], 0⟩⟩ : Stack Nat 3).getLastIndex
      ∧ (⟨⟨[8, 3, 0], 0⟩⟩ : Stack Nat 3).peek = none :=
  ⟨by decide, by decide, drop_peek_on_empty ⟨⟨[8, 3, 0], 0⟩⟩ (by decide) (by decide)⟩

end Stack
end StackLanguage

/-! ## Properties of the capacity-zero container -/

namespace StackLanguage

namespace DequeZero

variable {α : Type}

/-- C11: for the capacity-zero Deque, in every state, `isEmpty()` and `isFull()`
are both true, `getCount() = 0` and `getCapacity() = 0`; each of `append`,
`prepend`, `insert`, `removeAt`, `removeFirst` and `removeLast` returns `false`
and leaves the container as it is, and `unappend`, `unprepend` and `clear` have
no effect. -/
theorem zero_capacity_spec (d : DequeZero α) (item : α) (index : Nat) :
    d.isEmpty = true ∧ d.isFull = true ∧ d.getCount = 0 ∧ d.getCapacity = 0
      ∧ d.append item = (false, d) ∧ d.prepend item = (false, d)
      ∧ d.insert index item = (false, d) ∧ d.removeAt index = (false, d)
      ∧ d.removeFirst item = (false, d) ∧ d.removeLast item = (false, d)
      ∧ d.unappend = d ∧ d.unprepend = d ∧ d.clear = d :=
  ⟨rfl, rfl, rfl, rfl, rfl, rfl, rfl, rfl, rfl, rfl, rfl, rfl, rfl⟩

end DequeZero

/-! ## Properties of the fetch cycle and of the dispatch -/

namespace Processor

variable {M : Type} {DataStackSize ReturnStackSize : Nat}

theorem executeCycle_of_completed (host : Host M)
    (p : Processor M DataStackSize ReturnStackSize) (h : p.hasCompleted = true) :
    executeCycle host p = Except.ok (resultSuccess, p) := by
  unfold executeCycle
  rw [if_pos h]
  rfl

theorem executeCycles_of_completed (host : Host M)
    (p : Processor M DataStackSize ReturnStackSize) (h : p.hasCompleted = true) (n : Nat) :
    executeCycles host p n = Except.ok (List.replicate n resultSuccess, p) := by
  induction n with
  | zero => rfl
  | succ n ih =>
    show (do
        let first ← executeCycle host p
        let rest ← executeCycles host first.2 n
        pure (first.1 :: rest.1, rest.2)) = _
    rw [executeCycle_of_completed host p h]
    show (do
        let rest ← executeCycles host p n
        pure (resultSuccess :: rest.1, rest.2)) = _
    rw [ih]
    rfl

/-- C12: for every processor in the Completed state, `executeCycle()` returns
Success and changes nothing: the processor after the call, with its instruction
pointer, both stacks and the running and completed flags, is the processor
before it, however many times the call is made. The Completed state is the one
an executed End opcode leaves. -/
theorem executeCycle_after_completion (host : Host M)
    (p : Processor M DataStackSize ReturnStackSize) (h : p.hasCompleted = true) :
    executeCycle host p = Except.ok (resultSuccess, p)
      ∧ (∀ n : Nat, executeCycles host p n = Except.ok (List.replicate n resultSuccess, p))
      ∧ (∀ (q : Processor M DataStackSize ReturnStackSize) (instruction : Instruction),
          instruction.getOpcode = Opcode.End →
            ∃ q', execute host q instruction = Except.ok (resultSuccess, q')
              ∧ q'.hasCompleted = true
              ∧ executeCycle host q' = Except.ok (resultSuccess, q')) := by
  refine ⟨executeCycle_of_completed host p h, executeCycles_of_completed host p h, ?_⟩
  intro q instruction hop
  refine ⟨q.complete, ?_, rfl, executeCycle_of_completed host _ rfl⟩
  unfold execute
  simp only [hop]
  rfl

theorem executeCycle_after_completion_witness :
    ((Processor.create [Instruction.ofOpcode Opcode.End] false () :
        Processor Unit 2 2).complete).hasCompleted = true
      ∧ executeCycle nullHost
          ((Processor.create [Instruction.ofOpcode Opcode.End] false () :
            Processor Unit 2 2).complete)
        = Except.ok (resultSuccess,
          (Processor.create [Instruction.ofOpcode Opcode.End] false () :
            Processor Unit 2 2).complete) :=
  ⟨rfl, (executeCycle_after_completion nullHost
    ((Processor.create [Instruction.ofOpcode Opcode.End] false () :
      Processor Unit 2 2).complete) rfl).1⟩

/-- C13: for every running, not completed processor whose instruction pointer
is at or beyond the number of instructions of the Program, `executeCycle()`
returns the Error `Jumped to invalid address` and leaves the processor, with its
instruction pointer and both stacks, as it was; when the pointer is below that
number, the instruction at that index is fetched and the handler runs on the
processor whose pointer has been advanced by one. The Program has fewer than
`2^32` instructions, the range of an address. -/
theorem executeCycle_fetch (host : Host M) (p : Processor M DataStackSize ReturnStackSize)
    (hrun : p.isRunning = true) (hnc : p.hasCompleted = false)
    (hsize : p.environment.getInstructions.length < 2 ^ 32) :
    (p.environment.getInstructions.length ≤ p.state.getInstructionPointer →
        executeCycle host p = Except.ok (resultError "Jumped to invalid address", p))
      ∧ (∀ h : p.state.getInstructionPointer < p.environment.getInstructions.length,
            executeCycle host p
              = execute host
                  { p with state :=
                      { p.state with instructionPointer := p.state.getInstructionPointer + 1 } }
                  (p.environment.getInstructions[p.state.getInstructionPointer])) := by
  constructor
  · intro hge
    unfold executeCycle
    rw [hnc, hrun]
    simp only [Bool.false_eq_true, if_false, Bool.not_true]
    rw [if_pos hge]
    rfl
  · intro hlt
    have hget := List.getElem?_eq_getElem hlt
    have hnot : ¬ p.state.getInstructionPointer ≥ p.environment.getInstructions.length := by
      unfold Address at *
      omega
    unfold executeCycle
    rw [hnc, hrun]
    simp only [Bool.false_eq_true, if_false, Bool.not_true]
    rw [if_neg hnot, hget]
    have hinc : p.state.incrementInstructionPointer
        = { p.state with instructionPointer := p.state.getInstructionPointer + 1 } := by
      unfold ProcessorState.incrementInstructionPointer ProcessorState.getInstructionPointer
      unfold ProcessorState.getInstructionPointer at hlt
      have : (p.state.instructionPointer + 1) % 2 ^ 32 = p.state.instructionPointer + 1 := by
        apply Nat.mod_eq_of_lt
        unfold Address at *
        omega
      rw [this]
    rw [hinc]
    rfl

theorem executeCycle_fetch_witness :
    ((Processor.create [Instruction.ofWord Opcode.Push 7] false () :
        Processor Unit 2 2).start).isRunning = true
      ∧ ((Processor.create [Instruction.ofWord Opcode.Push 7] false () :
        Processor Unit 2 2).start).hasCompleted = false
      ∧ ((Processor.create [Instruction.ofWord Opcode.Push 7] false () :
        Processor Unit 2 2).start).environment.getInstructions.length < 2 ^ 32
      ∧ executeCycle nullHost
          ((Processor.create [Instruction.ofWord Opcode.Push 7] false () :
            Processor Unit 2 2).start)
        = execute nullHost
            { (Processor.create [Instruction.ofWord Opcode.Push 7] false () :
                Processor Unit 2 2).start with
              state := { (ProcessorState.initial : ProcessorState 2 2) with
                instructionPointer := 0 + 1 } }
            (Instruction.ofWord Opcode.Push 7) :=
  ⟨rfl, rfl, by decide,
    (executeCycle_fetch nullHost
      ((Processor.create [Instruction.ofWord Opcode.Push 7] false () :
        Processor Unit 2 2).start) rfl rfl (by decide)).2 (by decide)⟩

end Processor

end StackLanguage

namespace StackLanguage

namespace Processor

variable {M : Type} {DataStackSize ReturnStackSize : Nat}

/-! ### What a handler can return -/

theorem success_of_pure {P : Type} (q : P) (r : ResultInfo) (p' : P)
    (h : (pure (resultSuccess, q) : Run (ResultInfo × P)) = Except.ok (r, p')) :
    r = resultSuccess := by
  cases h
  rfl

theorem success_of_bind {α P : Type} (m : Run α) (f : α → Run (ResultInfo × P))
    (hf : ∀ (a : α) (r : ResultInfo) (p' : P), f a = Except.ok (r, p') → r = resultSuccess)
    (r : ResultInfo) (p' : P) (h : (m >>= f) = Except.ok (r, p')) : r = resultSuccess := by
  cases m with
  | error e => cases h
  | ok a => exact hf a r p' h

theorem success_of_ite {P : Type} (c : Prop) [Decidable c] (a b : Run (ResultInfo × P))
    (ha : ∀ (r : ResultInfo) (p' : P), a = Except.ok (r, p') → r = resultSuccess)
    (hb : ∀ (r : ResultInfo) (p' : P), b = Except.ok (r, p') → r = resultSuccess)
    (r : ResultInfo) (p' : P) (h : (if c then a else b) = Except.ok (r, p')) :
    r = resultSuccess := by
  by_cases hc : c
  · rw [if_pos hc] at h; exact ha r p' h
  · rw [if_neg hc] at h; exact hb r p' h

theorem assertDataStackSize_of_lt (p : Processor M DataStackSize ReturnStackSize) (amount : Nat)
    (h : p.state.dataStack.getCount < amount) :
    p.assertDataStackSize amount = resultError "Data stack underflow" := by
  unfold assertDataStackSize ProcessorState.getDataStack
  rw [if_pos h]

theorem assertDataStackSize_of_ge (p : Processor M DataStackSize ReturnStackSize) (amount : Nat)
    (h : ¬ p.state.dataStack.getCount < amount) :
    p.assertDataStackSize amount = resultSuccess := by
  unfold assertDataStackSize ProcessorState.getDataStack
  rw [if_neg h]

/-- A handler that starts with `assertDataStackSize(amount)`: with too few
elements it returns the underflow Error from the unchanged processor, otherwise
it runs its body. -/
theorem guarded_of_lt (p : Processor M DataStackSize ReturnStackSize) (amount : Nat)
    (body : Run (ResultInfo × Processor M DataStackSize ReturnStackSize))
    (h : p.state.dataStack.getCount < amount) :
    (if (p.assertDataStackSize amount).getStatus = ResultStatus.Error
      then pure (p.assertDataStackSize amount, p) else body)
      = Except.ok (resultError "Data stack underflow", p) := by
  rw [assertDataStackSize_of_lt p amount h]
  rfl

theorem guarded_of_ge (p : Processor M DataStackSize ReturnStackSize) (amount : Nat)
    (body : Run (ResultInfo × Processor M DataStackSize ReturnStackSize))
    (h : ¬ p.state.dataStack.getCount < amount) :
    (if (p.assertDataStackSize amount).getStatus = ResultStatus.Error
      then pure (p.assertDataStackSize amount, p) else body) = body := by
  rw [assertDataStackSize_of_ge p amount h]
  rfl

theorem guarded_outcome (p : Processor M DataStackSize ReturnStackSize) (amount : Nat)
    (body : Run (ResultInfo × Processor M DataStackSize ReturnStackSize))
    (hbody : ∀ (r : ResultInfo) (p' : Processor M DataStackSize ReturnStackSize),
      body = Except.ok (r, p') → r = resultSuccess)
    (r : ResultInfo) (p' : Processor M DataStackSize ReturnStackSize)
    (h : (if (p.assertDataStackSize amount).getStatus = ResultStatus.Error
      then pure (p.assertDataStackSize amount, p) else body) = Except.ok (r, p')) :
    r = resultSuccess ∨ (r = resultError "Data stack underflow" ∧ p' = p) := by
  by_cases hc : p.state.dataStack.getCount < amount
  · rw [guarded_of_lt p amount body hc] at h
    cases h
    exact Or.inr ⟨rfl, rfl⟩
  · rw [guarded_of_ge p amount body hc] at h
    exact Or.inl (hbody r p' h)

theorem executePush_outcome (p : Processor M DataStackSize ReturnStackSize) (i : Instruction)
    (r : ResultInfo) (p' : Processor M DataStackSize ReturnStackSize)
    (h : p.executePush i = Except.ok (r, p')) :
    r = resultSuccess ∨ (r = resultError "Data stack overflow" ∧ p' = p) := by
  unfold executePush at h
  by_cases hc : p.state.getDataStack.getCount ≥ p.state.getDataStack.getCapacity
  · rw [if_pos hc] at h
    cases h
    exact Or.inr ⟨rfl, rfl⟩
  · rw [if_neg hc] at h
    refine Or.inl ((?_ : ∀ (r : ResultInfo) (p' : Processor M DataStackSize ReturnStackSize),
      _ = Except.ok (r, p') → r = resultSuccess) r p' h)
    refine success_of_bind _ _ ?_
    intro _
    exact success_of_pure _

theorem executeReturn_outcome (p : Processor M DataStackSize ReturnStackSize) (i : Instruction)
    (r : ResultInfo) (p' : Processor M DataStackSize ReturnStackSize)
    (h : p.executeReturn i = Except.ok (r, p')) :
    r = resultSuccess ∨ (r = resultError "Call stack underflow" ∧ p' = p) := by
  unfold executeReturn at h
  by_cases hc : p.state.getReturnStack.isEmpty = true
  · rw [if_pos hc] at h
    cases h
    exact Or.inr ⟨rfl, rfl⟩
  · rw [if_neg hc] at h
    refine Or.inl ((?_ : ∀ (r : ResultInfo) (p' : Processor M DataStackSize ReturnStackSize),
      _ = Except.ok (r, p') → r = resultSuccess) r p' h)
    refine success_of_bind _ _ ?_
    intro _
    exact success_of_pure _

theorem outcome_ite {P : Type} (c : Prop) [Decidable c] (a b : Run (ResultInfo × P))
    (Q : ResultInfo → P → Prop)
    (ha : c → ∀ (r : ResultInfo) (p' : P), a = Except.ok (r, p') → Q r p')
    (hb : ¬ c → ∀ (r : ResultInfo) (p' : P), b = Except.ok (r, p') → Q r p') :
    ∀ (r : ResultInfo) (p' : P), (if c then a else b) = Except.ok (r, p') → Q r p' := by
  intro r p' h
  by_cases hc : c
  · rw [if_pos hc] at h; exact ha hc r p' h
  · rw [if_neg hc] at h; exact hb hc r p' h

/-- Every result of `execute`: Success, or one of the three Errors the handlers
return before they change anything, or the Error of the `default` label, which
also leaves the processor as it was. -/
theorem execute_outcome (host : Host M) (p : Processor M DataStackSize ReturnStackSize)
    (i : Instruction) :
    ∀ (r : ResultInfo) (p' : Processor M DataStackSize ReturnStackSize),
      execute host p i = Except.ok (r, p') →
        r = resultSuccess
          ∨ (r = resultError "Data stack underflow" ∧ p' = p)
          ∨ (r = resultError "Data stack overflow" ∧ p' = p)
          ∨ (r = resultError "Call stack underflow" ∧ p' = p)
          ∨ (r = resultError "Unrecognised opcode" ∧ p' = p ∧ i.getOpcode ∉ dispatched) := by
  unfold execute
  iterate 48 (refine outcome_ite _ _ _ _ ?_ ?_; rotate_left; intro _)
  · intro r p' h
    cases h
    refine Or.inr (Or.inr (Or.inr (Or.inr ⟨rfl, rfl, ?_⟩)))
    intro hmem
    simp only [dispatched, List.mem_cons, List.mem_singleton, List.mem_nil_iff] at hmem
    repeat (rcases hmem with hmem | hmem; · contradiction)
    contradiction
  all_goals intro _ r p' h
  all_goals first
    | exact (executePush_outcome p i r p' h).elim Or.inl (fun x => Or.inr (Or.inr (Or.inl x)))
    | exact (executeReturn_outcome p i r p' h).elim Or.inl
        (fun x => Or.inr (Or.inr (Or.inr (Or.inl x))))
    | (refine (guarded_outcome p _ _ ?_ r p' h).elim Or.inl (fun x => Or.inr (Or.inl x))
       repeat (first
         | exact success_of_pure _
         | (refine success_of_bind _ _ ?_; intro _)))
    | (refine Or.inl ((?_ : ∀ (r : ResultInfo) (p' : Processor M DataStackSize ReturnStackSize),
        _ = Except.ok (r, p') → r = resultSuccess) r p' h)
       repeat (first
         | exact success_of_pure _
         | (refine success_of_bind _ _ ?_; intro _)
         | (refine success_of_ite _ _ _ ?_ ?_)))

end Processor

end StackLanguage

namespace StackLanguage

namespace Processor

variable {M : Type} {DataStackSize ReturnStackSize : Nat}

/-- With an opcode that has no `case` label, `execute` takes the `default`
label. -/
theorem execute_of_not_dispatched (host : Host M)
    (p : Processor M DataStackSize ReturnStackSize) (i : Instruction)
    (hnd : i.getOpcode ∉ dispatched) :
    execute host p i = Except.ok (resultError "Unrecognised opcode", p) := by
  unfold execute
  iterate 48 (refine (if_neg ?_).trans ?_; · intro e; apply hnd; rw [e]; decide)
  rfl

/-- C14: for every instruction whose opcode byte has no case in the dispatch
switch, `execute` returns the Error `Unrecognised opcode` (and leaves the
processor as it was); the bytes without a case are every byte that is not an
enumerator of `Opcode` and the enumerators Realloc, ReallocImmediate,
StoreByteImmediate and StoreWordImmediate, and no other. For every opcode byte
that has a case, the result is never `Unrecognised opcode`. -/
theorem dispatch_spec (host : Host M) (p : Processor M DataStackSize ReturnStackSize)
    (i : Instruction) :
    (i.getOpcode ∉ dispatched →
        execute host p i = Except.ok (resultError "Unrecognised opcode", p))
      ∧ (i.getOpcode ∈ dispatched →
          ∀ (r : ResultInfo) (p' : Processor M DataStackSize ReturnStackSize),
            execute host p i = Except.ok (r, p') → r ≠ resultError "Unrecognised opcode")
      ∧ (i.getOpcode ∉ dispatched ↔
          (i.getOpcode ∉ Opcode.enumerators
            ∨ i.getOpcode ∈ [Opcode.Realloc, Opcode.ReallocImmediate,
                Opcode.StoreByteImmediate, Opcode.StoreWordImmediate])) := by
  refine ⟨execute_of_not_dispatched host p i, ?_, ?_⟩
  · intro hd r p' h
    rcases execute_outcome host p i r p' h with h1 | h1 | h1 | h1 | h1
    · rw [h1]; decide
    · rw [h1.1]; decide
    · rw [h1.1]; decide
    · rw [h1.1]; decide
    · exact absurd hd h1.2.2
  · have h1 : ∀ x ∈ dispatched, x ∈ Opcode.enumerators
        ∧ x ∉ [Opcode.Realloc, Opcode.ReallocImmediate,
            Opcode.StoreByteImmediate, Opcode.StoreWordImmediate] := by decide
    have h2 : ∀ x ∈ Opcode.enumerators,
        x ∉ [Opcode.Realloc, Opcode.ReallocImmediate,
            Opcode.StoreByteImmediate, Opcode.StoreWordImmediate] → x ∈ dispatched := by decide
    constructor
    · intro hnd
      by_cases he : i.getOpcode ∈ Opcode.enumerators
      · right
        by_contra hfour
        exact hnd (h2 _ he hfour)
      · exact Or.inl he
    · intro h hd
      have := h1 _ hd
      rcases h with h | h
      · exact h this.1
      · exact this.2 h

/-- C15: for every processor state, if `executeCycle()` returns an Error (for an
opcode without a case, for underflow, overflow, call-stack underflow, an invalid
address or a processor that is not running), the Data Stack after the call, its
count and its contents, is exactly the Data Stack before the call, and so is the
Return Stack. -/
theorem error_leaves_stacks (host : Host M) (p : Processor M DataStackSize ReturnStackSize)
    (r : ResultInfo) (p' : Processor M DataStackSize ReturnStackSize)
    (h : executeCycle host p = Except.ok (r, p')) (herr : r.isError = true) :
    p'.state.dataStack = p.state.dataStack ∧ p'.state.returnStack = p.state.returnStack := by
  have hsucc : resultSuccess.isError = false := by decide
  unfold executeCycle at h
  by_cases hc : p.hasCompleted = true
  · rw [if_pos hc] at h
    cases h
    rw [hsucc] at herr
    cases herr
  · rw [if_neg hc] at h
    by_cases hr : (!p.isRunning) = true
    · rw [if_pos hr] at h
      cases h
      exact ⟨rfl, rfl⟩
    · rw [if_neg hr] at h
      by_cases ha : p.state.getInstructionPointer ≥ p.environment.getInstructions.length
      · simp only [if_pos ha] at h
        cases h
        exact ⟨rfl, rfl⟩
      · simp only [if_neg ha] at h
        cases hi : access (p.environment.getInstructions[p.state.getInstructionPointer]?) with
        | error e =>
          rw [hi] at h
          cases h
        | ok instruction =>
          rw [hi] at h
          have hout := execute_outcome host _ instruction r p' h
          rcases hout with h1 | h1 | h1 | h1 | h1
          · rw [h1, hsucc] at herr
            cases herr
          · rw [h1.2]; exact ⟨rfl, rfl⟩
          · rw [h1.2]; exact ⟨rfl, rfl⟩
          · rw [h1.2]; exact ⟨rfl, rfl⟩
          · rw [h1.2.1]; exact ⟨rfl, rfl⟩

theorem error_leaves_stacks_witness :
    executeCycle nullHost (Processor.midRun 2 2 [Instruction.mk 0xEE000000] ([5, 0], 1) ([3, 0], 1) 0)
        = Except.ok (resultError "Unrecognised opcode",
            Processor.midRun 2 2 [Instruction.mk 0xEE000000] ([5, 0], 1) ([3, 0], 1) 1)
      ∧ (resultError "Unrecognised opcode").isError = true
      ∧ (Processor.midRun 2 2 [Instruction.mk 0xEE000000] ([5, 0], 1) ([3, 0], 1) 1).state.dataStack
          = (Processor.midRun 2 2 [Instruction.mk 0xEE000000] ([5, 0], 1) ([3, 0], 1) 0).state.dataStack
      ∧ (Processor.midRun 2 2 [Instruction.mk 0xEE000000] ([5, 0], 1) ([3, 0], 1) 1).state.returnStack
          = (Processor.midRun 2 2 [Instruction.mk 0xEE000000] ([5, 0], 1) ([3, 0], 1) 0).state.returnStack :=
  ⟨by decide, by decide,
    error_leaves_stacks nullHost
      (Processor.midRun 2 2 [Instruction.mk 0xEE000000] ([5, 0], 1) ([3, 0], 1) 0)
      (resultError "Unrecognised opcode")
      (Processor.midRun 2 2 [Instruction.mk 0xEE000000] ([5, 0], 1) ([3, 0], 1) 1)
      (by decide) (by decide)⟩

end Processor

end StackLanguage

/-! ## Properties of the stack manipulation opcodes -/

namespace StackLanguage

namespace Deque

variable {α : Type} {Capacity : Nat}

/-- The last element after `append` on a container that is not full. -/
theorem getLast_after_append (d : Deque α Capacity) (hwf : d.WellFormed) (item : α)
    (h : d.next < Capacity) :
    ({ items := d.items.set d.next item, next := d.next + 1 } : Deque α Capacity).getLast
      = some item := by
  have hlen : d.next < d.items.length := by rw [hwf.2.2.1]; exact h
  have hwf' := wellFormed_append d hwf item h
  unfold getLast
  rw [getLastIndex_of_pos _ hwf' (Nat.succ_pos _)]
  show readItem (d.items.set d.next item) (d.next + 1 - 1) = some item
  unfold readItem
  rw [Nat.add_sub_cancel, List.getElem?_set_self hlen]

end Deque

namespace Processor

variable {M : Type} {DataStackSize ReturnStackSize : Nat}

theorem execute_of_push (host : Host M) (p : Processor M DataStackSize ReturnStackSize)
    (i : Instruction) (hop : i.getOpcode = Opcode.Push) :
    execute host p i = p.executePush i := by
  unfold execute
  rw [hop]
  rfl

theorem execute_of_drop (host : Host M) (p : Processor M DataStackSize ReturnStackSize)
    (i : Instruction) (hop : i.getOpcode = Opcode.Drop) :
    execute host p i = p.executeDrop i := by
  unfold execute
  rw [hop]
  rfl

theorem getOperand_lt (i : Instruction) : i.getOperand < 2 ^ 24 := by
  cases i with
  | mk v =>
    rw [Instruction.getOperand_eq]
    exact Nat.mod_lt _ (by norm_num)

/-- C16: for every Data Stack and every Push instruction with the 24-bit operand
`v`: if the stack is not full, Push returns Success, the depth grows by one, the
new top is `v` and the elements below are unchanged; if the stack is full, Push
returns the Error `Data stack overflow` and the processor, its stack included,
is unchanged. -/
theorem push_spec (host : Host M) (p : Processor M DataStackSize ReturnStackSize)
    (i : Instruction) (hop : i.getOpcode = Opcode.Push)
    (hwf : p.state.dataStack.container.WellFormed) :
    (p.state.dataStack.isFull = false →
        ∃ s' : Stack Word DataStackSize,
          execute host p i = Except.ok (resultSuccess, p.setDataStack s')
            ∧ s'.getCount = p.state.dataStack.getCount + 1
            ∧ s'.peek = some i.getOperand
            ∧ s'.container.contents = p.state.dataStack.container.contents ++ [i.getOperand]
            ∧ i.getOperand < 2 ^ 24)
      ∧ (p.state.dataStack.isFull = true →
          execute host p i = Except.ok (resultError "Data stack overflow", p)) := by
  rw [execute_of_push host p i hop]
  constructor
  · intro hnf
    have hlt : p.state.dataStack.container.next < DataStackSize :=
      (Deque.isFull_eq_false_iff _ hwf).1 hnf
    refine ⟨{ container := { items := p.state.dataStack.container.items.set
                                 p.state.dataStack.container.next i.getOperand,
                             next := p.state.dataStack.container.next + 1 } },
      ?_, rfl, Deque.getLast_after_append _ hwf _ hlt,
      Deque.contents_append _ hwf _ hlt, getOperand_lt i⟩
    unfold executePush
    have hc : ¬ p.state.getDataStack.getCount ≥ p.state.getDataStack.getCapacity := by
      show ¬ p.state.dataStack.container.next ≥ DataStackSize
      omega
    rw [if_neg hc]
    show (do
        let pushed ← access (p.state.dataStack.push i.getOperand)
        pure (resultSuccess, p.setDataStack pushed.2)) = _
    rw [Stack.push_of_lt _ hwf _ hlt]
    rfl
  · intro hf
    have heq : p.state.dataStack.container.next = DataStackSize :=
      (Deque.isFull_iff _ hwf).1 hf
    unfold executePush
    have hc : p.state.getDataStack.getCount ≥ p.state.getDataStack.getCapacity := by
      show p.state.dataStack.container.next ≥ DataStackSize
      omega
    rw [if_pos hc]
    rfl

theorem push_spec_witness :
    (Instruction.ofWord Opcode.Push 7).getOpcode = Opcode.Push
      ∧ (Processor.midRun 2 2 [] ([5, 0], 1) ([0, 0], 0) 0).state.dataStack.container.WellFormed
      ∧ ((Processor.midRun 2 2 [] ([5, 0], 1) ([0, 0], 0) 0).state.dataStack.isFull = false →
          ∃ s' : Stack Word 2,
            execute nullHost (Processor.midRun 2 2 [] ([5, 0], 1) ([0, 0], 0) 0)
                (Instruction.ofWord Opcode.Push 7)
              = Except.ok (resultSuccess,
                  (Processor.midRun 2 2 [] ([5, 0], 1) ([0, 0], 0) 0).setDataStack s')
            ∧ s'.getCount
                = (Processor.midRun 2 2 [] ([5, 0], 1) ([0, 0], 0) 0).state.dataStack.getCount + 1
            ∧ s'.peek = some (Instruction.ofWord Opcode.Push 7).getOperand
            ∧ s'.container.contents
                = (Processor.midRun 2 2 [] ([5, 0], 1) ([0, 0], 0) 0).state.dataStack.container.contents
                  ++ [(Instruction.ofWord Opcode.Push 7).getOperand]
            ∧ (Instruction.ofWord Opcode.Push 7).getOperand < 2 ^ 24) :=
  ⟨by decide, by decide,
    (push_spec nullHost (Processor.midRun 2 2 [] ([5, 0], 1) ([0, 0], 0) 0)
      (Instruction.ofWord Opcode.Push 7) (by decide) (by decide)).1⟩

/-- The loop of `executeDrop`, when the stack holds at least as many elements as
it drops: the count goes down by the number of iterations and the slots keep
their values. -/
theorem dropLoop_of_le (n : Nat) :
    ∀ s : Stack Word DataStackSize, n ≤ s.container.next →
      dropLoop s n = { container := { items := s.container.items,
                                      next := s.container.next - n } } := by
  induction n with
  | zero => intro s _; rfl
  | succ n ih =>
    intro s h
    have hne : s.container.isEmpty = false := by
      unfold Deque.isEmpty Deque.FirstIndex
      simp only [beq_eq_false_iff_ne, ne_eq]
      omega
    have hdrop : s.drop = { container := { items := s.container.items,
                                           next := s.container.next - 1 } } := by
      unfold Stack.drop Deque.unappend
      rw [hne]
      rfl
    show dropLoop s.drop n = _
    rw [hdrop, ih _ (by show n ≤ s.container.next - 1; omega)]
    show ({ container := { items := s.container.items,
                           next := s.container.next - 1 - n } } : Stack Word DataStackSize) = _
    have : s.container.next - 1 - n = s.container.next - (n + 1) := by omega
    rw [this]

/-- C17: for every Data Stack of depth `d` and every Drop instruction with
operand `n`: if `d ≥ n`, Drop returns Success and the stack afterwards holds
exactly the bottom `d - n` elements of the original, in order; if `d < n`, Drop
returns the Error `Data stack underflow` and removes nothing. -/
theorem drop_spec (host : Host M) (p : Processor M DataStackSize ReturnStackSize)
    (i : Instruction) (hop : i.getOpcode = Opcode.Drop)
    (hwf : p.state.dataStack.container.WellFormed) :
    (i.getOperand ≤ p.state.dataStack.getCount →
        ∃ s' : Stack Word DataStackSize,
          execute host p i = Except.ok (resultSuccess, p.setDataStack s')
            ∧ s'.getCount = p.state.dataStack.getCount - i.getOperand
            ∧ s'.container.contents
                = p.state.dataStack.container.contents.take
                    (p.state.dataStack.getCount - i.getOperand)
            ∧ s'.container.WellFormed)
      ∧ (p.state.dataStack.getCount < i.getOperand →
          execute host p i = Except.ok (resultError "Data stack underflow", p)) := by
  rw [execute_of_drop host p i hop]
  obtain ⟨h1, h2, h3, h4⟩ := hwf
  constructor
  · intro hle
    have hle' : i.getOperand ≤ p.state.dataStack.container.next := hle
    refine ⟨{ container := { items := p.state.dataStack.container.items,
                             next := p.state.dataStack.container.next - i.getOperand } },
      ?_, rfl, ?_, ⟨h1, h2, h3, ?_⟩⟩
    · unfold executeDrop
      have hg : ¬ p.state.dataStack.getCount < i.getOperand := fun hlt => by
        have hlt' : p.state.dataStack.container.next < i.getOperand := hlt
        unfold Word at *
        omega
      simp only
      rw [guarded_of_ge p _ _ hg]
      show Except.ok (resultSuccess, p.setDataStack (dropLoop p.state.dataStack i.getOperand)) = _
      rw [dropLoop_of_le _ _ hle']
    · unfold Deque.contents
      show List.take (p.state.dataStack.container.next - i.getOperand)
          p.state.dataStack.container.items
        = List.take (p.state.dataStack.container.next - i.getOperand)
            (List.take p.state.dataStack.container.next p.state.dataStack.container.items)
      rw [List.take_take]
      congr 1
      omega
    · show p.state.dataStack.container.next - i.getOperand ≤ DataStackSize
      omega
  · intro hlt
    unfold executeDrop
    simp only
    rw [guarded_of_lt p _ _ hlt]

theorem drop_spec_witness :
    (Instruction.ofWord Opcode.Drop 2).getOpcode = Opcode.Drop
      ∧ (Processor.midRun 4 2 [] ([5, 6, 7, 0], 3) ([0, 0], 0) 0).state.dataStack.container.WellFormed
      ∧ ((Instruction.ofWord Opcode.Drop 2).getOperand
            ≤ (Processor.midRun 4 2 [] ([5, 6, 7, 0], 3) ([0, 0], 0) 0).state.dataStack.getCount →
          ∃ s' : Stack Word 4,
            execute nullHost (Processor.midRun 4 2 [] ([5, 6, 7, 0], 3) ([0, 0], 0) 0)
                (Instruction.ofWord Opcode.Drop 2)
              = Except.ok (resultSuccess,
                  (Processor.midRun 4 2 [] ([5, 6, 7, 0], 3) ([0, 0], 0) 0).setDataStack s')
            ∧ s'.getCount
                = (Processor.midRun 4 2 [] ([5, 6, 7, 0], 3) ([0, 0], 0) 0).state.dataStack.getCount
                  - (Instruction.ofWord Opcode.Drop 2).getOperand
            ∧ s'.container.contents
                = (Processor.midRun 4 2 [] ([5, 6, 7, 0], 3) ([0, 0], 0)
                    0).state.dataStack.container.contents.take
                    ((Processor.midRun 4 2 [] ([5, 6, 7, 0], 3) ([0, 0], 0)
                      0).state.dataStack.getCount - (Instruction.ofWord Opcode.Drop 2).getOperand)
            ∧ s'.container.WellFormed) :=
  ⟨by decide, by decide,
    (drop_spec nullHost (Processor.midRun 4 2 [] ([5, 6, 7, 0], 3) ([0, 0], 0) 0)
      (Instruction.ofWord Opcode.Drop 2) (by decide) (by decide)).1⟩

end Processor

end StackLanguage

namespace StackLanguage

namespace Processor

/-- C18, evaluated: the program `Push 10, Push 20, Push 30, Pick 0` on a Data
Stack of capacity 4. The four cycles return Success and the stack is then
`[10, 20, 30, 20]`: Pick 0 has pushed the element at index `d - 2 - n = 1`, one
position below the old top, not the old top 30 at index `d - 1 - n = 2`. On the
stack `[10]`, where `d = n + 1`, the check passes and the index wraps, so Pick 0
reads a slot outside the storage. -/
theorem pick_reads_one_below :
    executeCycles nullHost
        ((Processor.create
          [Instruction.ofWord Opcode.Push 10, Instruction.ofWord Opcode.Push 20,
           Instruction.ofWord Opcode.Push 30, Instruction.ofWord Opcode.Pick 0]
          false () : Processor Unit 4 2).start) 4
      = Except.ok ([resultSuccess, resultSuccess, resultSuccess, resultSuccess],
          Processor.midRun 4 2
            [Instruction.ofWord Opcode.Push 10, Instruction.ofWord Opcode.Push 20,
             Instruction.ofWord Opcode.Push 30, Instruction.ofWord Opcode.Pick 0]
            ([10, 20, 30, 20], 4) ([0, 0], 0) 4)
      ∧ (Processor.midRun 4 2 [] ([10, 20, 30, 0], 3) ([0, 0], 0) 0).state.dataStack.isFull = false
      ∧ execute nullHost (Processor.midRun 4 2 [] ([10, 20, 30, 0], 3) ([0, 0], 0) 0)
          (Instruction.ofWord Opcode.Pick 0)
        = Except.ok (resultSuccess,
            Processor.midRun 4 2 [] ([10, 20, 30, 20], 4) ([0, 0], 0) 0)
      ∧ (Processor.midRun 4 2 [] ([10, 20, 30, 20], 4) ([0, 0], 0)
          0).state.dataStack.peek = some 20
      ∧ (Processor.midRun 4 2 [] ([10, 20, 30, 0], 3) ([0, 0], 0) 0).state.dataStack.peek = some 30
      ∧ (Processor.midRun 4 2 [] ([10, 0, 0, 0], 1) ([0, 0], 0) 0).assertDataStackSize 1
          = resultSuccess
      ∧ execute nullHost (Processor.midRun 4 2 [] ([10, 0, 0, 0], 1) ([0, 0], 0) 0)
          (Instruction.ofWord Opcode.Pick 0)
        = Except.error Fault.outOfStorage := by
  decide

/-- C19, evaluated: on the Data Stack `[10, 20]` of capacity 4, Pick with
operand 0 leaves `[10, 20, 10]` and Duplicate leaves `[10, 20, 20]`: the two
instructions return Success with different stacks. -/
theorem pick_zero_is_not_duplicate :
    execute nullHost (Processor.midRun 4 2 [] ([10, 20, 0, 0], 2) ([0, 0], 0) 0)
        (Instruction.ofWord Opcode.Pick 0)
      = Except.ok (resultSuccess, Processor.midRun 4 2 [] ([10, 20, 10, 0], 3) ([0, 0], 0) 0)
      ∧ execute nullHost (Processor.midRun 4 2 [] ([10, 20, 0, 0], 2) ([0, 0], 0) 0)
          (Instruction.ofOpcode Opcode.Duplicate)
        = Except.ok (resultSuccess, Processor.midRun 4 2 [] ([10, 20, 20, 0], 3) ([0, 0], 0) 0)
      ∧ (Processor.midRun 4 2 [] ([10, 20, 10, 0], 3) ([0, 0], 0) 0).state.dataStack
          ≠ (Processor.midRun 4 2 [] ([10, 20, 20, 0], 3) ([0, 0], 0) 0).state.dataStack
      ∧ (Processor.midRun 4 2 [] ([10, 20, 10, 0], 3) ([0, 0], 0)
          0).state.dataStack.container.contents = [10, 20, 10]
      ∧ (Processor.midRun 4 2 [] ([10, 20, 20, 0], 3) ([0, 0], 0)
          0).state.dataStack.container.contents = [10, 20, 20] := by
  decide

/-- C20, evaluated: on the Data Stack `[1, 2]` of capacity 4, Roll with operand
2, so `d = n`. The check `assertDataStackSize(2)` passes, `index = end - offset`
wraps to `2^64 - 1`, and `stack[index]` reads a slot outside the storage: the
call has no defined result. The same happens at the end of the program
`Push 1, Push 2, Roll 2`. -/
theorem roll_full_depth_reads_outside :
    (Processor.midRun 4 2 [] ([1, 2, 0, 0], 2) ([0, 0], 0) 0).assertDataStackSize
        (Instruction.ofWord Opcode.Roll 2).getOperand = resultSuccess
      ∧ ((Processor.midRun 4 2 [] ([1, 2, 0, 0], 2) ([0, 0], 0) 0).state.dataStack.getCount
            + sizeModulus - 1) % sizeModulus = 1
      ∧ (1 + sizeModulus - (Instruction.ofWord Opcode.Roll 2).getOperand) % sizeModulus
          = sizeModulus - 1
      ∧ (Processor.midRun 4 2 [] ([1, 2, 0, 0], 2) ([0, 0], 0) 0).state.dataStack.subscript
          (sizeModulus - 1) = none
      ∧ execute nullHost (Processor.midRun 4 2 [] ([1, 2, 0, 0], 2) ([0, 0], 0) 0)
          (Instruction.ofWord Opcode.Roll 2)
        = Except.error Fault.outOfStorage
      ∧ executeCycles nullHost
          ((Processor.create
            [Instruction.ofWord Opcode.Push 1, Instruction.ofWord Opcode.Push 2,
             Instruction.ofWord Opcode.Roll 2]
            false () : Processor Unit 4 2).start) 3
        = Except.error Fault.outOfStorage := by
  decide

end Processor

end StackLanguage

namespace StackLanguage

namespace Processor

variable {M : Type} {DataStackSize ReturnStackSize : Nat}

/-- What `executePick` does when the stack has room and at least `n + 2`
elements: it pushes the element at index `d - 2 - n`, the one `n + 1` positions
below the top. -/
theorem executePick_of_room (p : Processor M DataStackSize ReturnStackSize) (i : Instruction)
    (hwf : p.state.dataStack.container.WellFormed)
    (hroom : p.state.dataStack.container.next < DataStackSize)
    (hdepth : i.getOperand + 2 ≤ p.state.dataStack.container.next) :
    ∃ (x : Word) (s' : Stack Word DataStackSize),
      p.state.dataStack.container.contents[p.state.dataStack.container.next - 2 - i.getOperand]?
          = some x
        ∧ p.executePick i = Except.ok (resultSuccess, p.setDataStack s')
        ∧ s'.container.contents = p.state.dataStack.container.contents ++ [x] := by
  have hn := getOperand_lt i
  obtain ⟨h1, h2, h3, h4⟩ := hwf
  have hidx : p.state.dataStack.container.next - 2 - i.getOperand
      < p.state.dataStack.container.items.length := by
    unfold Word at *
    omega
  refine ⟨p.state.dataStack.container.items[p.state.dataStack.container.next - 2 - i.getOperand],
    { container := { items := p.state.dataStack.container.items.set
                        p.state.dataStack.container.next
                        p.state.dataStack.container.items[p.state.dataStack.container.next - 2
                          - i.getOperand],
                     next := p.state.dataStack.container.next + 1 } }, ?_, ?_,
    Deque.contents_append _ ⟨h1, h2, h3, h4⟩ _ hroom⟩
  · unfold Deque.contents
    rw [List.getElem?_take, if_pos (by unfold Word at *; omega), List.getElem?_eq_getElem hidx]
  · have hoff : (i.getOperand + 1) % 2 ^ 32 = i.getOperand + 1 := by
      unfold Word at *
      omega
    have hg : ¬ p.state.dataStack.getCount < i.getOperand + 1 := fun hlt => by
      have hlt' : p.state.dataStack.container.next < i.getOperand + 1 := hlt
      unfold Word at *
      omega
    have hindex : ((p.state.dataStack.getCount + sizeModulus - 1) % sizeModulus + sizeModulus
        - (i.getOperand + 1)) % sizeModulus
        = p.state.dataStack.container.next - 2 - i.getOperand := by
      show ((p.state.dataStack.container.next + sizeModulus - 1) % sizeModulus + sizeModulus
        - (i.getOperand + 1)) % sizeModulus = _
      unfold sizeModulus Word at *
      omega
    unfold executePick
    simp only [hoff]
    rw [guarded_of_ge p _ _ hg]
    simp only [ProcessorState.getDataStack, hindex]
    have hsub : p.state.dataStack.subscript
        (p.state.dataStack.container.next - 2 - i.getOperand)
        = some p.state.dataStack.container.items[p.state.dataStack.container.next - 2
            - i.getOperand] := List.getElem?_eq_getElem hidx
    rw [hsub]
    show (do
        let pushed ← access (p.state.dataStack.push _)
        pure (resultSuccess, p.setDataStack pushed.2)) = _
    rw [Stack.push_of_lt _ ⟨h1, h2, h3, h4⟩ _ hroom]
    rfl

/-- What `executePick` does when the stack holds exactly `n + 1` elements: the
check passes, the index wraps to `2^64 - 1` and the read is outside the
storage. -/
theorem executePick_of_exact_depth (p : Processor M DataStackSize ReturnStackSize)
    (i : Instruction) (hwf : p.state.dataStack.container.WellFormed)
    (hdepth : p.state.dataStack.container.next = i.getOperand + 1) :
    p.executePick i = Except.error Fault.outOfStorage := by
  have hn := getOperand_lt i
  obtain ⟨h1, h2, h3, h4⟩ := hwf
  have hoff : (i.getOperand + 1) % 2 ^ 32 = i.getOperand + 1 := by
    unfold Word at *
    omega
  have hg : ¬ p.state.dataStack.getCount < i.getOperand + 1 := fun hlt => by
    have hlt' : p.state.dataStack.container.next < i.getOperand + 1 := hlt
    unfold Word at *
    omega
  have hindex : ((p.state.dataStack.getCount + sizeModulus - 1) % sizeModulus + sizeModulus
      - (i.getOperand + 1)) % sizeModulus = sizeModulus - 1 := by
    show ((p.state.dataStack.container.next + sizeModulus - 1) % sizeModulus + sizeModulus
      - (i.getOperand + 1)) % sizeModulus = _
    unfold sizeModulus Word at *
    omega
  unfold executePick
  simp only [hoff]
  rw [guarded_of_ge p _ _ hg]
  simp only [ProcessorState.getDataStack, hindex]
  have hsub : p.state.dataStack.subscript (sizeModulus - 1) = none :=
    List.getElem?_eq_none (by rw [h3]; unfold sizeModulus at *; omega)
  rw [hsub]
  rfl

end Processor

end StackLanguage

namespace StackLanguage

namespace Deque

variable {α : Type} {Capacity : Nat}

/-- What `removeAt` does at an index below the count. -/
theorem removeAt_of_lt (d : Deque α Capacity) (hwf : d.WellFormed) (i : Nat)
    (hi : i < d.next) :
    ∃ d' : Deque α Capacity, d.removeAt i = some (true, d')
      ∧ d'.contents = d.contents.take i ++ d.contents.drop (i + 1)
      ∧ d'.next = d.next - 1
      ∧ d'.WellFormed := by
  obtain ⟨h1, h2, h3, h4⟩ := hwf
  obtain ⟨r, hr, hlen, hget⟩ := moveDownLoop_spec (d.next - 1 - i) i d.items (by omega)
  refine ⟨{ items := r, next := d.next - 1 }, ?_, ?_, rfl,
    ⟨h1, h2, by rw [hlen, h3], by show d.next - 1 ≤ Capacity; omega⟩⟩
  · unfold removeAt
    rw [if_neg (by omega)]
    simp only [Option.bind_eq_bind]
    rw [hr]
    rfl
  · unfold contents
    apply List.ext_getElem?
    intro j
    simp only [List.getElem?_take, List.getElem?_append, List.length_take,
      List.getElem?_drop, hget]
    have hmin : min i (min d.next d.items.length) = i := by omega
    rw [hmin]
    by_cases c1 : j < i
    · rw [if_pos (by omega), if_neg (by omega), if_pos c1, if_pos c1, if_pos (by omega)]
    · rw [if_neg c1]
      by_cases c2 : j < d.next - 1
      · rw [if_pos c2, if_pos (by omega), if_pos (by omega)]
        have e : i + 1 + (j - i) = j + 1 := by omega
        rw [e]
      · rw [if_neg c2, if_neg (by omega)]

end Deque

namespace Processor

variable {M : Type} {DataStackSize ReturnStackSize : Nat}

/-- What `executeRoll` does when the operand is below the depth: the element at
index `d - 1 - n`, the one `n` positions below the top, is removed and pushed on
top; the others keep their order. -/
theorem executeRoll_of_lt (p : Processor M DataStackSize ReturnStackSize) (i : Instruction)
    (hwf : p.state.dataStack.container.WellFormed)
    (hdepth : i.getOperand < p.state.dataStack.container.next) :
    ∃ (x : Word) (s' : Stack Word DataStackSize),
      p.state.dataStack.container.contents[p.state.dataStack.container.next - 1 - i.getOperand]?
          = some x
        ∧ p.executeRoll i = Except.ok (resultSuccess, p.setDataStack s')
        ∧ s'.container.contents
            = p.state.dataStack.container.contents.take
                (p.state.dataStack.container.next - 1 - i.getOperand)
              ++ p.state.dataStack.container.contents.drop
                (p.state.dataStack.container.next - i.getOperand)
              ++ [x]
        ∧ s'.getCount = p.state.dataStack.getCount
        ∧ s'.container.WellFormed := by
  have hwf0 := hwf
  obtain ⟨h1, h2, h3, h4⟩ := hwf
  have hlt : p.state.dataStack.container.next - 1 - i.getOperand
      < p.state.dataStack.container.next := by
    unfold Word at *
    omega
  have hidx : p.state.dataStack.container.next - 1 - i.getOperand
      < p.state.dataStack.container.items.length := by
    unfold Word at *
    omega
  obtain ⟨d', hd', hc', hn', hwf'⟩ := Deque.removeAt_of_lt _ hwf0 _ hlt
  have hroom : d'.next < DataStackSize := by
    rw [hn']
    omega
  refine ⟨p.state.dataStack.container.items[p.state.dataStack.container.next - 1 - i.getOperand],
    { container := { items := d'.items.set d'.next
                        p.state.dataStack.container.items[p.state.dataStack.container.next - 1
                          - i.getOperand],
                     next := d'.next + 1 } }, ?_, ?_, ?_, ?_,
    Deque.wellFormed_append d' hwf' _ hroom⟩
  · unfold Deque.contents
    rw [List.getElem?_take, if_pos hlt, List.getElem?_eq_getElem hidx]
  · have hg : ¬ p.state.dataStack.getCount < i.getOperand := fun h => by
      have h' : p.state.dataStack.container.next < i.getOperand := h
      unfold Word at *
      omega
    have hindex : ((p.state.dataStack.getCount + sizeModulus - 1) % sizeModulus + sizeModulus
        - i.getOperand) % sizeModulus
        = p.state.dataStack.container.next - 1 - i.getOperand := by
      show ((p.state.dataStack.container.next + sizeModulus - 1) % sizeModulus + sizeModulus
        - i.getOperand) % sizeModulus = _
      unfold sizeModulus Word at *
      omega
    unfold executeRoll
    simp only
    rw [guarded_of_ge p _ _ hg]
    simp only [ProcessorState.getDataStack, hindex]
    have hsub : p.state.dataStack.subscript
        (p.state.dataStack.container.next - 1 - i.getOperand)
        = some p.state.dataStack.container.items[p.state.dataStack.container.next - 1
            - i.getOperand] := List.getElem?_eq_getElem hidx
    have hrem : p.state.dataStack.removeAt
        (p.state.dataStack.container.next - 1 - i.getOperand)
        = some (true, { container := d' }) := by
      unfold Stack.removeAt
      rw [hd']
      rfl
    rw [hsub, hrem]
    show (do
        let pushed ← access (Stack.push { container := d' } _)
        pure (resultSuccess, p.setDataStack pushed.2)) = _
    rw [Stack.push_of_lt _ hwf' _ hroom]
    rfl
  · show Deque.contents _ = _
    rw [Deque.contents_append d' hwf' _ hroom, hc']
    have e : p.state.dataStack.container.next - 1 - i.getOperand + 1
        = p.state.dataStack.container.next - i.getOperand := by
      unfold Word at *
      omega
    rw [e]
  · show d'.next + 1 = p.state.dataStack.container.next
    rw [hn']
    omega

/-- What `executeRoll` does when the operand equals the depth: the check passes,
the index wraps to `2^64 - 1` and the read is outside the storage. -/
theorem executeRoll_of_full_depth (p : Processor M DataStackSize ReturnStackSize)
    (i : Instruction) (hwf : p.state.dataStack.container.WellFormed)
    (hdepth : p.state.dataStack.container.next = i.getOperand) :
    p.executeRoll i = Except.error Fault.outOfStorage := by
  have hn := getOperand_lt i
  obtain ⟨h1, h2, h3, h4⟩ := hwf
  have hg : ¬ p.state.dataStack.getCount < i.getOperand := fun h => by
    have h' : p.state.dataStack.container.next < i.getOperand := h
    unfold Word at *
    omega
  have hindex : ((p.state.dataStack.getCount + sizeModulus - 1) % sizeModulus + sizeModulus
      - i.getOperand) % sizeModulus = sizeModulus - 1 := by
    show ((p.state.dataStack.container.next + sizeModulus - 1) % sizeModulus + sizeModulus
      - i.getOperand) % sizeModulus = _
    unfold sizeModulus Word at *
    omega
  unfold executeRoll
  simp only
  rw [guarded_of_ge p _ _ hg]
  simp only [ProcessorState.getDataStack, hindex]
  have hsub : p.state.dataStack.subscript (sizeModulus - 1) = none :=
    List.getElem?_eq_none (by rw [h3]; unfold sizeModulus at *; omega)
  rw [hsub]
  rfl

end Processor

end StackLanguage

/-! ## The stack operations in terms of the contents -/

namespace StackLanguage

theorem access_some {α : Type} (a : α) : access (some a) = Except.ok a := rfl

theorem bind_ok {α β : Type} (a : α) (f : α → Run β) :
    ((Except.ok a : Run α) >>= f) = f a := rfl

namespace Stack

variable {α : Type} {Capacity : Nat}

/-- The number of elements, from the contents. -/
theorem next_of_contents (s : Stack α Capacity) (hwf : s.container.WellFormed) (xs : List α)
    (h : s.container.contents = xs) : s.container.next = xs.length := by
  rw [← h, Deque.contents_length _ hwf]

/-- The top of a stack whose contents end with `a`. -/
theorem peek_of_contents (s : Stack α Capacity) (hwf : s.container.WellFormed) (xs : List α)
    (a : α) (h : s.container.contents = xs ++ [a]) : s.peek = some a := by
  have hn := next_of_contents s hwf _ h
  rw [List.length_append, List.length_singleton] at hn
  have hget : s.container.contents[xs.length]? = some a := by
    rw [h, List.getElem?_append_right (Nat.le_refl _), Nat.sub_self]
    rfl
  unfold Deque.contents at hget
  rw [List.getElem?_take, if_pos (by omega)] at hget
  unfold peek Deque.getLast Deque.readItem
  rw [Deque.getLastIndex_of_pos _ hwf (by omega), hn, Nat.add_sub_cancel]
  exact hget

/-- The stack after `drop()`, when its contents end with `a`. -/
theorem drop_of_contents (s : Stack α Capacity) (hwf : s.container.WellFormed) (xs : List α)
    (a : α) (h : s.container.contents = xs ++ [a]) :
    s.drop.container.WellFormed ∧ s.drop.container.contents = xs
      ∧ s.drop.container.next + 1 = s.container.next := by
  have hn := next_of_contents s hwf _ h
  rw [List.length_append, List.length_singleton] at hn
  obtain ⟨h1, h2, h3, h4⟩ := hwf
  have hne : s.container.isEmpty = false := by
    unfold Deque.isEmpty Deque.FirstIndex
    simp only [beq_eq_false_iff_ne, ne_eq]
    omega
  have hdrop : s.drop = { container := { items := s.container.items,
                                         next := s.container.next - 1 } } := by
    unfold drop Deque.unappend
    rw [hne]
    rfl
  rw [hdrop]
  refine ⟨⟨h1, h2, h3, by show s.container.next - 1 ≤ Capacity; omega⟩, ?_,
    by show s.container.next - 1 + 1 = s.container.next; omega⟩
  show List.take (s.container.next - 1) s.container.items = xs
  have : List.take (s.container.next - 1) s.container.items
      = List.take (s.container.next - 1) (List.take s.container.next s.container.items) := by
    rw [List.take_take]
    congr 1
    omega
  rw [this]
  show List.take (s.container.next - 1) s.container.contents = xs
  rw [h, hn, Nat.add_sub_cancel, List.take_left']
  rfl

/-- The call `push(x)` on a stack that is not full. -/
theorem push_of_room (s : Stack α Capacity) (hwf : s.container.WellFormed) (x : α)
    (h : s.container.next < Capacity) :
    ∃ s' : Stack α Capacity, s.push x = some (true, s') ∧ s'.container.WellFormed
      ∧ s'.container.contents = s.container.contents ++ [x]
      ∧ s'.container.next = s.container.next + 1 :=
  ⟨_, push_of_lt s hwf x h, Deque.wellFormed_append _ hwf x h,
    Deque.contents_append _ hwf x h, rfl⟩

/-- The assignment `peek() = v` on a stack whose contents end with `a`. -/
theorem assignPeek_of_contents (s : Stack α Capacity) (hwf : s.container.WellFormed)
    (xs : List α) (a v : α) (h : s.container.contents = xs ++ [a]) :
    ∃ s' : Stack α Capacity, s.assignPeek v = some s' ∧ s'.container.WellFormed
      ∧ s'.container.contents = xs ++ [v]
      ∧ s'.container.next = s.container.next := by
  have hn := next_of_contents s hwf _ h
  rw [List.length_append, List.length_singleton] at hn
  have hidx := Deque.getLastIndex_of_pos _ hwf (show 0 < s.container.next by omega)
  obtain ⟨h1, h2, h3, h4⟩ := hwf
  have hlt : s.container.next - 1 < s.container.items.length := by omega
  refine ⟨{ container := { items := s.container.items.set (s.container.next - 1) v,
                           next := s.container.next } }, ?_,
    ⟨h1, h2, by rw [List.length_set, h3], h4⟩, ?_, rfl⟩
  · unfold assignPeek
    rw [hidx, Deque.writeItem_of_lt _ _ _ hlt]
    rfl
  · show List.take s.container.next (s.container.items.set (s.container.next - 1) v) = xs ++ [v]
    apply List.ext_getElem?
    intro j
    have hj : (xs ++ [a])[j]? = (List.take s.container.next s.container.items)[j]? := by
      rw [← h]
      rfl
    rw [List.getElem?_take] at hj
    rw [List.getElem?_take]
    by_cases c1 : j < xs.length
    · rw [if_pos (by omega), List.getElem?_set_ne (by omega), List.getElem?_append_left c1]
      rw [if_pos (by omega), List.getElem?_append_left c1] at hj
      exact hj.symm
    · by_cases c2 : j = xs.length
      · subst c2
        rw [if_pos (by omega), List.getElem?_append_right (Nat.le_refl _), Nat.sub_self]
        have e : s.container.next - 1 = xs.length := by omega
        rw [e, List.getElem?_set_self (by omega)]
        rfl
      · rw [if_neg (by omega), List.getElem?_append_right (by omega)]
        have : j - xs.length ≥ 1 := by omega
        rw [List.getElem?_eq_none (by simp; omega)]

end Stack

end StackLanguage

/-! ## Swap, Rotate and Over -/

namespace StackLanguage

namespace Processor

variable {M : Type} {DataStackSize ReturnStackSize : Nat}

theorem execute_of_swap (host : Host M) (p : Processor M DataStackSize ReturnStackSize)
    (i : Instruction) (hop : i.getOpcode = Opcode.Swap) :
    execute host p i = p.executeSwap i := by
  unfold execute
  rw [hop]
  rfl

theorem execute_of_roll (host : Host M) (p : Processor M DataStackSize ReturnStackSize)
    (i : Instruction) (hop : i.getOpcode = Opcode.Roll) :
    execute host p i = p.executeRoll i := by
  unfold execute
  rw [hop]
  rfl

/-- What `executeSwap` does on a stack of depth 2 or more. -/
theorem executeSwap_of_contents (p : Processor M DataStackSize ReturnStackSize)
    (i : Instruction) (hwf : p.state.dataStack.container.WellFormed)
    (rest : List Word) (b a : Word)
    (h : p.state.dataStack.container.contents = rest ++ [b, a]) :
    ∃ s' : Stack Word DataStackSize,
      p.executeSwap i = Except.ok (resultSuccess, p.setDataStack s')
        ∧ s'.container.contents = rest ++ [a, b]
        ∧ s'.container.WellFormed
        ∧ s'.getCount = p.state.dataStack.getCount := by
  have h0 : p.state.dataStack.container.contents = (rest ++ [b]) ++ [a] := by
    rw [h]; simp
  have hn := Stack.next_of_contents _ hwf _ h0
  have hcap := hwf.2.2.2
  have hpa := Stack.peek_of_contents _ hwf _ _ h0
  obtain ⟨hwf1, hc1, hn1⟩ := Stack.drop_of_contents _ hwf _ _ h0
  have hpb := Stack.peek_of_contents _ hwf1 _ _ hc1
  obtain ⟨hwf2, hc2, hn2⟩ := Stack.drop_of_contents _ hwf1 _ _ hc1
  obtain ⟨s3, hs3, hwf3, hc3, hn3⟩ := Stack.push_of_room _ hwf2 a (by omega)
  obtain ⟨s4, hs4, hwf4, hc4, hn4⟩ := Stack.push_of_room s3 hwf3 b (by omega)
  refine ⟨s4, ?_, ?_, hwf4, ?_⟩
  · have hg : ¬ p.state.dataStack.getCount < 2 := fun hlt => by
      have hlt' : p.state.dataStack.container.next < 2 := hlt
      rw [hn] at hlt'
      simp at hlt'
    unfold executeSwap
    simp only
    rw [guarded_of_ge p _ _ hg]
    simp only [ProcessorState.getDataStack, hpa, hpb, hs3, hs4, access_some, bind_ok]
    rfl
  · rw [hc4, hc3, hc2]
    simp
  · show s4.container.next = p.state.dataStack.container.next
    omega

theorem execute_of_rotate (host : Host M) (p : Processor M DataStackSize ReturnStackSize)
    (i : Instruction) (hop : i.getOpcode = Opcode.Rotate) :
    execute host p i = p.executeRotate i := by
  unfold execute
  rw [hop]
  rfl

theorem execute_of_over (host : Host M) (p : Processor M DataStackSize ReturnStackSize)
    (i : Instruction) (hop : i.getOpcode = Opcode.Over) :
    execute host p i = p.executeOver i := by
  unfold execute
  rw [hop]
  rfl

/-- What `executeRotate` does on a stack of depth 3 or more. -/
theorem executeRotate_of_contents (p : Processor M DataStackSize ReturnStackSize)
    (i : Instruction) (hwf : p.state.dataStack.container.WellFormed)
    (rest : List Word) (c b a : Word)
    (h : p.state.dataStack.container.contents = rest ++ [c, b, a]) :
    ∃ s' : Stack Word DataStackSize,
      p.executeRotate i = Except.ok (resultSuccess, p.setDataStack s')
        ∧ s'.container.contents = rest ++ [b, a, c]
        ∧ s'.container.WellFormed
        ∧ s'.getCount = p.state.dataStack.getCount := by
  have h0 : p.state.dataStack.container.contents = ((rest ++ [c]) ++ [b]) ++ [a] := by
    rw [h]; simp
  have hn := Stack.next_of_contents _ hwf _ h0
  have hcap := hwf.2.2.2
  have hpa := Stack.peek_of_contents _ hwf _ _ h0
  obtain ⟨hwf1, hc1, hn1⟩ := Stack.drop_of_contents _ hwf _ _ h0
  have hpb := Stack.peek_of_contents _ hwf1 _ _ hc1
  obtain ⟨hwf2, hc2, hn2⟩ := Stack.drop_of_contents _ hwf1 _ _ hc1
  have hpc := Stack.peek_of_contents _ hwf2 _ _ hc2
  obtain ⟨hwf3, hc3, hn3⟩ := Stack.drop_of_contents _ hwf2 _ _ hc2
  obtain ⟨s4, hs4, hwf4, hc4, hn4⟩ := Stack.push_of_room _ hwf3 b (by omega)
  obtain ⟨s5, hs5, hwf5, hc5, hn5⟩ := Stack.push_of_room s4 hwf4 a (by omega)
  obtain ⟨s6, hs6, hwf6, hc6, hn6⟩ := Stack.push_of_room s5 hwf5 c (by omega)
  refine ⟨s6, ?_, ?_, hwf6, ?_⟩
  · have hg : ¬ p.state.dataStack.getCount < 3 := fun hlt => by
      have hlt' : p.state.dataStack.container.next < 3 := hlt
      rw [hn] at hlt'
      simp at hlt'
    unfold executeRotate
    simp only
    rw [guarded_of_ge p _ _ hg]
    simp only [ProcessorState.getDataStack, hpa, hpb, hpc, hs4, hs5, hs6, access_some, bind_ok]
    rfl
  · rw [hc6, hc5, hc4, hc3]
    simp
  · show s6.container.next = p.state.dataStack.container.next
    omega

/-- What `executeOver` does on a stack of depth 2 or more that is not full. -/
theorem executeOver_of_contents (p : Processor M DataStackSize ReturnStackSize)
    (i : Instruction) (hwf : p.state.dataStack.container.WellFormed)
    (hroom : p.state.dataStack.container.next < DataStackSize)
    (rest : List Word) (b a : Word)
    (h : p.state.dataStack.container.contents = rest ++ [b, a]) :
    ∃ s' : Stack Word DataStackSize,
      p.executeOver i = Except.ok (resultSuccess, p.setDataStack s')
        ∧ s'.container.contents = rest ++ [b, a, b]
        ∧ s'.container.WellFormed
        ∧ s'.getCount = p.state.dataStack.getCount + 1 := by
  have h0 : p.state.dataStack.container.contents = (rest ++ [b]) ++ [a] := by
    rw [h]; simp
  have hn := Stack.next_of_contents _ hwf _ h0
  have hpa := Stack.peek_of_contents _ hwf _ _ h0
  obtain ⟨hwf1, hc1, hn1⟩ := Stack.drop_of_contents _ hwf _ _ h0
  have hpb := Stack.peek_of_contents _ hwf1 _ _ hc1
  obtain ⟨s2, hs2, hwf2, hc2, hn2⟩ := Stack.push_of_room _ hwf1 a (by omega)
  obtain ⟨s3, hs3, hwf3, hc3, hn3⟩ := Stack.push_of_room s2 hwf2 b (by omega)
  refine ⟨s3, ?_, ?_, hwf3, ?_⟩
  · have hg : ¬ p.state.dataStack.getCount < 2 := fun hlt => by
      have hlt' : p.state.dataStack.container.next < 2 := hlt
      rw [hn] at hlt'
      simp at hlt'
    unfold executeOver
    simp only
    rw [guarded_of_ge p _ _ hg]
    simp only [ProcessorState.getDataStack, hpa, hpb, hs2, hs3, access_some, bind_ok]
    rfl
  · rw [hc3, hc2, hc1]
    simp
  · show s3.container.next = p.state.dataStack.container.next + 1
    omega

/-- What `executeRoll` leaves, from the contents: with the operand `n` below the
depth, the element `n` positions below the top goes to the top. -/
theorem executeRoll_of_contents (p : Processor M DataStackSize ReturnStackSize)
    (i : Instruction) (hwf : p.state.dataStack.container.WellFormed)
    (below : List Word) (x : Word) (above : List Word)
    (h : p.state.dataStack.container.contents = below ++ [x] ++ above)
    (hn : i.getOperand = above.length) :
    ∃ s' : Stack Word DataStackSize,
      p.executeRoll i = Except.ok (resultSuccess, p.setDataStack s')
        ∧ s'.container.contents = below ++ above ++ [x]
        ∧ s'.getCount = p.state.dataStack.getCount := by
  have hnext := Stack.next_of_contents _ hwf _ h
  simp only [List.length_append, List.length_singleton] at hnext
  have hlt : i.getOperand < p.state.dataStack.container.next := by
    have e : above.length < below.length + 1 + above.length := by omega
    rw [hn, hnext]
    exact e
  obtain ⟨y, s', hy, hs', hc', hcount, _⟩ := executeRoll_of_lt p i hwf hlt
  have hidx : p.state.dataStack.container.next - 1 - i.getOperand = below.length := by
    rw [hn, hnext]
    omega
  have hidx2 : p.state.dataStack.container.next - i.getOperand = below.length + 1 := by
    rw [hn, hnext]
    omega
  rw [hidx, h] at hy
  rw [hidx, hidx2, h] at hc'
  have hyx : y = x := by
    rw [List.append_assoc, List.getElem?_append_right (Nat.le_refl _), Nat.sub_self] at hy
    have e : ([x] ++ above)[0]? = some x := by simp
    rw [e] at hy
    exact (Option.some.inj hy).symm
  refine ⟨s', hs', ?_, hcount⟩
  rw [hc', hyx]
  have e1 : List.take below.length (below ++ [x] ++ above) = below := by
    rw [List.append_assoc, List.take_left']
    rfl
  have e2 : List.drop (below.length + 1) (below ++ [x] ++ above) = above := by
    have : (below ++ [x]).length = below.length + 1 := by simp
    rw [← this, List.drop_left']
    rfl
  rw [e1, e2]

end Processor

end StackLanguage

namespace StackLanguage

namespace Processor

variable {M : Type} {DataStackSize ReturnStackSize : Nat}

/-- What Roll with operand 0 does on a stack that is not empty: it returns
Success and the contents are as before. -/
theorem executeRoll_zero_of_nonempty (p : Processor M DataStackSize ReturnStackSize)
    (i : Instruction) (hwf : p.state.dataStack.container.WellFormed)
    (hn : i.getOperand = 0) (hne : 0 < p.state.dataStack.container.next) :
    ∃ s' : Stack Word DataStackSize,
      p.executeRoll i = Except.ok (resultSuccess, p.setDataStack s')
        ∧ s'.container.contents = p.state.dataStack.container.contents
        ∧ s'.getCount = p.state.dataStack.getCount := by
  have hlen := Deque.contents_length _ hwf
  obtain ⟨below, x, hbx⟩ : ∃ below x, p.state.dataStack.container.contents = below ++ [x] := by
    have hnil : p.state.dataStack.container.contents ≠ [] := by
      intro e
      rw [e] at hlen
      simp at hlen
      omega
    exact ⟨_, _, (List.dropLast_append_getLast hnil).symm⟩
  obtain ⟨s', hs', hc', hcount⟩ := executeRoll_of_contents p i hwf below x []
    (by rw [hbx]; simp) (by rw [hn]; rfl)
  refine ⟨s', hs', ?_, hcount⟩
  rw [hc', hbx]
  simp

/-- C21, evaluated: Roll with operand 0 on the empty Data Stack (capacity 4).
The check `assertDataStackSize(0)` passes, `end = getCount() - 1` wraps to
`2^64 - 1`, and `stack[index]` reads a slot outside the storage: the call has no
defined result, and so has the first cycle of the program `Roll 0`. On the stack
`[1, 2, 3]` Roll 0 returns Success and the stack is as before. -/
theorem roll_zero_on_empty_reads_outside :
    (Processor.midRun 4 2 [] ([0, 0, 0, 0], 0) ([0, 0], 0) 0).state.dataStack.getCount = 0
      ∧ (Processor.midRun 4 2 [] ([0, 0, 0, 0], 0) ([0, 0], 0) 0).assertDataStackSize
          (Instruction.ofWord Opcode.Roll 0).getOperand = resultSuccess
      ∧ ((Processor.midRun 4 2 [] ([0, 0, 0, 0], 0) ([0, 0], 0) 0).state.dataStack.getCount
            + sizeModulus - 1) % sizeModulus = sizeModulus - 1
      ∧ (Processor.midRun 4 2 [] ([0, 0, 0, 0], 0) ([0, 0], 0) 0).state.dataStack.subscript
          (sizeModulus - 1) = none
      ∧ execute nullHost (Processor.midRun 4 2 [] ([0, 0, 0, 0], 0) ([0, 0], 0) 0)
          (Instruction.ofWord Opcode.Roll 0)
        = Except.error Fault.outOfStorage
      ∧ executeCycle nullHost
          ((Processor.create [Instruction.ofWord Opcode.Roll 0] false () :
            Processor Unit 4 2).start)
        = Except.error Fault.outOfStorage
      ∧ execute nullHost sampleOneTwoThree (Instruction.ofWord Opcode.Roll 0)
        = Except.ok (resultSuccess, sampleOneTwoThree) := by
  decide

/-- C22: for every Data Stack of depth 2 or more with contents `[..., b, a]`
(`a` on top), Swap returns Success and the stack becomes `[..., a, b]` with
everything below unchanged, which is also the stack Roll with operand 1
produces; with depth below 2, Swap returns `Data stack underflow`. -/
theorem swap_spec (host : Host M) (p : Processor M DataStackSize ReturnStackSize)
    (i : Instruction) (hop : i.getOpcode = Opcode.Swap)
    (hwf : p.state.dataStack.container.WellFormed) :
    (∀ (rest : List Word) (b a : Word),
        p.state.dataStack.container.contents = rest ++ [b, a] →
          ∃ s' : Stack Word DataStackSize,
            execute host p i = Except.ok (resultSuccess, p.setDataStack s')
              ∧ s'.container.contents = rest ++ [a, b]
              ∧ s'.getCount = p.state.dataStack.getCount
              ∧ ∀ j : Instruction, j.getOpcode = Opcode.Roll → j.getOperand = 1 →
                  ∃ s'' : Stack Word DataStackSize,
                    execute host p j = Except.ok (resultSuccess, p.setDataStack s'')
                      ∧ s''.container.contents = rest ++ [a, b]
                      ∧ s''.getCount = p.state.dataStack.getCount)
      ∧ (p.state.dataStack.getCount < 2 →
          execute host p i = Except.ok (resultError "Data stack underflow", p)) := by
  rw [execute_of_swap host p i hop]
  constructor
  · intro rest b a h
    obtain ⟨s', hs', hc', _, hcount⟩ := executeSwap_of_contents p i hwf rest b a h
    refine ⟨s', hs', hc', hcount, ?_⟩
    intro j hj hj1
    rw [execute_of_roll host p j hj]
    obtain ⟨s'', hs'', hc'', hcount''⟩ := executeRoll_of_contents p j hwf rest b [a]
      (by rw [h]; simp) (by rw [hj1]; rfl)
    exact ⟨s'', hs'', by rw [hc'']; simp, hcount''⟩
  · intro hlt
    unfold executeSwap
    simp only
    rw [guarded_of_lt p _ _ hlt]

theorem swap_spec_witness :
    (Instruction.ofOpcode Opcode.Swap).getOpcode = Opcode.Swap
      ∧ sampleOneTwoThree.state.dataStack.container.WellFormed
      ∧ sampleOneTwoThree.state.dataStack.container.contents = [1] ++ [2, 3]
      ∧ ∃ s' : Stack Word 4,
          execute nullHost sampleOneTwoThree (Instruction.ofOpcode Opcode.Swap)
              = Except.ok (resultSuccess, sampleOneTwoThree.setDataStack s')
            ∧ s'.container.contents = [1] ++ [3, 2]
            ∧ s'.getCount = sampleOneTwoThree.state.dataStack.getCount
            ∧ ∀ j : Instruction, j.getOpcode = Opcode.Roll → j.getOperand = 1 →
                ∃ s'' : Stack Word 4,
                  execute nullHost sampleOneTwoThree j
                      = Except.ok (resultSuccess, sampleOneTwoThree.setDataStack s'')
                    ∧ s''.container.contents = [1] ++ [3, 2]
                    ∧ s''.getCount = sampleOneTwoThree.state.dataStack.getCount :=
  ⟨by decide, by decide, by decide,
    (swap_spec nullHost sampleOneTwoThree (Instruction.ofOpcode Opcode.Swap)
      (by decide) (by decide)).1 [1] 2 3 (by decide)⟩

/-- C23: for every Data Stack of depth 3 or more with contents `[..., c, b, a]`
(`a` on top), Rotate returns Success and the stack becomes `[..., b, a, c]` with
everything below unchanged, which is also the stack Roll with operand 2
produces; with depth below 3, Rotate returns `Data stack underflow`. -/
theorem rotate_spec (host : Host M) (p : Processor M DataStackSize ReturnStackSize)
    (i : Instruction) (hop : i.getOpcode = Opcode.Rotate)
    (hwf : p.state.dataStack.container.WellFormed) :
    (∀ (rest : List Word) (c b a : Word),
        p.state.dataStack.container.contents = rest ++ [c, b, a] →
          ∃ s' : Stack Word DataStackSize,
            execute host p i = Except.ok (resultSuccess, p.setDataStack s')
              ∧ s'.container.contents = rest ++ [b, a, c]
              ∧ s'.getCount = p.state.dataStack.getCount
              ∧ ∀ j : Instruction, j.getOpcode = Opcode.Roll → j.getOperand = 2 →
                  ∃ s'' : Stack Word DataStackSize,
                    execute host p j = Except.ok (resultSuccess, p.setDataStack s'')
                      ∧ s''.container.contents = rest ++ [b, a, c]
                      ∧ s''.getCount = p.state.dataStack.getCount)
      ∧ (p.state.dataStack.getCount < 3 →
          execute host p i = Except.ok (resultError "Data stack underflow", p)) := by
  rw [execute_of_rotate host p i hop]
  constructor
  · intro rest c b a h
    obtain ⟨s', hs', hc', _, hcount⟩ := executeRotate_of_contents p i hwf rest c b a h
    refine ⟨s', hs', hc', hcount, ?_⟩
    intro j hj hj2
    rw [execute_of_roll host p j hj]
    obtain ⟨s'', hs'', hc'', hcount''⟩ := executeRoll_of_contents p j hwf rest c [b, a]
      (by rw [h]; simp) (by rw [hj2]; rfl)
    exact ⟨s'', hs'', by rw [hc'']; simp, hcount''⟩
  · intro hlt
    unfold executeRotate
    simp only
    rw [guarded_of_lt p _ _ hlt]

theorem rotate_spec_witness :
    (Instruction.ofOpcode Opcode.Rotate).getOpcode = Opcode.Rotate
      ∧ sampleOneTwoThree.state.dataStack.container.WellFormed
      ∧ sampleOneTwoThree.state.dataStack.container.contents = [] ++ [1, 2, 3]
      ∧ ∃ s' : Stack Word 4,
          execute nullHost sampleOneTwoThree (Instruction.ofOpcode Opcode.Rotate)
              = Except.ok (resultSuccess, sampleOneTwoThree.setDataStack s')
            ∧ s'.container.contents = [] ++ [2, 3, 1]
            ∧ s'.getCount = sampleOneTwoThree.state.dataStack.getCount
            ∧ ∀ j : Instruction, j.getOpcode = Opcode.Roll → j.getOperand = 2 →
                ∃ s'' : Stack Word 4,
                  execute nullHost sampleOneTwoThree j
                      = Except.ok (resultSuccess, sampleOneTwoThree.setDataStack s'')
                    ∧ s''.container.contents = [] ++ [2, 3, 1]
                    ∧ s''.getCount = sampleOneTwoThree.state.dataStack.getCount :=
  ⟨by decide, by decide, by decide,
    (rotate_spec nullHost sampleOneTwoThree (Instruction.ofOpcode Opcode.Rotate)
      (by decide) (by decide)).1 [] 1 2 3 (by decide)⟩

/-- C24: for every Data Stack of depth 2 or more that is not full, with contents
`[..., b, a]` (`a` on top), Over returns Success and the stack becomes
`[..., b, a, b]`; with depth below 2, Over returns `Data stack underflow`. -/
theorem over_spec (host : Host M) (p : Processor M DataStackSize ReturnStackSize)
    (i : Instruction) (hop : i.getOpcode = Opcode.Over)
    (hwf : p.state.dataStack.container.WellFormed) :
    (p.state.dataStack.isFull = false →
        ∀ (rest : List Word) (b a : Word),
          p.state.dataStack.container.contents = rest ++ [b, a] →
            ∃ s' : Stack Word DataStackSize,
              execute host p i = Except.ok (resultSuccess, p.setDataStack s')
                ∧ s'.container.contents = rest ++ [b, a, b]
                ∧ s'.getCount = p.state.dataStack.getCount + 1)
      ∧ (p.state.dataStack.getCount < 2 →
          execute host p i = Except.ok (resultError "Data stack underflow", p)) := by
  rw [execute_of_over host p i hop]
  constructor
  · intro hnf rest b a h
    have hroom := (Deque.isFull_eq_false_iff _ hwf).1 hnf
    obtain ⟨s', hs', hc', _, hcount⟩ := executeOver_of_contents p i hwf hroom rest b a h
    exact ⟨s', hs', hc', hcount⟩
  · intro hlt
    unfold executeOver
    simp only
    rw [guarded_of_lt p _ _ hlt]

theorem over_spec_witness :
    (Instruction.ofOpcode Opcode.Over).getOpcode = Opcode.Over
      ∧ sampleOneTwoThree.state.dataStack.container.WellFormed
      ∧ sampleOneTwoThree.state.dataStack.isFull = false
      ∧ sampleOneTwoThree.state.dataStack.container.contents = [1] ++ [2, 3]
      ∧ ∃ s' : Stack Word 4,
          execute nullHost sampleOneTwoThree (Instruction.ofOpcode Opcode.Over)
              = Except.ok (resultSuccess, sampleOneTwoThree.setDataStack s')
            ∧ s'.container.contents = [1] ++ [2, 3, 2]
            ∧ s'.getCount = sampleOneTwoThree.state.dataStack.getCount + 1 :=
  ⟨by decide, by decide, by decide, by decide,
    (over_spec nullHost sampleOneTwoThree (Instruction.ofOpcode Opcode.Over)
      (by decide) (by decide)).1 (by decide) [1] 2 3 (by decide)⟩

end Processor

end StackLanguage

/-! ## Flow control -/

namespace StackLanguage

namespace Processor

variable {M : Type} {DataStackSize ReturnStackSize : Nat}

/-- The fetch of `executeCycle()` on a running processor whose pointer addresses
the instruction `i`: the handler runs with the pointer advanced by one. -/
theorem executeCycle_of_fetch (host : Host M) (p : Processor M DataStackSize ReturnStackSize)
    (i : Instruction) (hrun : p.isRunning = true) (hnc : p.hasCompleted = false)
    (hsize : p.environment.getInstructions.length < 2 ^ 32)
    (hfetch : p.environment.getInstructions[p.state.getInstructionPointer]? = some i) :
    executeCycle host p
      = execute host
          { p with state := { p.state with instructionPointer := p.state.instructionPointer + 1 } }
          i := by
  have hlt : p.state.getInstructionPointer < p.environment.getInstructions.length := by
    by_contra hc
    have hc' : p.environment.getInstructions.length ≤ p.state.getInstructionPointer := by
      unfold Address at *
      omega
    rw [List.getElem?_eq_none hc'] at hfetch
    cases hfetch
  have hnot : ¬ p.state.getInstructionPointer ≥ p.environment.getInstructions.length := by
    unfold Address at *
    omega
  unfold executeCycle
  rw [hnc, hrun]
  simp only [Bool.false_eq_true, if_false, Bool.not_true]
  rw [if_neg hnot, hfetch]
  have hinc : p.state.incrementInstructionPointer
      = { p.state with instructionPointer := p.state.instructionPointer + 1 } := by
    unfold ProcessorState.incrementInstructionPointer
    unfold ProcessorState.getInstructionPointer at hlt
    have : (p.state.instructionPointer + 1) % 2 ^ 32 = p.state.instructionPointer + 1 := by
      apply Nat.mod_eq_of_lt
      unfold Address at *
      omega
    rw [this]
  rw [hinc]
  rfl

theorem execute_of_call (host : Host M) (p : Processor M DataStackSize ReturnStackSize)
    (i : Instruction) (hop : i.getOpcode = Opcode.Call) :
    execute host p i = p.executeCall i := by
  unfold execute
  rw [hop]
  rfl

theorem execute_of_callIndirect (host : Host M)
    (p : Processor M DataStackSize ReturnStackSize)
    (i : Instruction) (hop : i.getOpcode = Opcode.CallIndirect) :
    execute host p i = p.executeCallIndirect i := by
  unfold execute
  rw [hop]
  rfl

theorem execute_of_return (host : Host M) (p : Processor M DataStackSize ReturnStackSize)
    (i : Instruction) (hop : i.getOpcode = Opcode.Return) :
    execute host p i = p.executeReturn i := by
  unfold execute
  rw [hop]
  rfl

theorem execute_of_jumpRelative (host : Host M)
    (p : Processor M DataStackSize ReturnStackSize)
    (i : Instruction) (hop : i.getOpcode = Opcode.JumpRelative) :
    execute host p i = p.executeJumpRelative i := by
  unfold execute
  rw [hop]
  rfl

theorem execute_of_jumpAbsolute (host : Host M)
    (p : Processor M DataStackSize ReturnStackSize)
    (i : Instruction) (hop : i.getOpcode = Opcode.JumpAbsolute) :
    execute host p i = p.executeJumpAbsolute i := by
  unfold execute
  rw [hop]
  rfl

/-- What `executeCall` does when the Return Stack has room: the pointer is
pushed and then set to the operand. -/
theorem executeCall_of_room (p : Processor M DataStackSize ReturnStackSize) (i : Instruction)
    (hwf : p.state.returnStack.container.WellFormed)
    (hroom : p.state.returnStack.container.next < ReturnStackSize) :
    ∃ rs' : Stack Address ReturnStackSize,
      p.executeCall i = Except.ok (resultSuccess,
          { p with state := { p.state with returnStack := rs',
                                           instructionPointer := i.getOperand } })
        ∧ rs'.container.contents
            = p.state.returnStack.container.contents ++ [p.state.instructionPointer]
        ∧ rs'.container.WellFormed
        ∧ rs'.getCount = p.state.returnStack.getCount + 1 := by
  obtain ⟨rs', hrs', hwf', hc', hn'⟩ := Stack.push_of_room _ hwf p.state.instructionPointer hroom
  refine ⟨rs', ?_, hc', hwf', hn'⟩
  unfold executeCall ProcessorState.functionCall
  simp only [hrs', access_some, bind_ok]
  rfl

/-- What `executeCall` does when the Return Stack is full: `push` returns
`false`, which is not looked at, and the pointer is set to the operand. -/
theorem executeCall_of_full (p : Processor M DataStackSize ReturnStackSize) (i : Instruction)
    (hwf : p.state.returnStack.container.WellFormed)
    (hfull : p.state.returnStack.container.next = ReturnStackSize) :
    p.executeCall i = Except.ok (resultSuccess,
        { p with state := { p.state with returnStack := p.state.returnStack,
                                         instructionPointer := i.getOperand } }) := by
  have hpush := Stack.push_of_full _ hwf p.state.instructionPointer hfull
  unfold executeCall ProcessorState.functionCall
  simp only [hpush, access_some, bind_ok]
  rfl

/-- What `executeReturn` does when the Return Stack is not empty. -/
theorem executeReturn_of_contents (p : Processor M DataStackSize ReturnStackSize)
    (i : Instruction) (hwf : p.state.returnStack.container.WellFormed)
    (rest : List Address) (top : Address)
    (h : p.state.returnStack.container.contents = rest ++ [top]) :
    p.executeReturn i = Except.ok (resultSuccess,
        { p with state := { p.state with instructionPointer := top,
                                         returnStack := p.state.returnStack.drop } })
      ∧ p.state.returnStack.drop.container.contents = rest
      ∧ p.state.returnStack.drop.getCount + 1 = p.state.returnStack.getCount := by
  have hn := Stack.next_of_contents _ hwf _ h
  rw [List.length_append, List.length_singleton] at hn
  have hpeek := Stack.peek_of_contents _ hwf _ _ h
  obtain ⟨_, hc1, hn1⟩ := Stack.drop_of_contents _ hwf _ _ h
  refine ⟨?_, hc1, hn1⟩
  have hne : ¬ p.state.getReturnStack.isEmpty = true := by
    show ¬ p.state.returnStack.container.isEmpty = true
    unfold Deque.isEmpty Deque.FirstIndex
    simp only [beq_iff_eq]
    omega
  unfold executeReturn
  rw [if_neg hne]
  unfold ProcessorState.functionReturn
  simp only [hpeek, access_some, bind_ok]
  rfl

/-- What `executeReturn` does when the Return Stack is empty. -/
theorem executeReturn_of_empty (p : Processor M DataStackSize ReturnStackSize)
    (i : Instruction) (h : p.state.returnStack.isEmpty = true) :
    p.executeReturn i = Except.ok (resultError "Call stack underflow", p) := by
  unfold executeReturn
  have h' : p.state.getReturnStack.isEmpty = true := h
  rw [if_pos h']
  rfl

/-- A container that is not empty has a last element. -/
theorem contents_of_not_empty {α : Type} {Capacity : Nat} (s : Stack α Capacity)
    (hwf : s.container.WellFormed) (h : s.isEmpty = false) :
    ∃ (rest : List α) (top : α), s.container.contents = rest ++ [top] := by
  have hlen := Deque.contents_length _ hwf
  have hpos : s.container.next ≠ 0 := by
    unfold Stack.isEmpty Deque.isEmpty Deque.FirstIndex at h
    simpa using h
  have hnil : s.container.contents ≠ [] := by
    intro e
    rw [e] at hlen
    simp at hlen
    omega
  exact ⟨_, _, (List.dropLast_append_getLast hnil).symm⟩

end Processor

end StackLanguage

namespace StackLanguage

namespace Processor

variable {M : Type} {DataStackSize ReturnStackSize : Nat}

/-- C25: for every running processor whose Return Stack is not full and whose
instruction pointer `P` addresses a Call(A) instruction: after `executeCycle()`
the instruction pointer is `A` and the Return Stack has `P + 1` pushed on top of
its former contents; and whenever a Return is executed with the Return Stack in
that state, the instruction pointer becomes `P + 1` and the Return Stack has
again the contents it had before the Call. Nothing is assumed of the nesting
depth but that the Return Stack is not full. -/
theorem call_return_spec (host : Host M) (p : Processor M DataStackSize ReturnStackSize)
    (i : Instruction) (hrun : p.isRunning = true) (hnc : p.hasCompleted = false)
    (hsize : p.environment.getInstructions.length < 2 ^ 32)
    (hfetch : p.environment.getInstructions[p.state.getInstructionPointer]? = some i)
    (hop : i.getOpcode = Opcode.Call)
    (hwf : p.state.returnStack.container.WellFormed)
    (hroom : p.state.returnStack.isFull = false) :
    ∃ rs' : Stack Address ReturnStackSize,
      executeCycle host p = Except.ok (resultSuccess,
          { p with state := { p.state with returnStack := rs',
                                           instructionPointer := i.getOperand } })
        ∧ rs'.container.contents
            = p.state.returnStack.container.contents ++ [p.state.instructionPointer + 1]
        ∧ rs'.getCount = p.state.returnStack.getCount + 1
        ∧ ∀ (q : Processor M DataStackSize ReturnStackSize) (j : Instruction),
            q.state.returnStack = rs' → j.getOpcode = Opcode.Return →
              ∃ rs'' : Stack Address ReturnStackSize,
                execute host q j = Except.ok (resultSuccess,
                    { q with state := { q.state with
                        instructionPointer := p.state.instructionPointer + 1,
                        returnStack := rs'' } })
                  ∧ rs''.container.contents = p.state.returnStack.container.contents
                  ∧ rs''.getCount = p.state.returnStack.getCount := by
  have hlt := (Deque.isFull_eq_false_iff _ hwf).1 hroom
  rw [executeCycle_of_fetch host p i hrun hnc hsize hfetch, execute_of_call host _ i hop]
  obtain ⟨rs', hrs', hc', hwf', hn'⟩ := executeCall_of_room
    ({ p with state := { p.state with instructionPointer := p.state.instructionPointer + 1 } })
    i hwf hlt
  refine ⟨rs', hrs', hc', hn', ?_⟩
  intro q j hq hj
  rw [execute_of_return host q j hj]
  have hwfq : q.state.returnStack.container.WellFormed := by rw [hq]; exact hwf'
  have hcq : q.state.returnStack.container.contents
      = p.state.returnStack.container.contents ++ [p.state.instructionPointer + 1] := by
    rw [hq]; exact hc'
  obtain ⟨hret, hc'', hn''⟩ := executeReturn_of_contents q j hwfq _ _ hcq
  refine ⟨q.state.returnStack.drop, hret, hc'', ?_⟩
  have e1 : q.state.returnStack.getCount = rs'.getCount := by rw [hq]
  have e2 : rs'.getCount = p.state.returnStack.getCount + 1 := hn'
  omega

theorem call_return_spec_witness :
    sampleCallProgram.isRunning = true ∧ sampleCallProgram.hasCompleted = false
      ∧ sampleCallProgram.environment.getInstructions.length < 2 ^ 32
      ∧ sampleCallProgram.environment.getInstructions[
          sampleCallProgram.state.getInstructionPointer]? = some (Instruction.ofWord Opcode.Call 2)
      ∧ (Instruction.ofWord Opcode.Call 2).getOpcode = Opcode.Call
      ∧ sampleCallProgram.state.returnStack.container.WellFormed
      ∧ sampleCallProgram.state.returnStack.isFull = false
      ∧ ∃ rs' : Stack Address 2,
          executeCycle nullHost sampleCallProgram = Except.ok (resultSuccess,
              { sampleCallProgram with state := { sampleCallProgram.state with
                  returnStack := rs',
                  instructionPointer := (Instruction.ofWord Opcode.Call 2).getOperand } })
            ∧ rs'.container.contents
                = sampleCallProgram.state.returnStack.container.contents
                  ++ [sampleCallProgram.state.instructionPointer + 1]
            ∧ rs'.getCount = sampleCallProgram.state.returnStack.getCount + 1
            ∧ ∀ (q : Processor Unit 4 2) (j : Instruction),
                q.state.returnStack = rs' → j.getOpcode = Opcode.Return →
                  ∃ rs'' : Stack Address 2,
                    execute nullHost q j = Except.ok (resultSuccess,
                        { q with state := { q.state with
                            instructionPointer := sampleCallProgram.state.instructionPointer + 1,
                            returnStack := rs'' } })
                      ∧ rs''.container.contents
                          = sampleCallProgram.state.returnStack.container.contents
                      ∧ rs''.getCount = sampleCallProgram.state.returnStack.getCount :=
  ⟨by decide, by decide, by decide, by decide, by decide, by decide, by decide,
    call_return_spec nullHost sampleCallProgram (Instruction.ofWord Opcode.Call 2)
      (by decide) (by decide) (by decide) (by decide) (by decide) (by decide) (by decide)⟩

/-- C26: Call makes no check of the Return Stack: in every processor state, one
with a full Return Stack included, Call(address) returns Success and sets the
instruction pointer to the address; when the Return Stack is full it stays as it
is, count and contents (the resume address is not recorded), and otherwise the
pointer is pushed on it. -/
theorem call_unchecked (host : Host M) (p : Processor M DataStackSize ReturnStackSize)
    (i : Instruction) (hop : i.getOpcode = Opcode.Call)
    (hwf : p.state.returnStack.container.WellFormed) :
    ∃ rs' : Stack Address ReturnStackSize,
      execute host p i = Except.ok (resultSuccess,
          { p with state := { p.state with returnStack := rs',
                                           instructionPointer := i.getOperand } })
        ∧ (p.state.returnStack.isFull = true → rs' = p.state.returnStack)
        ∧ (p.state.returnStack.isFull = false →
            rs'.container.contents
                = p.state.returnStack.container.contents ++ [p.state.instructionPointer]
              ∧ rs'.getCount = p.state.returnStack.getCount + 1) := by
  rw [execute_of_call host p i hop]
  cases hf : p.state.returnStack.isFull
  · have hlt := (Deque.isFull_eq_false_iff _ hwf).1 hf
    obtain ⟨rs', hrs', hc', _, hn'⟩ := executeCall_of_room p i hwf hlt
    exact ⟨rs', hrs', fun h => (by cases h), fun _ => ⟨hc', hn'⟩⟩
  · have heq := (Deque.isFull_iff _ hwf).1 hf
    exact ⟨p.state.returnStack, executeCall_of_full p i hwf heq, fun _ => rfl,
      fun h => (by cases h)⟩

theorem call_unchecked_witness :
    (Instruction.ofWord Opcode.Call 3).getOpcode = Opcode.Call
      ∧ sampleFullReturnStack.state.returnStack.container.WellFormed
      ∧ sampleFullReturnStack.state.returnStack.isFull = true
      ∧ ∃ rs' : Stack Address 2,
          execute nullHost sampleFullReturnStack (Instruction.ofWord Opcode.Call 3)
              = Except.ok (resultSuccess,
                { sampleFullReturnStack with state := { sampleFullReturnStack.state with
                    returnStack := rs',
                    instructionPointer := (Instruction.ofWord Opcode.Call 3).getOperand } })
            ∧ (sampleFullReturnStack.state.returnStack.isFull = true →
                rs' = sampleFullReturnStack.state.returnStack)
            ∧ (sampleFullReturnStack.state.returnStack.isFull = false →
                rs'.container.contents
                    = sampleFullReturnStack.state.returnStack.container.contents
                      ++ [sampleFullReturnStack.state.instructionPointer]
                  ∧ rs'.getCount = sampleFullReturnStack.state.returnStack.getCount + 1) :=
  ⟨by decide, by decide, by decide,
    call_unchecked nullHost sampleFullReturnStack (Instruction.ofWord Opcode.Call 3)
      (by decide) (by decide)⟩

/-- What `executeCallIndirect` does with exactly one element on the Data Stack:
the check `assertDataStackSize(2)` fails. -/
theorem executeCallIndirect_of_depth_one (p : Processor M DataStackSize ReturnStackSize)
    (i : Instruction) (h : p.state.dataStack.getCount = 1) :
    p.executeCallIndirect i = Except.ok (resultError "Data stack underflow", p) := by
  unfold executeCallIndirect
  simp only
  rw [guarded_of_lt p _ _ (by rw [h]; decide)]

/-- C27, evaluated: CallIndirect on the Data Stack `[7]` of depth 1 returns the
Error `Data stack underflow` and changes nothing, because the handler checks
`assertDataStackSize(2)` although it pops one word; so does the second cycle of
the program `Push 3, CallIndirect`. With the two elements `[5, 7]` it returns
Success, pops 7, pushes the pointer on the Return Stack and jumps to 7. -/
theorem callIndirect_rejects_depth_one :
    (Processor.midRun 4 2 [] ([7, 0, 0, 0], 1) ([0, 0], 0) 1).state.dataStack.getCount = 1
      ∧ execute nullHost (Processor.midRun 4 2 [] ([7, 0, 0, 0], 1) ([0, 0], 0) 1)
          (Instruction.ofOpcode Opcode.CallIndirect)
        = Except.ok (resultError "Data stack underflow",
            Processor.midRun 4 2 [] ([7, 0, 0, 0], 1) ([0, 0], 0) 1)
      ∧ executeCycles nullHost
          ((Processor.create
            [Instruction.ofWord Opcode.Push 3, Instruction.ofOpcode Opcode.CallIndirect]
            false () : Processor Unit 4 2).start) 2
        = Except.ok ([resultSuccess, resultError "Data stack underflow"],
            Processor.midRun 4 2
              [Instruction.ofWord Opcode.Push 3, Instruction.ofOpcode Opcode.CallIndirect]
              ([3, 0, 0, 0], 1) ([0, 0], 0) 2)
      ∧ execute nullHost (Processor.midRun 4 2 [] ([5, 7, 0, 0], 2) ([0, 0], 0) 1)
          (Instruction.ofOpcode Opcode.CallIndirect)
        = Except.ok (resultSuccess,
            Processor.midRun 4 2 [] ([5, 7, 0, 0], 1) ([1, 0], 1) 7) := by
  decide

/-- C28: for every processor state, Return returns the Error
`Call stack underflow` exactly when the Return Stack is empty, and then the
processor, with both stacks, is unchanged; otherwise it returns Success, sets
the instruction pointer to the former top of the Return Stack and removes that
one entry. -/
theorem return_spec (host : Host M) (p : Processor M DataStackSize ReturnStackSize)
    (i : Instruction) (hop : i.getOpcode = Opcode.Return)
    (hwf : p.state.returnStack.container.WellFormed) :
    (p.state.returnStack.isEmpty = true →
        execute host p i = Except.ok (resultError "Call stack underflow", p))
      ∧ (p.state.returnStack.isEmpty = false →
          ∃ (rest : List Address) (top : Address) (rs' : Stack Address ReturnStackSize),
            p.state.returnStack.container.contents = rest ++ [top]
              ∧ execute host p i = Except.ok (resultSuccess,
                  { p with state := { p.state with instructionPointer := top,
                                                   returnStack := rs' } })
              ∧ rs'.container.contents = rest
              ∧ rs'.getCount + 1 = p.state.returnStack.getCount)
      ∧ (∀ (r : ResultInfo) (p' : Processor M DataStackSize ReturnStackSize),
          execute host p i = Except.ok (r, p') →
            (r = resultError "Call stack underflow" ↔ p.state.returnStack.isEmpty = true)) := by
  rw [execute_of_return host p i hop]
  have hempty : p.state.returnStack.isEmpty = true →
      p.executeReturn i = Except.ok (resultError "Call stack underflow", p) :=
    executeReturn_of_empty p i
  have hfilled : p.state.returnStack.isEmpty = false →
      ∃ (rest : List Address) (top : Address) (rs' : Stack Address ReturnStackSize),
        p.state.returnStack.container.contents = rest ++ [top]
          ∧ p.executeReturn i = Except.ok (resultSuccess,
              { p with state := { p.state with instructionPointer := top,
                                               returnStack := rs' } })
          ∧ rs'.container.contents = rest
          ∧ rs'.getCount + 1 = p.state.returnStack.getCount := by
    intro hne
    obtain ⟨rest, top, hc⟩ := contents_of_not_empty _ hwf hne
    obtain ⟨hret, hc', hn'⟩ := executeReturn_of_contents p i hwf rest top hc
    exact ⟨rest, top, _, hc, hret, hc', hn'⟩
  refine ⟨hempty, hfilled, ?_⟩
  intro r p' h
  cases he : p.state.returnStack.isEmpty
  · obtain ⟨rest, top, rs', _, hret, _, _⟩ := hfilled he
    rw [hret] at h
    cases h
    constructor
    · intro hr
      exact absurd hr (by decide)
    · intro hc
      cases hc
  · rw [hempty he] at h
    cases h
    exact ⟨fun _ => rfl, fun _ => rfl⟩

theorem return_spec_witness :
    (Instruction.ofOpcode Opcode.Return).getOpcode = Opcode.Return
      ∧ sampleFullReturnStack.state.returnStack.container.WellFormed
      ∧ sampleFullReturnStack.state.returnStack.isEmpty = false
      ∧ ∃ (rest : List Address) (top : Address) (rs' : Stack Address 2),
          sampleFullReturnStack.state.returnStack.container.contents = rest ++ [top]
            ∧ execute nullHost sampleFullReturnStack (Instruction.ofOpcode Opcode.Return)
              = Except.ok (resultSuccess,
                  { sampleFullReturnStack with state := { sampleFullReturnStack.state with
                      instructionPointer := top, returnStack := rs' } })
            ∧ rs'.container.contents = rest
            ∧ rs'.getCount + 1 = sampleFullReturnStack.state.returnStack.getCount :=
  ⟨by decide, by decide, by decide,
    (return_spec nullHost sampleFullReturnStack (Instruction.ofOpcode Opcode.Return)
      (by decide) (by decide)).2.1 (by decide)⟩

end Processor

end StackLanguage

namespace StackLanguage

namespace Processor

variable {M : Type} {DataStackSize ReturnStackSize : Nat}

/-- The pointer after `jumpRelative(offset)` from the pointer `ip`, as an
integer. -/
theorem jumpRelative_target (ip : Nat) (offset : Int) :
    (((ip + toWord offset) % 2 ^ 32 : Nat) : Int) = ((ip : Int) + offset) % 2 ^ 32 := by
  unfold toWord
  omega

/-- C29: for every running processor whose instruction pointer `P` addresses a
jump: JumpAbsolute(a) returns Success and sets the pointer to `a`, and
JumpRelative(o) returns Success and sets the pointer to `(P + 1 + o) mod 2^32`
with `o` the sign-extended operand, in both cases without a bounds check; if the
resulting pointer is at or beyond the Program length, it is the next
`executeCycle()` that returns `Jumped to invalid address`. -/
theorem jump_spec (host : Host M) (p : Processor M DataStackSize ReturnStackSize)
    (i : Instruction) (hrun : p.isRunning = true) (hnc : p.hasCompleted = false)
    (hsize : p.environment.getInstructions.length < 2 ^ 32)
    (hfetch : p.environment.getInstructions[p.state.getInstructionPointer]? = some i) :
    (i.getOpcode = Opcode.JumpAbsolute →
        executeCycle host p = Except.ok (resultSuccess,
          { p with state := { p.state with instructionPointer := i.getOperand } }))
      ∧ (i.getOpcode = Opcode.JumpRelative →
          ∃ target : Nat,
            executeCycle host p = Except.ok (resultSuccess,
                { p with state := { p.state with instructionPointer := target } })
              ∧ (target : Int)
                  = ((p.state.instructionPointer : Int) + 1 + i.getSignedOperand) % 2 ^ 32)
      ∧ (i.getOpcode = Opcode.JumpAbsolute ∨ i.getOpcode = Opcode.JumpRelative →
          ∃ p' : Processor M DataStackSize ReturnStackSize,
            executeCycle host p = Except.ok (resultSuccess, p')
              ∧ (p'.environment.getInstructions.length ≤ p'.state.getInstructionPointer →
                  executeCycle host p'
                    = Except.ok (resultError "Jumped to invalid address", p'))) := by
  have habs : i.getOpcode = Opcode.JumpAbsolute →
      executeCycle host p = Except.ok (resultSuccess,
        { p with state := { p.state with instructionPointer := i.getOperand } }) := by
    intro hop
    rw [executeCycle_of_fetch host p i hrun hnc hsize hfetch,
      execute_of_jumpAbsolute host _ i hop]
    rfl
  have hrel : i.getOpcode = Opcode.JumpRelative →
      executeCycle host p = Except.ok (resultSuccess,
        { p with state := { p.state with instructionPointer :=
            (p.state.instructionPointer + 1 + toWord i.getSignedOperand) % 2 ^ 32 } }) := by
    intro hop
    rw [executeCycle_of_fetch host p i hrun hnc hsize hfetch,
      execute_of_jumpRelative host _ i hop]
    rfl
  have hnext : ∀ target : Address,
      (({ p with state := { p.state with instructionPointer := target } } :
          Processor M DataStackSize ReturnStackSize).environment.getInstructions.length
        ≤ ({ p with state := { p.state with instructionPointer := target } } :
          Processor M DataStackSize ReturnStackSize).state.getInstructionPointer) →
      executeCycle host { p with state := { p.state with instructionPointer := target } }
        = Except.ok (resultError "Jumped to invalid address",
            { p with state := { p.state with instructionPointer := target } }) := by
    intro target hge
    unfold executeCycle
    have h1 : ({ p with state := { p.state with instructionPointer := target } } :
        Processor M DataStackSize ReturnStackSize).hasCompleted = false := hnc
    have h2 : ({ p with state := { p.state with instructionPointer := target } } :
        Processor M DataStackSize ReturnStackSize).isRunning = true := hrun
    rw [h1, h2]
    simp only [Bool.false_eq_true, if_false, Bool.not_true]
    rw [if_pos hge]
    rfl
  refine ⟨habs, ?_, ?_⟩
  · intro hop
    refine ⟨_, hrel hop, ?_⟩
    have e := jumpRelative_target (p.state.instructionPointer + 1) i.getSignedOperand
    rw [e]
    push_cast
    rfl
  · intro hop
    rcases hop with hop | hop
    · exact ⟨_, habs hop, hnext _⟩
    · exact ⟨_, hrel hop, hnext _⟩

theorem jump_spec_witness :
    (sampleJumpProgram 0).isRunning = true ∧ (sampleJumpProgram 0).hasCompleted = false
      ∧ (sampleJumpProgram 0).environment.getInstructions.length < 2 ^ 32
      ∧ (sampleJumpProgram 0).environment.getInstructions[
          (sampleJumpProgram 0).state.getInstructionPointer]?
          = some (Instruction.ofSWord Opcode.JumpRelative (-1))
      ∧ (Instruction.ofSWord Opcode.JumpRelative (-1)).getOpcode = Opcode.JumpRelative
      ∧ (Instruction.ofSWord Opcode.JumpRelative (-1)).getSignedOperand = -1
      ∧ ∃ target : Nat,
          executeCycle nullHost (sampleJumpProgram 0) = Except.ok (resultSuccess,
              { sampleJumpProgram 0 with state := { (sampleJumpProgram 0).state with
                  instructionPointer := target } })
            ∧ (target : Int)
                = (((sampleJumpProgram 0).state.instructionPointer : Int) + 1
                    + (Instruction.ofSWord Opcode.JumpRelative (-1)).getSignedOperand) % 2 ^ 32 :=
  ⟨by decide, by decide, by decide, by decide, by decide, by decide,
    (jump_spec nullHost (sampleJumpProgram 0) (Instruction.ofSWord Opcode.JumpRelative (-1))
      (by decide) (by decide) (by decide) (by decide)).2.1 (by decide)⟩

end Processor

end StackLanguage

/-! ## Arithmetic -/

namespace StackLanguage

namespace Processor

variable {M : Type} {DataStackSize ReturnStackSize : Nat}

theorem execute_of_add (host : Host M) (p : Processor M DataStackSize ReturnStackSize)
    (i : Instruction) (hop : i.getOpcode = Opcode.Add) :
    execute host p i = p.executeAdd i := by
  unfold execute
  rw [hop]
  rfl

theorem execute_of_subtract (host : Host M) (p : Processor M DataStackSize ReturnStackSize)
    (i : Instruction) (hop : i.getOpcode = Opcode.Subtract) :
    execute host p i = p.executeSubtract i := by
  unfold execute
  rw [hop]
  rfl

/-- The pattern of the binary handlers, `value = peek(); drop(); peek() = f(peek(), value)`,
on a stack whose contents end with `a, b`: the two are replaced by `f a b`. -/
theorem binary_of_contents (stack : Stack Word DataStackSize)
    (hwf : stack.container.WellFormed) (rest : List Word) (a b : Word)
    (h : stack.container.contents = rest ++ [a, b]) (f : Word → Word → Word) :
    ∃ s' : Stack Word DataStackSize,
      stack.peek = some b
        ∧ updatePeek stack.drop (fun top => pure (f top b)) = Except.ok s'
        ∧ s'.container.contents = rest ++ [f a b]
        ∧ s'.container.WellFormed
        ∧ s'.getCount + 1 = stack.getCount := by
  have h0 : stack.container.contents = (rest ++ [a]) ++ [b] := by
    rw [h]; simp
  have hpb := Stack.peek_of_contents _ hwf _ _ h0
  obtain ⟨hwf1, hc1, hn1⟩ := Stack.drop_of_contents _ hwf _ _ h0
  have hpa := Stack.peek_of_contents _ hwf1 _ _ hc1
  obtain ⟨s', hs', hwf', hc', hn'⟩ := Stack.assignPeek_of_contents _ hwf1 rest a (f a b) hc1
  refine ⟨s', hpb, ?_, hc', hwf', ?_⟩
  · unfold updatePeek
    simp only [hpa, access_some, bind_ok]
    show access (stack.drop.assignPeek (f a b)) = Except.ok s'
    rw [hs']
    rfl
  · show s'.container.next + 1 = stack.container.next
    omega

/-- C30: for every Data Stack of depth 2 or more with contents `[..., a, b]`
(`b` on top), Add returns Success and leaves `[..., (a + b) mod 2^32]`, and
Subtract returns Success and leaves `[..., (a - b) mod 2^32]`: the depth drops
by one and the elements below are unchanged. With depth below 2 both return
`Data stack underflow`. -/
theorem add_subtract_spec (host : Host M) (p : Processor M DataStackSize ReturnStackSize)
    (i : Instruction) (hwf : p.state.dataStack.container.WellFormed) :
    (∀ (rest : List Word) (a b : Nat),
        p.state.dataStack.container.contents = rest ++ [a, b] →
          (i.getOpcode = Opcode.Add →
            ∃ s' : Stack Word DataStackSize,
              execute host p i = Except.ok (resultSuccess, p.setDataStack s')
                ∧ s'.container.contents = rest ++ [(a + b) % 2 ^ 32]
                ∧ s'.getCount + 1 = p.state.dataStack.getCount)
          ∧ (i.getOpcode = Opcode.Subtract →
            ∃ (s' : Stack Word DataStackSize) (difference : Nat),
              execute host p i = Except.ok (resultSuccess, p.setDataStack s')
                ∧ s'.container.contents = rest ++ [difference]
                ∧ (difference : Int) = ((a : Int) - (b : Int)) % 2 ^ 32
                ∧ s'.getCount + 1 = p.state.dataStack.getCount))
      ∧ (p.state.dataStack.getCount < 2 →
          (i.getOpcode = Opcode.Add →
            execute host p i = Except.ok (resultError "Data stack underflow", p))
          ∧ (i.getOpcode = Opcode.Subtract →
            execute host p i = Except.ok (resultError "Data stack underflow", p))) := by
  constructor
  · intro rest a b h
    have hn := Stack.next_of_contents _ hwf _ h
    have hg : ¬ p.state.dataStack.getCount < 2 := fun hlt => by
      have hlt' : p.state.dataStack.container.next < 2 := hlt
      rw [hn] at hlt'
      simp at hlt'
    constructor
    · intro hop
      rw [execute_of_add host p i hop]
      obtain ⟨s', hpb, hs', hc', _, hcount⟩ := binary_of_contents p.state.dataStack hwf rest a b h
        (fun top value => (top + value) % 2 ^ 32)
      refine ⟨s', ?_, hc', hcount⟩
      unfold executeAdd
      simp only
      rw [guarded_of_ge p _ _ hg]
      simp only [ProcessorState.getDataStack, hpb, access_some, bind_ok, hs']
      rfl
    · intro hop
      rw [execute_of_subtract host p i hop]
      obtain ⟨s', hpb, hs', hc', _, hcount⟩ := binary_of_contents p.state.dataStack hwf rest a b h
        (fun top value => (top + 2 ^ 32 - value % 2 ^ 32) % 2 ^ 32)
      refine ⟨s', (a + 2 ^ 32 - b % 2 ^ 32) % 2 ^ 32, ?_, hc', ?_, hcount⟩
      · unfold executeSubtract
        simp only
        rw [guarded_of_ge p _ _ hg]
        simp only [ProcessorState.getDataStack, hpb, access_some, bind_ok, hs']
        rfl
      · omega
  · intro hlt
    constructor
    · intro hop
      rw [execute_of_add host p i hop]
      unfold executeAdd
      simp only
      rw [guarded_of_lt p _ _ hlt]
    · intro hop
      rw [execute_of_subtract host p i hop]
      unfold executeSubtract
      simp only
      rw [guarded_of_lt p _ _ hlt]

theorem add_subtract_spec_witness :
    sampleOneTwoThree.state.dataStack.container.WellFormed
      ∧ sampleOneTwoThree.state.dataStack.container.contents = [1] ++ [2, 3]
      ∧ (Instruction.ofOpcode Opcode.Subtract).getOpcode = Opcode.Subtract
      ∧ ∃ (s' : Stack Word 4) (difference : Nat),
          execute nullHost sampleOneTwoThree (Instruction.ofOpcode Opcode.Subtract)
              = Except.ok (resultSuccess, sampleOneTwoThree.setDataStack s')
            ∧ s'.container.contents = [1] ++ [difference]
            ∧ (difference : Int) = ((2 : Nat) - (3 : Nat) : Int) % 2 ^ 32
            ∧ s'.getCount + 1 = sampleOneTwoThree.state.dataStack.getCount :=
  ⟨by decide, by decide, by decide,
    ((add_subtract_spec nullHost sampleOneTwoThree (Instruction.ofOpcode Opcode.Subtract)
      (by decide)).1 [1] 2 3 (by decide)).2 (by decide)⟩

end Processor

end StackLanguage
namespace StackLanguage

namespace Deque

variable {α : Type} {Capacity : Nat}

/-! ## The slots `prepend` touches -/

theorem moveUpSlots_le (m : Nat) : ∀ j ∈ moveUpSlots m, j ≤ m := by
  induction m with
  | zero =>
    intro j hj
    cases hj
  | succ m ih =>
    intro j hj
    simp only [moveUpSlots, List.mem_cons] at hj
    rcases hj with hj | hj | hj
    · omega
    · omega
    · have := ih j hj
      omega

theorem mem_moveUpSlots_self (m : Nat) (h : 0 < m) : m ∈ moveUpSlots m := by
  obtain ⟨k, rfl⟩ : ∃ k, m = k + 1 := ⟨m - 1, by omega⟩
  simp [moveUpSlots]

/-- The loop of `prepend` has a defined result exactly when every slot it reads
or writes is a slot of the array. -/
theorem moveUpLoop_isSome_iff (m : Nat) :
    ∀ items : List α,
      (moveUpLoop m items).isSome = true ↔ ∀ j ∈ moveUpSlots m, j < items.length := by
  induction m with
  | zero =>
    intro items
    simp [moveUpLoop, moveUpSlots]
  | succ m ih =>
    intro items
    by_cases h : m + 1 < items.length
    · have h0 : m < items.length := by omega
      have hstep : moveUpLoop (m + 1) items = moveUpLoop m (items.set (m + 1) items[m]) := by
        show (do
            let v ← readItem items m
            let items ← writeItem items (m + 1) v
            moveUpLoop m items) = _
        rw [readItem_of_lt _ _ h0]
        simp only [Option.bind_eq_bind, Option.some_bind]
        rw [writeItem_of_lt _ _ _ h]
        rfl
      rw [hstep, ih]
      simp only [moveUpSlots, List.mem_cons, List.length_set]
      constructor
      · intro hall j hj
        rcases hj with hj | hj | hj
        · omega
        · omega
        · exact hall j hj
      · intro hall j hj
        exact hall j (Or.inr (Or.inr hj))
    · have hnone : moveUpLoop (m + 1) items = none :=
        moveUpLoop_out_of_storage (m + 1) items (Nat.succ_pos _) (by omega)
      rw [hnone]
      simp only [Option.isSome_none, Bool.false_eq_true, false_iff]
      intro hall
      exact h (hall (m + 1) (mem_moveUpSlots_self _ (Nat.succ_pos _)))

/-- On a container that is not full, `prepend` has a defined result exactly when
every slot it reads or writes has an index below `Capacity`. -/
theorem prepend_isSome_iff (d : Deque α Capacity) (hwf : d.WellFormed) (item : α) :
    (d.prepend item).isSome = true ↔ ∀ j ∈ d.prependSlots, j < Capacity := by
  obtain ⟨h1, h2, h3, h4⟩ := hwf
  unfold prepend prependSlots
  cases hf : d.isFull
  · simp only [Bool.false_eq_true, if_false, Option.bind_eq_bind, List.mem_append,
      List.mem_singleton]
    cases hm : moveUpLoop (d.next + 1) d.items with
    | none =>
      have hno : ¬ ∀ j ∈ moveUpSlots (d.next + 1), j < d.items.length := by
        rw [← moveUpLoop_isSome_iff, hm]
        simp
      rw [h3] at hno
      simp only [Option.none_bind, Option.isSome_none, Bool.false_eq_true, false_iff]
      intro hall
      exact hno (fun j hj => hall j (Or.inl hj))
    | some r =>
      have hyes : ∀ j ∈ moveUpSlots (d.next + 1), j < d.items.length := by
        rw [← moveUpLoop_isSome_iff, hm]
        rfl
      rw [h3] at hyes
      have hlen : r.length = d.items.length := by
        have hlt : d.next + 1 < d.items.length := by
          rw [h3]
          exact hyes _ (mem_moveUpSlots_self _ (Nat.succ_pos _))
        obtain ⟨r', hr', hlen', _⟩ := moveUpLoop_spec (d.next + 1) d.items hlt
        rw [hm] at hr'
        cases hr'
        exact hlen'
      simp only [Option.some_bind]
      rw [writeItem_of_lt _ _ _ (by rw [hlen, h3]; unfold FirstIndex; omega)]
      simp only [Option.some_bind, Option.isSome_some, true_iff]
      intro j hj
      rcases hj with hj | hj
      · exact hyes j hj
      · rw [hj]
        unfold FirstIndex
        omega
  · simp

/-- With at least two free slots, every slot `prepend` touches is inside the
storage. -/
theorem prependSlots_of_room (d : Deque α Capacity) (hwf : d.WellFormed)
    (h : d.next + 1 < Capacity) : ∀ j ∈ d.prependSlots, j < Capacity := by
  have hf := (isFull_eq_false_iff d hwf).2 (by omega)
  intro j hj
  unfold prependSlots at hj
  rw [hf] at hj
  simp only [Bool.false_eq_true, if_false, List.mem_append, List.mem_singleton] at hj
  rcases hj with hj | hj
  · have := moveUpSlots_le _ j hj
    omega
  · rw [hj]
    unfold FirstIndex
    omega

/-- With exactly one free slot, `prepend` touches the slot of index `Capacity`,
which is outside the storage. -/
theorem prependSlots_of_last_slot (d : Deque α Capacity) (hwf : d.WellFormed)
    (h : d.next + 1 = Capacity) : Capacity ∈ d.prependSlots := by
  have hf := (isFull_eq_false_iff d hwf).2 (by omega)
  unfold prependSlots
  rw [hf]
  simp only [Bool.false_eq_true, if_false, List.mem_append, List.mem_singleton]
  left
  rw [h]
  exact mem_moveUpSlots_self _ (by omega)

/-- C36, evaluated: the claim fails on an empty `Deque<Word, 1>` (count 0 =
capacity - 1): `prepend(7)` reads slot 0, writes slot 1 and then writes slot 0,
and slot 1 is outside the storage of 1 element, so the call has no defined
result. The same on a `Deque<Word, 3>` that holds `[1, 2]`: the first write of
the loop goes to slot 3. -/
theorem prepend_touches_slot_past_storage :
    (Deque.empty : Deque Nat 1).WellFormed
      ∧ (Deque.empty : Deque Nat 1).getCount = 0
      ∧ (Deque.empty : Deque Nat 1).isFull = false
      ∧ (Deque.empty : Deque Nat 1).prependSlots = [0, 1, 0]
      ∧ (Deque.empty : Deque Nat 1).prepend 7 = none
      ∧ (⟨[1, 2, 0], 2⟩ : Deque Nat 3).WellFormed
      ∧ (⟨[1, 2, 0], 2⟩ : Deque Nat 3).isFull = false
      ∧ (⟨[1, 2, 0], 2⟩ : Deque Nat 3).prependSlots = [2, 3, 1, 2, 0, 1, 0]
      ∧ (¬ ∀ j ∈ (⟨[1, 2, 0], 2⟩ : Deque Nat 3).prependSlots, j < 3)
      ∧ (⟨[1, 2, 0], 2⟩ : Deque Nat 3).prepend 7 = none := by
  decide

/-! ## Searching and removing by value -/

/-- The downward loop of `removeLast` over slots that do not hold the item: it
ends at `i = 0` without a test of slot 0 and `removeLast` returns `false`. -/
theorem removeLastLoop_of_absent [DecidableEq α] (d : Deque α Capacity) (item : α) (i : Nat) :
    i < d.items.length → (∀ j, 1 ≤ j → j ≤ i → d.items[j]? ≠ some item) →
      removeLastLoop d item i = some (false, d) := by
  induction i with
  | zero =>
    intro _ _
    rfl
  | succ i ih =>
    intro hlt habsent
    show (do
        let v ← readItem d.items (i + 1)
        if v = item then removeFound d (i + 1) else removeLastLoop d item i) = _
    rw [readItem_of_lt _ _ hlt]
    simp only [Option.bind_eq_bind, Option.some_bind]
    have hne : d.items[i + 1] ≠ item := by
      intro e
      apply habsent (i + 1) (by omega) (Nat.le_refl _)
      rw [List.getElem?_eq_getElem hlt, e]
    rw [if_neg hne]
    exact ih (by omega) (fun j h1 h2 => habsent j h1 (by omega))

/-- The downward loop of `indexOfLast` over slots that do not hold the item: it
ends at `i = FirstIndex` without a test of slot 0 and `indexOfLast` returns
`InvalidIndex`. -/
theorem indexOfLastLoop_of_absent [DecidableEq α] (items : List α) (item : α) (i : Nat) :
    i < items.length → (∀ j, 1 ≤ j → j ≤ i → items[j]? ≠ some item) →
      indexOfLastLoop items item i = some InvalidIndex := by
  induction i with
  | zero =>
    intro _ _
    rfl
  | succ i ih =>
    intro hlt habsent
    show (do
        let v ← readItem items (i + 1)
        if v = item then some (i + 1) else indexOfLastLoop items item i) = _
    rw [readItem_of_lt _ _ hlt]
    simp only [Option.bind_eq_bind, Option.some_bind]
    have hne : items[i + 1] ≠ item := by
      intro e
      apply habsent (i + 1) (by omega) (Nat.le_refl _)
      rw [List.getElem?_eq_getElem hlt, e]
    rw [if_neg hne]
    exact ih (by omega) (fun j h1 h2 => habsent j h1 (by omega))

/-- The slots above slot 0 of a container whose contents are `item :: rest` with
`item` not in `rest` do not hold the item. -/
theorem absent_above_first [DecidableEq α] (d : Deque α Capacity) (hwf : d.WellFormed)
    (item : α) (rest : List α) (h : d.contents = item :: rest) (hrest : item ∉ rest) :
    ∀ j, 1 ≤ j → j ≤ d.next - 1 → d.items[j]? ≠ some item := by
  intro j h1 h2 hj
  have hn := contents_length d hwf
  rw [h, List.length_cons] at hn
  have hget : d.contents[j]? = some item := by
    unfold contents
    rw [List.getElem?_take, if_pos (by omega)]
    exact hj
  rw [h] at hget
  obtain ⟨k, rfl⟩ : ∃ k, j = k + 1 := ⟨j - 1, by omega⟩
  rw [List.getElem?_cons_succ] at hget
  exact hrest (List.getElem?_mem hget)

/-- When the only occurrence of the item is in slot 0, `contains` returns `true`
and `indexOfFirst` returns 0. -/
theorem found_in_first_slot [DecidableEq α] (d : Deque α Capacity) (hwf : d.WellFormed)
    (item : α) (rest : List α) (h : d.contents = item :: rest) :
    d.contains item = some true ∧ d.indexOfFirst item = some 0 := by
  have hn := contents_length d hwf
  rw [h, List.length_cons] at hn
  have hget : d.contents[0]? = some item := by rw [h]; simp
  unfold contents at hget
  rw [List.getElem?_take, if_pos (by omega)] at hget
  obtain ⟨k, hk⟩ : ∃ k, d.getCount = k + 1 := ⟨rest.length, hn.symm⟩
  constructor
  · unfold contains
    rw [hk]
    show (do
        let v ← readItem d.items 0
        if v = item then some true else containsLoop d.items item k (0 + 1)) = _
    unfold readItem
    rw [hget]
    simp
  · unfold indexOfFirst
    rw [hk]
    show (do
        let v ← readItem d.items 0
        if v = item then some 0 else indexOfFirstLoop d.items item k (0 + 1)) = _
    unfold readItem
    rw [hget]
    simp

/-- The loop of `removeLast` never tests slot 0: when the only occurrence of
the item is the first element, `removeLast` returns `false` and changes nothing,
although `contains` returns `true`. -/
theorem removeLast_misses_first_slot [DecidableEq α] (d : Deque α Capacity)
    (hwf : d.WellFormed) (item : α) (rest : List α) (h : d.contents = item :: rest)
    (hrest : item ∉ rest) :
    d.removeLast item = some (false, d) ∧ d.contains item = some true := by
  have hn := contents_length d hwf
  rw [h, List.length_cons] at hn
  refine ⟨?_, (found_in_first_slot d hwf item rest h).1⟩
  obtain ⟨h1, h2, h3, h4⟩ := hwf
  have hstart : (d.next + sizeModulus - 1) % sizeModulus = d.next - 1 := by
    unfold sizeModulus at *
    omega
  unfold removeLast
  rw [hstart]
  exact removeLastLoop_of_absent d item _ (by omega)
    (absent_above_first d ⟨h1, h2, h3, h4⟩ item rest h hrest)

/-- The loop of `indexOfLast` never tests slot 0: when the only occurrence of
the item is the first element, `indexOfLast` returns `InvalidIndex`, although
`indexOfFirst` returns 0 and `contains` returns `true`. -/
theorem indexOfLast_misses_first_slot [DecidableEq α] (d : Deque α Capacity)
    (hwf : d.WellFormed) (item : α) (rest : List α) (h : d.contents = item :: rest)
    (hrest : item ∉ rest) :
    d.indexOfLast item = some InvalidIndex ∧ d.indexOfFirst item = some 0
      ∧ d.contains item = some true := by
  have hn := contents_length d hwf
  rw [h, List.length_cons] at hn
  refine ⟨?_, (found_in_first_slot d hwf item rest h).2, (found_in_first_slot d hwf item rest h).1⟩
  have hidx := getLastIndex_of_pos d hwf (by omega)
  obtain ⟨h1, h2, h3, h4⟩ := hwf
  unfold indexOfLast
  rw [hidx]
  exact indexOfLastLoop_of_absent d.items item _ (by omega)
    (absent_above_first d ⟨h1, h2, h3, h4⟩ item rest h hrest)

/-- On the empty container the loops of `removeLast` and `indexOfLast` start at
`0 - 1 = 2^64 - 1` and read that slot, which is outside the storage. -/
theorem search_from_last_of_empty [DecidableEq α] (d : Deque α Capacity) (hwf : d.WellFormed)
    (item : α) (h : d.next = 0) : d.removeLast item = none ∧ d.indexOfLast item = none := by
  obtain ⟨h1, h2, h3, h4⟩ := hwf
  have hstart : (d.next + sizeModulus - 1) % sizeModulus = (sizeModulus - 2) + 1 := by
    rw [h]
    decide
  have hread : readItem d.items ((sizeModulus - 2) + 1) = none := by
    unfold readItem
    rw [List.getElem?_eq_none_iff, h3]
    unfold sizeModulus at *
    omega
  constructor
  · unfold removeLast
    rw [hstart]
    show (do
        let v ← readItem d.items ((sizeModulus - 2) + 1)
        if v = item then removeFound d ((sizeModulus - 2) + 1)
        else removeLastLoop d item (sizeModulus - 2)) = _
    rw [hread]
    rfl
  · unfold indexOfLast getLastIndex
    rw [hstart]
    show (do
        let v ← readItem d.items ((sizeModulus - 2) + 1)
        if v = item then some ((sizeModulus - 2) + 1)
        else indexOfLastLoop d.items item (sizeModulus - 2)) = _
    rw [hread]
    rfl

/-- C37, evaluated: the claim fails on a `Deque<Word, 2>` that holds `[5]`:
`contains(5)` returns `true` but `removeLast(5)` returns `false` and changes
nothing, because its loop `for (i = next - 1; i > 0; --i)` ends before it tests
slot 0 (`removeFirst(5)` does remove it). On `[5, 7]` as well `removeLast(5)`
returns `false`. On the empty container the loop starts at `2^64 - 1` and reads
that slot: the call has no defined result where the claim says `false`. -/
theorem removeLast_skips_first_slot :
    (⟨[5, 0], 1⟩ : Deque Nat 2).WellFormed
      ∧ (⟨[5, 0], 1⟩ : Deque Nat 2).contents = [5]
      ∧ (⟨[5, 0], 1⟩ : Deque Nat 2).contains 5 = some true
      ∧ (⟨[5, 0], 1⟩ : Deque Nat 2).removeLast 5 = some (false, ⟨[5, 0], 1⟩)
      ∧ (⟨[5, 0], 1⟩ : Deque Nat 2).removeFirst 5 = some (true, ⟨[5, 0], 0⟩)
      ∧ (⟨[5, 7], 2⟩ : Deque Nat 2).contains 5 = some true
      ∧ (⟨[5, 7], 2⟩ : Deque Nat 2).removeLast 5 = some (false, ⟨[5, 7], 2⟩)
      ∧ (⟨[5, 7], 2⟩ : Deque Nat 2).removeLast 7 = some (true, ⟨[5, 7], 1⟩)
      ∧ (Deque.empty : Deque Nat 2).getCount = 0
      ∧ (Deque.empty : Deque Nat 2).contains 5 = some false
      ∧ ((Deque.empty : Deque Nat 2).next + sizeModulus - 1) % sizeModulus
          = 18446744073709551615
      ∧ (Deque.empty : Deque Nat 2).removeLast 5 = none := by
  decide

/-- C38, evaluated: the claim fails on a `Deque<Word, 2>` that holds `[5]`:
the greatest index that holds 5 is 0, `indexOfFirst(5)` returns 0 and
`contains(5)` returns `true`, but `indexOfLast(5)` returns `InvalidIndex`
(`2^64 - 1`), because its loop `for (i = getLastIndex(); i > FirstIndex; --i)`
ends before it tests slot 0. On `[5, 7, 5]` it returns 2. On the empty
container the loop starts at `2^64 - 1` and reads that slot: the call has no
defined result where the claim says `InvalidIndex`. -/
theorem indexOfLast_skips_first_slot :
    (⟨[5, 0], 1⟩ : Deque Nat 2).WellFormed
      ∧ (⟨[5, 0], 1⟩ : Deque Nat 2).contents = [5]
      ∧ (⟨[5, 0], 1⟩ : Deque Nat 2).contains 5 = some true
      ∧ (⟨[5, 0], 1⟩ : Deque Nat 2).indexOfFirst 5 = some 0
      ∧ (⟨[5, 0], 1⟩ : Deque Nat 2).indexOfLast 5 = some InvalidIndex
      ∧ (InvalidIndex = 18446744073709551615)
      ∧ (⟨[5, 7, 5], 3⟩ : Deque Nat 3).indexOfFirst 5 = some 0
      ∧ (⟨[5, 7, 5], 3⟩ : Deque Nat 3).indexOfLast 5 = some 2
      ∧ (⟨[5, 7, 5], 3⟩ : Deque Nat 3).indexOfLast 9 = some InvalidIndex
      ∧ (Deque.empty : Deque Nat 2).getCount = 0
      ∧ (Deque.empty : Deque Nat 2).getLastIndex = 18446744073709551615
      ∧ (Deque.empty : Deque Nat 2).indexOfFirst 5 = some InvalidIndex
      ∧ (Deque.empty : Deque Nat 2).indexOfLast 5 = none
      ∧ (⟨⟨[5, 7, 5], 3⟩⟩ : Stack Nat 3).indexOfFirst 5 = some 2
      ∧ (⟨⟨[5, 7, 5], 3⟩⟩ : Stack Nat 3).indexOfLast 5 = some 0 := by
  decide

end Deque

end StackLanguage
namespace StackLanguage

namespace Stack

variable {α : Type} {Capacity : Nat}

/-- The top of a stack that is not empty is the slot `next - 1`. -/
theorem peek_of_pos (s : Stack α Capacity) (hwf : s.container.WellFormed)
    (h : 0 < s.container.next) :
    ∃ a, s.peek = some a ∧ s.container.items[s.container.next - 1]? = some a := by
  have hidx := Deque.getLastIndex_of_pos _ hwf h
  obtain ⟨h1, h2, h3, h4⟩ := hwf
  have hlt : s.container.next - 1 < s.container.items.length := by omega
  refine ⟨s.container.items[s.container.next - 1], ?_, List.getElem?_eq_getElem hlt⟩
  unfold peek Deque.getLast Deque.readItem
  rw [hidx]
  exact List.getElem?_eq_getElem hlt

/-- What `drop()` does on a stack that is not empty: the count goes down by one,
the slots keep their values. -/
theorem drop_of_pos (s : Stack α Capacity) (h : 0 < s.container.next) :
    s.drop = { container := { items := s.container.items, next := s.container.next - 1 } } := by
  have hne : s.container.isEmpty = false := by
    unfold Deque.isEmpty Deque.FirstIndex
    simp only [beq_eq_false_iff_ne, ne_eq]
    omega
  unfold drop Deque.unappend
  rw [hne]
  rfl

end Stack

namespace Processor

variable {M : Type} {DataStackSize ReturnStackSize : Nat}

theorem execute_of_duplicate (host : Host M) (p : Processor M DataStackSize ReturnStackSize)
    (i : Instruction) (hop : i.getOpcode = Opcode.Duplicate) :
    execute host p i = p.executeDuplicate i := by
  unfold execute
  rw [hop]
  rfl

theorem execute_of_andImmediate (host : Host M) (p : Processor M DataStackSize ReturnStackSize)
    (i : Instruction) (hop : i.getOpcode = Opcode.AndImmediate) :
    execute host p i = p.executeAndImmediate i := by
  unfold execute
  rw [hop]
  rfl

theorem execute_of_orImmediate (host : Host M) (p : Processor M DataStackSize ReturnStackSize)
    (i : Instruction) (hop : i.getOpcode = Opcode.OrImmediate) :
    execute host p i = p.executeOrImmediate i := by
  unfold execute
  rw [hop]
  rfl

theorem execute_of_exclusiveOrImmediate (host : Host M)
    (p : Processor M DataStackSize ReturnStackSize)
    (i : Instruction) (hop : i.getOpcode = Opcode.ExclusiveOrImmediate) :
    execute host p i = p.executeExclusiveOrImmediate i := by
  unfold execute
  rw [hop]
  rfl

theorem execute_of_shiftLeftImmediate (host : Host M)
    (p : Processor M DataStackSize ReturnStackSize)
    (i : Instruction) (hop : i.getOpcode = Opcode.ShiftLeftImmediate) :
    execute host p i = p.executeShiftLeftImmediate i := by
  unfold execute
  rw [hop]
  rfl

theorem execute_of_shiftRightImmediate (host : Host M)
    (p : Processor M DataStackSize ReturnStackSize)
    (i : Instruction) (hop : i.getOpcode = Opcode.ShiftRightImmediate) :
    execute host p i = p.executeShiftRightImmediate i := by
  unfold execute
  rw [hop]
  rfl

/-- The compound assignment `peek() = f(peek())` on a stack whose contents end
with `t`, when `f(t)` is defined: the top becomes `f(t)`, the rest and the
count stay. -/
theorem updatePeek_of_contents (stack : Stack Word DataStackSize)
    (hwf : stack.container.WellFormed) (rest : List Word) (t v : Word)
    (h : stack.container.contents = rest ++ [t]) (f : Word → Run Word)
    (hf : f t = Except.ok v) :
    ∃ s' : Stack Word DataStackSize,
      updatePeek stack f = Except.ok s'
        ∧ s'.container.contents = rest ++ [v]
        ∧ s'.container.WellFormed
        ∧ s'.getCount = stack.getCount := by
  have hpeek := Stack.peek_of_contents _ hwf _ _ h
  obtain ⟨s', hs', hwf', hc', hn'⟩ := Stack.assignPeek_of_contents _ hwf rest t v h
  refine ⟨s', ?_, hc', hwf', hn'⟩
  unfold updatePeek
  simp only [hpeek, access_some, bind_ok, hf]
  rw [hs']
  rfl

/-- On a full Data Stack of capacity 2 or more, `executeDuplicate` and
`executeOver` return Success and the processor is exactly as before. -/
theorem duplicate_over_of_full (p : Processor M DataStackSize ReturnStackSize)
    (i : Instruction) (hwf : p.state.dataStack.container.WellFormed)
    (hfull : p.state.dataStack.container.next = DataStackSize) (hcap : 2 ≤ DataStackSize) :
    p.executeDuplicate i = Except.ok (resultSuccess, p)
      ∧ p.executeOver i = Except.ok (resultSuccess, p) := by
  have hpos : 0 < p.state.dataStack.container.next := by omega
  have hg1 : ¬ p.state.dataStack.getCount < 1 := fun hlt => by
    have hlt' : p.state.dataStack.container.next < 1 := hlt
    omega
  have hg2 : ¬ p.state.dataStack.getCount < 2 := fun hlt => by
    have hlt' : p.state.dataStack.container.next < 2 := hlt
    omega
  obtain ⟨a, hpa, hia⟩ := Stack.peek_of_pos _ hwf hpos
  constructor
  · unfold executeDuplicate
    simp only
    rw [guarded_of_ge p _ _ hg1]
    simp only [ProcessorState.getDataStack, hpa, access_some, bind_ok,
      Stack.push_of_full _ hwf a hfull]
    rfl
  · have hdrop := Stack.drop_of_pos p.state.dataStack hpos
    have hwfd : p.state.dataStack.drop.container.WellFormed := by
      rw [hdrop]
      obtain ⟨h1, h2, h3, h4⟩ := hwf
      exact ⟨h1, h2, h3, by show p.state.dataStack.container.next - 1 ≤ DataStackSize; omega⟩
    have hposd : 0 < p.state.dataStack.drop.container.next := by
      rw [hdrop]
      show 0 < p.state.dataStack.container.next - 1
      omega
    have hltd : p.state.dataStack.drop.container.next < DataStackSize := by
      rw [hdrop]
      show p.state.dataStack.container.next - 1 < DataStackSize
      omega
    obtain ⟨b, hpb, _⟩ := Stack.peek_of_pos _ hwfd hposd
    have hpush : p.state.dataStack.drop.push a = some (true, p.state.dataStack) := by
      rw [Stack.push_of_lt _ hwfd a hltd, hdrop]
      show some (true, ({ container :=
        { items := p.state.dataStack.container.items.set (p.state.dataStack.container.next - 1) a,
          next := p.state.dataStack.container.next - 1 + 1 } } : Stack Word DataStackSize)) = _
      have hset : p.state.dataStack.container.items.set (p.state.dataStack.container.next - 1) a
          = p.state.dataStack.container.items := by
        apply List.ext_getElem?
        intro j
        by_cases hj : j = p.state.dataStack.container.next - 1
        · rw [hj, hia, List.getElem?_set_self]
          obtain ⟨h1, h2, h3, h4⟩ := hwf
          omega
        · rw [List.getElem?_set_ne (fun e => hj e.symm)]
      rw [hset, Nat.sub_add_cancel hpos]
    unfold executeOver
    simp only
    rw [guarded_of_ge p _ _ hg2]
    simp only [ProcessorState.getDataStack, hpa, access_some, bind_ok, hpb, hpush,
      Stack.push_of_full _ hwf b hfull]
    rfl

/-- C39: for every full Data Stack (count = capacity, capacity 2 or more),
Duplicate and Over each return Success, not `Data stack overflow`, and the
processor after the call is the processor before it, so the count and the
contents of the Data Stack are exactly as before: the push of the copy fails
and nothing tests what it returns. -/
theorem full_stack_duplicate_over (host : Host M)
    (p : Processor M DataStackSize ReturnStackSize) (i : Instruction)
    (hwf : p.state.dataStack.container.WellFormed)
    (hfull : p.state.dataStack.getCount = p.state.dataStack.getCapacity)
    (hcap : 2 ≤ p.state.dataStack.getCapacity)
    (hop : i.getOpcode = Opcode.Duplicate ∨ i.getOpcode = Opcode.Over) :
    ∃ p' : Processor M DataStackSize ReturnStackSize,
      execute host p i = Except.ok (resultSuccess, p')
        ∧ resultSuccess ≠ resultError "Data stack overflow"
        ∧ p'.state.dataStack.getCount = p.state.dataStack.getCount
        ∧ p'.state.dataStack.container.contents = p.state.dataStack.container.contents
        ∧ p' = p := by
  have h := duplicate_over_of_full p i hwf hfull hcap
  refine ⟨p, ?_, by decide, rfl, rfl, rfl⟩
  rcases hop with hop | hop
  · rw [execute_of_duplicate host p i hop]
    exact h.1
  · rw [execute_of_over host p i hop]
    exact h.2

theorem full_stack_duplicate_over_witness :
    (Processor.midRun 3 2 [] ([1, 2, 3], 3) ([0, 0], 0) 0).state.dataStack.container.WellFormed
      ∧ (Processor.midRun 3 2 [] ([1, 2, 3], 3) ([0, 0], 0) 0).state.dataStack.getCount
          = (Processor.midRun 3 2 [] ([1, 2, 3], 3) ([0, 0], 0) 0).state.dataStack.getCapacity
      ∧ ∃ p' : Processor Unit 3 2,
          execute nullHost (Processor.midRun 3 2 [] ([1, 2, 3], 3) ([0, 0], 0) 0)
              (Instruction.ofOpcode Opcode.Over) = Except.ok (resultSuccess, p')
            ∧ resultSuccess ≠ resultError "Data stack overflow"
            ∧ p'.state.dataStack.getCount
                = (Processor.midRun 3 2 [] ([1, 2, 3], 3) ([0, 0], 0) 0).state.dataStack.getCount
            ∧ p'.state.dataStack.container.contents
                = (Processor.midRun 3 2 [] ([1, 2, 3], 3) ([0, 0], 0) 0).state.dataStack.container.contents
            ∧ p' = Processor.midRun 3 2 [] ([1, 2, 3], 3) ([0, 0], 0) 0 :=
  ⟨by decide, by decide,
    full_stack_duplicate_over nullHost (Processor.midRun 3 2 [] ([1, 2, 3], 3) ([0, 0], 0) 0)
      (Instruction.ofOpcode Opcode.Over) (by decide) (by decide) (by decide)
      (Or.inr (by decide))⟩

/-- C31: the handlers of AndImmediate, OrImmediate, ExclusiveOrImmediate,
ShiftLeftImmediate and ShiftRightImmediate check for a Data Stack depth of 2.
With depth 0 or 1 each returns the Error `Data stack underflow` and the
processor, its stack included, is unchanged. With depth 2 or more and contents
`[..., t]`, AndImmediate, OrImmediate and ExclusiveOrImmediate return Success,
keep the depth and the elements below the top, and replace the top `t` by
`t AND operand`, `t OR operand`, `t XOR operand`, where the operand is below
`2^24`. -/
theorem immediate_bitwise_spec (host : Host M) (p : Processor M DataStackSize ReturnStackSize)
    (i : Instruction) (hwf : p.state.dataStack.container.WellFormed) :
    (p.state.dataStack.getCount < 2 →
        i.getOpcode ∈ [Opcode.AndImmediate, Opcode.OrImmediate, Opcode.ExclusiveOrImmediate,
          Opcode.ShiftLeftImmediate, Opcode.ShiftRightImmediate] →
          execute host p i = Except.ok (resultError "Data stack underflow", p))
      ∧ (∀ (rest : List Word) (t : Word),
          p.state.dataStack.container.contents = rest ++ [t] →
          2 ≤ p.state.dataStack.getCount →
            i.getOperand < 2 ^ 24
            ∧ (i.getOpcode = Opcode.AndImmediate →
              ∃ s' : Stack Word DataStackSize,
                execute host p i = Except.ok (resultSuccess, p.setDataStack s')
                  ∧ s'.container.contents = rest ++ [t &&& i.getOperand]
                  ∧ s'.getCount = p.state.dataStack.getCount)
            ∧ (i.getOpcode = Opcode.OrImmediate →
              ∃ s' : Stack Word DataStackSize,
                execute host p i = Except.ok (resultSuccess, p.setDataStack s')
                  ∧ s'.container.contents = rest ++ [t ||| i.getOperand]
                  ∧ s'.getCount = p.state.dataStack.getCount)
            ∧ (i.getOpcode = Opcode.ExclusiveOrImmediate →
              ∃ s' : Stack Word DataStackSize,
                execute host p i = Except.ok (resultSuccess, p.setDataStack s')
                  ∧ s'.container.contents = rest ++ [t ^^^ i.getOperand]
                  ∧ s'.getCount = p.state.dataStack.getCount)) := by
  constructor
  · intro hlt hop
    simp only [List.mem_cons, List.mem_singleton, List.mem_nil_iff, or_false] at hop
    rcases hop with hop | hop | hop | hop | hop
    · rw [execute_of_andImmediate host p i hop]
      unfold executeAndImmediate
      simp only
      rw [guarded_of_lt p _ _ hlt]
    · rw [execute_of_orImmediate host p i hop]
      unfold executeOrImmediate
      simp only
      rw [guarded_of_lt p _ _ hlt]
    · rw [execute_of_exclusiveOrImmediate host p i hop]
      unfold executeExclusiveOrImmediate
      simp only
      rw [guarded_of_lt p _ _ hlt]
    · rw [execute_of_shiftLeftImmediate host p i hop]
      unfold executeShiftLeftImmediate
      simp only
      rw [guarded_of_lt p _ _ hlt]
    · rw [execute_of_shiftRightImmediate host p i hop]
      unfold executeShiftRightImmediate
      simp only
      rw [guarded_of_lt p _ _ hlt]
  · intro rest t h hdepth
    have hg : ¬ p.state.dataStack.getCount < 2 := by omega
    refine ⟨getOperand_lt i, ?_, ?_, ?_⟩
    · intro hop
      rw [execute_of_andImmediate host p i hop]
      obtain ⟨s', hs', hc', _, hcount⟩ := updatePeek_of_contents p.state.dataStack hwf rest t
        (t &&& i.getOperand) h (fun top => pure (top &&& i.getOperand)) rfl
      refine ⟨s', ?_, hc', hcount⟩
      unfold executeAndImmediate
      simp only
      rw [guarded_of_ge p _ _ hg]
      simp only [ProcessorState.getDataStack, hs', bind_ok]
      rfl
    · intro hop
      rw [execute_of_orImmediate host p i hop]
      obtain ⟨s', hs', hc', _, hcount⟩ := updatePeek_of_contents p.state.dataStack hwf rest t
        (t ||| i.getOperand) h (fun top => pure (top ||| i.getOperand)) rfl
      refine ⟨s', ?_, hc', hcount⟩
      unfold executeOrImmediate
      simp only
      rw [guarded_of_ge p _ _ hg]
      simp only [ProcessorState.getDataStack, hs', bind_ok]
      rfl
    · intro hop
      rw [execute_of_exclusiveOrImmediate host p i hop]
      obtain ⟨s', hs', hc', _, hcount⟩ := updatePeek_of_contents p.state.dataStack hwf rest t
        (t ^^^ i.getOperand) h (fun top => pure (top ^^^ i.getOperand)) rfl
      refine ⟨s', ?_, hc', hcount⟩
      unfold executeExclusiveOrImmediate
      simp only
      rw [guarded_of_ge p _ _ hg]
      simp only [ProcessorState.getDataStack, hs', bind_ok]
      rfl

theorem immediate_bitwise_spec_witness :
    sampleOneTwoThree.state.dataStack.container.WellFormed
      ∧ sampleOneTwoThree.state.dataStack.container.contents = [1, 2] ++ [3]
      ∧ 2 ≤ sampleOneTwoThree.state.dataStack.getCount
      ∧ (Instruction.ofWord Opcode.ExclusiveOrImmediate 6).getOpcode = Opcode.ExclusiveOrImmediate
      ∧ ∃ s' : Stack Word 4,
          execute nullHost sampleOneTwoThree (Instruction.ofWord Opcode.ExclusiveOrImmediate 6)
              = Except.ok (resultSuccess, sampleOneTwoThree.setDataStack s')
            ∧ s'.container.contents
                = [1, 2] ++ [3 ^^^ (Instruction.ofWord Opcode.ExclusiveOrImmediate 6).getOperand]
            ∧ s'.getCount = sampleOneTwoThree.state.dataStack.getCount :=
  ⟨by decide, by decide, by decide, by decide,
    ((immediate_bitwise_spec nullHost sampleOneTwoThree
      (Instruction.ofWord Opcode.ExclusiveOrImmediate 6) (by decide)).2 [1, 2] 3 (by decide)
      (by decide)).2.2.2 (by decide)⟩

end Processor

end StackLanguage
namespace StackLanguage

namespace Processor

variable {M : Type} {DataStackSize ReturnStackSize : Nat}

theorem execute_of_printStack (host : Host M) (p : Processor M DataStackSize ReturnStackSize)
    (i : Instruction) (hop : i.getOpcode = Opcode.PrintStack) :
    execute host p i = p.executePrintStack i := by
  unfold execute
  rw [hop]
  rfl

/-- The loop of `executePrintStack` on a stack of fewer than 256 elements: from
index `i` on it prints every element once, in order, and ends. -/
theorem printStackLoop_of_short (stack : Stack Word DataStackSize)
    (hwf : stack.container.WellFormed) (hshort : stack.container.next < 256) (tests : Nat) :
    ∀ (i : Nat) (events : List Event), i ≤ stack.container.next →
      stack.container.next - i < tests →
        printStackLoop stack tests i events
          = Except.ok (events ++ separated (stack.container.contents.drop i)) := by
  induction tests with
  | zero =>
    intro i events _ h
    omega
  | succ tests ih =>
    intro i events hi htests
    by_cases hlt : i < stack.container.next
    · obtain ⟨h1, h2, h3, h4⟩ := hwf
      have hlen : i < stack.container.items.length := by omega
      have hget : stack.subscript i = some stack.container.items[i] :=
        Deque.readItem_of_lt _ _ hlen
      have hmod : (i + 1) % 2 ^ 8 = i + 1 := Nat.mod_eq_of_lt (by omega)
      have hdrop : stack.container.contents.drop i
          = stack.container.items[i] :: stack.container.contents.drop (i + 1) := by
        have hci : i < stack.container.contents.length := by
          rw [Deque.contents_length _ ⟨h1, h2, h3, h4⟩]
          exact hlt
        rw [List.drop_eq_getElem_cons hci]
        congr 1
        unfold Deque.contents
        rw [List.getElem_take]
      rw [printStackLoop]
      rw [if_pos (show i < stack.getCount from hlt), hget, hmod]
      simp only [access_some, bind_ok]
      rw [ih (i + 1) _ (by omega) (by omega), hdrop]
      simp [separated]
    · have hi' : i = stack.container.next := by omega
      have hnil : stack.container.contents.drop i = [] := by
        rw [List.drop_eq_nil_iff, Deque.contents_length _ hwf]
        omega
      rw [printStackLoop]
      rw [if_neg (show ¬ i < stack.getCount from hlt), hnil]
      simp [separated]
      rfl

/-- The loop of `executePrintStack` on a stack of 256 elements or more: its
8-bit counter is below the count at each of the 256 tests, so the loop never
ends. -/
theorem printStackLoop_of_long (stack : Stack Word DataStackSize)
    (hwf : stack.container.WellFormed) (hlong : 256 ≤ stack.container.next) (tests : Nat) :
    ∀ (i : Nat) (events : List Event), i < 256 →
      printStackLoop stack tests i events = Except.error Fault.nonTermination := by
  induction tests with
  | zero =>
    intro i events _
    rfl
  | succ tests ih =>
    intro i events hi
    obtain ⟨h1, h2, h3, h4⟩ := hwf
    have hlt : i < stack.container.next := by omega
    have hlen : i < stack.container.items.length := by omega
    have hget : stack.subscript i = some stack.container.items[i] :=
      Deque.readItem_of_lt _ _ hlen
    rw [printStackLoop]
    rw [if_pos (show i < stack.getCount from hlt), hget]
    simp only [access_some, bind_ok]
    exact ih _ _ (Nat.mod_lt _ (by norm_num))

/-- PrintStack on a Data Stack of fewer than 256 elements: Success, the
processor unchanged but for the trace, which receives the bracketed listing of
the contents, bottom first. -/
theorem executePrintStack_of_short (p : Processor M DataStackSize ReturnStackSize)
    (i : Instruction) (hwf : p.state.dataStack.container.WellFormed)
    (hshort : p.state.dataStack.container.next < 256) :
    p.executePrintStack i
      = Except.ok (resultSuccess, p.emit (stackListing p.state.dataStack.container.contents)) := by
  by_cases hempty : p.state.dataStack.container.next = 0
  · have hc : p.state.dataStack.container.contents = [] := by
      rw [← List.length_eq_zero, Deque.contents_length _ hwf]
      exact hempty
    have he : p.state.dataStack.isEmpty = true := by
      unfold Stack.isEmpty Deque.isEmpty Deque.FirstIndex
      rw [hempty]
      rfl
    unfold executePrintStack
    simp only [ProcessorState.getDataStack, he, Bool.not_true, Bool.false_eq_true, if_false]
    rw [hc]
    rfl
  · have hpos : 0 < p.state.dataStack.container.next := by omega
    have he : p.state.dataStack.isEmpty = false := by
      unfold Stack.isEmpty Deque.isEmpty Deque.FirstIndex
      simp only [beq_eq_false_iff_ne, ne_eq]
      exact hempty
    have hlen : 0 < p.state.dataStack.container.items.length := by
      obtain ⟨h1, h2, h3, h4⟩ := hwf
      omega
    have hget : p.state.dataStack.subscript 0 = some p.state.dataStack.container.items[0] :=
      Deque.readItem_of_lt _ _ hlen
    have hloop := printStackLoop_of_short p.state.dataStack hwf hshort 256 1
      [Event.char 91, Event.word p.state.dataStack.container.items[0]] hpos (by omega)
    have hc : p.state.dataStack.container.contents
        = p.state.dataStack.container.items[0] :: p.state.dataStack.container.contents.drop 1 := by
      have hci : 0 < p.state.dataStack.container.contents.length := by
        rw [Deque.contents_length _ hwf]
        exact hpos
      have := List.drop_eq_getElem_cons hci
      rw [List.drop_zero] at this
      rw [this]
      simp only [Nat.zero_add, List.drop_succ_cons, List.drop_zero]
      congr 1
      unfold Deque.contents
      rw [List.getElem_take]
    unfold executePrintStack
    simp only [ProcessorState.getDataStack, he, Bool.not_false, if_true, hget, access_some,
      bind_ok, hloop]
    rw [hc]
    simp only [stackListing, List.drop_succ_cons, List.drop_zero]
    rfl

/-- PrintStack on a Data Stack of 256 elements or more does not return: the
loop over the elements never ends. -/
theorem executePrintStack_of_long (p : Processor M DataStackSize ReturnStackSize)
    (i : Instruction) (hwf : p.state.dataStack.container.WellFormed)
    (hlong : 256 ≤ p.state.dataStack.container.next) :
    p.executePrintStack i = Except.error Fault.nonTermination := by
  have he : p.state.dataStack.isEmpty = false := by
    unfold Stack.isEmpty Deque.isEmpty Deque.FirstIndex
    simp only [beq_eq_false_iff_ne, ne_eq]
    omega
  have hlen : 0 < p.state.dataStack.container.items.length := by
    obtain ⟨h1, h2, h3, h4⟩ := hwf
    omega
  have hget : p.state.dataStack.subscript 0 = some p.state.dataStack.container.items[0] :=
    Deque.readItem_of_lt _ _ hlen
  have hloop := printStackLoop_of_long p.state.dataStack hwf hlong 256 1
    [Event.char 91, Event.word p.state.dataStack.container.items[0]] (by norm_num)
  unfold executePrintStack
  simp only [ProcessorState.getDataStack, he, Bool.not_false, if_true, hget, access_some,
    bind_ok, hloop]
  rfl

/-- C34: the claim fails for depths of 256 and more. For every Data Stack with
256 elements or more, PrintStack does not terminate: the counter of its loop is
a `std::uint8_t`, which stays below the count, so the call returns nothing and
the output never reaches `]`. For every depth below 256 PrintStack returns
Success, leaves the stack unchanged and sends the bracketed listing of the
contents, bottom first, to the printer. -/
theorem printStack_diverges_from_depth_256 (host : Host M)
    (p : Processor M DataStackSize ReturnStackSize) (i : Instruction)
    (hop : i.getOpcode = Opcode.PrintStack)
    (hwf : p.state.dataStack.container.WellFormed) :
    (256 ≤ p.state.dataStack.getCount →
        execute host p i = Except.error Fault.nonTermination)
      ∧ (p.state.dataStack.getCount < 256 →
        execute host p i
          = Except.ok (resultSuccess,
              p.emit (stackListing p.state.dataStack.container.contents))) := by
  rw [execute_of_printStack host p i hop]
  exact ⟨executePrintStack_of_long p i hwf, executePrintStack_of_short p i hwf⟩

theorem printStack_diverges_from_depth_256_witness :
    (Instruction.ofOpcode Opcode.PrintStack).getOpcode = Opcode.PrintStack
      ∧ (Processor.midRun 256 1 [] (List.replicate 256 7, 256) ([0], 0) 0
          ).state.dataStack.container.WellFormed
      ∧ 256 ≤ (Processor.midRun 256 1 [] (List.replicate 256 7, 256) ([0], 0) 0
          ).state.dataStack.getCount
      ∧ (Processor.midRun 256 1 [] (List.replicate 256 7, 256) ([0], 0) 0
          ).state.dataStack.getCount
          ≤ (Processor.midRun 256 1 [] (List.replicate 256 7, 256) ([0], 0) 0
          ).state.dataStack.getCapacity
      ∧ execute nullHost (Processor.midRun 256 1 [] (List.replicate 256 7, 256) ([0], 0) 0)
          (Instruction.ofOpcode Opcode.PrintStack) = Except.error Fault.nonTermination :=
  ⟨by decide, ⟨by decide, by decide, List.length_replicate _ _, Nat.le_refl _⟩, Nat.le_refl _,
    Nat.le_refl _,
    (printStack_diverges_from_depth_256 nullHost
      (Processor.midRun 256 1 [] (List.replicate 256 7, 256) ([0], 0) 0)
      (Instruction.ofOpcode Opcode.PrintStack) (by decide)
      ⟨by decide, by decide, List.length_replicate _ _, Nat.le_refl _⟩).1 (Nat.le_refl _)⟩

end Processor

end StackLanguage
namespace StackLanguage

namespace Deque

variable {α : Type} {Capacity : Nat}

theorem writeItem_length (items : List α) (i : Nat) (v : α) (r : List α)
    (h : writeItem items i v = some r) : r.length = items.length := by
  unfold writeItem at h
  by_cases hi : i < items.length
  · rw [if_pos hi] at h
    cases h
    exact List.length_set _ _ _
  · rw [if_neg hi] at h
    cases h

theorem moveDownLoop_length (k : Nat) :
    ∀ (i : Nat) (items r : List α), moveDownLoop k i items = some r →
      r.length = items.length := by
  induction k with
  | zero =>
    intro i items r h
    cases h
    rfl
  | succ k ih =>
    intro i items r h
    rw [moveDownLoop] at h
    cases hv : readItem items (i + 1) with
    | none =>
      rw [hv] at h
      cases h
    | some v =>
      rw [hv] at h
      simp only [Option.bind_eq_bind, Option.some_bind] at h
      cases hw : writeItem items i v with
      | none =>
        rw [hw] at h
        cases h
      | some items' =>
        rw [hw] at h
        simp only [Option.some_bind] at h
        rw [ih _ _ _ h, writeItem_length _ _ _ _ hw]

/-- Whatever `append` returns, the container stays in a state of the class. -/
theorem wellFormed_of_append (d : Deque α Capacity) (hwf : d.WellFormed) (item : α)
    (r : Bool × Deque α Capacity) (h : d.append item = some r) : r.2.WellFormed := by
  by_cases hfull : d.next = Capacity
  · rw [append_of_full d hwf item hfull] at h
    cases h
    exact hwf
  · have hlt : d.next < Capacity := by
      have := hwf.2.2.2
      omega
    rw [append_of_lt d hwf item hlt] at h
    cases h
    exact wellFormed_append d hwf item hlt

/-- Whatever `unappend` does, the container stays in a state of the class. -/
theorem wellFormed_unappend (d : Deque α Capacity) (hwf : d.WellFormed) :
    d.unappend.WellFormed := by
  unfold unappend
  cases d.isEmpty
  · obtain ⟨h1, h2, h3, h4⟩ := hwf
    exact ⟨h1, h2, h3, by show d.next - 1 ≤ Capacity; omega⟩
  · exact hwf

/-- Whatever `removeAt` returns, the container stays in a state of the class. -/
theorem removeAt_wellFormed (d : Deque α Capacity) (hwf : d.WellFormed) (index : Nat)
    (r : Bool × Deque α Capacity) (h : d.removeAt index = some r) : r.2.WellFormed := by
  unfold removeAt at h
  by_cases hi : index ≥ d.next
  · rw [if_pos hi] at h
    cases h
    exact hwf
  · rw [if_neg hi] at h
    simp only [Option.bind_eq_bind] at h
    cases hm : moveDownLoop (d.next - 1 - index) index d.items with
    | none =>
      rw [hm] at h
      cases h
    | some items' =>
      rw [hm] at h
      cases h
      obtain ⟨h1, h2, h3, h4⟩ := hwf
      exact ⟨h1, h2, by rw [moveDownLoop_length _ _ _ _ hm, h3],
        by show d.next - 1 ≤ Capacity; omega⟩

/-- On a container in a state of the class, `removeAt` returns for every
index. -/
theorem removeAt_isSome (d : Deque α Capacity) (hwf : d.WellFormed) (index : Nat) :
    ∃ r : Bool × Deque α Capacity, d.removeAt index = some r := by
  by_cases hi : index < d.next
  · obtain ⟨d', hd', _⟩ := removeAt_of_lt d hwf index hi
    exact ⟨_, hd'⟩
  · refine ⟨(false, d), ?_⟩
    unfold removeAt
    rw [if_pos (by omega)]

/-- On a container in a state of the class, `append` returns. -/
theorem append_isSome (d : Deque α Capacity) (hwf : d.WellFormed) (item : α) :
    ∃ r : Bool × Deque α Capacity, d.append item = some r := by
  by_cases hfull : d.next = Capacity
  · exact ⟨_, append_of_full d hwf item hfull⟩
  · have hlt : d.next < Capacity := by
      have := hwf.2.2.2
      omega
    exact ⟨_, append_of_lt d hwf item hlt⟩

end Deque

namespace Stack

variable {α : Type} {Capacity : Nat}

theorem wellFormed_drop (s : Stack α Capacity) (h : s.container.WellFormed) :
    s.drop.container.WellFormed :=
  Deque.wellFormed_unappend _ h

theorem wellFormed_of_push {s : Stack α Capacity} {x : α} {r : Bool × Stack α Capacity}
    (h : s.container.WellFormed) (e : access (s.push x) = Except.ok r) :
    r.2.container.WellFormed := by
  unfold push at e
  cases ha : s.container.append x with
  | none =>
    rw [ha] at e
    cases e
  | some a =>
    rw [ha] at e
    cases e
    exact Deque.wellFormed_of_append _ h x a ha

theorem wellFormed_of_removeAt {s : Stack α Capacity} {i : Nat} {r : Bool × Stack α Capacity}
    (h : s.container.WellFormed) (e : access (s.removeAt i) = Except.ok r) :
    r.2.container.WellFormed := by
  unfold removeAt at e
  cases ha : s.container.removeAt i with
  | none =>
    rw [ha] at e
    cases e
  | some a =>
    rw [ha] at e
    cases e
    exact Deque.removeAt_wellFormed _ h i a ha

theorem wellFormed_of_assignPeek {s : Stack α Capacity} {v : α} {s' : Stack α Capacity}
    (h : s.container.WellFormed) (e : access (s.assignPeek v) = Except.ok s') :
    s'.container.WellFormed := by
  unfold assignPeek at e
  cases hw : Deque.writeItem s.container.items s.container.getLastIndex v with
  | none =>
    rw [hw] at e
    cases e
  | some items' =>
    rw [hw] at e
    cases e
    obtain ⟨h1, h2, h3, h4⟩ := h
    exact ⟨h1, h2, by rw [Deque.writeItem_length _ _ _ _ hw, h3], h4⟩

end Stack

namespace ProcessorState

variable {DataStackSize ReturnStackSize : Nat}

theorem wellFormed_of_functionCall (st st' : ProcessorState DataStackSize ReturnStackSize)
    (address : Address) (hd : st.dataStack.container.WellFormed)
    (hr : st.returnStack.container.WellFormed)
    (e : st.functionCall address = Except.ok st') :
    st'.dataStack.container.WellFormed ∧ st'.returnStack.container.WellFormed := by
  unfold functionCall at e
  cases hp : access (st.returnStack.push st.instructionPointer) with
  | error f =>
    rw [hp] at e
    cases e
  | ok pushed =>
    rw [hp] at e
    cases e
    exact ⟨hd, Stack.wellFormed_of_push hr hp⟩

theorem wellFormed_of_functionReturn (st st' : ProcessorState DataStackSize ReturnStackSize)
    (hd : st.dataStack.container.WellFormed) (hr : st.returnStack.container.WellFormed)
    (e : st.functionReturn = Except.ok st') :
    st'.dataStack.container.WellFormed ∧ st'.returnStack.container.WellFormed := by
  unfold functionReturn at e
  cases hp : access st.returnStack.peek with
  | error f =>
    rw [hp] at e
    cases e
  | ok top =>
    rw [hp] at e
    cases e
    exact ⟨hd, Stack.wellFormed_drop _ hr⟩

end ProcessorState

namespace Processor

variable {M : Type} {DataStackSize ReturnStackSize : Nat}

theorem wellFormed_of_updatePeek {s s' : Stack Word DataStackSize} {f : Word → Run Word}
    (h : s.container.WellFormed) (e : updatePeek s f = Except.ok s') :
    s'.container.WellFormed := by
  unfold updatePeek at e
  cases hp : access s.peek with
  | error x =>
    rw [hp] at e
    cases e
  | ok old =>
    rw [hp] at e
    cases hf : f old with
    | error x =>
      simp only [bind_ok, hf] at e
      cases e
    | ok new =>
      simp only [bind_ok, hf] at e
      exact Stack.wellFormed_of_assignPeek h e

theorem wellFormed_dropLoop (count : Nat) :
    ∀ s : Stack Word DataStackSize, s.container.WellFormed →
      (dropLoop s count).container.WellFormed := by
  induction count with
  | zero =>
    intro s h
    exact h
  | succ count ih =>
    intro s h
    exact ih _ (Stack.wellFormed_drop _ h)

/-- Every outcome of a call that binds a first call: it is enough to look at
the rest for each value the first call returns. -/
theorem outcome_bind {α P : Type} (m : Run α) (f : α → Run (ResultInfo × P))
    (Q : ResultInfo → P → Prop)
    (hf : ∀ a : α, m = Except.ok a → ∀ (r : ResultInfo) (p' : P), f a = Except.ok (r, p') → Q r p') :
    ∀ (r : ResultInfo) (p' : P), (m >>= f) = Except.ok (r, p') → Q r p' := by
  intro r p' h
  cases hm : m with
  | error e =>
    rw [hm] at h
    cases h
  | ok a =>
    rw [hm] at h
    exact hf a hm r p' h

/-- What `execute` leaves as it was: the program, the break handler and the two
flags, unless the opcode is End, which completes the processor and returns
Success. -/
theorem execute_flags (host : Host M) (p : Processor M DataStackSize ReturnStackSize)
    (i : Instruction) :
    ∀ (r : ResultInfo) (p' : Processor M DataStackSize ReturnStackSize),
      execute host p i = Except.ok (r, p') →
        (i.getOpcode = Opcode.End ∧ r = resultSuccess ∧ p' = p.complete)
          ∨ (p'.environment = p.environment ∧ p'.breakHandler = p.breakHandler
              ∧ p'.running = p.running ∧ p'.completed = p.completed) := by
  unfold execute
  iterate 48 (refine outcome_ite _ _ _ _ ?_ ?_; rotate_left; intro _)
  · intro r p' h
    cases h
    exact Or.inr ⟨rfl, rfl, rfl, rfl⟩
  all_goals first
    | (intro hop r p' h
       cases h
       exact Or.inl ⟨hop, rfl, rfl⟩)
    | (intro _
       repeat (first
         | (refine outcome_bind _ _ _ ?_; intro _ _)
         | (refine outcome_ite _ _ _ _ ?_ ?_ <;> intro _)
         | (intro r p' h
            cases h
            exact Or.inr ⟨rfl, rfl, rfl, rfl⟩)))

theorem executeCall_wellFormed (p : Processor M DataStackSize ReturnStackSize) (i : Instruction)
    (hwf : p.state.dataStack.container.WellFormed ∧ p.state.returnStack.container.WellFormed) :
    ∀ (r : ResultInfo) (p' : Processor M DataStackSize ReturnStackSize),
      p.executeCall i = Except.ok (r, p') →
        p'.state.dataStack.container.WellFormed ∧ p'.state.returnStack.container.WellFormed := by
  intro r p' h
  unfold executeCall at h
  cases hs : p.state.functionCall i.getOperand with
  | error e =>
    simp only [hs] at h
    cases h
  | ok st =>
    simp only [hs, bind_ok] at h
    cases h
    exact ProcessorState.wellFormed_of_functionCall _ _ _ hwf.1 hwf.2 hs

theorem executeCallIndirect_wellFormed (p : Processor M DataStackSize ReturnStackSize)
    (i : Instruction)
    (hwf : p.state.dataStack.container.WellFormed ∧ p.state.returnStack.container.WellFormed) :
    ∀ (r : ResultInfo) (p' : Processor M DataStackSize ReturnStackSize),
      p.executeCallIndirect i = Except.ok (r, p') →
        p'.state.dataStack.container.WellFormed ∧ p'.state.returnStack.container.WellFormed := by
  unfold executeCallIndirect
  refine outcome_ite _ _ _ _ ?_ ?_ <;> intro _
  · intro r p' h
    cases h
    exact hwf
  · refine outcome_bind _ _ _ ?_
    intro address _
    refine outcome_bind _ _ _ ?_
    intro st hst r p' h
    cases h
    exact ProcessorState.wellFormed_of_functionCall
      (p.setDataStack p.state.getDataStack.drop).state st address
      (Stack.wellFormed_drop _ hwf.1) hwf.2 hst

theorem executeReturn_wellFormed (p : Processor M DataStackSize ReturnStackSize)
    (i : Instruction)
    (hwf : p.state.dataStack.container.WellFormed ∧ p.state.returnStack.container.WellFormed) :
    ∀ (r : ResultInfo) (p' : Processor M DataStackSize ReturnStackSize),
      p.executeReturn i = Except.ok (r, p') →
        p'.state.dataStack.container.WellFormed ∧ p'.state.returnStack.container.WellFormed := by
  unfold executeReturn
  refine outcome_ite _ _ _ _ ?_ ?_ <;> intro _
  · intro r p' h
    cases h
    exact hwf
  · refine outcome_bind _ _ _ ?_
    intro st hst r p' h
    cases h
    exact ProcessorState.wellFormed_of_functionReturn _ _ hwf.1 hwf.2 hst

/-- Whatever `execute` returns, both stacks stay in a state of the class: their
counts do not exceed their capacities. -/
theorem execute_wellFormed (host : Host M) (p : Processor M DataStackSize ReturnStackSize)
    (i : Instruction)
    (hwf : p.state.dataStack.container.WellFormed ∧ p.state.returnStack.container.WellFormed) :
    ∀ (r : ResultInfo) (p' : Processor M DataStackSize ReturnStackSize),
      execute host p i = Except.ok (r, p') →
        p'.state.dataStack.container.WellFormed ∧ p'.state.returnStack.container.WellFormed := by
  unfold execute
  iterate 48 (refine outcome_ite _ _ _ _ ?_ ?_; rotate_left; intro _)
  · intro r p' h
    cases h
    exact hwf
  all_goals first
    | (intro (_ : i.getOpcode = Opcode.Call)
       exact executeCall_wellFormed p i hwf)
    | (intro (_ : i.getOpcode = Opcode.CallIndirect)
       exact executeCallIndirect_wellFormed p i hwf)
    | (intro (_ : i.getOpcode = Opcode.Return)
       exact executeReturn_wellFormed p i hwf)
    | (intro _
       repeat (first
         | (refine outcome_bind _ _ _ ?_; intro _ _)
         | (refine outcome_ite _ _ _ _ ?_ ?_ <;> intro _)
         | (intro r p' h
            cases h
            refine ⟨?_, ?_⟩ <;>
              repeat (first
                | assumption
                | exact hwf.1
                | exact hwf.2
                | refine Stack.wellFormed_drop _ ?_
                | refine wellFormed_dropLoop _ _ ?_
                | refine Stack.wellFormed_of_push ?_ ‹_›
                | refine Stack.wellFormed_of_removeAt ?_ ‹_›
                | refine Stack.wellFormed_of_assignPeek ?_ ‹_›
                | refine wellFormed_of_updatePeek ?_ ‹_›))))

end Processor

end StackLanguage
namespace StackLanguage

namespace Processor

variable {M : Type} {DataStackSize ReturnStackSize : Nat}

theorem execute_of_break (host : Host M) (p : Processor M DataStackSize ReturnStackSize)
    (i : Instruction) (hop : i.getOpcode = Opcode.Break) :
    execute host p i = p.executeBreak i := by
  unfold execute
  rw [hop]
  rfl

theorem execute_of_printChar (host : Host M) (p : Processor M DataStackSize ReturnStackSize)
    (i : Instruction) (hop : i.getOpcode = Opcode.PrintChar) :
    execute host p i = p.executePrintChar i := by
  unfold execute
  rw [hop]
  rfl

theorem execute_of_end (host : Host M) (p : Processor M DataStackSize ReturnStackSize)
    (i : Instruction) (hop : i.getOpcode = Opcode.End) :
    execute host p i = p.executeEnd i := by
  unfold execute
  rw [hop]
  rfl

/-- The fetch of a cycle in the middle of a run: `executeCycle` runs `execute`
on the fetched instruction, in a processor that differs by the instruction
pointer, advanced by one. -/
theorem cycle_of_isAt (host : Host M) (p : Processor M DataStackSize ReturnStackSize)
    (program : InstructionList) (ip : Address) (ds : List Word) (trace : List Event)
    (i : Instruction) (h : p.IsAt program ip ds trace) (hsize : program.length < 2 ^ 32)
    (hfetch : program[ip]? = some i) :
    ∃ q : Processor M DataStackSize ReturnStackSize,
      executeCycle host p = execute host q i ∧ q.IsAt program (ip + 1) ds trace := by
  obtain ⟨henv, hip, hwf, hc, hrun, hnc, hbh, htr⟩ := h
  refine ⟨{ p with state := { p.state with instructionPointer := p.state.instructionPointer + 1 } },
    ?_, ⟨henv, ?_, hwf, hc, hrun, hnc, hbh, htr⟩⟩
  · refine executeCycle_of_fetch host p i hrun hnc ?_ ?_
    · unfold Environment.getInstructions
      rw [henv]
      exact hsize
    · unfold Environment.getInstructions ProcessorState.getInstructionPointer
      rw [henv, hip]
      exact hfetch
  · show p.state.instructionPointer + 1 = ip + 1
    rw [hip]

/-- Push in the middle of a run, on a Data Stack with room. -/
theorem push_of_isAt (host : Host M) (q : Processor M DataStackSize ReturnStackSize)
    (program : InstructionList) (ip : Address) (ds : List Word) (trace : List Event)
    (i : Instruction) (h : q.IsAt program ip ds trace) (hop : i.getOpcode = Opcode.Push)
    (hroom : ds.length < DataStackSize) :
    ∃ q' : Processor M DataStackSize ReturnStackSize,
      execute host q i = Except.ok (resultSuccess, q')
        ∧ q'.IsAt program ip (ds ++ [i.getOperand]) trace := by
  obtain ⟨henv, hip, hwf, hc, hrun, hnc, hbh, htr⟩ := h
  have hn := Stack.next_of_contents _ hwf _ hc
  obtain ⟨s', hs', hwf', hc', _⟩ := Stack.push_of_room q.state.dataStack hwf i.getOperand
    (by omega)
  refine ⟨q.setDataStack s', ?_,
    ⟨henv, hip, hwf', by show s'.container.contents = _; rw [hc', hc], hrun, hnc, hbh, htr⟩⟩
  rw [execute_of_push host q i hop]
  unfold executePush
  rw [if_neg (show ¬ q.state.getDataStack.getCount ≥ q.state.getDataStack.getCapacity from by
    show ¬ q.state.dataStack.container.next ≥ DataStackSize
    omega)]
  simp only [ProcessorState.getDataStack, hs', access_some, bind_ok]
  rfl

/-- PrintStack in the middle of a run, on a Data Stack of fewer than 256
elements. -/
theorem printStack_of_isAt (host : Host M) (q : Processor M DataStackSize ReturnStackSize)
    (program : InstructionList) (ip : Address) (ds : List Word) (trace : List Event)
    (i : Instruction) (h : q.IsAt program ip ds trace) (hop : i.getOpcode = Opcode.PrintStack)
    (hshort : ds.length < 256) :
    ∃ q' : Processor M DataStackSize ReturnStackSize,
      execute host q i = Except.ok (resultSuccess, q')
        ∧ q'.IsAt program ip ds (trace ++ stackListing ds) := by
  obtain ⟨henv, hip, hwf, hc, hrun, hnc, hbh, htr⟩ := h
  have hn := Stack.next_of_contents _ hwf _ hc
  refine ⟨q.emit (stackListing ds), ?_, ⟨henv, hip, hwf, hc, hrun, hnc, hbh, ?_⟩⟩
  · rw [execute_of_printStack host q i hop, executePrintStack_of_short q i hwf (by omega), hc]
  · show q.trace ++ stackListing ds = trace ++ stackListing ds
    rw [htr]

/-- Add in the middle of a run, on a Data Stack of two elements or more. -/
theorem add_of_isAt (host : Host M) (q : Processor M DataStackSize ReturnStackSize)
    (program : InstructionList) (ip : Address) (rest : List Word) (a b : Word)
    (trace : List Event) (i : Instruction) (h : q.IsAt program ip (rest ++ [a, b]) trace)
    (hop : i.getOpcode = Opcode.Add) :
    ∃ q' : Processor M DataStackSize ReturnStackSize,
      execute host q i = Except.ok (resultSuccess, q')
        ∧ q'.IsAt program ip (rest ++ [(a + b) % 2 ^ 32]) trace := by
  obtain ⟨henv, hip, hwf, hc, hrun, hnc, hbh, htr⟩ := h
  have hn := Stack.next_of_contents _ hwf _ hc
  have hg : ¬ q.state.dataStack.getCount < 2 := fun hlt => by
    have hlt' : q.state.dataStack.container.next < 2 := hlt
    rw [hn] at hlt'
    simp at hlt'
  obtain ⟨s', hpb, hs', hc', hwf', _⟩ := binary_of_contents q.state.dataStack hwf rest a b hc
    (fun top value => (top + value) % 2 ^ 32)
  refine ⟨q.setDataStack s', ?_, ⟨henv, hip, hwf', hc', hrun, hnc, hbh, htr⟩⟩
  rw [execute_of_add host q i hop]
  unfold executeAdd
  simp only
  rw [guarded_of_ge q _ _ hg]
  simp only [ProcessorState.getDataStack, hpb, access_some, bind_ok, hs']
  rfl

/-- Break in the middle of a run of a processor with a break handler. -/
theorem break_of_isAt (host : Host M) (q : Processor M DataStackSize ReturnStackSize)
    (program : InstructionList) (ip : Address) (ds : List Word) (trace : List Event)
    (i : Instruction) (h : q.IsAt program ip ds trace) (hop : i.getOpcode = Opcode.Break) :
    ∃ q' : Processor M DataStackSize ReturnStackSize,
      execute host q i = Except.ok (resultSuccess, q')
        ∧ q'.IsAt program ip ds (trace ++ [Event.breakHandler]) := by
  obtain ⟨henv, hip, hwf, hc, hrun, hnc, hbh, htr⟩ := h
  refine ⟨q.emit [Event.breakHandler], ?_, ⟨henv, hip, hwf, hc, hrun, hnc, hbh, ?_⟩⟩
  · rw [execute_of_break host q i hop]
    unfold executeBreak
    rw [if_pos hbh]
    rfl
  · show q.trace ++ [Event.breakHandler] = trace ++ [Event.breakHandler]
    rw [htr]

/-- PrintChar in the middle of a run, on a Data Stack that is not empty. -/
theorem printChar_of_isAt (host : Host M) (q : Processor M DataStackSize ReturnStackSize)
    (program : InstructionList) (ip : Address) (rest : List Word) (a : Word)
    (trace : List Event) (i : Instruction) (h : q.IsAt program ip (rest ++ [a]) trace)
    (hop : i.getOpcode = Opcode.PrintChar) :
    ∃ q' : Processor M DataStackSize ReturnStackSize,
      execute host q i = Except.ok (resultSuccess, q')
        ∧ q'.IsAt program ip (rest ++ [a]) (trace ++ [Event.char (a % 2 ^ 8)]) := by
  obtain ⟨henv, hip, hwf, hc, hrun, hnc, hbh, htr⟩ := h
  have hn := Stack.next_of_contents _ hwf _ hc
  have hg : ¬ q.state.dataStack.getCount < 1 := fun hlt => by
    have hlt' : q.state.dataStack.container.next < 1 := hlt
    rw [hn] at hlt'
    simp at hlt'
  have hpeek := Stack.peek_of_contents _ hwf _ _ hc
  refine ⟨q.emit [Event.char (a % 2 ^ 8)], ?_, ⟨henv, hip, hwf, hc, hrun, hnc, hbh, ?_⟩⟩
  · rw [execute_of_printChar host q i hop]
    unfold executePrintChar
    simp only
    rw [guarded_of_ge q _ _ hg]
    simp only [ProcessorState.getDataStack, hpeek, access_some, bind_ok]
    rfl
  · show q.trace ++ [Event.char (a % 2 ^ 8)] = trace ++ [Event.char (a % 2 ^ 8)]
    rw [htr]

/-- One turn of the loop of `run` whose cycle returns Success. -/
theorem runLoop_of_success (host : Host M) (tests : Nat)
    (p p' : Processor M DataStackSize ReturnStackSize) (hrun : p.isRunning = true)
    (h : executeCycle host p = Except.ok (resultSuccess, p')) :
    runLoop host (tests + 1) p = runLoop host tests p' := by
  rw [runLoop, if_pos hrun, h]
  rfl

/-- The loop of `run` on a processor that has completed: it ends and `run`
returns Success. -/
theorem runLoop_of_completed (host : Host M) (tests : Nat)
    (p : Processor M DataStackSize ReturnStackSize) (hrun : p.isRunning = false)
    (hc : p.hasCompleted = true) :
    runLoop host (tests + 1) p = Except.ok (some (resultSuccess, p)) := by
  rw [runLoop, hrun, hc]
  rfl

/-- C32: the demonstration program of `Main.cpp`, run from a fresh processor
with a break handler, whatever the host, on a Data Stack of capacity 2 or more.
Given 11 tests of the loop condition or more, `run()` returns Success with
`hasCompleted()` true, the break handler has been called twice, once before and
once after the character `A`, and the Data Stack holds `[45, 65]`. The claim
fails on the output: the printer receives the calls for `[`, 15, the literal
`", "`, 30, `]` and a line terminator and so on, and the decorator passes the
literal to `print(&array[0], size)` with its size 3, so `std::cout` receives a
null character after `", "`: the first line is `[15, ` `\0` `30]`, not
`[15, 30]`. -/
theorem demonstration_run_writes_terminator (host : Host M) (memory : M) (tests : Nat)
    (hcap : 2 ≤ DataStackSize) (hsize : DataStackSize < sizeModulus) (htests : 11 ≤ tests) :
    ∃ p' : Processor M DataStackSize ReturnStackSize,
      run host tests (mainProcessor DataStackSize ReturnStackSize memory)
          = Except.ok (some (resultSuccess, p'))
        ∧ p'.hasCompleted = true
        ∧ p'.trace = stackListing [15, 30] ++ stackListing [45]
            ++ [Event.breakHandler, Event.char 65, Event.breakHandler]
        ∧ PrinterDecorator.output p'.trace
            = "[15, ".data ++ [Char.ofNat 0] ++ "30]\n[45]\nA".data
        ∧ PrinterDecorator.output p'.trace ≠ "[15, 30]\n[45]\nA".data
        ∧ p'.trace.count Event.breakHandler = 2
        ∧ p'.state.dataStack.container.contents = [45, 65] := by
  obtain ⟨k, rfl⟩ : ∃ k, tests = k + 11 := ⟨tests - 11, by omega⟩
  have hlen : createEnvironment.instructions.length < 2 ^ 32 := by decide
  have h0 : (mainProcessor DataStackSize ReturnStackSize memory).start.IsAt
      createEnvironment.instructions 0 [] [] :=
    ⟨rfl, rfl, Deque.wellFormed_empty (by omega) hsize, Deque.contents_empty, rfl, rfl, rfl, rfl⟩
  -- Push 15
  obtain ⟨q0, hq0, hat0⟩ := cycle_of_isAt host _ _ _ _ _ (Instruction.ofSWord Opcode.Push 15)
    h0 hlen (by decide)
  obtain ⟨p1, hp1, h1⟩ :=
    push_of_isAt host q0 _ _ _ _ (Instruction.ofSWord Opcode.Push 15)
      hat0 (by decide)
    (by rw [List.length_nil]; omega)
  rw [← hq0] at hp1
  -- Push 30
  obtain ⟨q1, hq1, hat1⟩ := cycle_of_isAt host _ _ _ _ _ (Instruction.ofSWord Opcode.Push 30)
    h1 hlen (by decide)
  obtain ⟨p2, hp2, h2⟩ :=
    push_of_isAt host q1 _ _ _ _ (Instruction.ofSWord Opcode.Push 30)
      hat1 (by decide)
    (by simp; omega)
  rw [← hq1] at hp2
  -- PrintStack
  obtain ⟨q2, hq2, hat2⟩ := cycle_of_isAt host _ _ _ _ _ (Instruction.ofOpcode Opcode.PrintStack)
    h2 hlen (by decide)
  obtain ⟨p3, hp3, h3⟩ :=
    printStack_of_isAt host q2 _ _ _ _ (Instruction.ofOpcode Opcode.PrintStack)
      hat2 (by decide) (by simp)
  rw [← hq2] at hp3
  -- Add
  obtain ⟨q3, hq3, hat3⟩ := cycle_of_isAt host _ _ _ _ _ (Instruction.ofOpcode Opcode.Add)
    h3 hlen (by decide)
  obtain ⟨p4, hp4, h4⟩ := add_of_isAt host q3 _ _ []
    (Instruction.ofSWord Opcode.Push 15).getOperand
    (Instruction.ofSWord Opcode.Push 30).getOperand _ (Instruction.ofOpcode Opcode.Add) hat3
    (by decide)
  rw [← hq3] at hp4
  -- PrintStack
  obtain ⟨q4, hq4, hat4⟩ := cycle_of_isAt host _ _ _ _ _ (Instruction.ofOpcode Opcode.PrintStack)
    h4 hlen (by decide)
  obtain ⟨p5, hp5, h5⟩ :=
    printStack_of_isAt host q4 _ _ _ _ (Instruction.ofOpcode Opcode.PrintStack)
      hat4 (by decide) (by simp)
  rw [← hq4] at hp5
  -- Break
  obtain ⟨q5, hq5, hat5⟩ := cycle_of_isAt host _ _ _ _ _ (Instruction.ofOpcode Opcode.Break)
    h5 hlen (by decide)
  obtain ⟨p6, hp6, h6⟩ :=
    break_of_isAt host q5 _ _ _ _ (Instruction.ofOpcode Opcode.Break)
      hat5 (by decide)
  rw [← hq5] at hp6
  -- Push 65
  obtain ⟨q6, hq6, hat6⟩ := cycle_of_isAt host _ _ _ _ _ (Instruction.ofSWord Opcode.Push 65)
    h6 hlen (by decide)
  obtain ⟨p7, hp7, h7⟩ :=
    push_of_isAt host q6 _ _ _ _ (Instruction.ofSWord Opcode.Push 65)
      hat6 (by decide)
    (by simp; omega)
  rw [← hq6] at hp7
  -- PrintChar
  obtain ⟨q7, hq7, hat7⟩ := cycle_of_isAt host _ _ _ _ _ (Instruction.ofOpcode Opcode.PrintChar)
    h7 hlen (by decide)
  obtain ⟨p8, hp8, h8⟩ := printChar_of_isAt host q7 _ _
    ([] ++ [((Instruction.ofSWord Opcode.Push 15).getOperand
      + (Instruction.ofSWord Opcode.Push 30).getOperand) % 2 ^ 32])
    (Instruction.ofSWord Opcode.Push 65).getOperand _ (Instruction.ofOpcode Opcode.PrintChar) hat7
    (by decide)
  rw [← hq7] at hp8
  -- Break
  obtain ⟨q8, hq8, hat8⟩ := cycle_of_isAt host _ _ _ _ _ (Instruction.ofOpcode Opcode.Break)
    h8 hlen (by decide)
  obtain ⟨p9, hp9, h9⟩ :=
    break_of_isAt host q8 _ _ _ _ (Instruction.ofOpcode Opcode.Break)
      hat8 (by decide)
  rw [← hq8] at hp9
  -- End
  obtain ⟨q9, hq9, hat9⟩ := cycle_of_isAt host _ _ _ _ _ (Instruction.ofOpcode Opcode.End)
    h9 hlen (by decide)
  have hp10 : executeCycle host p9 = Except.ok (resultSuccess, q9.complete) := by
    rw [hq9, execute_of_end host q9 _ (by decide)]
    rfl
  obtain ⟨_, _, _, hc9, _, _, _, htr9⟩ := hat9
  refine ⟨q9.complete, ?_, rfl, ?_, ?_, ?_, ?_, ?_⟩
  · unfold run
    rw [runLoop_of_success host _ _ p1 h0.2.2.2.2.1 hp1,
      runLoop_of_success host _ _ p2 h1.2.2.2.2.1 hp2,
      runLoop_of_success host _ _ p3 h2.2.2.2.2.1 hp3,
      runLoop_of_success host _ _ p4 h3.2.2.2.2.1 hp4,
      runLoop_of_success host _ _ p5 h4.2.2.2.2.1 hp5,
      runLoop_of_success host _ _ p6 h5.2.2.2.2.1 hp6,
      runLoop_of_success host _ _ p7 h6.2.2.2.2.1 hp7,
      runLoop_of_success host _ _ p8 h7.2.2.2.2.1 hp8,
      runLoop_of_success host _ _ p9 h8.2.2.2.2.1 hp9,
      runLoop_of_success host _ _ q9.complete h9.2.2.2.2.1 hp10,
      runLoop_of_completed host _ q9.complete rfl rfl]
  · show q9.trace = _
    rw [htr9]
    decide
  · show PrinterDecorator.output q9.trace = _
    rw [htr9]
    decide
  · show PrinterDecorator.output q9.trace ≠ _
    rw [htr9]
    decide
  · show q9.trace.count Event.breakHandler = 2
    rw [htr9]
    decide
  · show q9.state.dataStack.container.contents = _
    rw [hc9]
    decide

theorem demonstration_run_writes_terminator_witness :
    2 ≤ 4 ∧ 4 < sizeModulus ∧ 11 ≤ 11
      ∧ ∃ p' : Processor Unit 4 2,
          run nullHost 11 (mainProcessor 4 2 ()) = Except.ok (some (resultSuccess, p'))
            ∧ p'.hasCompleted = true
            ∧ p'.trace = stackListing [15, 30] ++ stackListing [45]
                ++ [Event.breakHandler, Event.char 65, Event.breakHandler]
            ∧ PrinterDecorator.output p'.trace
                = "[15, ".data ++ [Char.ofNat 0] ++ "30]\n[45]\nA".data
            ∧ PrinterDecorator.output p'.trace ≠ "[15, 30]\n[45]\nA".data
            ∧ p'.trace.count Event.breakHandler = 2
            ∧ p'.state.dataStack.container.contents = [45, 65] :=
  ⟨by decide, by decide, by decide,
    demonstration_run_writes_terminator nullHost () 11 (by decide) (by decide) (by decide)⟩

end Processor

end StackLanguage
namespace StackLanguage

namespace Processor

variable {M : Type} {DataStackSize ReturnStackSize : Nat}

/-- Whatever `executeCycle` returns, both stacks stay in a state of the class. -/
theorem executeCycle_wellFormed (host : Host M) (p : Processor M DataStackSize ReturnStackSize)
    (hwf : p.state.dataStack.container.WellFormed ∧ p.state.returnStack.container.WellFormed) :
    ∀ (r : ResultInfo) (p' : Processor M DataStackSize ReturnStackSize),
      executeCycle host p = Except.ok (r, p') →
        p'.state.dataStack.container.WellFormed ∧ p'.state.returnStack.container.WellFormed := by
  unfold executeCycle
  refine outcome_ite _ _ _ _ ?_ ?_ <;> intro _
  · intro r p' h
    cases h
    exact hwf
  refine outcome_ite _ _ _ _ ?_ ?_ <;> intro _
  · intro r p' h
    cases h
    exact hwf
  refine outcome_ite _ _ _ _ ?_ ?_ <;> intro _
  · intro r p' h
    cases h
    exact hwf
  refine outcome_bind _ _ _ ?_
  intro instruction _
  exact execute_wellFormed host _ instruction hwf

/-- After any number of cycles that return, both stacks are in a state of the
class. -/
theorem executeCycles_wellFormed (host : Host M) (count : Nat) :
    ∀ (p : Processor M DataStackSize ReturnStackSize),
      p.state.dataStack.container.WellFormed ∧ p.state.returnStack.container.WellFormed →
      ∀ (results : List ResultInfo) (p' : Processor M DataStackSize ReturnStackSize),
        executeCycles host p count = Except.ok (results, p') →
          p'.state.dataStack.container.WellFormed
            ∧ p'.state.returnStack.container.WellFormed := by
  induction count with
  | zero =>
    intro p hwf results p' h
    cases h
    exact hwf
  | succ count ih =>
    intro p hwf results p' h
    rw [executeCycles] at h
    cases hfirst : executeCycle host p with
    | error e =>
      rw [hfirst] at h
      cases h
    | ok first =>
      rw [hfirst] at h
      simp only [bind_ok] at h
      have hwf1 := executeCycle_wellFormed host p hwf first.1 first.2 hfirst
      cases hrest : executeCycles host first.2 count with
      | error e =>
        rw [hrest] at h
        cases h
      | ok rest =>
        rw [hrest] at h
        cases h
        exact ih first.2 hwf1 rest.1 rest.2 hrest

end Processor

end StackLanguage
namespace StackLanguage

namespace Processor

variable {M : Type} {DataStackSize ReturnStackSize : Nat}

end Processor

end StackLanguage
namespace StackLanguage

namespace Processor

variable {M : Type} {DataStackSize ReturnStackSize : Nat}

theorem execute_of_loadByte (host : Host M) (p : Processor M DataStackSize ReturnStackSize)
    (i : Instruction) (hop : i.getOpcode = Opcode.LoadByte) :
    execute host p i = p.executeLoadByte host i := by
  unfold execute
  rw [hop]
  rfl

theorem execute_of_storeByte (host : Host M) (p : Processor M DataStackSize ReturnStackSize)
    (i : Instruction) (hop : i.getOpcode = Opcode.StoreByte) :
    execute host p i = p.executeStoreByte host i := by
  unfold execute
  rw [hop]
  rfl

theorem execute_of_loadWord (host : Host M) (p : Processor M DataStackSize ReturnStackSize)
    (i : Instruction) (hop : i.getOpcode = Opcode.LoadWord) :
    execute host p i = p.executeLoadWord host i := by
  unfold execute
  rw [hop]
  rfl

theorem execute_of_storeWord (host : Host M) (p : Processor M DataStackSize ReturnStackSize)
    (i : Instruction) (hop : i.getOpcode = Opcode.StoreWord) :
    execute host p i = p.executeStoreWord host i := by
  unfold execute
  rw [hop]
  rfl

/-- A load on a Data Stack that ends with the address `X`: the handler reads
through the pointer `X`; when the host accepts it the result is Success and the
top becomes the value read, when it does not the call has no defined result. -/
theorem executeLoad_of_contents (host : Host M)
    (p : Processor M DataStackSize ReturnStackSize) (i : Instruction)
    (hwf : p.state.dataStack.container.WellFormed) (rest : List Word) (X : Word)
    (h : p.state.dataStack.container.contents = rest ++ [X]) :
    ((∀ w : Word, host.loadWord p.memory X = some w →
        ∃ s' : Stack Word DataStackSize,
          p.executeLoadWord host i = Except.ok (resultSuccess, p.setDataStack s')
            ∧ s'.container.contents = rest ++ [w] ∧ s'.container.WellFormed
            ∧ s'.getCount = p.state.dataStack.getCount)
      ∧ (host.loadWord p.memory X = none →
          p.executeLoadWord host i = Except.error Fault.invalidPointer))
    ∧ ((∀ b : Word, host.loadByte p.memory X = some b →
        ∃ s' : Stack Word DataStackSize,
          p.executeLoadByte host i = Except.ok (resultSuccess, p.setDataStack s')
            ∧ s'.container.contents = rest ++ [b] ∧ s'.container.WellFormed
            ∧ s'.getCount = p.state.dataStack.getCount)
      ∧ (host.loadByte p.memory X = none →
          p.executeLoadByte host i = Except.error Fault.invalidPointer)) := by
  have hn := Stack.next_of_contents _ hwf _ h
  have hg : ¬ p.state.dataStack.getCount < 1 := fun hlt => by
    have hlt' : p.state.dataStack.container.next < 1 := hlt
    rw [hn] at hlt'
    simp at hlt'
  have hpeek := Stack.peek_of_contents _ hwf _ _ h
  refine ⟨⟨?_, ?_⟩, ⟨?_, ?_⟩⟩
  · intro w hload
    obtain ⟨s', hs', hwf', hc', hn'⟩ := Stack.assignPeek_of_contents _ hwf rest X w h
    refine ⟨s', ?_, hc', hwf', hn'⟩
    unfold executeLoadWord
    simp only
    rw [guarded_of_ge p _ _ hg]
    simp only [ProcessorState.getDataStack, hpeek, access_some, bind_ok, hload, dereference, hs']
    rfl
  · intro hload
    unfold executeLoadWord
    simp only
    rw [guarded_of_ge p _ _ hg]
    simp only [ProcessorState.getDataStack, hpeek, access_some, bind_ok, hload, dereference]
    rfl
  · intro b hload
    obtain ⟨s', hs', hwf', hc', hn'⟩ := Stack.assignPeek_of_contents _ hwf rest X b h
    refine ⟨s', ?_, hc', hwf', hn'⟩
    unfold executeLoadByte
    simp only
    rw [guarded_of_ge p _ _ hg]
    simp only [ProcessorState.getDataStack, hpeek, access_some, bind_ok, hload, dereference, hs']
    rfl
  · intro hload
    unfold executeLoadByte
    simp only
    rw [guarded_of_ge p _ _ hg]
    simp only [ProcessorState.getDataStack, hpeek, access_some, bind_ok, hload, dereference]
    rfl

/-- A store on a Data Stack that ends with the address `X` and the value `v`
(on top): the handler pops both and writes through the pointer `X`, the word
`v` or its low byte; when the host accepts the pointer the result is Success
and the memory is the one the host returns, when it does not the call has no
defined result. -/
theorem executeStore_of_contents (host : Host M)
    (p : Processor M DataStackSize ReturnStackSize) (i : Instruction)
    (hwf : p.state.dataStack.container.WellFormed) (rest : List Word) (X v : Word)
    (h : p.state.dataStack.container.contents = rest ++ [X, v]) :
    ∃ s' : Stack Word DataStackSize,
      s'.container.contents = rest ∧ s'.container.WellFormed
        ∧ s'.getCount + 2 = p.state.dataStack.getCount
        ∧ (∀ m' : M, host.storeWord p.memory X v = some m' →
            p.executeStoreWord host i
              = Except.ok (resultSuccess, { p.setDataStack s' with memory := m' }))
        ∧ (host.storeWord p.memory X v = none →
            p.executeStoreWord host i = Except.error Fault.invalidPointer)
        ∧ (∀ m' : M, host.storeByte p.memory X (v % 2 ^ 8) = some m' →
            p.executeStoreByte host i
              = Except.ok (resultSuccess, { p.setDataStack s' with memory := m' }))
        ∧ (host.storeByte p.memory X (v % 2 ^ 8) = none →
            p.executeStoreByte host i = Except.error Fault.invalidPointer) := by
  have h0 : p.state.dataStack.container.contents = (rest ++ [X]) ++ [v] := by
    rw [h]; simp
  have hn := Stack.next_of_contents _ hwf _ h
  have hg : ¬ p.state.dataStack.getCount < 2 := fun hlt => by
    have hlt' : p.state.dataStack.container.next < 2 := hlt
    rw [hn] at hlt'
    simp at hlt'
  have hpv := Stack.peek_of_contents _ hwf _ _ h0
  obtain ⟨hwf1, hc1, hn1⟩ := Stack.drop_of_contents _ hwf _ _ h0
  have hpx := Stack.peek_of_contents _ hwf1 _ _ hc1
  obtain ⟨hwf2, hc2, hn2⟩ := Stack.drop_of_contents _ hwf1 _ _ hc1
  refine ⟨p.state.dataStack.drop.drop, hc2, hwf2, ?_, ?_, ?_, ?_, ?_⟩
  · show p.state.dataStack.drop.drop.container.next + 2 = p.state.dataStack.container.next
    omega
  · intro m' hstore
    unfold executeStoreWord
    simp only
    rw [guarded_of_ge p _ _ hg]
    simp only [ProcessorState.getDataStack, hpv, hpx, access_some, bind_ok, hstore, dereference]
    rfl
  · intro hstore
    unfold executeStoreWord
    simp only
    rw [guarded_of_ge p _ _ hg]
    simp only [ProcessorState.getDataStack, hpv, hpx, access_some, bind_ok, hstore, dereference]
    rfl
  · intro m' hstore
    unfold executeStoreByte
    simp only
    rw [guarded_of_ge p _ _ hg]
    simp only [ProcessorState.getDataStack, hpv, hpx, access_some, bind_ok, hstore, dereference]
    rfl
  · intro hstore
    unfold executeStoreByte
    simp only
    rw [guarded_of_ge p _ _ hg]
    simp only [ProcessorState.getDataStack, hpv, hpx, access_some, bind_ok, hstore, dereference]
    rfl

/-- C35, evaluated: the claim fails on a host whose allocator has handed out
nothing, so that every address is outside every live allocation. The program
`Push 1, LoadWord` on the memory cells `[7, 8, 9]` returns Success twice and
leaves `8`, the word at address 1, on the Data Stack; `Push 2, Push 99,
StoreWord` returns Success three times and writes 99 to address 2. Neither
returns an Error. On a host that rejects the pointer (`nullHost`) LoadWord has
no defined result at all, which is not an Error either. -/
theorem loadWord_reads_outside_allocations :
    (∃ p' : Processor (List Word) 4 2,
        executeCycles flatHost
            (create [Instruction.ofWord Opcode.Push 1, Instruction.ofOpcode Opcode.LoadWord]
              false [7, 8, 9]).start 2
          = Except.ok ([resultSuccess, resultSuccess], p')
          ∧ p'.state.dataStack.container.contents = [8] ∧ p'.memory = [7, 8, 9])
      ∧ (∃ p' : Processor (List Word) 4 2,
        executeCycles flatHost
            (create [Instruction.ofWord Opcode.Push 2, Instruction.ofWord Opcode.Push 99,
              Instruction.ofOpcode Opcode.StoreWord] false [7, 8, 9]).start 3
          = Except.ok ([resultSuccess, resultSuccess, resultSuccess], p')
          ∧ p'.state.dataStack.container.contents = [] ∧ p'.memory = [7, 8, 99])
      ∧ executeCycles nullHost
            (create [Instruction.ofWord Opcode.Push 1, Instruction.ofOpcode Opcode.LoadWord]
              false () : Processor Unit 4 2).start 2
          = Except.error Fault.invalidPointer :=
  ⟨⟨_, rfl, by decide, by decide⟩, ⟨_, rfl, by decide, by decide⟩, by decide⟩

/-- C35, amended: the load and store handlers keep no record of allocations and
have no Invalid-Address error; each makes a pointer of the word and reads or
writes through it. With depth below 1 (LoadByte, LoadWord) or below 2
(StoreByte, StoreWord) they return the Error `Data stack underflow` and change
nothing, and whatever the host, a result they return is Success or that Error.
With enough depth, whenever the host accepts the pointer, in an allocation or
not, they return Success: LoadWord on `[..., X]` replaces `X` by the word the
host reads at `X` and LoadByte by the byte it reads there, with the depth kept;
StoreWord on `[..., X, v]` pops both words and writes `v` at `X`, StoreByte
writes the low byte of `v`. When the host does not accept the pointer the call
has no defined result, so no Error either. On a host memory where the word
written at `X` is read back from `X`, StoreWord of `v` at `X` followed by
LoadWord from `X` leaves `v` on top of the Data Stack. -/
theorem load_store_raw_pointers (host : Host M) (p : Processor M DataStackSize ReturnStackSize)
    (i : Instruction) (hwf : p.state.dataStack.container.WellFormed) :
    (i.getOpcode ∈ [Opcode.LoadByte, Opcode.LoadWord, Opcode.StoreByte, Opcode.StoreWord] →
        ∀ (r : ResultInfo) (p' : Processor M DataStackSize ReturnStackSize),
          execute host p i = Except.ok (r, p') →
            r = resultSuccess ∨ (r = resultError "Data stack underflow" ∧ p' = p))
      ∧ (i.getOpcode ∈ [Opcode.LoadByte, Opcode.LoadWord] →
          p.state.dataStack.getCount < 1 →
            execute host p i = Except.ok (resultError "Data stack underflow", p))
      ∧ (i.getOpcode ∈ [Opcode.StoreByte, Opcode.StoreWord] →
          p.state.dataStack.getCount < 2 →
            execute host p i = Except.ok (resultError "Data stack underflow", p))
      ∧ (∀ (rest : List Word) (X : Word),
          p.state.dataStack.container.contents = rest ++ [X] →
            (i.getOpcode = Opcode.LoadWord →
              (∀ w : Word, host.loadWord p.memory X = some w →
                ∃ s' : Stack Word DataStackSize,
                  execute host p i = Except.ok (resultSuccess, p.setDataStack s')
                    ∧ s'.container.contents = rest ++ [w]
                    ∧ s'.getCount = p.state.dataStack.getCount)
              ∧ (host.loadWord p.memory X = none →
                  execute host p i = Except.error Fault.invalidPointer))
            ∧ (i.getOpcode = Opcode.LoadByte →
              (∀ b : Word, host.loadByte p.memory X = some b →
                ∃ s' : Stack Word DataStackSize,
                  execute host p i = Except.ok (resultSuccess, p.setDataStack s')
                    ∧ s'.container.contents = rest ++ [b]
                    ∧ s'.getCount = p.state.dataStack.getCount)
              ∧ (host.loadByte p.memory X = none →
                  execute host p i = Except.error Fault.invalidPointer)))
      ∧ (∀ (rest : List Word) (X v : Word),
          p.state.dataStack.container.contents = rest ++ [X, v] →
            ∃ s' : Stack Word DataStackSize,
              s'.container.contents = rest
                ∧ s'.getCount + 2 = p.state.dataStack.getCount
                ∧ (i.getOpcode = Opcode.StoreWord →
                  (∀ m' : M, host.storeWord p.memory X v = some m' →
                    execute host p i
                      = Except.ok (resultSuccess, { p.setDataStack s' with memory := m' }))
                  ∧ (host.storeWord p.memory X v = none →
                      execute host p i = Except.error Fault.invalidPointer))
                ∧ (i.getOpcode = Opcode.StoreByte →
                  (∀ m' : M, host.storeByte p.memory X (v % 2 ^ 8) = some m' →
                    execute host p i
                      = Except.ok (resultSuccess, { p.setDataStack s' with memory := m' }))
                  ∧ (host.storeByte p.memory X (v % 2 ^ 8) = none →
                      execute host p i = Except.error Fault.invalidPointer)))
      ∧ (i.getOpcode = Opcode.StoreWord →
          ∀ (j : Instruction) (rest : List Word) (X v : Word) (m' : M),
            j.getOpcode = Opcode.LoadWord →
            p.state.dataStack.container.contents = rest ++ [X, X, v] →
            host.storeWord p.memory X v = some m' →
            host.loadWord m' X = some v →
              ∃ p1 p2 : Processor M DataStackSize ReturnStackSize,
                execute host p i = Except.ok (resultSuccess, p1)
                  ∧ execute host p1 j = Except.ok (resultSuccess, p2)
                  ∧ p2.state.dataStack.container.contents = rest ++ [v]) := by
  refine ⟨?_, ?_, ?_, ?_, ?_, ?_⟩
  · intro hop r p' h
    simp only [List.mem_cons, List.mem_singleton, List.mem_nil_iff, or_false] at hop
    rcases hop with hop | hop | hop | hop
    · rw [execute_of_loadByte host p i hop] at h
      refine guarded_outcome p _ _ ?_ r p' h
      repeat (first
        | exact success_of_pure _
        | (refine success_of_bind _ _ ?_; intro _))
    · rw [execute_of_loadWord host p i hop] at h
      refine guarded_outcome p _ _ ?_ r p' h
      repeat (first
        | exact success_of_pure _
        | (refine success_of_bind _ _ ?_; intro _))
    · rw [execute_of_storeByte host p i hop] at h
      refine guarded_outcome p _ _ ?_ r p' h
      repeat (first
        | exact success_of_pure _
        | (refine success_of_bind _ _ ?_; intro _))
    · rw [execute_of_storeWord host p i hop] at h
      refine guarded_outcome p _ _ ?_ r p' h
      repeat (first
        | exact success_of_pure _
        | (refine success_of_bind _ _ ?_; intro _))
  · intro hop hlt
    simp only [List.mem_cons, List.mem_singleton, List.mem_nil_iff, or_false] at hop
    rcases hop with hop | hop
    · rw [execute_of_loadByte host p i hop]
      unfold executeLoadByte
      simp only
      rw [guarded_of_lt p _ _ hlt]
    · rw [execute_of_loadWord host p i hop]
      unfold executeLoadWord
      simp only
      rw [guarded_of_lt p _ _ hlt]
  · intro hop hlt
    simp only [List.mem_cons, List.mem_singleton, List.mem_nil_iff, or_false] at hop
    rcases hop with hop | hop
    · rw [execute_of_storeByte host p i hop]
      unfold executeStoreByte
      simp only
      rw [guarded_of_lt p _ _ hlt]
    · rw [execute_of_storeWord host p i hop]
      unfold executeStoreWord
      simp only
      rw [guarded_of_lt p _ _ hlt]
  · intro rest X h
    obtain ⟨⟨hw1, hw2⟩, ⟨hb1, hb2⟩⟩ := executeLoad_of_contents host p i hwf rest X h
    constructor
    · intro hop
      rw [execute_of_loadWord host p i hop]
      refine ⟨?_, hw2⟩
      intro w hload
      obtain ⟨s', hs', hc', _, hn'⟩ := hw1 w hload
      exact ⟨s', hs', hc', hn'⟩
    · intro hop
      rw [execute_of_loadByte host p i hop]
      refine ⟨?_, hb2⟩
      intro b hload
      obtain ⟨s', hs', hc', _, hn'⟩ := hb1 b hload
      exact ⟨s', hs', hc', hn'⟩
  · intro rest X v h
    obtain ⟨s', hc', _, hn', hw1, hw2, hb1, hb2⟩ :=
      executeStore_of_contents host p i hwf rest X v h
    refine ⟨s', hc', hn', ?_, ?_⟩
    · intro hop
      rw [execute_of_storeWord host p i hop]
      exact ⟨hw1, hw2⟩
    · intro hop
      rw [execute_of_storeByte host p i hop]
      exact ⟨hb1, hb2⟩
  · intro hop j rest X v m' hopj h hstore hload
    rw [execute_of_storeWord host p i hop]
    obtain ⟨s1, hc1, hwf1, _, hs1, _, _, _⟩ :=
      executeStore_of_contents host p i hwf (rest ++ [X]) X v (by rw [h]; simp)
    obtain ⟨⟨hw1, _⟩, _⟩ := executeLoad_of_contents host
      ({ p.setDataStack s1 with memory := m' } : Processor M DataStackSize ReturnStackSize) j
      hwf1 rest X hc1
    obtain ⟨s2, hs2, hc2, _, _⟩ := hw1 v hload
    refine ⟨{ p.setDataStack s1 with memory := m' },
      Processor.setDataStack { p.setDataStack s1 with memory := m' } s2, hs1 m' hstore, ?_, hc2⟩
    rw [execute_of_loadWord host _ j hopj]
    exact hs2

theorem load_store_raw_pointers_witness :
    sampleFlatMemory.state.dataStack.container.WellFormed
      ∧ (Instruction.ofOpcode Opcode.StoreWord).getOpcode = Opcode.StoreWord
      ∧ (Instruction.ofOpcode Opcode.LoadWord).getOpcode = Opcode.LoadWord
      ∧ sampleFlatMemory.state.dataStack.container.contents = [] ++ [1, 1, 99]
      ∧ flatHost.storeWord sampleFlatMemory.memory 1 99 = some [7, 99, 9]
      ∧ flatHost.loadWord [7, 99, 9] 1 = some 99
      ∧ ∃ p1 p2 : Processor (List Word) 4 2,
          execute flatHost sampleFlatMemory (Instruction.ofOpcode Opcode.StoreWord)
              = Except.ok (resultSuccess, p1)
            ∧ execute flatHost p1 (Instruction.ofOpcode Opcode.LoadWord)
              = Except.ok (resultSuccess, p2)
            ∧ p2.state.dataStack.container.contents = [] ++ [99] :=
  ⟨by decide, by decide, by decide, by decide, by decide, by decide,
    (load_store_raw_pointers flatHost sampleFlatMemory (Instruction.ofOpcode Opcode.StoreWord)
      (by decide)).2.2.2.2.2 (by decide) (Instruction.ofOpcode Opcode.LoadWord) [] 1 99 [7, 99, 9]
      (by decide) (by decide) (by decide) (by decide)⟩

end Processor

end StackLanguage
namespace StackLanguage

namespace Stack

variable {α : Type} {Capacity : Nat}

/-- On a stack in a state of the class, `push` returns. -/
theorem push_returns (s : Stack α Capacity) (hwf : s.container.WellFormed) (x : α) :
    ∃ r : Bool × Stack α Capacity, s.push x = some r ∧ r.2.container.WellFormed := by
  obtain ⟨r, hr⟩ := Deque.append_isSome s.container hwf x
  refine ⟨(r.1, { container := r.2 }), ?_, Deque.wellFormed_of_append _ hwf x r hr⟩
  unfold push
  rw [hr]
  rfl

/-- On a stack in a state of the class, `removeAt` returns. -/
theorem removeAt_returns (s : Stack α Capacity) (hwf : s.container.WellFormed) (index : Nat) :
    ∃ r : Bool × Stack α Capacity, s.removeAt index = some r ∧ r.2.container.WellFormed := by
  obtain ⟨r, hr⟩ := Deque.removeAt_isSome s.container hwf index
  refine ⟨(r.1, { container := r.2 }), ?_, Deque.removeAt_wellFormed _ hwf index r hr⟩
  unfold removeAt
  rw [hr]
  rfl

/-- The count after `drop()`. -/
theorem next_drop (s : Stack α Capacity) : s.drop.container.next = s.container.next - 1 := by
  unfold drop Deque.unappend
  cases h : s.container.isEmpty
  · rfl
  · have h0 : s.container.next = 0 := by
      unfold Deque.isEmpty Deque.FirstIndex at h
      simpa using h
    show s.container.next = s.container.next - 1
    omega

/-- On a stack that is not empty, the assignment through `peek()` is made. -/
theorem assignPeek_returns (s : Stack α Capacity) (hwf : s.container.WellFormed)
    (hpos : 0 < s.container.next) (v : α) :
    ∃ s' : Stack α Capacity, s.assignPeek v = some s' := by
  have hidx := Deque.getLastIndex_of_pos _ hwf hpos
  obtain ⟨h1, h2, h3, h4⟩ := hwf
  unfold assignPeek
  rw [hidx, Deque.writeItem_of_lt _ _ _ (by omega)]
  exact ⟨_, rfl⟩

end Stack

namespace Processor

variable {M : Type} {DataStackSize ReturnStackSize : Nat}

/-- On a stack that is not empty, `peek() = f(peek())` is made when `f` has a
result for every word. -/
theorem updatePeek_returns (s : Stack Word DataStackSize) (hwf : s.container.WellFormed)
    (hpos : 0 < s.container.next) (f : Word → Run Word)
    (hf : ∀ t : Word, ∃ v : Word, f t = Except.ok v) :
    ∃ s' : Stack Word DataStackSize, updatePeek s f = Except.ok s' := by
  obtain ⟨a, ha, _⟩ := Stack.peek_of_pos s hwf hpos
  obtain ⟨v, hv⟩ := hf a
  obtain ⟨s', hs'⟩ := Stack.assignPeek_returns s hwf hpos v
  refine ⟨s', ?_⟩
  unfold updatePeek
  simp only [ha, access_some, bind_ok, hv, hs']

/-- A handler that checks for `amount` elements, at least one, and then updates
the top with a function that has a result for every word: it returns. -/
theorem unary_returns (p : Processor M DataStackSize ReturnStackSize) (amount : Nat)
    (hamount : 1 ≤ amount) (hwf : p.state.dataStack.container.WellFormed)
    (f : Word → Run Word) (hf : ∀ t : Word, ∃ v : Word, f t = Except.ok v) :
    ∃ x : ResultInfo × Processor M DataStackSize ReturnStackSize,
      (if (p.assertDataStackSize amount).getStatus = ResultStatus.Error
        then pure (p.assertDataStackSize amount, p)
        else do
          let stack ← updatePeek p.state.getDataStack f
          pure (resultSuccess, p.setDataStack stack)) = Except.ok x := by
  by_cases hlt : p.state.dataStack.getCount < amount
  · rw [guarded_of_lt p _ _ hlt]
    exact ⟨_, rfl⟩
  · rw [guarded_of_ge p _ _ hlt]
    have hpos : 0 < p.state.dataStack.container.next := by
      have : ¬ p.state.dataStack.container.next < amount := hlt
      omega
    obtain ⟨s', hs'⟩ := updatePeek_returns p.state.dataStack hwf hpos f hf
    simp only [ProcessorState.getDataStack, hs', bind_ok]
    exact ⟨_, rfl⟩

/-- A handler that checks for 2 elements, pops the top and updates the new top
with a function of both that has a result for every pair of words: it
returns. -/
theorem binary_returns (p : Processor M DataStackSize ReturnStackSize)
    (hwf : p.state.dataStack.container.WellFormed)
    (f : Word → Word → Run Word) (hf : ∀ t v : Word, ∃ w : Word, f t v = Except.ok w) :
    ∃ x : ResultInfo × Processor M DataStackSize ReturnStackSize,
      (if (p.assertDataStackSize 2).getStatus = ResultStatus.Error
        then pure (p.assertDataStackSize 2, p)
        else do
          let value ← access p.state.getDataStack.peek
          let stack ← updatePeek p.state.getDataStack.drop fun top => f top value
          pure (resultSuccess, p.setDataStack stack)) = Except.ok x := by
  by_cases hlt : p.state.dataStack.getCount < 2
  · rw [guarded_of_lt p _ _ hlt]
    exact ⟨_, rfl⟩
  · rw [guarded_of_ge p _ _ hlt]
    have hn : ¬ p.state.dataStack.container.next < 2 := hlt
    obtain ⟨a, ha, _⟩ := Stack.peek_of_pos p.state.dataStack hwf (by omega)
    obtain ⟨s', hs'⟩ := updatePeek_returns p.state.dataStack.drop
      (Stack.wellFormed_drop _ hwf) (by rw [Stack.next_drop]; omega)
      (fun top => f top a) (fun t => hf t a)
    simp only [ProcessorState.getDataStack, ha, access_some, bind_ok, hs']
    exact ⟨_, rfl⟩

theorem executePush_returns (p : Processor M DataStackSize ReturnStackSize) (i : Instruction)
    (hwf : p.state.dataStack.container.WellFormed) :
    ∃ x : ResultInfo × Processor M DataStackSize ReturnStackSize,
      p.executePush i = Except.ok x := by
  unfold executePush
  by_cases hc : p.state.getDataStack.getCount ≥ p.state.getDataStack.getCapacity
  · rw [if_pos hc]
    exact ⟨_, rfl⟩
  · rw [if_neg hc]
    obtain ⟨r, hr, _⟩ := Stack.push_returns p.state.dataStack hwf i.getOperand
    simp only [ProcessorState.getDataStack, hr, access_some, bind_ok]
    exact ⟨_, rfl⟩

theorem executeDrop_returns (p : Processor M DataStackSize ReturnStackSize) (i : Instruction) :
    ∃ x : ResultInfo × Processor M DataStackSize ReturnStackSize,
      p.executeDrop i = Except.ok x := by
  unfold executeDrop
  by_cases hlt : p.state.dataStack.getCount < i.getOperand
  · simp only
    rw [guarded_of_lt p _ _ hlt]
    exact ⟨_, rfl⟩
  · simp only
    rw [guarded_of_ge p _ _ hlt]
    exact ⟨_, rfl⟩

theorem executeDuplicate_returns (p : Processor M DataStackSize ReturnStackSize)
    (i : Instruction) (hwf : p.state.dataStack.container.WellFormed) :
    ∃ x : ResultInfo × Processor M DataStackSize ReturnStackSize,
      p.executeDuplicate i = Except.ok x := by
  unfold executeDuplicate
  simp only
  by_cases hlt : p.state.dataStack.getCount < 1
  · rw [guarded_of_lt p _ _ hlt]
    exact ⟨_, rfl⟩
  · rw [guarded_of_ge p _ _ hlt]
    have hn : ¬ p.state.dataStack.container.next < 1 := hlt
    obtain ⟨a, ha, _⟩ := Stack.peek_of_pos p.state.dataStack hwf (by omega)
    obtain ⟨r, hr, _⟩ := Stack.push_returns p.state.dataStack hwf a
    simp only [ProcessorState.getDataStack, ha, access_some, bind_ok, hr]
    exact ⟨_, rfl⟩

theorem executeSwap_returns (p : Processor M DataStackSize ReturnStackSize)
    (i : Instruction) (hwf : p.state.dataStack.container.WellFormed) :
    ∃ x : ResultInfo × Processor M DataStackSize ReturnStackSize,
      p.executeSwap i = Except.ok x := by
  unfold executeSwap
  simp only
  by_cases hlt : p.state.dataStack.getCount < 2
  · rw [guarded_of_lt p _ _ hlt]
    exact ⟨_, rfl⟩
  · rw [guarded_of_ge p _ _ hlt]
    have hn : ¬ p.state.dataStack.container.next < 2 := hlt
    have hwf1 := Stack.wellFormed_drop _ hwf
    have hwf2 := Stack.wellFormed_drop _ hwf1
    obtain ⟨a, ha, _⟩ := Stack.peek_of_pos p.state.dataStack hwf (by omega)
    obtain ⟨b, hb, _⟩ := Stack.peek_of_pos p.state.dataStack.drop hwf1
      (by rw [Stack.next_drop]; omega)
    obtain ⟨r1, hr1, hwr1⟩ := Stack.push_returns p.state.dataStack.drop.drop hwf2 a
    obtain ⟨r2, hr2, _⟩ := Stack.push_returns r1.2 hwr1 b
    simp only [ProcessorState.getDataStack, ha, hb, access_some, bind_ok, hr1, hr2]
    exact ⟨_, rfl⟩

theorem executeRotate_returns (p : Processor M DataStackSize ReturnStackSize)
    (i : Instruction) (hwf : p.state.dataStack.container.WellFormed) :
    ∃ x : ResultInfo × Processor M DataStackSize ReturnStackSize,
      p.executeRotate i = Except.ok x := by
  unfold executeRotate
  simp only
  by_cases hlt : p.state.dataStack.getCount < 3
  · rw [guarded_of_lt p _ _ hlt]
    exact ⟨_, rfl⟩
  · rw [guarded_of_ge p _ _ hlt]
    have hn : ¬ p.state.dataStack.container.next < 3 := hlt
    have hwf1 := Stack.wellFormed_drop _ hwf
    have hwf2 := Stack.wellFormed_drop _ hwf1
    have hwf3 := Stack.wellFormed_drop _ hwf2
    obtain ⟨a, ha, _⟩ := Stack.peek_of_pos p.state.dataStack hwf (by omega)
    obtain ⟨b, hb, _⟩ := Stack.peek_of_pos p.state.dataStack.drop hwf1
      (by rw [Stack.next_drop]; omega)
    obtain ⟨c, hc, _⟩ := Stack.peek_of_pos p.state.dataStack.drop.drop hwf2
      (by rw [Stack.next_drop, Stack.next_drop]; omega)
    obtain ⟨r1, hr1, hwr1⟩ := Stack.push_returns p.state.dataStack.drop.drop.drop hwf3 b
    obtain ⟨r2, hr2, hwr2⟩ := Stack.push_returns r1.2 hwr1 a
    obtain ⟨r3, hr3, _⟩ := Stack.push_returns r2.2 hwr2 c
    simp only [ProcessorState.getDataStack, ha, hb, hc, access_some, bind_ok, hr1, hr2, hr3]
    exact ⟨_, rfl⟩

theorem executeOver_returns (p : Processor M DataStackSize ReturnStackSize)
    (i : Instruction) (hwf : p.state.dataStack.container.WellFormed) :
    ∃ x : ResultInfo × Processor M DataStackSize ReturnStackSize,
      p.executeOver i = Except.ok x := by
  unfold executeOver
  simp only
  by_cases hlt : p.state.dataStack.getCount < 2
  · rw [guarded_of_lt p _ _ hlt]
    exact ⟨_, rfl⟩
  · rw [guarded_of_ge p _ _ hlt]
    have hn : ¬ p.state.dataStack.container.next < 2 := hlt
    have hwf1 := Stack.wellFormed_drop _ hwf
    obtain ⟨a, ha, _⟩ := Stack.peek_of_pos p.state.dataStack hwf (by omega)
    obtain ⟨b, hb, _⟩ := Stack.peek_of_pos p.state.dataStack.drop hwf1
      (by rw [Stack.next_drop]; omega)
    obtain ⟨r1, hr1, hwr1⟩ := Stack.push_returns p.state.dataStack.drop hwf1 a
    obtain ⟨r2, hr2, _⟩ := Stack.push_returns r1.2 hwr1 b
    simp only [ProcessorState.getDataStack, ha, hb, access_some, bind_ok, hr1, hr2]
    exact ⟨_, rfl⟩

/-- On a Return Stack in a state of the class, `functionCall` returns. -/
theorem functionCall_returns (st : ProcessorState DataStackSize ReturnStackSize)
    (hwf : st.returnStack.container.WellFormed) (address : Address) :
    ∃ st' : ProcessorState DataStackSize ReturnStackSize,
      st.functionCall address = Except.ok st' := by
  obtain ⟨r, hr, _⟩ := Stack.push_returns st.returnStack hwf st.instructionPointer
  unfold ProcessorState.functionCall
  simp only [hr, access_some, bind_ok]
  exact ⟨_, rfl⟩

theorem executeCall_returns (p : Processor M DataStackSize ReturnStackSize)
    (i : Instruction) (hwf : p.state.returnStack.container.WellFormed) :
    ∃ x : ResultInfo × Processor M DataStackSize ReturnStackSize,
      p.executeCall i = Except.ok x := by
  obtain ⟨st', hst'⟩ := functionCall_returns p.state hwf i.getOperand
  unfold executeCall
  simp only [hst', bind_ok]
  exact ⟨_, rfl⟩

theorem executeCallIndirect_returns (p : Processor M DataStackSize ReturnStackSize)
    (i : Instruction) (hwf : p.state.dataStack.container.WellFormed)
    (hwfr : p.state.returnStack.container.WellFormed) :
    ∃ x : ResultInfo × Processor M DataStackSize ReturnStackSize,
      p.executeCallIndirect i = Except.ok x := by
  unfold executeCallIndirect
  simp only
  by_cases hlt : p.state.dataStack.getCount < 2
  · rw [guarded_of_lt p _ _ hlt]
    exact ⟨_, rfl⟩
  · rw [guarded_of_ge p _ _ hlt]
    have hn : ¬ p.state.dataStack.container.next < 2 := hlt
    obtain ⟨a, ha, _⟩ := Stack.peek_of_pos p.state.dataStack hwf (by omega)
    obtain ⟨st', hst'⟩ := functionCall_returns (p.setDataStack p.state.dataStack.drop).state
      hwfr a
    simp only [ProcessorState.getDataStack, ha, access_some, bind_ok, hst']
    exact ⟨_, rfl⟩

theorem executeReturn_returns (p : Processor M DataStackSize ReturnStackSize)
    (i : Instruction) (hwfr : p.state.returnStack.container.WellFormed) :
    ∃ x : ResultInfo × Processor M DataStackSize ReturnStackSize,
      p.executeReturn i = Except.ok x := by
  cases he : p.state.returnStack.isEmpty
  · obtain ⟨rest, top, hc⟩ := contents_of_not_empty p.state.returnStack hwfr he
    exact ⟨_, (executeReturn_of_contents p i hwfr rest top hc).1⟩
  · exact ⟨_, executeReturn_of_empty p i he⟩

theorem executePickLenient_returns (garbage : Word)
    (p : Processor M DataStackSize ReturnStackSize)
    (i : Instruction) (hwf : p.state.dataStack.container.WellFormed) :
    ∃ x : ResultInfo × Processor M DataStackSize ReturnStackSize,
      p.executePickLenient garbage i = Except.ok x := by
  unfold executePickLenient
  simp only
  by_cases hlt : p.state.dataStack.getCount < (i.getOperand + 1) % 2 ^ 32
  · rw [guarded_of_lt p _ _ hlt]
    exact ⟨_, rfl⟩
  · rw [guarded_of_ge p _ _ hlt]
    cases hs : p.state.dataStack.subscript
        (((p.state.dataStack.getCount + sizeModulus - 1) % sizeModulus + sizeModulus
          - (i.getOperand + 1) % 2 ^ 32) % sizeModulus) with
    | none =>
      obtain ⟨r, hr, _⟩ := Stack.push_returns p.state.dataStack hwf garbage
      simp only [ProcessorState.getDataStack, hs, accessLenient, bind_ok, hr, access_some]
      exact ⟨_, rfl⟩
    | some e =>
      obtain ⟨r, hr, _⟩ := Stack.push_returns p.state.dataStack hwf e
      simp only [ProcessorState.getDataStack, hs, accessLenient, bind_ok, hr, access_some]
      exact ⟨_, rfl⟩

theorem executeRollLenient_returns (garbage : Word)
    (p : Processor M DataStackSize ReturnStackSize)
    (i : Instruction) (hwf : p.state.dataStack.container.WellFormed) :
    ∃ x : ResultInfo × Processor M DataStackSize ReturnStackSize,
      p.executeRollLenient garbage i = Except.ok x := by
  unfold executeRollLenient
  simp only
  by_cases hlt : p.state.dataStack.getCount < i.getOperand
  · rw [guarded_of_lt p _ _ hlt]
    exact ⟨_, rfl⟩
  · rw [guarded_of_ge p _ _ hlt]
    obtain ⟨rm, hrm, hwrm⟩ := Stack.removeAt_returns p.state.dataStack hwf
      (((p.state.dataStack.getCount + sizeModulus - 1) % sizeModulus + sizeModulus
        - i.getOperand) % sizeModulus)
    cases hs : p.state.dataStack.subscript
        (((p.state.dataStack.getCount + sizeModulus - 1) % sizeModulus + sizeModulus
          - i.getOperand) % sizeModulus) with
    | none =>
      obtain ⟨r, hr, _⟩ := Stack.push_returns rm.2 hwrm garbage
      simp only [ProcessorState.getDataStack, hs, accessLenient, bind_ok, hrm, hr, access_some]
      exact ⟨_, rfl⟩
    | some e =>
      obtain ⟨r, hr, _⟩ := Stack.push_returns rm.2 hwrm e
      simp only [ProcessorState.getDataStack, hs, accessLenient, bind_ok, hrm, hr, access_some]
      exact ⟨_, rfl⟩

end Processor

end StackLanguage
namespace StackLanguage

theorem access_agrees {α : Type} (garbage : α) (o : Option α) :
    ∀ a : α, access o = Except.ok a → accessLenient garbage o = Except.ok a := by
  intro a h
  cases o with
  | none => cases h
  | some b => exact h

namespace Processor

variable {M : Type} {DataStackSize ReturnStackSize : Nat}

/-- Two calls that bind a first call: when the second first call returns what
the first one returns, and so do the rests, the second call returns what the
first call returns. -/
theorem agrees_bind {α β : Type} (m m' : Run α) (f f' : α → Run β)
    (hm : ∀ a : α, m = Except.ok a → m' = Except.ok a)
    (hf : ∀ (a : α) (x : β), f a = Except.ok x → f' a = Except.ok x) :
    ∀ x : β, (m >>= f) = Except.ok x → (m' >>= f') = Except.ok x := by
  intro x h
  cases hma : m with
  | error e =>
    rw [hma] at h
    cases h
  | ok a =>
    rw [hma] at h
    rw [hm a hma]
    exact hf a x h

theorem agrees_ite {β : Type} (c : Prop) [Decidable c] (a a' b b' : Run β)
    (ha : ∀ x : β, a = Except.ok x → a' = Except.ok x)
    (hb : ∀ x : β, b = Except.ok x → b' = Except.ok x) :
    ∀ x : β, (if c then a else b) = Except.ok x → (if c then a' else b') = Except.ok x := by
  intro x h
  by_cases hc : c
  · rw [if_pos hc] at h ⊢
    exact ha x h
  · rw [if_neg hc] at h ⊢
    exact hb x h

theorem updatePeek_agrees (s : Stack Word DataStackSize) (f f' : Word → Run Word)
    (hf : ∀ t v : Word, f t = Except.ok v → f' t = Except.ok v) :
    ∀ s' : Stack Word DataStackSize,
      updatePeek s f = Except.ok s' → updatePeek s f' = Except.ok s' := by
  unfold updatePeek
  refine agrees_bind _ _ _ _ (fun _ h => h) ?_
  intro old
  exact agrees_bind _ _ _ _ (hf old) (fun _ _ h => h)

/-- A handler that checks the depth and updates the top: with a function that
returns whatever another one returns, it returns whatever the other handler
returns. -/
theorem unary_agrees (p : Processor M DataStackSize ReturnStackSize) (amount : Nat)
    (f f' : Word → Run Word) (hf : ∀ t v : Word, f t = Except.ok v → f' t = Except.ok v) :
    ∀ x : ResultInfo × Processor M DataStackSize ReturnStackSize,
      (if (p.assertDataStackSize amount).getStatus = ResultStatus.Error
        then pure (p.assertDataStackSize amount, p)
        else do
          let stack ← updatePeek p.state.getDataStack f
          pure (resultSuccess, p.setDataStack stack)) = Except.ok x →
      (if (p.assertDataStackSize amount).getStatus = ResultStatus.Error
        then pure (p.assertDataStackSize amount, p)
        else do
          let stack ← updatePeek p.state.getDataStack f'
          pure (resultSuccess, p.setDataStack stack)) = Except.ok x := by
  refine agrees_ite _ _ _ _ _ (fun _ h => h) ?_
  exact agrees_bind _ _ _ _ (updatePeek_agrees _ f f' hf) (fun _ _ h => h)

theorem binary_agrees (p : Processor M DataStackSize ReturnStackSize)
    (f f' : Word → Word → Run Word)
    (hf : ∀ t v w : Word, f t v = Except.ok w → f' t v = Except.ok w) :
    ∀ x : ResultInfo × Processor M DataStackSize ReturnStackSize,
      (if (p.assertDataStackSize 2).getStatus = ResultStatus.Error
        then pure (p.assertDataStackSize 2, p)
        else do
          let value ← access p.state.getDataStack.peek
          let stack ← updatePeek p.state.getDataStack.drop fun top => f top value
          pure (resultSuccess, p.setDataStack stack)) = Except.ok x →
      (if (p.assertDataStackSize 2).getStatus = ResultStatus.Error
        then pure (p.assertDataStackSize 2, p)
        else do
          let value ← access p.state.getDataStack.peek
          let stack ← updatePeek p.state.getDataStack.drop fun top => f' top value
          pure (resultSuccess, p.setDataStack stack)) = Except.ok x := by
  refine agrees_ite _ _ _ _ _ (fun _ h => h) ?_
  refine agrees_bind _ _ _ _ (fun _ h => h) ?_
  intro value
  exact agrees_bind _ _ _ _
    (updatePeek_agrees _ _ _ (fun t w h => hf t value w h)) (fun _ _ h => h)

theorem shiftLeft_agrees (garbage a count : Word) :
    ∀ w : Word,
      shiftLeft a count = Except.ok w → shiftLeftLenient garbage a count = Except.ok w := by
  intro w h
  unfold shiftLeft at h
  unfold shiftLeftLenient
  by_cases hc : count < 32
  · rw [if_pos hc] at h ⊢
    exact h
  · rw [if_neg hc] at h
    cases h

theorem shiftRight_agrees (garbage a count : Word) :
    ∀ w : Word,
      shiftRight a count = Except.ok w → shiftRightLenient garbage a count = Except.ok w := by
  intro w h
  unfold shiftRight at h
  unfold shiftRightLenient
  by_cases hc : count < 32
  · rw [if_pos hc] at h ⊢
    exact h
  · rw [if_neg hc] at h
    cases h

theorem bit_agrees (garbage value : Word) :
    ∀ w : Word, bit value = Except.ok w → bitLenient garbage value = Except.ok w := by
  intro w h
  unfold bit at h
  unfold bitLenient
  by_cases hc : value < 32
  · rw [if_pos hc] at h ⊢
    exact h
  · rw [if_neg hc] at h
    cases h

theorem execute_of_pick (host : Host M) (p : Processor M DataStackSize ReturnStackSize)
    (i : Instruction) (hop : i.getOpcode = Opcode.Pick) :
    execute host p i = p.executePick i := by
  unfold execute
  rw [hop]
  rfl

theorem execute_of_negate (host : Host M) (p : Processor M DataStackSize ReturnStackSize)
    (i : Instruction) (hop : i.getOpcode = Opcode.Negate) :
    execute host p i = p.executeNegate i := by
  unfold execute
  rw [hop]
  rfl

theorem execute_of_shiftLeft (host : Host M) (p : Processor M DataStackSize ReturnStackSize)
    (i : Instruction) (hop : i.getOpcode = Opcode.ShiftLeft) :
    execute host p i = p.executeShiftLeft i := by
  unfold execute
  rw [hop]
  rfl

theorem execute_of_shiftRight (host : Host M) (p : Processor M DataStackSize ReturnStackSize)
    (i : Instruction) (hop : i.getOpcode = Opcode.ShiftRight) :
    execute host p i = p.executeShiftRight i := by
  unfold execute
  rw [hop]
  rfl

theorem execute_of_bitSet (host : Host M) (p : Processor M DataStackSize ReturnStackSize)
    (i : Instruction) (hop : i.getOpcode = Opcode.BitSet) :
    execute host p i = p.executeBitSet i := by
  unfold execute
  rw [hop]
  rfl

theorem execute_of_bitClear (host : Host M) (p : Processor M DataStackSize ReturnStackSize)
    (i : Instruction) (hop : i.getOpcode = Opcode.BitClear) :
    execute host p i = p.executeBitClear i := by
  unfold execute
  rw [hop]
  rfl

theorem execute_of_bitToggle (host : Host M) (p : Processor M DataStackSize ReturnStackSize)
    (i : Instruction) (hop : i.getOpcode = Opcode.BitToggle) :
    execute host p i = p.executeBitToggle i := by
  unfold execute
  rw [hop]
  rfl

/-- Where `execute` returns, `executeLenient` returns the same, whatever word
stands for the result of an undefined operation. -/
theorem executeLenient_agrees (host : Host M) (garbage : Word)
    (p : Processor M DataStackSize ReturnStackSize) (i : Instruction) :
    ∀ x : ResultInfo × Processor M DataStackSize ReturnStackSize,
      execute host p i = Except.ok x → executeLenient host garbage p i = Except.ok x := by
  intro x h
  unfold executeLenient
  by_cases h1 : i.getOpcode = Opcode.Pick
  · rw [if_pos h1]
    rw [execute_of_pick host p i h1] at h
    revert x
    unfold executePick executePickLenient
    refine agrees_ite _ _ _ _ _ (fun _ h => h) ?_
    exact agrees_bind _ _ _ _ (access_agrees garbage _) (fun _ _ h => h)
  rw [if_neg h1]
  by_cases h2 : i.getOpcode = Opcode.Roll
  · rw [if_pos h2]
    rw [execute_of_roll host p i h2] at h
    revert x
    unfold executeRoll executeRollLenient
    refine agrees_ite _ _ _ _ _ (fun _ h => h) ?_
    exact agrees_bind _ _ _ _ (access_agrees garbage _) (fun _ _ h => h)
  rw [if_neg h2]
  by_cases h3 : i.getOpcode = Opcode.Negate
  · rw [if_pos h3]
    rw [execute_of_negate host p i h3] at h
    refine unary_agrees p 1 _ _ ?_ x h
    intro t v hv
    by_cases hc : toSWord t = -2 ^ 31
    · simp only [if_pos hc] at hv
      cases hv
    · simp only [if_neg hc] at hv ⊢
      exact hv
  rw [if_neg h3]
  by_cases h4 : i.getOpcode = Opcode.ShiftLeft
  · rw [if_pos h4]
    rw [execute_of_shiftLeft host p i h4] at h
    exact binary_agrees p _ _ (fun t v w hw => shiftLeft_agrees garbage t v w hw) x h
  rw [if_neg h4]
  by_cases h5 : i.getOpcode = Opcode.ShiftLeftImmediate
  · rw [if_pos h5]
    rw [execute_of_shiftLeftImmediate host p i h5] at h
    exact unary_agrees p 2 _ _ (fun t w hw => shiftLeft_agrees garbage t _ w hw) x h
  rw [if_neg h5]
  by_cases h6 : i.getOpcode = Opcode.ShiftRight
  · rw [if_pos h6]
    rw [execute_of_shiftRight host p i h6] at h
    exact binary_agrees p _ _ (fun t v w hw => shiftRight_agrees garbage t v w hw) x h
  rw [if_neg h6]
  by_cases h7 : i.getOpcode = Opcode.ShiftRightImmediate
  · rw [if_pos h7]
    rw [execute_of_shiftRightImmediate host p i h7] at h
    exact unary_agrees p 2 _ _ (fun t w hw => shiftRight_agrees garbage t _ w hw) x h
  rw [if_neg h7]
  by_cases h8 : i.getOpcode = Opcode.BitSet
  · rw [if_pos h8]
    rw [execute_of_bitSet host p i h8] at h
    exact binary_agrees p _ _
      (fun t v => agrees_bind _ _ _ _ (bit_agrees garbage v) (fun _ _ hw => hw)) x h
  rw [if_neg h8]
  by_cases h9 : i.getOpcode = Opcode.BitClear
  · rw [if_pos h9]
    rw [execute_of_bitClear host p i h9] at h
    exact binary_agrees p _ _
      (fun t v => agrees_bind _ _ _ _ (bit_agrees garbage v) (fun _ _ hw => hw)) x h
  rw [if_neg h9]
  by_cases h10 : i.getOpcode = Opcode.BitToggle
  · rw [if_pos h10]
    rw [execute_of_bitToggle host p i h10] at h
    exact binary_agrees p _ _
      (fun t v => agrees_bind _ _ _ _ (bit_agrees garbage v) (fun _ _ hw => hw)) x h
  rw [if_neg h10]
  exact h

/-- Where `executeCycle` returns, `executeCycleLenient` returns the same. -/
theorem executeCycleLenient_agrees (host : Host M) (garbage : Word)
    (p : Processor M DataStackSize ReturnStackSize) :
    ∀ x : ResultInfo × Processor M DataStackSize ReturnStackSize,
      executeCycle host p = Except.ok x → executeCycleLenient host garbage p = Except.ok x := by
  unfold executeCycle executeCycleLenient
  refine agrees_ite _ _ _ _ _ (fun _ h => h) ?_
  refine agrees_ite _ _ _ _ _ (fun _ h => h) ?_
  refine agrees_ite _ _ _ _ _ (fun _ h => h) ?_
  refine agrees_bind _ _ _ _ (fun _ h => h) ?_
  intro instruction
  exact executeLenient_agrees host garbage _ instruction

/-- Where a row of cycles returns, the same row on a machine that goes on
returns the same. -/
theorem executeCyclesLenient_agrees (host : Host M) (count : Nat) :
    ∀ (garbage : Nat → Word) (p : Processor M DataStackSize ReturnStackSize)
      (x : List ResultInfo × Processor M DataStackSize ReturnStackSize),
      executeCycles host p count = Except.ok x →
        executeCyclesLenient host garbage p count = Except.ok x := by
  induction count with
  | zero =>
    intro garbage p x h
    exact h
  | succ count ih =>
    intro garbage p x
    rw [executeCycles, executeCyclesLenient]
    refine agrees_bind _ _ _ _ (executeCycleLenient_agrees host (garbage 0) p) ?_ x
    intro first
    exact agrees_bind _ _ _ _ (ih _ first.2) (fun _ _ h => h)

end Processor

end StackLanguage
namespace StackLanguage

namespace Processor

variable {M : Type} {DataStackSize ReturnStackSize : Nat}

/-- Whatever `executeLenient` returns, the program is the same and both stacks
stay in a state of the class. -/
theorem executeLenient_keeps (host : Host M) (garbage : Word)
    (p : Processor M DataStackSize ReturnStackSize) (i : Instruction)
    (hwf : p.state.dataStack.container.WellFormed ∧ p.state.returnStack.container.WellFormed) :
    ∀ (r : ResultInfo) (p' : Processor M DataStackSize ReturnStackSize),
      executeLenient host garbage p i = Except.ok (r, p') →
        p'.environment = p.environment
          ∧ p'.state.dataStack.container.WellFormed
          ∧ p'.state.returnStack.container.WellFormed := by
  unfold executeLenient
  iterate 10 (refine outcome_ite _ _ _ _ ?_ ?_; rotate_left; intro _)
  · intro r p' h
    have hw := execute_wellFormed host p i hwf r p' h
    refine ⟨?_, hw.1, hw.2⟩
    rcases execute_flags host p i r p' h with ⟨_, _, hp⟩ | ⟨henv, _⟩
    · rw [hp]
      rfl
    · exact henv
  all_goals intro _
  all_goals
    repeat (first
      | (refine outcome_bind _ _ _ ?_; intro _ _)
      | (refine outcome_ite _ _ _ _ ?_ ?_ <;> intro _)
      | (intro r p' h
         cases h
         refine ⟨rfl, ?_, ?_⟩ <;>
           repeat (first
             | assumption
             | exact hwf.1
             | exact hwf.2
             | refine Stack.wellFormed_drop _ ?_
             | refine Stack.wellFormed_of_push ?_ ‹_›
             | refine Stack.wellFormed_of_removeAt ?_ ‹_›
             | refine wellFormed_of_updatePeek ?_ ‹_›)))

/-- With an opcode that is not one of the ten special ones, `executeLenient` is
`execute`. -/
theorem executeLenient_of_defined (host : Host M) (garbage : Word)
    (p : Processor M DataStackSize ReturnStackSize) (i : Instruction)
    (h : i.getOpcode ∉ [Opcode.Pick, Opcode.Roll, Opcode.Negate, Opcode.ShiftLeft,
      Opcode.ShiftLeftImmediate, Opcode.ShiftRight, Opcode.ShiftRightImmediate, Opcode.BitSet,
      Opcode.BitClear, Opcode.BitToggle]) :
    executeLenient host garbage p i = execute host p i := by
  unfold executeLenient
  iterate 10 (rw [if_neg (fun e => h (by rw [e]; decide))])

/-- On a processor whose stacks are in a state of the class, `executeLenient`
returns for every instruction with one of the pure opcodes. -/
theorem executeLenient_returns (host : Host M) (garbage : Word)
    (p : Processor M DataStackSize ReturnStackSize) (i : Instruction)
    (hwf : p.state.dataStack.container.WellFormed ∧ p.state.returnStack.container.WellFormed)
    (hop : i.getOpcode ∈ pureOpcodes) :
    ∃ x : ResultInfo × Processor M DataStackSize ReturnStackSize,
      executeLenient host garbage p i = Except.ok x := by
  have total1 : ∀ g : Word → Word, ∀ t : Word, ∃ v : Word,
      (pure (g t) : Run Word) = Except.ok v := fun g t => ⟨_, rfl⟩
  have total2 : ∀ g : Word → Word → Word, ∀ t v : Word, ∃ w : Word,
      (pure (g t v) : Run Word) = Except.ok w := fun g t v => ⟨_, rfl⟩
  have hshl : ∀ a c : Word, ∃ w : Word, shiftLeftLenient garbage a c = Except.ok w := by
    intro a c
    unfold shiftLeftLenient
    by_cases hc : c < 32
    · rw [if_pos hc]; exact ⟨_, rfl⟩
    · rw [if_neg hc]; exact ⟨_, rfl⟩
  have hshr : ∀ a c : Word, ∃ w : Word, shiftRightLenient garbage a c = Except.ok w := by
    intro a c
    unfold shiftRightLenient
    by_cases hc : c < 32
    · rw [if_pos hc]; exact ⟨_, rfl⟩
    · rw [if_neg hc]; exact ⟨_, rfl⟩
  have hbit : ∀ c : Word, ∃ w : Word, bitLenient garbage c = Except.ok w := by
    intro c
    unfold bitLenient
    by_cases hc : c < 32
    · rw [if_pos hc]; exact ⟨_, rfl⟩
    · rw [if_neg hc]; exact ⟨_, rfl⟩
  simp only [pureOpcodes, List.mem_cons, List.mem_singleton, List.mem_nil_iff, or_false] at hop
  rcases hop with hop | hop | hop | hop | hop | hop | hop | hop | hop | hop | hop | hop | hop
    | hop | hop | hop | hop | hop | hop | hop | hop | hop | hop | hop | hop | hop | hop | hop
    | hop | hop | hop | hop | hop | hop
  -- Nop, End
  · rw [executeLenient_of_defined host garbage p i (by rw [hop]; decide)]
    exact ⟨(resultSuccess, p), by unfold execute; rw [hop]; rfl⟩
  · rw [executeLenient_of_defined host garbage p i (by rw [hop]; decide),
      execute_of_end host p i hop]
    exact ⟨_, rfl⟩
  -- Push, Drop, Pick, Roll, Duplicate, Swap, Rotate, Over
  · rw [executeLenient_of_defined host garbage p i (by rw [hop]; decide),
      execute_of_push host p i hop]
    exact executePush_returns p i hwf.1
  · rw [executeLenient_of_defined host garbage p i (by rw [hop]; decide),
      execute_of_drop host p i hop]
    exact executeDrop_returns p i
  · rw [show executeLenient host garbage p i = p.executePickLenient garbage i from by
      unfold executeLenient; rw [hop]; rfl]
    exact executePickLenient_returns garbage p i hwf.1
  · rw [show executeLenient host garbage p i = p.executeRollLenient garbage i from by
      unfold executeLenient; rw [hop]; rfl]
    exact executeRollLenient_returns garbage p i hwf.1
  · rw [executeLenient_of_defined host garbage p i (by rw [hop]; decide),
      execute_of_duplicate host p i hop]
    exact executeDuplicate_returns p i hwf.1
  · rw [executeLenient_of_defined host garbage p i (by rw [hop]; decide),
      execute_of_swap host p i hop]
    exact executeSwap_returns p i hwf.1
  · rw [executeLenient_of_defined host garbage p i (by rw [hop]; decide),
      execute_of_rotate host p i hop]
    exact executeRotate_returns p i hwf.1
  · rw [executeLenient_of_defined host garbage p i (by rw [hop]; decide),
      execute_of_over host p i hop]
    exact executeOver_returns p i hwf.1
  -- Call, CallIndirect, Return, JumpRelative, JumpAbsolute
  · rw [executeLenient_of_defined host garbage p i (by rw [hop]; decide),
      execute_of_call host p i hop]
    exact executeCall_returns p i hwf.2
  · rw [executeLenient_of_defined host garbage p i (by rw [hop]; decide),
      execute_of_callIndirect host p i hop]
    exact executeCallIndirect_returns p i hwf.1 hwf.2
  · rw [executeLenient_of_defined host garbage p i (by rw [hop]; decide),
      execute_of_return host p i hop]
    exact executeReturn_returns p i hwf.2
  · rw [executeLenient_of_defined host garbage p i (by rw [hop]; decide),
      execute_of_jumpRelative host p i hop]
    exact ⟨_, rfl⟩
  · rw [executeLenient_of_defined host garbage p i (by rw [hop]; decide),
      execute_of_jumpAbsolute host p i hop]
    exact ⟨_, rfl⟩
  -- Add, AddImmediate, Subtract, SubtractImmediate, Negate
  · rw [executeLenient_of_defined host garbage p i (by rw [hop]; decide),
      execute_of_add host p i hop]
    exact binary_returns p hwf.1 _ (total2 fun top value => (top + value) % 2 ^ 32)
  · rw [executeLenient_of_defined host garbage p i (by rw [hop]; decide),
      show execute host p i = p.executeAddImmediate i from by unfold execute; rw [hop]; rfl]
    exact unary_returns p 1 (by decide) hwf.1 _
      (total1 fun top => (top + i.getOperand) % 2 ^ 32)
  · rw [executeLenient_of_defined host garbage p i (by rw [hop]; decide),
      execute_of_subtract host p i hop]
    exact binary_returns p hwf.1 _
      (total2 fun top value => (top + 2 ^ 32 - value % 2 ^ 32) % 2 ^ 32)
  · rw [executeLenient_of_defined host garbage p i (by rw [hop]; decide),
      show execute host p i = p.executeSubtractImmediate i from by
        unfold execute; rw [hop]; rfl]
    exact unary_returns p 1 (by decide) hwf.1 _
      (total1 fun top => (top + 2 ^ 32 - i.getOperand % 2 ^ 32) % 2 ^ 32)
  · rw [show executeLenient host garbage p i = p.executeNegateLenient garbage i from by
      unfold executeLenient; rw [hop]; rfl]
    refine unary_returns p 1 (by decide) hwf.1 _ ?_
    intro t
    by_cases hc : toSWord t = -2 ^ 31
    · simp only [if_pos hc]; exact ⟨_, rfl⟩
    · simp only [if_neg hc]; exact ⟨_, rfl⟩
  -- And, AndImmediate, Or, OrImmediate, ExclusiveOr, ExclusiveOrImmediate
  · rw [executeLenient_of_defined host garbage p i (by rw [hop]; decide),
      show execute host p i = p.executeAnd i from by unfold execute; rw [hop]; rfl]
    exact binary_returns p hwf.1 _ (total2 fun top value => top &&& value)
  · rw [executeLenient_of_defined host garbage p i (by rw [hop]; decide),
      execute_of_andImmediate host p i hop]
    exact unary_returns p 2 (by decide) hwf.1 _ (total1 fun top => top &&& i.getOperand)
  · rw [executeLenient_of_defined host garbage p i (by rw [hop]; decide),
      show execute host p i = p.executeOr i from by unfold execute; rw [hop]; rfl]
    exact binary_returns p hwf.1 _ (total2 fun top value => top ||| value)
  · rw [executeLenient_of_defined host garbage p i (by rw [hop]; decide),
      execute_of_orImmediate host p i hop]
    exact unary_returns p 2 (by decide) hwf.1 _ (total1 fun top => top ||| i.getOperand)
  · rw [executeLenient_of_defined host garbage p i (by rw [hop]; decide),
      show execute host p i = p.executeExclusiveOr i from by unfold execute; rw [hop]; rfl]
    exact binary_returns p hwf.1 _ (total2 fun top value => top ^^^ value)
  · rw [executeLenient_of_defined host garbage p i (by rw [hop]; decide),
      execute_of_exclusiveOrImmediate host p i hop]
    exact unary_returns p 2 (by decide) hwf.1 _ (total1 fun top => top ^^^ i.getOperand)
  -- ShiftLeft, ShiftLeftImmediate, ShiftRight, ShiftRightImmediate, Not
  · rw [show executeLenient host garbage p i = p.executeShiftLeftLenient garbage i from by
      unfold executeLenient; rw [hop]; rfl]
    exact binary_returns p hwf.1 _ hshl
  · rw [show executeLenient host garbage p i
        = p.executeShiftLeftImmediateLenient garbage i from by
      unfold executeLenient; rw [hop]; rfl]
    exact unary_returns p 2 (by decide) hwf.1 _ (fun t => hshl t _)
  · rw [show executeLenient host garbage p i = p.executeShiftRightLenient garbage i from by
      unfold executeLenient; rw [hop]; rfl]
    exact binary_returns p hwf.1 _ hshr
  · rw [show executeLenient host garbage p i
        = p.executeShiftRightImmediateLenient garbage i from by
      unfold executeLenient; rw [hop]; rfl]
    exact unary_returns p 2 (by decide) hwf.1 _ (fun t => hshr t _)
  · rw [executeLenient_of_defined host garbage p i (by rw [hop]; decide),
      show execute host p i = p.executeNot i from by unfold execute; rw [hop]; rfl]
    exact unary_returns p 1 (by decide) hwf.1 _ (total1 fun top => complement top)
  -- BitSet, BitClear, BitToggle
  · rw [show executeLenient host garbage p i = p.executeBitSetLenient garbage i from by
      unfold executeLenient; rw [hop]; rfl]
    refine binary_returns p hwf.1 _ ?_
    intro t v
    obtain ⟨w, hw⟩ := hbit v
    exact ⟨_, by simp only [hw, bind_ok]; rfl⟩
  · rw [show executeLenient host garbage p i = p.executeBitClearLenient garbage i from by
      unfold executeLenient; rw [hop]; rfl]
    refine binary_returns p hwf.1 _ ?_
    intro t v
    obtain ⟨w, hw⟩ := hbit v
    exact ⟨_, by simp only [hw, bind_ok]; rfl⟩
  · rw [show executeLenient host garbage p i = p.executeBitToggleLenient garbage i from by
      unfold executeLenient; rw [hop]; rfl]
    refine binary_returns p hwf.1 _ ?_
    intro t v
    obtain ⟨w, hw⟩ := hbit v
    exact ⟨_, by simp only [hw, bind_ok]; rfl⟩

/-- A cycle on a machine that goes on, over a program of pure opcodes: it
returns, the program is the same and both stacks stay in a state of the
class. -/
theorem executeCycleLenient_returns (host : Host M) (garbage : Word)
    (p : Processor M DataStackSize ReturnStackSize)
    (hwf : p.state.dataStack.container.WellFormed ∧ p.state.returnStack.container.WellFormed)
    (hpure : ∀ i ∈ p.environment.instructions, i.getOpcode ∈ pureOpcodes) :
    ∃ (r : ResultInfo) (p' : Processor M DataStackSize ReturnStackSize),
      executeCycleLenient host garbage p = Except.ok (r, p')
        ∧ p'.environment = p.environment
        ∧ p'.state.dataStack.container.WellFormed
        ∧ p'.state.returnStack.container.WellFormed := by
  by_cases hc : p.hasCompleted = true
  · refine ⟨resultSuccess, p, ?_, rfl, hwf.1, hwf.2⟩
    unfold executeCycleLenient
    rw [if_pos hc]
    rfl
  by_cases hr : (!p.isRunning) = true
  · refine ⟨resultError "Processor not running", p, ?_, rfl, hwf.1, hwf.2⟩
    unfold executeCycleLenient
    rw [if_neg hc, if_pos hr]
    rfl
  by_cases ha : p.state.getInstructionPointer ≥ p.environment.getInstructions.length
  · refine ⟨resultError "Jumped to invalid address", p, ?_, rfl, hwf.1, hwf.2⟩
    unfold executeCycleLenient
    rw [if_neg hc, if_neg hr]
    simp only [if_pos ha]
    rfl
  have hlt : p.state.getInstructionPointer < p.environment.getInstructions.length := by
    unfold Address at *
    omega
  have hfetch : p.environment.getInstructions[p.state.getInstructionPointer]?
      = some (p.environment.getInstructions[p.state.getInstructionPointer]) :=
    List.getElem?_eq_getElem hlt
  have hmem : p.environment.getInstructions[p.state.getInstructionPointer]
      ∈ p.environment.instructions := List.getElem_mem hlt
  have hwf' : (Processor.state ({ p with state := p.state.incrementInstructionPointer } :
        Processor M DataStackSize ReturnStackSize)).dataStack.container.WellFormed
      ∧ (Processor.state ({ p with state := p.state.incrementInstructionPointer } :
        Processor M DataStackSize ReturnStackSize)).returnStack.container.WellFormed := hwf
  obtain ⟨⟨r, q⟩, hx⟩ := executeLenient_returns host garbage
    ({ p with state := p.state.incrementInstructionPointer } :
      Processor M DataStackSize ReturnStackSize)
    (p.environment.getInstructions[p.state.getInstructionPointer]) hwf' (hpure _ hmem)
  obtain ⟨henv, hw1, hw2⟩ := executeLenient_keeps host garbage
    ({ p with state := p.state.incrementInstructionPointer } :
      Processor M DataStackSize ReturnStackSize)
    (p.environment.getInstructions[p.state.getInstructionPointer]) hwf' r q hx
  refine ⟨r, q, ?_, henv, hw1, hw2⟩
  unfold executeCycleLenient
  rw [if_neg hc, if_neg hr]
  simp only [if_neg ha]
  rw [hfetch]
  exact hx

/-- Any number of cycles on a machine that goes on, over a program of pure
opcodes: they all return and both stacks stay in a state of the class. -/
theorem executeCyclesLenient_returns (host : Host M) (count : Nat) :
    ∀ (garbage : Nat → Word) (p : Processor M DataStackSize ReturnStackSize),
      p.state.dataStack.container.WellFormed ∧ p.state.returnStack.container.WellFormed →
      (∀ i ∈ p.environment.instructions, i.getOpcode ∈ pureOpcodes) →
        ∃ (results : List ResultInfo) (p' : Processor M DataStackSize ReturnStackSize),
          executeCyclesLenient host garbage p count = Except.ok (results, p')
            ∧ p'.state.dataStack.container.WellFormed
            ∧ p'.state.returnStack.container.WellFormed := by
  induction count with
  | zero =>
    intro garbage p hwf _
    exact ⟨[], p, rfl, hwf.1, hwf.2⟩
  | succ count ih =>
    intro garbage p hwf hpure
    obtain ⟨r, q, hq, henv, hw1, hw2⟩ := executeCycleLenient_returns host (garbage 0) p hwf hpure
    obtain ⟨results, p', hp', hw1', hw2'⟩ := ih (fun k => garbage (k + 1)) q ⟨hw1, hw2⟩
      (by rw [henv]; exact hpure)
    refine ⟨r :: results, p', ?_, hw1', hw2'⟩
    rw [executeCyclesLenient, hq]
    simp only [bind_ok, hp']
    rfl

end Processor

end StackLanguage
namespace StackLanguage

namespace Processor

variable {M : Type} {DataStackSize ReturnStackSize : Nat}

/-- C40: bounded-stack invariant. A fresh processor has both stacks empty. Over
any program built from the pure stack, flow-control, arithmetic, bitwise and bit
opcodes, on a machine that goes on after an undefined operation with whatever
word it yields (`garbage`), any number of `executeCycle()` steps from the fresh
processor (started) all return, and the Data Stack count is at most
`DataStackSize` and the Return Stack count at most `ReturnStackSize` in every
state the steps reach. Every run that `executeCycles` itself completes is such a
run with the same results and states, and over any program at all the states
`executeCycles` reaches have both counts within the capacities. Likewise each of
`push`, `drop` and `removeAt` returns on a stack whose count is within its
capacity and leaves the count within the capacity. The capacities are positive
values of `std::size_t`. -/
theorem bounded_stacks (host : Host M) (program : InstructionList) (breakHandler : Bool)
    (memory : M) (hD : 1 ≤ DataStackSize) (hDS : DataStackSize < sizeModulus)
    (hR : 1 ≤ ReturnStackSize) (hRS : ReturnStackSize < sizeModulus) :
    ((create program breakHandler memory :
        Processor M DataStackSize ReturnStackSize).state.dataStack.getCount = 0
      ∧ (create program breakHandler memory :
        Processor M DataStackSize ReturnStackSize).state.returnStack.getCount = 0)
      ∧ ((∀ i ∈ program, i.getOpcode ∈ pureOpcodes) →
          ∀ (garbage : Nat → Word) (count : Nat),
            ∃ (results : List ResultInfo) (p' : Processor M DataStackSize ReturnStackSize),
              executeCyclesLenient host garbage (create program breakHandler memory).start count
                  = Except.ok (results, p')
                ∧ p'.state.dataStack.getCount ≤ p'.state.dataStack.getCapacity
                ∧ p'.state.dataStack.getCapacity = DataStackSize
                ∧ p'.state.returnStack.getCount ≤ p'.state.returnStack.getCapacity
                ∧ p'.state.returnStack.getCapacity = ReturnStackSize)
      ∧ (∀ (garbage : Nat → Word) (count : Nat)
          (x : List ResultInfo × Processor M DataStackSize ReturnStackSize),
          executeCycles host (create program breakHandler memory).start count = Except.ok x →
            executeCyclesLenient host garbage (create program breakHandler memory).start count
              = Except.ok x)
      ∧ (∀ (count : Nat) (results : List ResultInfo)
          (p' : Processor M DataStackSize ReturnStackSize),
          executeCycles host (create program breakHandler memory).start count
              = Except.ok (results, p') →
            p'.state.dataStack.getCount ≤ p'.state.dataStack.getCapacity
              ∧ p'.state.returnStack.getCount ≤ p'.state.returnStack.getCapacity)
      ∧ (∀ (s : Stack Word DataStackSize), s.container.WellFormed →
          (∀ x : Word, ∃ r : Bool × Stack Word DataStackSize,
            s.push x = some r ∧ r.2.getCount ≤ r.2.getCapacity)
          ∧ s.drop.getCount ≤ s.drop.getCapacity
          ∧ (∀ index : Nat, ∃ r : Bool × Stack Word DataStackSize,
            s.removeAt index = some r ∧ r.2.getCount ≤ r.2.getCapacity)) := by
  have hfresh : (create program breakHandler memory :
      Processor M DataStackSize ReturnStackSize).start.state.dataStack.container.WellFormed
      ∧ (create program breakHandler memory :
      Processor M DataStackSize ReturnStackSize).start.state.returnStack.container.WellFormed :=
    ⟨Deque.wellFormed_empty hD hDS, Deque.wellFormed_empty hR hRS⟩
  refine ⟨⟨rfl, rfl⟩, ?_, ?_, ?_, ?_⟩
  · intro hpure garbage count
    obtain ⟨results, p', hrun, hw1, hw2⟩ := executeCyclesLenient_returns host count garbage
      (create program breakHandler memory :
        Processor M DataStackSize ReturnStackSize).start hfresh hpure
    exact ⟨results, p', hrun, hw1.2.2.2, rfl, hw2.2.2.2, rfl⟩
  · intro garbage count x h
    exact executeCyclesLenient_agrees host count garbage _ x h
  · intro count results p' h
    have hwf := executeCycles_wellFormed host count _ hfresh results p' h
    exact ⟨hwf.1.2.2.2, hwf.2.2.2.2⟩
  · intro s hs
    refine ⟨?_, (Stack.wellFormed_drop s hs).2.2.2, ?_⟩
    · intro x
      obtain ⟨r, hr⟩ := Deque.append_isSome s.container hs x
      refine ⟨(r.1, { container := r.2 }), ?_, (Deque.wellFormed_of_append _ hs x r hr).2.2.2⟩
      unfold Stack.push
      rw [hr]
      rfl
    · intro index
      obtain ⟨r, hr⟩ := Deque.removeAt_isSome s.container hs index
      refine ⟨(r.1, { container := r.2 }), ?_,
        (Deque.removeAt_wellFormed _ hs index r hr).2.2.2⟩
      unfold Stack.removeAt
      rw [hr]
      rfl

theorem bounded_stacks_witness :
    1 ≤ 2 ∧ 2 < sizeModulus ∧ 1 ≤ 1 ∧ 1 < sizeModulus
      ∧ (∀ i ∈ [Instruction.ofWord Opcode.Push 10, Instruction.ofWord Opcode.Pick 0],
          i.getOpcode ∈ pureOpcodes)
      ∧ executeCycles nullHost
          (create [Instruction.ofWord Opcode.Push 10, Instruction.ofWord Opcode.Pick 0]
            false () : Processor Unit 2 1).start 2
          = Except.error Fault.outOfStorage
      ∧ executeCyclesLenient nullHost (fun _ => 77)
          (create [Instruction.ofWord Opcode.Push 10, Instruction.ofWord Opcode.Pick 0]
            false () : Processor Unit 2 1).start 2
          = Except.ok
              ([resultSuccess, resultSuccess],
               Processor.midRun 2 1
                [Instruction.ofWord Opcode.Push 10, Instruction.ofWord Opcode.Pick 0]
                ([10, 77], 2) ([0], 0) 2)
      ∧ ∃ (results : List ResultInfo) (p' : Processor Unit 2 1),
          executeCyclesLenient nullHost (fun _ => 77)
              (create [Instruction.ofWord Opcode.Push 10, Instruction.ofWord Opcode.Pick 0]
                false () : Processor Unit 2 1).start 2
              = Except.ok (results, p')
            ∧ p'.state.dataStack.getCount ≤ p'.state.dataStack.getCapacity
            ∧ p'.state.dataStack.getCapacity = 2
            ∧ p'.state.returnStack.getCount ≤ p'.state.returnStack.getCapacity
            ∧ p'.state.returnStack.getCapacity = 1 :=
  ⟨by decide, by decide, by decide, by decide, by decide, by decide, by decide,
    (bounded_stacks nullHost
      [Instruction.ofWord Opcode.Push 10, Instruction.ofWord Opcode.Pick 0] false ()
      (by decide) (by decide) (by decide) (by decide)).2.1 (by decide) (fun _ => 77) 2⟩

end Processor

end StackLanguage
